import Mathlib

/-!
# The planner of `source/game/ai/planning/Planner.cpp`

A shallow embedding of the planner node pool, the open-nodes heap, the open/closed hash sets,
`AiPlanner::BuildPlan` and `AiPlanner::ReconstructPlan`, followed by the properties established
for them.

Conventions of the embedding.

* A `PlannerNode *` is the index of the node's item in the planner nodes pool, `none` is `nullptr`.
  The memory of the nodes is a total map from item indices to node contents.
* An `AiActionRecord *` is a natural number naming the record, `none` is `nullptr`.
* The costs (`float` in the source) are natural numbers: the values used are small integers, which
  `float` represents exactly, so that sums and comparisons are the same.
* A world state is named by a natural number; `operator==` of world states is equality of names.
* `int16_t` pool indices are integers, `-1` being the "no item" value of the source.
* Loops are written with an explicit bound on the number of iterations.
-/

set_option autoImplicit false

/-! # `float` arithmetic

The values of `float` are rational numbers; an operation on them gives the `float` nearest to
its exact result. -/

namespace Binary32

/-- The number of times that `n` can be halved before it falls below `2`, at most `fuel`
times: the binary logarithm of `n`, rounded down, when `fuel` is at least `n`. -/
def halvings : Nat → Nat → Nat
  | 0, _ => 0
  | fuel + 1, n => if 2 ≤ n then halvings fuel (n / 2) + 1 else 0

/-- The exponent of the binade of a rational number that is not zero: the `e` with
`2 ^ e ≤ |x| < 2 ^ (e + 1)`. -/
def exponent (x : ℚ) : ℤ :=
  if |x| < (2 : ℚ) ^ ((halvings x.num.natAbs x.num.natAbs : ℤ) - (halvings x.den x.den : ℤ)) then
    (halvings x.num.natAbs x.num.natAbs : ℤ) - (halvings x.den x.den : ℤ) - 1
  else (halvings x.num.natAbs x.num.natAbs : ℤ) - (halvings x.den x.den : ℤ)

/-- The distance between the `float` values next to `x`: `24` bits of precision, the exponent
not below `-126` (denormalized values); values beyond the range of `float` are not modelled. -/
def ulp (x : ℚ) : ℚ := (2 : ℚ) ^ (max (exponent x) (-126) - 23)

/-- The integer nearest to `q`, the even one of two that are equally near. -/
def nearestEven (q : ℚ) : ℤ :=
  if q - ⌊q⌋ < 1 / 2 then ⌊q⌋
  else if 1 / 2 < q - ⌊q⌋ then ⌊q⌋ + 1
  else if ⌊q⌋ % 2 = 0 then ⌊q⌋ else ⌊q⌋ + 1

/-- The `float` nearest to `x` (round to nearest, ties to even): the value of a `float`
operation whose exact result is `x`. -/
def rounded (x : ℚ) : ℚ := nearestEven (x / ulp x) * ulp x

end Binary32

namespace Planner

/-! ## Planner nodes -/

/-- The fields of `PlannerNode` that `Planner.cpp` reads and writes. -/
structure PlannerNode where
  worldState : Nat
  worldStateHash : Nat
  actionRecord : Option Nat
  parent : Option Nat
  nextTransition : Option Nat
  transitionCost : Nat
  costSoFar : Nat
  heapCost : Nat
  heapArrayIndex : Nat
  prevInHashBin : Option Nat
  nextInHashBin : Option Nat
  deriving DecidableEq, Repr

instance : Inhabited PlannerNode :=
  ⟨{ worldState := 0, worldStateHash := 0, actionRecord := none, parent := none,
     nextTransition := none, transitionCost := 0, costSoFar := 0, heapCost := 0,
     heapArrayIndex := 0, prevInHashBin := none, nextInHashBin := none }⟩

/-- The memory of the planner nodes: the contents of the node at every pool item index. -/
abbrev Mem := Nat → PlannerNode

/-- The write `node->heapArrayIndex = i`. -/
def setHeapArrayIndex (m : Mem) (node i : Nat) : Mem :=
  Function.update m node { m node with heapArrayIndex := i }

/-! ## `PlannerNodesHeap` -/

/-- The `array[i]` of the heap's `StaticVector<PlannerNode *, 128>`. -/
def slot (a : List Nat) (i : Nat) : Nat := a.getD i 0

/-- The `PlannerNodesHeap::Swap`. -/
def Swap (m : Mem) (a : List Nat) (i j : Nat) : Mem × List Nat :=
  let tmp := slot a i
  let a1 := a.set i (slot a j)
  let m1 := setHeapArrayIndex m (slot a1 i) i
  let a2 := a1.set j tmp
  let m2 := setHeapArrayIndex m1 (slot a2 j) j
  (m2, a2)

/-- The loop of `PlannerNodesHeap::BubbleDown`, at most `fuel` iterations. -/
def BubbleDownLoop : Nat → Mem → List Nat → Nat → Mem × List Nat
  | 0, m, a, _ => (m, a)
  | fuel + 1, m, a, hole =>
    if 2 * hole + 1 < a.length then
      let child := 2 * hole + 1
      let child :=
        if child < a.length - 1 then
          if (m (slot a (child + 1))).heapCost < (m (slot a child)).heapCost then child + 1 else child
        else child
      if (m (slot a hole)).heapCost > (m (slot a child)).heapCost then
        let s := Swap m a hole child
        BubbleDownLoop fuel s.1 s.2 child
      else (m, a)
    else (m, a)

/-- The `PlannerNodesHeap::BubbleDown`: the hole index grows at every iteration, so the loop
makes fewer iterations than the array has elements. -/
def BubbleDown (m : Mem) (a : List Nat) (hole : Nat) : Mem × List Nat :=
  BubbleDownLoop a.length m a hole

/-- The loop of `PlannerNodesHeap::Push`, at most `fuel` iterations. -/
def BubbleUpLoop : Nat → Mem → List Nat → Nat → Mem × List Nat
  | 0, m, a, _ => (m, a)
  | fuel + 1, m, a, child =>
    if child > 0 then
      let parent := (child - 1) / 2
      if (m (slot a child)).heapCost < (m (slot a parent)).heapCost then
        let s := Swap m a child parent
        BubbleUpLoop fuel s.1 s.2 parent
      else (m, a)
    else (m, a)

/-- The `PlannerNodesHeap::Push` (the capacity check of the debug build is left to the caller). -/
def Push (m : Mem) (a : List Nat) (node : Nat) : Mem × List Nat :=
  let a1 := a ++ [node]
  let child := a1.length - 1
  let m1 := setHeapArrayIndex m (slot a1 child) child
  BubbleUpLoop a1.length m1 a1 child

/-- The `PlannerNodesHeap::Pop`: the result is `none` for an empty heap. -/
def Pop (m : Mem) (a : List Nat) : Option Nat × Mem × List Nat :=
  if a.isEmpty then (none, m, a)
  else
    let result := slot a 0
    let a1 := a.set 0 (slot a (a.length - 1))
    let m1 := setHeapArrayIndex m (slot a1 0) 0
    let a2 := a1.dropLast
    let s := BubbleDown m1 a2 0
    (some result, s.1, s.2)

/-- The `PlannerNodesHeap::Remove`, for a slot index of the array. -/
def Remove (m : Mem) (a : List Nat) (nodeIndex : Nat) : Mem × List Nat :=
  let a1 := a.set nodeIndex (slot a (a.length - 1))
  let m1 := setHeapArrayIndex m (slot a1 nodeIndex) nodeIndex
  let a2 := a1.dropLast
  BubbleDown m1 a2 nodeIndex

/-- The heap costs of the nodes stored in the array, slot by slot. -/
def costs (m : Mem) (a : List Nat) : List Nat := a.map fun n => (m n).heapCost

/-- The min-heap property of the array: the cost at every non-root slot `k` is at least the cost
at its parent slot `(k - 1) / 2`. -/
def IsMinHeap (m : Mem) (a : List Nat) : Prop :=
  ∀ k, 0 < k → k < a.length → (m (slot a ((k - 1) / 2))).heapCost ≤ (m (slot a k)).heapCost

instance (m : Mem) (a : List Nat) : Decidable (IsMinHeap m a) :=
  decidable_of_iff (∀ k ∈ List.range a.length,
      0 < k → (m (slot a ((k - 1) / 2))).heapCost ≤ (m (slot a k)).heapCost)
    ⟨fun h k hk hl => h k (List.mem_range.2 hl) hk,
     fun h k hk hpos => h k hpos (List.mem_range.1 hk)⟩

/-- A memory in which the node at index `k` has the `k`-th cost of the list. -/
def memOfCosts (cs : List Nat) : Mem :=
  fun k => { (default : PlannerNode) with heapCost := cs.getD k 0 }

/-- An operation on the heap. -/
inductive HeapOp where
  | push (node : Nat)
  | pop
  | remove (nodeIndex : Nat)
  deriving DecidableEq, Repr

/-- The heap after a sequence of operations, with the results of its `Pop` calls, each with the
array as it was when the call returned. -/
def runHeap : List HeapOp → Mem → List Nat → List (Option Nat × List Nat) →
    Mem × List Nat × List (Option Nat × List Nat)
  | [], m, a, out => (m, a, out)
  | HeapOp.push n :: ops, m, a, out =>
    let s := Push m a n
    runHeap ops s.1 s.2 out
  | HeapOp.pop :: ops, m, a, out =>
    let s := Pop m a
    runHeap ops s.2.1 s.2.2 (out ++ [(s.1, s.2.2)])
  | HeapOp.remove i :: ops, m, a, out =>
    let s := Remove m a i
    runHeap ops s.1 s.2 out

/-! ## `PoolBase` -/

/-- The index of the list of the free items in `listFirst`. -/
def FREE_LIST : Nat := 0

/-- The index of the list of the used items in `listFirst`. -/
def USED_LIST : Nat := 1

/-- The links of the pool: `prev i` and `next i` are `ItemLinksAt( i ).Prev()` and
`ItemLinksAt( i ).Next()`, `listFirst` is the array of the two list heads. -/
structure PoolBase where
  prev : Int → Int
  next : Int → Int
  listFirst : Nat → Int

/-- The `PoolBase::Link`. -/
def PoolBase.Link (p : PoolBase) (itemIndex : Int) (listIndex : Nat) : PoolBase :=
  if p.listFirst listIndex ≥ 0 then
    { prev := Function.update (Function.update p.prev (p.listFirst listIndex) itemIndex)
        itemIndex (-1)
      next := Function.update p.next itemIndex (p.listFirst listIndex)
      listFirst := Function.update p.listFirst listIndex itemIndex }
  else
    { prev := Function.update p.prev itemIndex (-1)
      next := Function.update p.next itemIndex (-1)
      listFirst := Function.update p.listFirst listIndex itemIndex }

/-- The `PoolBase::Unlink`; `none` is the `AI_FailWith` of an item that has no previous item and
is not the head of the list. -/
def PoolBase.Unlink (p : PoolBase) (itemIndex : Int) (listIndex : Nat) : Option PoolBase :=
  if p.prev itemIndex ≥ 0 then
    let p1 : PoolBase :=
      { p with next := Function.update p.next (p.prev itemIndex) (p.next itemIndex) }
    if p1.next itemIndex ≥ 0 then
      some { p1 with prev := Function.update p1.prev (p1.next itemIndex) (p1.prev itemIndex) }
    else some p1
  else
    if p.listFirst listIndex ≠ itemIndex then none
    else if p.next itemIndex ≥ 0 then
      some { p with
        prev := Function.update p.prev (p.next itemIndex) (-1)
        listFirst := Function.update p.listFirst listIndex (p.next itemIndex) }
    else some { p with listFirst := Function.update p.listFirst listIndex (-1) }

/-- The `PoolBase::Alloc`: the index of the allocated item (`none` for `nullptr`) and the pool
after the call; the outer `none` is a failed `Unlink`. -/
def PoolBase.Alloc (p : PoolBase) : Option (Option Int × PoolBase) :=
  if p.listFirst FREE_LIST < 0 then some (none, p)
  else
    let freeItemIndex := p.listFirst FREE_LIST
    match p.Unlink freeItemIndex FREE_LIST with
    | none => none
    | some p1 => some (some freeItemIndex, p1.Link freeItemIndex USED_LIST)

/-- The `PoolBase::Free` of the item at `itemIndex`; `none` is a failed `Unlink`. -/
def PoolBase.Free (p : PoolBase) (itemIndex : Int) : Option PoolBase :=
  match p.Unlink itemIndex USED_LIST with
  | none => none
  | some p1 => some (p1.Link itemIndex FREE_LIST)

/-- Modelled from the spec: the initial value of `listFirst`, a member that is declared and
initialised in `Planner.h`; every item starts on the free list, so the free list starts at item
`0` and the used list is empty. -/
def initialListFirst : Nat → Int :=
  fun listIndex => if listIndex = FREE_LIST then 0 else -1

/-- The constructor `PoolBase::PoolBase` over a memory of arbitrary contents `prev0`, `next0`. -/
def PoolBase.init (prev0 next0 : Int → Int) (itemsCount : Nat) : PoolBase :=
  let lastIndex : Int := (itemsCount : Int) - 1
  let prev1 := Function.update (Function.update prev0 0 (-1)) lastIndex (lastIndex - 1)
  let next1 := Function.update (Function.update next0 0 1) lastIndex (-1)
  let links := (List.range' 1 (itemsCount - 2)).foldl
    (fun (s : (Int → Int) × (Int → Int)) (i : Nat) =>
      (Function.update s.1 (i : Int) ((i : Int) - 1), Function.update s.2 (i : Int) ((i : Int) + 1)))
    (prev1, next1)
  { prev := links.1, next := links.2, listFirst := initialListFirst }

/-- A call of the pool. -/
inductive PoolOp where
  | alloc
  | free (itemIndex : Int)
  deriving DecidableEq, Repr

/-- The ways a sequence of pool calls can go wrong. -/
inductive PoolError where
  | failWith
  | notAllocated
  deriving DecidableEq, Repr

/-- The pool after a sequence of calls, with the items that `Alloc` returned and that have not
been freed since, most recent first. A `Free` of an item that is not allocated at that moment is
outside the contract of the pool and stops the run with `notAllocated`. -/
def runPool : List PoolOp → PoolBase → List Int → Except PoolError (PoolBase × List Int)
  | [], p, allocated => .ok (p, allocated)
  | PoolOp.alloc :: ops, p, allocated =>
    match p.Alloc with
    | none => .error .failWith
    | some (none, p1) => runPool ops p1 allocated
    | some (some i, p1) => runPool ops p1 (i :: allocated)
  | PoolOp.free i :: ops, p, allocated =>
    if i ∈ allocated then
      match p.Free i with
      | none => .error .failWith
      | some p1 => runPool ops p1 (allocated.erase i)
    else .error .notAllocated

/-- The items of `l` are chained in this order by their links, the item before the first one
being `p` (`-1` at the head of a list). -/
def Chain (prev next : Int → Int) : Int → List Int → Prop
  | _, [] => True
  | p, x :: r => 0 ≤ x ∧ prev x = p ∧ next x = r.headD (-1) ∧ Chain prev next x r

/-- The list `listIndex` of the pool is a well-formed doubly linked list of the items `l`. -/
def IsList (p : PoolBase) (listIndex : Nat) (l : List Int) : Prop :=
  p.listFirst listIndex = l.headD (-1) ∧ Chain p.prev p.next (-1) l

/-- The free list holds the items `fl`, the used list the items `ul`, and together they hold
each of the `n` item indices exactly once. -/
def PoolInv (n : Nat) (p : PoolBase) (fl ul : List Int) : Prop :=
  IsList p FREE_LIST fl ∧ IsList p USED_LIST ul ∧
    (fl ++ ul).Perm ((List.range n).map Int.ofNat)

/-- The two writes of the first branch of `Unlink`. -/
def unlinkMid (prev next : Int → Int) (x : Int) : (Int → Int) × (Int → Int) :=
  (if next x ≥ 0 then Function.update prev (next x) (prev x) else prev,
   Function.update next (prev x) (next x))

/-- The outcome of a sequence of pool calls that kept to the contract: no `Unlink` failed, the
two lists are well formed and hold each of the `n` items once, the used list holds exactly the
allocated items, and these are pairwise distinct. -/
def GoodPoolRun (n : Nat) : Except PoolError (PoolBase × List Int) → Prop
  | .ok (p, allocated) => (∃ fl, PoolInv n p fl allocated) ∧ allocated.Nodup
  | .error e => e = PoolError.notAllocated

/-- A pool of one item, which is in use. -/
def onePool : PoolBase :=
  { prev := fun _ => -1, next := fun _ => -1,
    listFirst := fun listIndex => if listIndex = FREE_LIST then -1 else 0 }

/-! ## The planner: nodes, records and the pool together -/

/-- The fatal conditions of the planner, and the ways the embedding marks a run that has no
result. -/
inductive Fatal where
  /-- `FailWith( "A bug has been detected\n" )` of `BuildPlan`: a world state is in the open
  and in the closed set. -/
  | openAndClosed
  /-- `AI_FailWith` of `PlannerNodesHashSet::Add`: a node of the same world state is present. -/
  | addSameWorldState
  /-- `AI_FailWith` of `PlannerNodesHashSet::RemoveNode`: the node is not the head of its bin. -/
  | notABinHead
  /-- `AI_FailWith` of `PlannerNodesHashSet::RemoveBySameWorldState`: no such node. -/
  | removeNotFound
  /-- `AI_FailWith` of `PoolBase::Unlink`. -/
  | unlinkNotAHead
  /-- `AI_FailWith` of the debug build of the heap (capacity, index, `CheckIndices`). -/
  | heapCheck
  /-- A null pointer is dereferenced or an array is indexed out of its bounds. -/
  | undefinedBehaviour
  /-- A loop does not end: it went through more items than there are. -/
  | endless
  /-- The search loop made as many iterations as the embedding was asked to follow. -/
  | outOfFuel
  deriving DecidableEq, Repr

/-- What `BuildPlan` is given from outside `Planner.cpp`, and the constants of `Planner.h`.
`hash` is `WorldState::Hash`, `satisfied` is `goalWorldState.IsSatisfiedBy`, `transitions` lists,
for a world state, the world state and the transition cost of every action that applies to it.
`itemsCount` is the number of items of the planner nodes pool, `maxPlannerNodes` is
`MAX_PLANNER_NODES`, `newNode` is the contents the constructor of `PlannerNode` gives a new
node. `debugBuild` and `publicBuild` tell
whether `_DEBUG` and `PUBLIC_BUILD` are defined. -/
structure Planning where
  hash : Nat → Nat
  satisfied : Nat → Bool
  transitions : Nat → List (Nat × Nat)
  itemsCount : Nat
  maxPlannerNodes : Nat
  newNode : PlannerNode
  debugBuild : Bool
  publicBuild : Bool

/-- The state of the planner that outlives a local variable of `BuildPlan`: the memory of the
nodes, the pool, the `nextInPlan` link of every action record, the records on which `DeleteSelf`
was called, and the number of records created so far (a record is named by its number). -/
structure PlannerState where
  nodes : Mem
  pool : PoolBase
  nextInPlan : Nat → Option Nat
  deletedRecords : List Nat
  recordsCount : Nat

/-- Modelled from the spec: `PlannerNode::DeleteSelf` (`Planner.h`), which destroys the node and
returns it to the pool: the destructor deletes the action record the node owns (as the comment in
`ReconstructPlan` says), and the item goes back to the free list by `PoolBase::Free`. The fields
of the freed node keep their values. -/
def DeleteSelf (st : PlannerState) (node : Nat) : Except Fatal PlannerState :=
  let deleted :=
    match (st.nodes node).actionRecord with
    | some r => r :: st.deletedRecords
    | none => st.deletedRecords
  match st.pool.Free (node : Int) with
  | none => .error .unlinkNotAHead
  | some pool1 => .ok { st with pool := pool1, deletedRecords := deleted }

/-- Modelled from the spec: `plannerNodesPool.New` (`Planner.h`), an `Alloc` followed by the
constructor of `PlannerNode`, which writes `newNode` to the item. The result is `none` when the
pool has no free item. -/
def New (cfg : Planning) (st : PlannerState) : Except Fatal (Option Nat × PlannerState) :=
  match st.pool.Alloc with
  | none => .error .unlinkNotAHead
  | some (none, pool1) => .ok (none, { st with pool := pool1 })
  | some (some i, pool1) =>
    .ok (some i.toNat,
      { st with pool := pool1, nodes := Function.update st.nodes i.toNat cfg.newNode })

/-- The `AiAction::NewNodeForRecord`, for a record that was allocated. -/
def NewNodeForRecord (cfg : Planning) (st : PlannerState) (record : Nat) :
    Except Fatal (Option Nat × PlannerState) :=
  match New cfg st with
  | .error e => .error e
  | .ok (none, st1) => .ok (none, { st1 with deletedRecords := record :: st1.deletedRecords })
  | .ok (some node, st1) =>
    .ok (some node, { st1 with
      nodes := Function.update st1.nodes node { st1.nodes node with actionRecord := some record } })

/-- Modelled from the spec: one action's `TryApply` that applies (as `BotFleeToSpotAction` does
it): a new record, a node for it by `NewNodeForRecord`, then the world state, its hash and the
transition cost of the node. -/
def applyAction (cfg : Planning) (st : PlannerState) (t : Nat × Nat) :
    Except Fatal (Option Nat × PlannerState) :=
  let record := st.recordsCount
  let st0 := { st with recordsCount := st.recordsCount + 1 }
  match NewNodeForRecord cfg st0 record with
  | .error e => .error e
  | .ok (none, st1) => .ok (none, st1)
  | .ok (some node, st1) =>
    .ok (some node, { st1 with
      nodes := Function.update st1.nodes node
        { st1.nodes node with
          worldState := t.1, worldStateHash := cfg.hash t.1 % 4294967296, transitionCost := t.2 } })

/-- The nodes made for a list of transitions, in the order of the list. -/
def applyActions (cfg : Planning) :
    List (Nat × Nat) → PlannerState → Except Fatal (List Nat × PlannerState)
  | [], st => .ok ([], st)
  | t :: ts, st =>
    match applyAction cfg st t with
    | .error e => .error e
    | .ok (made, st1) =>
      match applyActions cfg ts st1 with
      | .error e => .error e
      | .ok (nodes, st2) =>
        match made with
        | some node => .ok (node :: nodes, st2)
        | none => .ok (nodes, st2)

/-- The writes of `nextTransition` that chain the nodes of a list. -/
def linkTransitions (m : Mem) : List Nat → Mem
  | [] => m
  | node :: rest =>
    linkTransitions (Function.update m node { m node with nextTransition := rest.head? }) rest

/-- Modelled from the spec: `AiGoal::GetWorldStateTransitions`, which applies the goal's actions
to a world state and returns the nodes they made as a list chained by `nextTransition`, here in
the order in which `transitions` lists them. -/
def GetWorldStateTransitions (cfg : Planning) (st : PlannerState) (worldState : Nat) :
    Except Fatal (Option Nat × PlannerState) :=
  match applyActions cfg (cfg.transitions worldState) st with
  | .error e => .error e
  | .ok (nodes, st1) => .ok (nodes.head?, { st1 with nodes := linkTransitions st1.nodes nodes })

/-- The loop of `PoolBase::Clear`, over at most `fuel` items. -/
def ClearLoop : Nat → PlannerState → Int → Except Fatal PlannerState
  | 0, _, _ => .error .endless
  | fuel + 1, st, itemIndex =>
    if itemIndex ≥ 0 then
      let next := st.pool.next itemIndex
      match DeleteSelf st itemIndex.toNat with
      | .error e => .error e
      | .ok st1 => ClearLoop fuel st1 next
    else .ok st

/-- The `PoolBase::Clear`. -/
def Clear (cfg : Planning) (st : PlannerState) : Except Fatal PlannerState :=
  ClearLoop (cfg.itemsCount + 1) st (st.pool.listFirst USED_LIST)

/-! ## `PlannerNodesHashSet` -/

/-- The bins of a hash set. -/
abbrev Bins := Nat → Option Nat

/-- The write `node->prevInHashBin = v`. -/
def setPrevInHashBin (m : Mem) (node : Nat) (v : Option Nat) : Mem :=
  Function.update m node { m node with prevInHashBin := v }

/-- The write `node->nextInHashBin = v`. -/
def setNextInHashBin (m : Mem) (node : Nat) (v : Option Nat) : Mem :=
  Function.update m node { m node with nextInHashBin := v }

/-- The loop of `SameWorldStateNode` from the node `binNode` on, for a query of hash `qHash` and
world state `qState`; the outer `none` is a walk that does not end. -/
def SameWorldStateNodeLoop (m : Mem) (qHash qState : Nat) : Nat → Option Nat → Option (Option Nat)
  | 0, _ => none
  | _ + 1, none => some none
  | fuel + 1, some binNode =>
    if (m binNode).worldStateHash ≠ qHash then
      SameWorldStateNodeLoop m qHash qState fuel (m binNode).nextInHashBin
    else if ¬ ((m binNode).worldState = qState) then
      SameWorldStateNodeLoop m qHash qState fuel (m binNode).nextInHashBin
    else some (some binNode)

/-- The `PlannerNodesHashSet<N>::SameWorldStateNode`. -/
def SameWorldStateNode (cfg : Planning) (N : Nat) (bins : Bins) (m : Mem) (node : Nat) :
    Option (Option Nat) :=
  SameWorldStateNodeLoop m (m node).worldStateHash (m node).worldState (cfg.itemsCount + 1)
    (bins ((m node).worldStateHash % N))

/-- The `PlannerNodesHashSet<N>::ContainsSameWorldState`. -/
def ContainsSameWorldState (cfg : Planning) (N : Nat) (bins : Bins) (m : Mem) (node : Nat) :
    Except Fatal Bool :=
  match SameWorldStateNode cfg N bins m node with
  | none => .error .endless
  | some found => .ok found.isSome

/-- The `PlannerNodesHashSet<N>::Add`. -/
def Add (cfg : Planning) (N : Nat) (bins : Bins) (m : Mem) (node : Nat) :
    Except Fatal (Bins × Mem) :=
  let check : Except Fatal Unit :=
    if cfg.debugBuild then .ok ()
    else
      match SameWorldStateNode cfg N bins m node with
      | none => .error .endless
      | some (some _) => .error .addSameWorldState
      | some none => .ok ()
  match check with
  | .error e => .error e
  | .ok _ =>
    let binIndex := (m node).worldStateHash % N
    match bins binIndex with
    | some headBinNode =>
      let m1 := setPrevInHashBin m headBinNode (some node)
      let m2 := setNextInHashBin m1 node (some headBinNode)
      .ok (Function.update bins binIndex (some node), m2)
    | none => .ok (Function.update bins binIndex (some node), m)

/-- The `PlannerNodesHashSet<N>::RemoveNode`: the `heapArrayIndex` of the removed node, the bins
and the planner after the call. -/
def RemoveNode (cfg : Planning) (bins : Bins) (st : PlannerState) (node binIndex : Nat) :
    Except Fatal (Nat × Bins × PlannerState) :=
  let m := st.nodes
  let unlinked : Except Fatal (Bins × Mem) :=
    match (m node).prevInHashBin with
    | some prevNode =>
      let m1 := setNextInHashBin m prevNode (m node).nextInHashBin
      match (m1 node).nextInHashBin with
      | some nextNode => .ok (bins, setPrevInHashBin m1 nextNode (m1 node).prevInHashBin)
      | none => .ok (bins, m1)
    | none =>
      if ¬ cfg.publicBuild ∧ bins binIndex ≠ some node then .error .notABinHead
      else
        match (m node).nextInHashBin with
        | some nextNode =>
          .ok (Function.update bins binIndex (some nextNode), setPrevInHashBin m nextNode none)
        | none => .ok (Function.update bins binIndex none, m)
  match unlinked with
  | .error e => .error e
  | .ok (bins1, m1) =>
    let result := (m1 node).heapArrayIndex
    match DeleteSelf { st with nodes := m1 } node with
    | .error e => .error e
    | .ok st1 => .ok (result, bins1, st1)

/-- The loop of `RemoveBySameWorldState` from the node `binNode` on. -/
def RemoveBySameWorldStateLoop (cfg : Planning) (bins : Bins) (st : PlannerState)
    (qHash qState binIndex : Nat) : Nat → Option Nat → Except Fatal (Nat × Bins × PlannerState)
  | 0, _ => .error .endless
  | _ + 1, none => .error .removeNotFound
  | fuel + 1, some binNode =>
    if (st.nodes binNode).worldStateHash ≠ qHash then
      RemoveBySameWorldStateLoop cfg bins st qHash qState binIndex fuel
        (st.nodes binNode).nextInHashBin
    else if ¬ ((st.nodes binNode).worldState = qState) then
      RemoveBySameWorldStateLoop cfg bins st qHash qState binIndex fuel
        (st.nodes binNode).nextInHashBin
    else RemoveNode cfg bins st binNode binIndex

/-- The `PlannerNodesHashSet<N>::RemoveBySameWorldState`. -/
def RemoveBySameWorldState (cfg : Planning) (N : Nat) (bins : Bins) (st : PlannerState)
    (node : Nat) : Except Fatal (Nat × Bins × PlannerState) :=
  let binIndex := (st.nodes node).worldStateHash % N
  RemoveBySameWorldStateLoop cfg bins st (st.nodes node).worldStateHash (st.nodes node).worldState
    binIndex (cfg.itemsCount + 1) (bins binIndex)

/-! ## `AiPlanner::ReconstructPlan` -/

/-- The first loop of `ReconstructPlan`, from the node `node` on: `room` is the number of free
slots of `recordsStack`, `stack` holds the records pushed so far, the last pushed first. A push
on a full `recordsStack` is a write out of its bounds. -/
def ReconstructLoop : Nat → Mem → Option Nat → List (Option Nat) →
    Except Fatal (List (Option Nat) × Mem)
  | _, m, none, stack => .ok (stack, m)
  | 0, m, some node, stack =>
    match (m node).parent with
    | none => .ok (stack, m)
    | some _ => .error .undefinedBehaviour
  | room + 1, m, some node, stack =>
    match (m node).parent with
    | none => .ok (stack, m)
    | some _ =>
      let m1 := Function.update m node { m node with actionRecord := none }
      ReconstructLoop room m1 (m1 node).parent ((m node).actionRecord :: stack)

/-- The second loop of `ReconstructPlan` and the write that ends the plan: `lastInPlan` is linked
to the records of the stack from its top down. A null record is dereferenced. -/
def linkPlan : (Nat → Option Nat) → Nat → List (Option Nat) → Except Fatal (Nat → Option Nat)
  | nextInPlan, lastInPlan, [] => .ok (Function.update nextInPlan lastInPlan none)
  | _, _, none :: _ => .error .undefinedBehaviour
  | nextInPlan, lastInPlan, some record :: rest =>
    linkPlan (Function.update nextInPlan lastInPlan (some record)) record rest

/-- The `AiPlanner::ReconstructPlan`: the head of the plan (`none` for `nullptr`) and the planner
after the call. -/
def ReconstructPlan (MAX_PLANNER_NODES : Nat) (st : PlannerState) (lastNode : Option Nat) :
    Except Fatal (Option Nat × PlannerState) :=
  match ReconstructLoop MAX_PLANNER_NODES st.nodes lastNode [] with
  | .error e => .error e
  | .ok ([], m1) => .ok (none, { st with nodes := m1 })
  | .ok (none :: _, _) => .error .undefinedBehaviour
  | .ok (some firstInPlan :: rest, m1) =>
    match linkPlan st.nextInPlan firstInPlan rest with
    | .error e => .error e
    | .ok links => .ok (some firstInPlan, { st with nodes := m1, nextInPlan := links })

/-- The records of a plan: the records reached from `head` by `nextInPlan`, at most `fuel` of
them. -/
def planRecords (nextInPlan : Nat → Option Nat) : Nat → Option Nat → List Nat
  | 0, _ => []
  | _, none => []
  | fuel + 1, some record => record :: planRecords nextInPlan fuel (nextInPlan record)

/-! ## `AiPlanner::BuildPlan` -/

/-- The planner together with the local variables of `BuildPlan`: the bins of the closed and of
the open set and the array of the open nodes heap. -/
structure Search where
  st : PlannerState
  closedBins : Bins
  openBins : Bins
  heap : List Nat

/-- The `PlannerNodesHeap::CheckIndices`, which checks in the debug build only. -/
def CheckIndices (cfg : Planning) (m : Mem) (a : List Nat) : Except Fatal Unit :=
  if cfg.debugBuild && !(List.range a.length).all (fun i => (m (slot a i)).heapArrayIndex == i)
  then .error .heapCheck else .ok ()

/-- The call `openNodesHeap.Push( node )` with its checks; the array has 128 slots. -/
def heapPush (cfg : Planning) (m : Mem) (a : List Nat) (node : Nat) :
    Except Fatal (Mem × List Nat) :=
  if a.length ≥ 128 then
    .error (if cfg.debugBuild then .heapCheck else .undefinedBehaviour)
  else
    let s := Push m a node
    match CheckIndices cfg s.1 s.2 with
    | .error e => .error e
    | .ok _ => .ok s

/-- The call `openNodesHeap.Pop()` with its checks. -/
def heapPop (cfg : Planning) (m : Mem) (a : List Nat) : Except Fatal (Option Nat × Mem × List Nat) :=
  let s := Pop m a
  match CheckIndices cfg s.2.1 s.2.2 with
  | .error e => .error e
  | .ok _ => .ok s

/-- The call `openNodesHeap.Remove( nodeIndex )` with its checks; an index that is not a slot of
the array is an access out of its bounds. -/
def heapRemove (cfg : Planning) (m : Mem) (a : List Nat) (nodeIndex : Nat) :
    Except Fatal (Mem × List Nat) :=
  if cfg.debugBuild ∧ nodeIndex > a.length then .error .heapCheck
  else if nodeIndex < a.length then
    let s := Remove m a nodeIndex
    match CheckIndices cfg s.1 s.2 with
    | .error e => .error e
    | .ok _ => .ok s
  else .error .undefinedBehaviour

/-- The body of the loop over the transitions in `BuildPlan`, for the transition `transition`
of the node `currNode`. -/
def processTransition (cfg : Planning) (s : Search) (currNode transition : Nat) :
    Except Fatal Search :=
  let cost := (s.st.nodes currNode).costSoFar + (s.st.nodes transition).transitionCost
  match ContainsSameWorldState cfg 71 s.openBins s.st.nodes transition with
  | .error e => .error e
  | .ok wasInOpen =>
  match ContainsSameWorldState cfg 389 s.closedBins s.st.nodes transition with
  | .error e => .error e
  | .ok wasInClosed =>
  if wasInOpen && wasInClosed then .error .openAndClosed
  else
    -- `if( cost < transition->costSoFar && isInOpen )`
    let afterOpen : Except Fatal (Bool × Search) :=
      if cost < (s.st.nodes transition).costSoFar ∧ wasInOpen = true then
        match RemoveBySameWorldState cfg 71 s.openBins s.st transition with
        | .error e => .error e
        | .ok (nodeHeapIndex, bins, st1) =>
          match heapRemove cfg st1.nodes s.heap nodeHeapIndex with
          | .error e => .error e
          | .ok (m, a) =>
            .ok (false, { s with st := { st1 with nodes := m }, openBins := bins, heap := a })
      else .ok (wasInOpen, s)
    match afterOpen with
    | .error e => .error e
    | .ok (isInOpen, s1) =>
    -- `if( cost < transition->costSoFar && isInClosed )`
    let afterClosed : Except Fatal (Bool × Search) :=
      if cost < (s1.st.nodes transition).costSoFar ∧ wasInClosed = true then
        match RemoveBySameWorldState cfg 389 s1.closedBins s1.st transition with
        | .error e => .error e
        | .ok (_, bins, st1) => .ok (false, { s1 with st := st1, closedBins := bins })
      else .ok (wasInClosed, s1)
    match afterClosed with
    | .error e => .error e
    | .ok (isInClosed, s2) =>
    if !isInOpen && !isInClosed then
      let m := Function.update s2.st.nodes transition
        { s2.st.nodes transition with costSoFar := cost, heapCost := cost, parent := some currNode }
      match Add cfg 71 s2.openBins m transition with
      | .error e => .error e
      | .ok (bins, m1) =>
        match heapPush cfg m1 s2.heap transition with
        | .error e => .error e
        | .ok (m2, a) =>
          .ok { s2 with st := { s2.st with nodes := m2 }, openBins := bins, heap := a }
    else if (if isInOpen then wasInOpen else wasInClosed) then
      match DeleteSelf s2.st transition with
      | .error e => .error e
      | .ok st1 => .ok { s2 with st := st1 }
    else .ok s2

/-- The loop over the transitions of `currNode` in `BuildPlan`, from `transition` on. -/
def transitionsLoop (cfg : Planning) (currNode : Nat) :
    Nat → Search → Option Nat → Except Fatal Search
  | 0, _, _ => .error .endless
  | _ + 1, s, none => .ok s
  | fuel + 1, s, some transition =>
    match processTransition cfg s currNode transition with
    | .error e => .error e
    | .ok s1 => transitionsLoop cfg currNode fuel s1 (s1.st.nodes transition).nextTransition

/-- How an iteration of the search loop of `BuildPlan` ends. -/
inductive Step where
  /-- The popped node satisfies the goal. -/
  | found (currNode : Nat) (s : Search)
  /-- The heap is empty. -/
  | exhausted (s : Search)
  /-- The popped node is expanded and the loop goes on. -/
  | next (s : Search)

/-- One iteration of the search loop of `BuildPlan`. -/
def searchStep (cfg : Planning) (s : Search) : Except Fatal Step :=
  match heapPop cfg s.st.nodes s.heap with
  | .error e => .error e
  | .ok (none, _, _) => .ok (.exhausted s)
  | .ok (some currNode, m, a) =>
    let s1 : Search := { s with st := { s.st with nodes := m }, heap := a }
    if cfg.satisfied (m currNode).worldState then .ok (.found currNode s1)
    else
      match Add cfg 389 s1.closedBins m currNode with
      | .error e => .error e
      | .ok (bins, m1) =>
        match GetWorldStateTransitions cfg { s1.st with nodes := m1 } (m1 currNode).worldState with
        | .error e => .error e
        | .ok (firstTransition, st2) =>
          match transitionsLoop cfg currNode (cfg.itemsCount + 1)
              { s1 with st := st2, closedBins := bins } firstTransition with
          | .error e => .error e
          | .ok s3 => .ok (.next s3)

/-- The search loop of `BuildPlan`, followed for at most `fuel` iterations: the node that
satisfies the goal (`none` when the heap ran empty) and the state at that moment. -/
def searchLoop (cfg : Planning) : Nat → Search → Except Fatal (Option Nat × Search)
  | 0, _ => .error .outOfFuel
  | fuel + 1, s =>
    match searchStep cfg s with
    | .error e => .error e
    | .ok (.found currNode s1) => .ok (some currNode, s1)
    | .ok (.exhausted s1) => .ok (none, s1)
    | .ok (.next s1) => searchLoop cfg fuel s1

/-- The start of `BuildPlan`: the start node is made and pushed. -/
def startSearch (cfg : Planning) (st : PlannerState) (currWorldState : Nat) : Except Fatal Search :=
  match New cfg st with
  | .error e => .error e
  | .ok (none, _) => .error .undefinedBehaviour
  | .ok (some startNode, st1) =>
    let m := Function.update st1.nodes startNode
      { st1.nodes startNode with
        worldState := currWorldState, worldStateHash := cfg.hash currWorldState % 4294967296,
        transitionCost := 0, costSoFar := 0, heapCost := 0, parent := none,
        nextTransition := none, actionRecord := none }
    match heapPush cfg m [] startNode with
    | .error e => .error e
    | .ok (m1, a) =>
      .ok { st := { st1 with nodes := m1 }, closedBins := fun _ => none,
            openBins := fun _ => none, heap := a }

/-- The part of `BuildPlan` up to the end of its search loop, the loop followed for at most
`fuel` iterations: the node that satisfies the goal (`none` when the heap ran empty) and the state
at that moment. -/
def findGoalNode (cfg : Planning) (fuel : Nat) (st : PlannerState) (currWorldState : Nat) :
    Except Fatal (Option Nat × Search) :=
  match startSearch cfg st currWorldState with
  | .error e => .error e
  | .ok s0 => searchLoop cfg fuel s0

/-- The `AiPlanner::BuildPlan`, its search loop followed for at most `fuel` iterations: the head
of the plan (`none` for `nullptr`) and the planner on return. -/
def BuildPlan (cfg : Planning) (fuel : Nat) (st : PlannerState) (currWorldState : Nat) :
    Except Fatal (Option Nat × PlannerState) :=
  match findGoalNode cfg fuel st currWorldState with
  | .error e => .error e
  | .ok (some currNode, s) =>
    match ReconstructPlan cfg.maxPlannerNodes s.st (some currNode) with
    | .error e => .error e
    | .ok (plan, st1) =>
      match Clear cfg st1 with
      | .error e => .error e
      | .ok st2 => .ok (plan, st2)
  | .ok (none, s) =>
    match Clear cfg s.st with
    | .error e => .error e
    | .ok st2 => .ok (none, st2)

/-- A planner that has not planned yet: a pool of `itemsCount` items as its constructor leaves
it, no record. -/
def freshPlanner (cfg : Planning) : PlannerState :=
  { nodes := fun _ => default, pool := PoolBase.init (fun _ => 0) (fun _ => 0) cfg.itemsCount,
    nextInPlan := fun _ => none, deletedRecords := [], recordsCount := 0 }

/-! ## Notions used to state the properties of `ReconstructPlan` -/

/-- The nodes of `chain` are linked by `parent`, each to the next one and the last one to
`start`: the first node of a chain of `d` nodes is `d` parent links away from `start`. -/
def IsChain (m : Mem) (start : Nat) : List Nat → Prop
  | [] => True
  | c :: rest => (m c).parent = some (rest.headD start) ∧ IsChain m start rest

/-- The memory in which the nodes of `chain` have lost their action record. -/
def clearRecords (m : Mem) (chain : List Nat) : Mem :=
  fun n => if n ∈ chain then { m n with actionRecord := none } else m n

/-- A memory of three nodes: node `0` has no parent, node `1` is its child and owns record `10`,
node `2` is the child of node `1` and owns record `11`. -/
def threeNodes : Mem := fun n =>
  if n = 1 then { (default : PlannerNode) with parent := some 0, actionRecord := some 10 }
  else if n = 2 then { (default : PlannerNode) with parent := some 1, actionRecord := some 11 }
  else default

/-- A planner over `threeNodes`, its three nodes in use. -/
def threeNodesPlanner : PlannerState :=
  { nodes := threeNodes
    pool := { prev := fun i => i - 1, next := fun i => if i = 2 then -1 else i + 1,
              listFirst := fun listIndex => if listIndex = FREE_LIST then -1 else 0 }
    nextInPlan := fun _ => some 77, deletedRecords := [], recordsCount := 12 }

/-! ## Runs of `BuildPlan` on small planning problems -/

/-- A planning problem over world states named by numbers, the hash of a world state being its
name and the goal being the world state `goal`: a pool of 16 items, a build with neither `_DEBUG`
nor `PUBLIC_BUILD`, and a constructor of `PlannerNode` that nulls the pointers of a new node and
gives `newCost` to its cost fields. -/
def problem (transitions : Nat → List (Nat × Nat)) (goal newCost : Nat) : Planning :=
  { hash := fun worldState => worldState, satisfied := fun worldState => worldState == goal,
    transitions := transitions, itemsCount := 16, maxPlannerNodes := 16,
    newNode :=
      { worldState := 0, worldStateHash := 0, actionRecord := none, parent := none,
        nextTransition := none, transitionCost := newCost, costSoFar := newCost,
        heapCost := newCost, heapArrayIndex := 0, prevInHashBin := none, nextInHashBin := none },
    debugBuild := false, publicBuild := false }

/-- The fatal condition a run ended with. -/
def fatalOf {α : Type} : Except Fatal α → Option Fatal
  | .error e => some e
  | .ok _ => none

/-- The records of the plan that `BuildPlan` returned, in the order of the plan, and the records
deleted by then. -/
def planOf : Except Fatal (Option Nat × PlannerState) → Option (List Nat × List Nat)
  | .error _ => none
  | .ok (plan, st) => some (planRecords st.nextInPlan 16 plan, st.deletedRecords)

/-- The nodes reached from `node` by `parent` that have a parent themselves, at most `fuel` of
them: the nodes whose records `ReconstructPlan` collects. -/
def parentChain (m : Mem) : Nat → Nat → List Nat
  | 0, _ => []
  | fuel + 1, node =>
    match (m node).parent with
    | none => []
    | some parent => node :: parentChain m fuel parent

/-- What the search loop found: the node `g` that satisfies the goal, its `costSoFar`, the nodes
of its parent chain, and the world state, the transition cost and the action record of each of
them. -/
structure GoalNode where
  g : Nat
  costSoFar : Nat
  chain : List Nat
  worldStates : List Nat
  transitionCosts : List Nat
  records : List (Option Nat)
  deriving DecidableEq, Repr

/-- The goal node of a run of the search loop and its parent chain. -/
def goalNodeOf : Except Fatal (Option Nat × Search) → Option GoalNode
  | .ok (some g, s) =>
    let chain := parentChain s.st.nodes 16 g
    some
      { g := g, costSoFar := (s.st.nodes g).costSoFar, chain := chain,
        worldStates := chain.map (fun c => (s.st.nodes c).worldState),
        transitionCosts := chain.map (fun c => (s.st.nodes c).transitionCost),
        records := chain.map (fun c => (s.st.nodes c).actionRecord) }
  | _ => none

/-- The result of a run that ended without a fatal condition. -/
def okOf {α : Type} : Except Fatal α → Option α
  | .ok a => some a
  | .error _ => none

/-- The state after `k` iterations of the search loop that each expanded a node. -/
def searchSteps (cfg : Planning) : Nat → Search → Option Search
  | 0, s => some s
  | k + 1, s =>
    match searchStep cfg s with
    | .ok (.next s1) => searchSteps cfg k s1
    | _ => none

/-- Whether a node of the world state of `node` is found in the open set, and whether one is
found in the closed set. -/
def inOpenAndInClosed (cfg : Planning) (node : Nat) : Option Search → Option (Bool × Bool)
  | some s =>
    match ContainsSameWorldState cfg 71 s.openBins s.st.nodes node,
      ContainsSameWorldState cfg 389 s.closedBins s.st.nodes node with
    | .ok o, .ok c => some (o, c)
    | _, _ => none
  | none => none

/-- The world state `0` leads to `1`, and `1` to `2`. -/
def lineTransitions : Nat → List (Nat × Nat) :=
  fun worldState => if worldState = 0 then [(1, 1)] else if worldState = 1 then [(2, 1)] else []

/-- The world state `0` leads to `1`, and an action applied to `1` leaves it as it is. -/
def loopTransitions : Nat → List (Nat × Nat) :=
  fun worldState => if worldState = 0 then [(1, 1)] else if worldState = 1 then [(1, 1)] else []

/-- The world state `0` leads to `1`; from `1` one action leads to `2` and another leaves the
world state as it is. -/
def loopAndGoalTransitions : Nat → List (Nat × Nat) :=
  fun worldState =>
    if worldState = 0 then [(1, 1)] else if worldState = 1 then [(2, 1), (1, 1)] else []

/-- The world state `0` leads to `1`, `1` to `2`, and `2` back to `1` or on to `3`. -/
def cycleTransitions : Nat → List (Nat × Nat) :=
  fun worldState =>
    if worldState = 0 then [(1, 1)] else if worldState = 1 then [(2, 1)]
    else if worldState = 2 then [(1, 1), (3, 1)] else []

/-- Two ways to the world state `3`: `0 → 1 → 3` of costs `1` and `1`, and `0 → 2 → 3` of costs
`1` and `5`. -/
def diamondTransitions : Nat → List (Nat × Nat) :=
  fun worldState =>
    if worldState = 0 then [(1, 1), (2, 1)] else if worldState = 1 then [(3, 1)]
    else if worldState = 2 then [(3, 5)] else []

/-- Two ways to the world state `3`: `0 → 3` of cost `10`, and `0 → 1 → 3` of costs `1` and
`1`. -/
def shortcutTransitions : Nat → List (Nat × Nat) :=
  fun worldState =>
    if worldState = 0 then [(3, 10), (1, 1)] else if worldState = 1 then [(3, 1)] else []

/-- The world states `34` and `389` share a bin of the open set (`389 % 71 = 34`), and `389`
shares a bin of the closed set with the start `0`. From `0`: to `34` (cost `2`), to `389`
(cost `1`), to `1` (cost `3`); from `34` to the goal `4` (cost `3`); from `1` to `34` (cost `5`)
and to `2` (cost `1`); from `2` to `3` (cost `5`). -/
def reuseTransitions : Nat → List (Nat × Nat) :=
  fun worldState =>
    if worldState = 0 then [(34, 2), (389, 1), (1, 3)] else if worldState = 34 then [(4, 3)]
    else if worldState = 1 then [(34, 5), (2, 1)] else if worldState = 2 then [(3, 5)] else []

/-! ## The slot indices stored in the nodes of the heap -/

/-- Every node stored at a slot `k` of the heap array has `heapArrayIndex` equal to `k`: what
`CheckIndices` checks. -/
def IndexInv (m : Mem) (a : List Nat) : Prop :=
  ∀ k, k < a.length → (m (slot a k)).heapArrayIndex = k

/-- The sequences of calls on the heap in which every `Push` is given a node that the array does
not hold at the time of the call and every `Remove` is given a slot index of the array at the
time of the call. -/
def validHeapOps : List HeapOp → Mem → List Nat → Bool
  | [], _, _ => true
  | HeapOp.push n :: ops, m, a =>
    !a.contains n && validHeapOps ops (Push m a n).1 (Push m a n).2
  | HeapOp.pop :: ops, m, a => validHeapOps ops (Pop m a).2.1 (Pop m a).2.2
  | HeapOp.remove i :: ops, m, a =>
    decide (i < a.length) && validHeapOps ops (Remove m a i).1 (Remove m a i).2

/-! ## Notions used to state the properties of `PlannerNodesHashSet` -/

/-- The nodes of `l` are chained in this order by `prevInHashBin` and `nextInHashBin`, the node
before the first one being `p` (`none` at the head of a bin). -/
def BinChain (m : Mem) : Option Nat → List Nat → Prop
  | _, [] => True
  | p, x :: r =>
    (m x).prevInHashBin = p ∧ (m x).nextInHashBin = r.head? ∧ BinChain m (some x) r

/-- The hash set of `N` bins is well formed and holds the nodes of `chains`: every bin `b` is a
doubly linked list of the distinct nodes `chains b`, each of them a pool item whose hash modulo
`N` is `b`. -/
def IsHashSet (cfg : Planning) (N : Nat) (bins : Bins) (m : Mem) (chains : Nat → List Nat) :
    Prop :=
  ∀ b, bins b = (chains b).head? ∧ BinChain m none (chains b) ∧ (chains b).Nodup ∧
    ∀ x ∈ chains b, (m x).worldStateHash % N = b ∧ x < cfg.itemsCount

/-- The memory `m1` differs from `m` in the links `prevInHashBin` and `nextInHashBin` only. -/
def LinksOnly (m m1 : Mem) : Prop :=
  ∀ x, m1 x = { m x with prevInHashBin := (m1 x).prevInHashBin,
                         nextInHashBin := (m1 x).nextInHashBin }

/-- The memory after the node `x` is taken out of its doubly linked list: the node before it, if
any, is linked to the node after it, and the node after it, if any, to the node before it. -/
def unlinkNode (m : Mem) (x : Nat) : Mem :=
  let m1 :=
    match (m x).prevInHashBin with
    | some prevNode => setNextInHashBin m prevNode (m x).nextInHashBin
    | none => m
  match (m x).nextInHashBin with
  | some nextNode => setPrevInHashBin m1 nextNode (m x).prevInHashBin
  | none => m1

/-- Whether the node `x` has the hash `qHash` and a world state equal to `qState`: the test of
the loops of `SameWorldStateNode` and `RemoveBySameWorldState`. -/
def sameWorldState (m : Mem) (qHash qState x : Nat) : Bool :=
  (m x).worldStateHash == qHash && (m x).worldState == qState

/-- A call on a hash set: `Add( node )` or `RemoveBySameWorldState( node )`. -/
inductive SetOp where
  | add (node : Nat)
  | remove (node : Nat)
  deriving DecidableEq, Repr

/-- A hash set of `N` bins after a sequence of calls, together with the nodes it holds: the nodes
given to `Add` and not unlinked since, most recent first. The run has no result (`none`) when a
call ends in a fatal condition, and when `Add` is given a node that the set holds, a node whose
`prevInHashBin` or `nextInHashBin` is not null, or a node that is not an item of the pool. -/
def runSet (cfg : Planning) (N : Nat) :
    List SetOp → Bins → PlannerState → List Nat → Option (Bins × PlannerState × List Nat)
  | [], bins, st, held => some (bins, st, held)
  | SetOp.add node :: ops, bins, st, held =>
    if node ∈ held ∨ (st.nodes node).prevInHashBin ≠ none ∨ (st.nodes node).nextInHashBin ≠ none
        ∨ ¬ node < cfg.itemsCount then none
    else
      match Add cfg N bins st.nodes node with
      | .error _ => none
      | .ok (bins1, m1) => runSet cfg N ops bins1 { st with nodes := m1 } (node :: held)
  | SetOp.remove node :: ops, bins, st, held =>
    match RemoveBySameWorldState cfg N bins st node with
    | .error _ => none
    | .ok (_, bins1, st1) =>
      match SameWorldStateNode cfg N bins st.nodes node with
      | some (some found) => runSet cfg N ops bins1 st1 (held.erase found)
      | _ => runSet cfg N ops bins1 st1 held

/-! ## Hash sets over small memories -/

/-- Nodes with null links: node `1` has the hash `5` and the world state `1`, every other node
the hash `27624` (which is `5 + 71 * 389`) and the world state `2`. -/
def collidingNodes : Mem := fun n =>
  if n = 1 then { (default : PlannerNode) with worldState := 1, worldStateHash := 5 }
  else { (default : PlannerNode) with worldState := 2, worldStateHash := 27624 }

/-- The calls that `BuildPlan` makes on its two sets (`openNodesSet` of 71 bins, `closedNodesSet`
of 389 bins) when the transitions `2` and `1` are opened and the node `1` is then popped and
closed: `openNodesSet.Add( 2 )`, `openNodesSet.Add( 1 )`, `closedNodesSet.Add( 1 )`; followed by
`closedNodesSet.ContainsSameWorldState( 3 )`. -/
def closedLookupAfterOpen (cfg : Planning) : Except Fatal Bool :=
  match Add cfg 71 (fun _ => none) collidingNodes 2 with
  | .error e => .error e
  | .ok (openBins1, m1) =>
    match Add cfg 71 openBins1 m1 1 with
    | .error e => .error e
    | .ok (_, m2) =>
      match Add cfg 389 (fun _ => none) m2 1 with
      | .error e => .error e
      | .ok (closedBins, m3) => ContainsSameWorldState cfg 389 closedBins m3 3

/-- Nodes with null links: node `1` has the hash `5` and the world state `2`, every other node
the hash `76` and the world state `1`; the `heapArrayIndex` of node `0` is `4`. -/
def setNodes : Mem := fun n =>
  if n = 1 then { (default : PlannerNode) with worldState := 2, worldStateHash := 5 }
  else if n = 0 then
    { (default : PlannerNode) with worldState := 1, worldStateHash := 76, heapArrayIndex := 4 }
  else { (default : PlannerNode) with worldState := 1, worldStateHash := 76 }

/-- A planner over `setNodes`, the items `0`, `1`, `2` of its pool in use. -/
def setPlanner : PlannerState :=
  { threeNodesPlanner with nodes := setNodes }

/-- The memory `setNodes` after `Add( 0 )` and `Add( 1 )` on a set of 71 bins: the bin `5` is the
chain of node `1` followed by node `0`. -/
def chainedNodes : Mem := fun n =>
  if n = 1 then
    { (default : PlannerNode) with worldState := 2, worldStateHash := 5, nextInHashBin := some 0 }
  else if n = 0 then
    { (default : PlannerNode) with
      worldState := 1, worldStateHash := 76, heapArrayIndex := 4, prevInHashBin := some 1 }
  else { (default : PlannerNode) with worldState := 1, worldStateHash := 76 }

/-- A planner over `chainedNodes`, the items `0`, `1`, `2` of its pool in use. -/
def chainedPlanner : PlannerState :=
  { threeNodesPlanner with nodes := chainedNodes }

/-- The bins of a set of 71 bins over `chainedNodes`: the bin `5` starts at node `1`. -/
def chainedBins : Bins := fun b => if b = 5 then some 1 else none

/-- The nodes of the bins of `chainedBins`. -/
def chainedChains : Nat → List Nat := fun b => if b = 5 then [1, 0] else []

/-! ## `AiPlanner`: the choice of the goal and of the plan -/

/-- The `FailWith` calls of `FindNewGoalAndPlan`, `UpdateGoalAndPlan` and `SetGoalAndPlan`, and
the other ways in which a call of them has no result. -/
inductive Failure where
  /-- `FindNewGoalAndPlan(): an active plan is present`. -/
  | activePlanPresent
  /-- `FindNewGoalAndPlan(): an active goal is present`. -/
  | activeGoalPresent
  /-- `UpdateGoalAndPlan(): there is no active plan`. -/
  | noActivePlan
  /-- `UpdateGoalAndPlan(): there is no active goal`. -/
  | noActiveGoal
  /-- `SetGoalAndPlan(): current plan is still present`. -/
  | planStillPresent
  /-- `SetGoalAndPlan(): active goal is still present`. -/
  | goalStillPresent
  /-- More relevant goals than the `StaticVector` of `MAX_PLANNER_GOALS` elements holds. -/
  | tooManyGoals
  /-- A call of `BuildPlan` ended in a fatal condition, or the loop of `DeletePlan` went through
  more records than there are. -/
  | planner (e : Fatal)
  deriving DecidableEq, Repr

/-- The calls that the planner makes on objects outside `Planner.cpp`, in the order in which it
makes them: the hooks `BeforePlanning` and `AfterPlanning`, and `Activate`, `Deactivate` and
`DeleteSelf` of an action record. -/
inductive PlanCall where
  | beforePlanning
  | afterPlanning
  | activate (record : Nat)
  | deactivate (record : Nat)
  | deleteSelf (record : Nat)
  deriving DecidableEq, Repr

/-- What a think frame is given from outside the functions embedded here. A goal is named by a
natural number (its address). `goals` are the goals in the order of the container `*goals`,
`maxPlannerGoals` is `Ai::MAX_PLANNER_GOALS`, `shouldSkipPlanning` is the result of
`ShouldSkipPlanning()`, `updateWeight goal` is the weight, a `float`, that `goal->UpdateWeight`
computes for the current world state, `isRelevant goal` is the result of `goal->IsRelevant()`
after it, `sort weight` is `std::sort` under `AiGoal::operator<` for goals of these weights, and
`buildPlan goal` is the call `BuildPlan( goal, currWorldState )` as a function of the state of
the planner: its result (`none` for a null plan head) and the state after it. -/
structure Thinking where
  goals : List Nat
  maxPlannerGoals : Nat
  shouldSkipPlanning : Bool
  updateWeight : Nat → ℚ
  isRelevant : Nat → Bool
  sort : (Nat → ℚ) → List Nat → List Nat
  buildPlan : Nat → PlannerState → Except Fatal (Option Nat × PlannerState)

/-- The members of `AiPlanner` that the choice of a goal reads and writes: the planner state of
`BuildPlan`, `planHead`, `activeGoal` (`none` for `nullptr`), the `weight` member of every goal,
and the calls made so far on objects outside `Planner.cpp`. -/
structure AiPlanner where
  st : PlannerState
  planHead : Option Nat
  activeGoal : Option Nat
  weight : Nat → ℚ
  calls : List PlanCall

/-- The loop `for( AiGoal *goal: *goals ) goal->UpdateWeight( currWorldState )`. -/
def updateWeights (env : Thinking) (weight : Nat → ℚ) : Nat → ℚ :=
  fun goal => if goal ∈ env.goals then env.updateWeight goal else weight goal

/-- The loop of `DeletePlan` from the record `currRecord` on, over at most `fuel` records. -/
def DeletePlanLoop (nextInPlan : Nat → Option Nat) :
    Nat → List PlanCall → Option Nat → Except Failure (List PlanCall)
  | _, calls, none => .ok calls
  | 0, _, some _ => .error (.planner .endless)
  | fuel + 1, calls, some currRecord =>
    DeletePlanLoop nextInPlan fuel (calls ++ [.deleteSelf currRecord]) (nextInPlan currRecord)

/-- The `AiPlanner::DeletePlan`; a plan has no more records than were created. -/
def DeletePlan (p : AiPlanner) (head : Option Nat) : Except Failure AiPlanner :=
  match DeletePlanLoop p.st.nextInPlan p.st.recordsCount p.calls head with
  | .error e => .error e
  | .ok calls => .ok { p with calls := calls }

/-- The `AiPlanner::SetGoalAndPlan`, for a goal and a plan head that are not null. -/
def SetGoalAndPlan (p : AiPlanner) (activeGoal_ planHead_ : Nat) : Except Failure AiPlanner :=
  if p.planHead.isSome then .error .planStillPresent
  else if p.activeGoal.isSome then .error .goalStillPresent
  else
    .ok { p with
      activeGoal := some activeGoal_, planHead := some planHead_,
      calls := p.calls ++ [.activate planHead_] }

/-- The `AiPlanner::ClearGoalAndPlan`. -/
def ClearGoalAndPlan (p : AiPlanner) : Except Failure AiPlanner :=
  let cleared : Except Failure AiPlanner :=
    match p.planHead with
    | some planHead =>
      DeletePlan { p with calls := p.calls ++ [.deactivate planHead] } (some planHead)
    | none => .ok p
  match cleared with
  | .error e => .error e
  | .ok p1 => .ok { p1 with planHead := none, activeGoal := none }

/-- The loops `for( const GoalRef &goalRef: relevantGoals )` that take the first goal for which
`BuildPlan` returns a plan, the goal `skipped` being passed over: the goal taken and its plan
head, and the state of the planner after the calls of `BuildPlan`. -/
def firstPlannedGoal (env : Thinking) (skipped : Option Nat) :
    List Nat → PlannerState → Except Fatal (Option (Nat × Nat) × PlannerState)
  | [], st => .ok (none, st)
  | goal :: rest, st =>
    if some goal = skipped then firstPlannedGoal env skipped rest st
    else
      match env.buildPlan goal st with
      | .error e => .error e
      | .ok (some newPlanHead, st1) => .ok (some (goal, newPlanHead), st1)
      | .ok (none, st1) => firstPlannedGoal env skipped rest st1

/-- The `KEEP_CURR_GOAL_WEIGHT_THRESHOLD` of `UpdateGoalAndPlan`, the `float` constant `0.3f`. -/
def KEEP_CURR_GOAL_WEIGHT_THRESHOLD : ℚ := Binary32.rounded (3 / 10)

/-- The last loop of `UpdateGoalAndPlan`, which stops at the first goal whose weight is below
the weight of the active goal plus `KEEP_CURR_GOAL_WEIGHT_THRESHOLD`, a sum of two `float`
values rounded to `float`. -/
def firstHeavierPlannedGoal (env : Thinking) (weight : Nat → ℚ) (activeGoal : Nat) :
    List Nat → PlannerState → Except Fatal (Option (Nat × Nat) × PlannerState)
  | [], st => .ok (none, st)
  | goal :: rest, st =>
    if weight goal < Binary32.rounded (weight activeGoal + KEEP_CURR_GOAL_WEIGHT_THRESHOLD) then
      .ok (none, st)
    else
      match env.buildPlan goal st with
      | .error e => .error e
      | .ok (some newPlanHead, st1) => .ok (some (goal, newPlanHead), st1)
      | .ok (none, st1) => firstHeavierPlannedGoal env weight activeGoal rest st1

/-- The `AiPlanner::FindNewGoalAndPlan`: its result and the planner after the call. -/
def FindNewGoalAndPlan (env : Thinking) (p : AiPlanner) : Except Failure (Bool × AiPlanner) :=
  if p.planHead.isSome then .error .activePlanPresent
  else if p.activeGoal.isSome then .error .activeGoalPresent
  else if env.shouldSkipPlanning then .ok (false, p)
  else
    let p1 : AiPlanner :=
      { p with calls := p.calls ++ [.beforePlanning], weight := updateWeights env p.weight }
    let relevantGoals := env.goals.filter env.isRelevant
    if relevantGoals.length > env.maxPlannerGoals then .error .tooManyGoals
    else if relevantGoals.isEmpty then
      .ok (false, { p1 with calls := p1.calls ++ [.afterPlanning] })
    else
      match firstPlannedGoal env none (env.sort p1.weight relevantGoals) p1.st with
      | .error e => .error (.planner e)
      | .ok (some (goal, newPlanHead), st1) =>
        match SetGoalAndPlan { p1 with st := st1 } goal newPlanHead with
        | .error e => .error e
        | .ok p2 => .ok (true, { p2 with calls := p2.calls ++ [.afterPlanning] })
      | .ok (none, st1) =>
        .ok (false, { p1 with st := st1, calls := p1.calls ++ [.afterPlanning] })

/-- The `AiPlanner::UpdateGoalAndPlan`: its result and the planner after the call. -/
def UpdateGoalAndPlan (env : Thinking) (p : AiPlanner) : Except Failure (Bool × AiPlanner) :=
  match p.planHead, p.activeGoal with
  | none, _ => .error .noActivePlan
  | some _, none => .error .noActiveGoal
  | some _, some activeGoal =>
    if env.shouldSkipPlanning then .ok (false, p)
    else
      let p1 : AiPlanner := { p with weight := updateWeights env p.weight }
      let relevantGoals := env.goals.filter env.isRelevant
      let activeRelevantGoal : Option Nat :=
        if activeGoal ∈ relevantGoals then some activeGoal else none
      if relevantGoals.length > env.maxPlannerGoals then .error .tooManyGoals
      else if relevantGoals.isEmpty then .ok (false, p1)
      else
        let sorted := env.sort p1.weight relevantGoals
        match activeRelevantGoal with
        | none =>
          match ClearGoalAndPlan p1 with
          | .error e => .error e
          | .ok p2 =>
            match firstPlannedGoal env none sorted p2.st with
            | .error e => .error (.planner e)
            | .ok (some (goal, newPlanHead), st1) =>
              match SetGoalAndPlan { p2 with st := st1 } goal newPlanHead with
              | .error e => .error e
              | .ok p3 => .ok (true, p3)
            | .ok (none, st1) => .ok (false, { p2 with st := st1 })
        | some activeRelevantGoal =>
          match env.buildPlan activeRelevantGoal p1.st with
          | .error e => .error (.planner e)
          | .ok (none, st1) =>
            match ClearGoalAndPlan { p1 with st := st1 } with
            | .error e => .error e
            | .ok p2 =>
              match firstPlannedGoal env (some activeRelevantGoal) sorted p2.st with
              | .error e => .error (.planner e)
              | .ok (some (goal, newPlanHead), st2) =>
                match SetGoalAndPlan { p2 with st := st2 } goal newPlanHead with
                | .error e => .error e
                | .ok p3 => .ok (true, p3)
              | .ok (none, st2) => .ok (false, { p2 with st := st2 })
          | .ok (some newActiveGoalPlan, st1) =>
            match firstHeavierPlannedGoal env p1.weight activeGoal sorted st1 with
            | .error e => .error (.planner e)
            | .ok (some (goal, newPlanHead), st2) =>
              match DeletePlan { p1 with st := st2 } (some newActiveGoalPlan) with
              | .error e => .error e
              | .ok p2 =>
                match ClearGoalAndPlan p2 with
                | .error e => .error e
                | .ok p3 =>
                  match SetGoalAndPlan p3 goal newPlanHead with
                  | .error e => .error e
                  | .ok p4 => .ok (true, p4)
            | .ok (none, st2) =>
              match ClearGoalAndPlan { p1 with st := st2 } with
              | .error e => .error e
              | .ok p2 =>
                match SetGoalAndPlan p2 activeRelevantGoal newActiveGoalPlan with
                | .error e => .error e
                | .ok p3 => .ok (true, p3)

/-! ## Notions used to state the properties of the choice of the goal -/

/-- The calls of `BuildPlan` on the goals of the list, one after the other from the state `st`
on, all return a null plan and leave the planner in the state `st1`. -/
def AllFail (env : Thinking) : List Nat → PlannerState → PlannerState → Prop
  | [], st, st1 => st1 = st
  | goal :: rest, st, st1 =>
    ∃ st0, env.buildPlan goal st = .ok (none, st0) ∧ AllFail env rest st0 st1

/-- The plan that starts at `head` ends: a null `nextInPlan` is reached after at most `fuel`
records. -/
def PlanEnds (nextInPlan : Nat → Option Nat) : Nat → Option Nat → Prop
  | _, none => True
  | 0, some _ => False
  | fuel + 1, some record => PlanEnds nextInPlan fuel (nextInPlan record)

/-- Every plan of the planner state ends after at most as many records as were created. -/
def PlansEnd (st : PlannerState) : Prop :=
  ∀ head, PlanEnds st.nextInPlan st.recordsCount head

/-- The `DeleteSelf` calls on the records of the plan that starts at `head`, in its order. -/
def deleteCalls (st : PlannerState) (head : Option Nat) : List PlanCall :=
  (planRecords st.nextInPlan st.recordsCount head).map PlanCall.deleteSelf

/-- What a call of `FindNewGoalAndPlan` or `UpdateGoalAndPlan` returned and left: its result,
the active goal, the head of the active plan, and the calls made on objects outside
`Planner.cpp`. -/
structure Outcome where
  result : Bool
  activeGoal : Option Nat
  planHead : Option Nat
  calls : List PlanCall
  deriving DecidableEq, Repr

/-- The outcome of a call that returned. -/
def outcomeOf : Except Failure (Bool × AiPlanner) → Option Outcome
  | .ok (result, p) =>
    some { result := result, activeGoal := p.activeGoal, planHead := p.planHead, calls := p.calls }
  | .error _ => none

/-! ## Small think frames -/

/-- Three goals `1`, `2`, `3` whose updated weights are `1/2`, `1` and `0`, the first two being
relevant; the goals are sorted by insertion, by descending weight; `BuildPlan` returns the plan
of head `10` for goal `1` and no plan for the other goals, and leaves the planner as it is. -/
def threeGoals : Thinking :=
  { goals := [1, 2, 3], maxPlannerGoals := 8, shouldSkipPlanning := false,
    updateWeight := fun goal => if goal = 1 then 1 / 2 else if goal = 2 then 1 else 0,
    isRelevant := fun goal => goal == 1 || goal == 2,
    sort := fun weight l => l.insertionSort (fun g h => weight g ≥ weight h),
    buildPlan := fun goal st => .ok (if goal = 1 then some 10 else none, st) }

/-- The think frame `threeGoals` in which `BuildPlan` returns the plan of head `20` for goal `2`
as well. -/
def heavierGoal : Thinking :=
  { threeGoals with
    buildPlan := fun goal st =>
      .ok (if goal = 1 then some 10 else if goal = 2 then some 20 else none, st) }

/-- The think frame `heavierGoal` with the weights `0.2f` for goal `1` and `0.5f` for goal
`2`. -/
def closeWeights : Thinking :=
  { heavierGoal with
    updateWeight := fun goal =>
      if goal = 1 then Binary32.rounded (1 / 5) else if goal = 2 then 1 / 2 else 0 }

/-- The think frame `threeGoals` in which no goal is relevant. -/
def noRelevantGoal : Thinking :=
  { threeGoals with isRelevant := fun _ => false }

/-- A planner with no active goal and no active plan, in which 30 records were created and every
`nextInPlan` is null. -/
def restingPlanner : AiPlanner :=
  { st := { freshPlanner (problem lineTransitions 2 0) with recordsCount := 30 },
    planHead := none, activeGoal := none, weight := fun _ => 0, calls := [] }

/-- The planner `restingPlanner` with the active goal `1` and the active plan of the single
record `7`. -/
def activePlanner : AiPlanner :=
  { restingPlanner with planHead := some 7, activeGoal := some 1 }

/-- The planner `restingPlanner` with the active goal `3` and the active plan of the single
record `7`. -/
def staleGoalPlanner : AiPlanner :=
  { restingPlanner with planHead := some 7, activeGoal := some 3 }

/-! ## Notions used to state the order of the heap -/

/-- The min-heap order of `n` costs: the cost at every slot but the root is at least the cost at
its parent slot. -/
def HeapOrder (f : Nat → Nat) (n : Nat) : Prop :=
  ∀ k, 0 < k → k < n → f ((k - 1) / 2) ≤ f k

/-- The min-heap order but for the slot `child` and its parent: as in the loop of `Push`. The
children of `child` are in order with its parent. -/
def OrderButAbove (f : Nat → Nat) (n child : Nat) : Prop :=
  (∀ k, 0 < k → k < n → k ≠ child → f ((k - 1) / 2) ≤ f k) ∧
    ∀ k, 0 < k → k < n → (k - 1) / 2 = child → 0 < child → f ((child - 1) / 2) ≤ f k

/-- The min-heap order but for the slot `hole` and its children: as in the loop of `BubbleDown`.
The children of `hole` are in order with its parent. -/
def OrderButBelow (f : Nat → Nat) (n hole : Nat) : Prop :=
  (∀ k, 0 < k → k < n → (k - 1) / 2 ≠ hole → f ((k - 1) / 2) ≤ f k) ∧
    ∀ k, 0 < k → k < n → (k - 1) / 2 = hole → 0 < hole → f ((hole - 1) / 2) ≤ f k

/-- The costs after the slots `i` and `j` are swapped. -/
def swapAt (f : Nat → Nat) (i j : Nat) : Nat → Nat :=
  fun k => if k = j then f i else if k = i then f j else f k

/-- The heap cost of the node at a slot of the array. -/
def costAt (m : Mem) (a : List Nat) : Nat → Nat := fun k => (m (slot a k)).heapCost

/-- The sequences of `Push` and `Pop` calls. -/
def pushPopOnly : List HeapOp → Bool
  | [] => true
  | HeapOp.remove _ :: _ => false
  | _ :: ops => pushPopOnly ops

/-- A think frame of the single goal `1`, relevant, whose plan is built by `BuildPlan` over the
transitions `lineTransitions` from the world state `0`, which satisfies the goal. -/
def satisfiedGoal : Thinking :=
  { goals := [1], maxPlannerGoals := 8, shouldSkipPlanning := false,
    updateWeight := fun _ => 1, isRelevant := fun _ => true,
    sort := fun weight l => l.insertionSort (fun g h => weight g ≥ weight h),
    buildPlan := fun _ st => BuildPlan (problem lineTransitions 0 0) 1 st 0 }

/-! ## The search loop of `BuildPlan` seen from inside an iteration -/

/-- The loop over the transitions of `currNode` after `k` of them were processed: the transition
that comes next and the state at that moment. -/
def processedTransitions (cfg : Planning) (currNode : Nat) :
    Nat → Search → Option Nat → Option (Option Nat × Search)
  | 0, s, transition => some (transition, s)
  | _ + 1, _, none => none
  | k + 1, s, some transition =>
    match processTransition cfg s currNode transition with
    | .error _ => none
    | .ok s1 => processedTransitions cfg currNode k s1 (s1.st.nodes transition).nextTransition

/-- The iteration of the search loop that starts in the state `s`, followed until `k` of the
transitions of the popped node were processed: the popped node, the transition that comes next
and the state at that moment. -/
def insideIteration (cfg : Planning) (s : Search) (k : Nat) : Option (Nat × Option Nat × Search) :=
  match heapPop cfg s.st.nodes s.heap with
  | .ok (some currNode, m, a) =>
    let s1 : Search := { s with st := { s.st with nodes := m }, heap := a }
    if cfg.satisfied (m currNode).worldState then none
    else
      match Add cfg 389 s1.closedBins m currNode with
      | .error _ => none
      | .ok (bins, m1) =>
        match GetWorldStateTransitions cfg { s1.st with nodes := m1 } (m1 currNode).worldState with
        | .error _ => none
        | .ok (firstTransition, st2) =>
          (processedTransitions cfg currNode k { s1 with st := st2, closedBins := bins }
            firstTransition).map fun r => (currNode, r)
  | _ => none

/-- A node stored in the heap: the node, its world state, its `costSoFar` and its parent. -/
structure StoredNode where
  node : Nat
  worldState : Nat
  costSoFar : Nat
  parent : Option Nat
  deriving DecidableEq, Repr

/-- The heap and the deleted records of a state of the search. -/
structure Stored where
  heap : List StoredNode
  deletedRecords : List Nat
  deriving DecidableEq, Repr

/-- The nodes stored in the heap, slot by slot, and the records deleted so far. -/
def storedNodes (s : Search) : Stored :=
  { heap := s.heap.map fun n =>
      { node := n, worldState := (s.st.nodes n).worldState, costSoFar := (s.st.nodes n).costSoFar,
        parent := (s.st.nodes n).parent }
    deletedRecords := s.st.deletedRecords }

/-- What the test `cost < transition->costSoFar && isInOpen` of a transition meets: the world
state of the transition, the new path cost, the node of this world state found in the open set,
the index that `RemoveBySameWorldState` returns for it, the array of the heap, and the node and
the world state at the slot of that index. -/
structure Removal where
  worldState : Nat
  cost : Nat
  found : Option Nat
  index : Option Nat
  heap : List Nat
  slotNode : Nat
  slotWorldState : Nat
  deriving DecidableEq, Repr

/-- The removal from the open set and the heap that the transition `transition` of `currNode`
leads to in the state `s`. -/
def removalOf (cfg : Planning) : Option (Nat × Option Nat × Search) → Option Removal
  | some (currNode, some transition, s) =>
    let index :=
      match RemoveBySameWorldState cfg 71 s.openBins s.st transition with
      | .ok (nodeHeapIndex, _, _) => some nodeHeapIndex
      | .error _ => none
    some
      { worldState := (s.st.nodes transition).worldState
        cost := (s.st.nodes currNode).costSoFar + (s.st.nodes transition).transitionCost
        found := (SameWorldStateNode cfg 71 s.openBins s.st.nodes transition).join
        index := index
        heap := s.heap
        slotNode := slot s.heap (index.getD 0)
        slotWorldState := (s.st.nodes (slot s.heap (index.getD 0))).worldState }
  | _ => none

/-- The world state `0` leads to `27690` (cost `2`) and to `28008` (cost `1`), and `27690` leads
back to `0` (cost `1`). The world states `0` and `27690` share a bin of the open set
(`27690 = 71 * 390`), `0` and `28008` a bin of the closed set (`28008 = 389 * 72`). -/
def returnTransitions : Nat → List (Nat × Nat) :=
  fun worldState =>
    if worldState = 0 then [(27690, 2), (28008, 1)] else if worldState = 27690 then [(0, 1)] else []

end Planner

/-! # `BotFleeToSpotAction::TryApply` of `source/game/ai/planning/FleeToSpotAction.cpp`

Coordinates, distances and the constants `GOAL_PICKUP_ACTION_RADIUS` and
`MAX_ROUNDING_SQUARE_DISTANCE_ERROR` are rational numbers; the travel time is an integer, as the
`int` of the source. -/

namespace FleeToSpot

open Planner

/-- A `Vec3`. -/
structure Vec3 where
  x : ℚ
  y : ℚ
  z : ℚ
  deriving DecidableEq

/-- The `operator-` of `Vec3`. -/
def Vec3.sub (a b : Vec3) : Vec3 := { x := a.x - b.x, y := a.y - b.y, z := a.z - b.z }

/-- The `Vec3::SquaredLength`. -/
def Vec3.SquaredLength (a : Vec3) : ℚ := a.x * a.x + a.y * a.y + a.z * a.z

/-- A `WorldState::OriginVar`: its value and its "ignore" mark. -/
structure OriginVar where
  value : Vec3
  ignore : Bool
  deriving DecidableEq

/-- The variables of a `WorldState` that `TryApply` names, the tactical spots that
`ResetTacticalSpots` resets (`none` once they are reset), and all its other variables taken
together. -/
structure WorldState where
  botOrigin : OriginVar
  navTargetOrigin : OriginVar
  tacticalSpots : Option Nat
  others : Nat
  deriving DecidableEq

/-- Modelled from the spec: `OriginVar::SetValue` (`WorldState.h`), which writes the value of the
variable. -/
def OriginVar.SetValue (v : OriginVar) (value : Vec3) : OriginVar := { v with value := value }

/-- Modelled from the spec: `WorldState::ResetTacticalSpots` (`WorldState.h`), after which the
tactical spots have to be computed again. -/
def WorldState.ResetTacticalSpots (worldState : WorldState) : WorldState :=
  { worldState with tacticalSpots := none }

/-- What `TryApply` asks of the bot and of the world state outside the file: the two constants,
`worldState.DistanceToNavTarget()`, `IsValid()` and `IsEmpty()` of the selected nav entity, the
origin of its nav entity, and `Self()->CheckTravelTimeMillis`. -/
structure Bot where
  goalPickupActionRadius : ℚ
  maxRoundingSquareDistanceError : ℚ
  distanceToNavTarget : WorldState → ℚ
  selectedNavEntityIsValid : Bool
  selectedNavEntityIsEmpty : Bool
  navEntityOrigin : Vec3
  checkTravelTimeMillis : Vec3 → Vec3 → Int

/-- The state that `TryApply` changes: the planner (its nodes pool and the action record of every
node), the world state and the transition cost of every node, the number of free items of the
pool of the records of the action, and the nav spot of every record. -/
structure ActionState where
  planner : PlannerState
  worldStates : Nat → WorldState
  transitionCosts : Nat → Int
  freeRecords : Nat
  navSpots : Nat → Vec3

/-- Modelled from the spec: `pool.New( Self(), navTargetOrigin )` on the pool of the records of
the action (`BaseAction.h`): a new record for the nav spot, `none` when the pool has no free
item. -/
def newRecord (s : ActionState) (navTargetOrigin : Vec3) : Option (Nat × ActionState) :=
  if s.freeRecords = 0 then none
  else
    some (s.planner.recordsCount,
      { s with
        freeRecords := s.freeRecords - 1,
        navSpots := Function.update s.navSpots s.planner.recordsCount navTargetOrigin,
        planner := { s.planner with recordsCount := s.planner.recordsCount + 1 } })

/-- The `BotFleeToSpotAction::TryApply`: the node it returns (`none` for `nullptr`) and the state
after the call. -/
def TryApply (cfg : Planning) (bot : Bot) (s : ActionState) (worldState : WorldState) :
    Except Fatal (Option Nat × ActionState) :=
  if worldState.navTargetOrigin.ignore then .ok (none, s)
  else if bot.distanceToNavTarget worldState ≤ bot.goalPickupActionRadius then .ok (none, s)
  else
    let navTargetOrigin := worldState.navTargetOrigin.value
    if bot.selectedNavEntityIsValid ∧ ¬ bot.selectedNavEntityIsEmpty ∧
        (bot.navEntityOrigin.sub navTargetOrigin).SquaredLength <
          bot.maxRoundingSquareDistanceError then .ok (none, s)
    else
      let travelTimeMillis := bot.checkTravelTimeMillis worldState.botOrigin.value navTargetOrigin
      let travelTimeMillis := if travelTimeMillis = 0 then 10 * 32767 else travelTimeMillis
      match newRecord s navTargetOrigin with
      | none => .ok (none, s)
      | some (record, s1) =>
        match NewNodeForRecord cfg s1.planner record with
        | .error e => .error e
        | .ok (none, st1) =>
          .ok (none, { s1 with planner := st1, freeRecords := s1.freeRecords + 1 })
        | .ok (some plannerNode, st1) =>
          let nodeWorldState := worldState
          let nodeWorldState :=
            { nodeWorldState with botOrigin := nodeWorldState.botOrigin.SetValue navTargetOrigin }
          let nodeWorldState := nodeWorldState.ResetTacticalSpots
          .ok (some plannerNode,
            { s1 with
              planner := st1,
              transitionCosts := Function.update s1.transitionCosts plannerNode travelTimeMillis,
              worldStates := Function.update s1.worldStates plannerNode nodeWorldState })

/-! ## A bot on its way to a spot -/

/-- A world state in which the bot is at the origin and the nav target at `(300, 0, 0)`. -/
def fleeing : WorldState :=
  { botOrigin := { value := ⟨0, 0, 0⟩, ignore := false },
    navTargetOrigin := { value := ⟨300, 0, 0⟩, ignore := false },
    tacticalSpots := some 5, others := 9 }

/-- A bot with a selected nav entity at `(0, 0, 64)`, a pickup radius of `72`, a rounding error
of `16`, that is `300` units away from its nav target and needs `1200` milliseconds to get
there. -/
def fleeingBot : Bot :=
  { goalPickupActionRadius := 72, maxRoundingSquareDistanceError := 16,
    distanceToNavTarget := fun _ => 300,
    selectedNavEntityIsValid := true, selectedNavEntityIsEmpty := false,
    navEntityOrigin := ⟨0, 0, 64⟩,
    checkTravelTimeMillis := fun _ _ => 1200 }

/-- A state in which the nodes pool of 16 items is as its constructor leaves it, every node has
the world state `fleeing`, and the pool of the records has 4 free items. -/
def freshAction : ActionState :=
  { planner := freshPlanner (problem lineTransitions 2 0),
    worldStates := fun _ => fleeing, transitionCosts := fun _ => 0, freeRecords := 4,
    navSpots := fun _ => ⟨0, 0, 0⟩ }

/-- The node, its world state and its cost, and the numbers of free records and of created
records after a call of `TryApply` that returned. -/
structure Applied where
  node : Option Nat
  worldState : Option WorldState
  cost : Option Int
  freeRecords : Nat
  recordsCount : Nat
  deriving DecidableEq

/-- What a call of `TryApply` returned and left. -/
def appliedOf : Except Fatal (Option Nat × ActionState) → Option Applied
  | .ok (node, s) =>
    some { node := node, worldState := node.map s.worldStates, cost := node.map s.transitionCosts,
           freeRecords := s.freeRecords, recordsCount := s.planner.recordsCount }
  | .error _ => none

end FleeToSpot

/-! # `GenericRunBunnyingAction` of `source/game/ai/movement/GenericBunnyingAction.cpp`

The checks of a prediction step. The `float` quantities are rational numbers, the `int` and
`unsigned` ones are integers; an area number, a floor cluster number or a reachability number is
an integer, `0` being "none". What a step reads from the prediction context, from the AAS world
and from the route cache is given by a record of observations. The `Assert` calls are not
modelled. -/

namespace Bunnying

/-- The members of the prediction context that the checks of a step write. -/
structure Context where
  cannotApplyAction : Bool
  isCompleted : Bool
  pendingRollback : Bool
  suggestedForNextFrame : Bool
  stopTruncatingStackAt : Option Int
  savepoint : Option Int
  deriving DecidableEq, Repr

/-- Modelled from the spec: `Context::SetPendingRollback` (`MovementPredictionContext.h`). -/
def Context.SetPendingRollback (c : Context) : Context := { c with pendingRollback := true }

/-- Modelled from the spec: `Context::SaveSuggestedActionForNextFrame( this )`
(`MovementPredictionContext.h`). -/
def Context.SaveSuggestedActionForNextFrame (c : Context) : Context :=
  { c with suggestedForNextFrame := true }

/-- Modelled from the spec: `Context::StopTruncatingStackAt` (`MovementPredictionContext.h`). -/
def Context.StopTruncatingStackAt (c : Context) (frameIndex : Int) : Context :=
  { c with stopTruncatingStackAt := some frameIndex }

/-- Modelled from the spec: `Context::MarkSavepoint` (`MovementPredictionContext.h`). -/
def Context.MarkSavepoint (c : Context) (frameIndex : Int) : Context :=
  { c with savepoint := some frameIndex }

/-- The members of `GenericRunBunnyingAction` that the checks of a step read and write. -/
structure Action where
  shouldTryObstacleAvoidance : Bool
  minDesiredSpeedGainPerSecond : ℚ
  currentSpeedLossSequentialMillis : Int
  tolerableSpeedLossSequentialMillis : Int
  currentUnreachableTargetSequentialMillis : Int
  tolerableUnreachableTargetSequentialMillis : Int
  tolerableWalkableIncreasedTravelTimeMillis : Int
  hasEnteredNavTargetArea : Bool
  hasTouchedNavTarget : Bool
  minTravelTimeToNavTargetSoFar : Int
  minTravelTimeAreaNumSoFar : Int
  travelTimeAtSequenceStart : Int
  reachAtSequenceStart : Int
  groundedAreaAtSequenceStart : Int
  originAtSequenceStart : ℚ × ℚ × ℚ
  checkStopAtAreaNums : List Int
  mayStopAtAreaNum : Int
  mayStopAtStackFrame : Int
  mayStopAtTravelTime : Int
  mayStopAtOrigin : ℚ × ℚ × ℚ
  deriving DecidableEq, Repr

/-- What a call of `CheckPredictionStepResults` reads outside the action. `baseCheck` is the
effect of `BaseMovementAction::CheckPredictionStepResults` on the context; `skimming` is
`newPMove.skim_time && newPMove.skim_time != oldPMove.skim_time`; `velocityDirsDot` is the dot
product of the 2D directions of the old and the new velocity, `velocityToTargetDot` that of the
direction of the velocity and the direction to the nav target, `velocityToReachDot` that of the
2D direction of the velocity and the 2D direction of the reachability at sequence start;
`verticalVelocityRatio` is `Velocity()[2] / Speed()`; `startAreaSquareDiagonal` and
`squareDistanceToReachStart` are the two `Distance2DSquared` values; `floorClusterNum` is
`AiAasWorld::FloorClusterNum`; `routingStartAreas` are the areas that `PrepareRoutingStartAreas`
writes; `travelTimeToGoalArea` is `RouteCache()->TravelTimeToGoalArea` under the ground movement
travel flags; `traceFraction` is the fraction of the `SolidWorldTrace` from the origin to
`mayStopAtOrigin`. The other fields have the names of the calls they answer. -/
structure Observations where
  baseCheck : Context → Context
  skimming : Bool
  sequenceDuration : Int
  squareDistance2DFromStart : ℚ
  oldSquare2DSpeed : ℚ
  newSquare2DSpeed : ℚ
  velocityDirsDot : ℚ
  oldSpeed : ℚ
  newSpeed : ℚ
  newSpeed2D : ℚ
  predictionStepMillis : Int
  runSpeed : ℚ
  dashSpeed : ℚ
  isInNavTargetArea : Bool
  hasTouchedNavEntityThisFrame : Bool
  navTargetAasAreaNum : Int
  topOfStackIndex : Int
  velocityToTargetDot : ℚ
  travelTimeToNavTarget : Int
  origin : ℚ × ℚ × ℚ
  squareDistanceFromStart : ℚ
  currGroundedAasAreaNum : Int
  currAasAreaNum : Int
  startAreaSquareDiagonal : ℚ
  squareDistanceToReachStart : ℚ
  velocityToReachDot : ℚ
  verticalVelocityRatio : ℚ
  groundEntity : Bool
  hasJumped : Bool
  floorClusterNum : Int → Int
  routingStartAreas : List Int
  travelTimeToGoalArea : Int → Int → Int
  checkForPrematureCompletionInFloorCluster : Bool
  areaNoFall : Bool
  genericCheckForPrematureCompletion : Bool
  isAreaWalkableInFloorCluster : Bool
  traceFraction : ℚ
  maxPredictedStates : Int

/-- A check either ends the call of `CheckPredictionStepResults` (a `return`) or lets it go on
with the next check. -/
inductive Flow where
  | returned (a : Action) (c : Context)
  | goesOn (a : Action) (c : Context)
  deriving DecidableEq

/-- The value of an `int` expression computed in `unsigned` and cast back to `int`. -/
def toInt32 (x : Int) : Int := (x + 2147483648) % 4294967296 - 2147483648

/-- The `GenericRunBunnyingAction::CheckStepSpeedGainOrLoss`: its result and the action after
the call. -/
def CheckStepSpeedGainOrLoss (a : Action) (o : Observations) : Bool × Action :=
  if o.oldSquare2DSpeed > 100 * 100 ∧ o.newSquare2DSpeed > 1 * 1 ∧ o.velocityDirsDot < 3 / 10 then
    (false, a)
  else if o.newSquare2DSpeed < 50 * 50 ∧ o.oldSquare2DSpeed > 100 * 100 then
    (false, { a with shouldTryObstacleAvoidance := true })
  else
    let actualSpeedGainPerSecond :=
      (o.newSpeed - o.oldSpeed) / ((1 / 1000) * (o.predictionStepMillis : ℚ))
    if actualSpeedGainPerSecond ≥ a.minDesiredSpeedGainPerSecond ∨ o.isInNavTargetArea then
      (true, { a with currentSpeedLossSequentialMillis := 0 })
    else
      let a1 : Action :=
        { a with
          currentSpeedLossSequentialMillis :=
            a.currentSpeedLossSequentialMillis + o.predictionStepMillis }
      if a1.tolerableSpeedLossSequentialMillis < a1.currentSpeedLossSequentialMillis ∧
          o.newSpeed2D < (1 / 2) * (o.runSpeed + o.dashSpeed) then
        (false, { a1 with shouldTryObstacleAvoidance := true })
      else (true, a1)

/-- The `GenericRunBunnyingAction::MarkForTruncation`. -/
def MarkForTruncation (a : Action) (o : Observations) : Action :=
  { a with
    mayStopAtAreaNum := o.currGroundedAasAreaNum,
    mayStopAtTravelTime := o.travelTimeToNavTarget,
    mayStopAtStackFrame := o.topOfStackIndex,
    mayStopAtOrigin := o.origin }

/-- The start of `CheckPredictionStepResults`: the check of the base class, the test made while
skimming, and `CheckStepSpeedGainOrLoss` (lines 401-429). -/
def speedChecks (a : Action) (c : Context) (o : Observations) : Flow :=
  let c := o.baseCheck c
  if c.cannotApplyAction ∨ c.isCompleted then .returned a c
  else if o.skimming then
    if o.sequenceDuration > 400 ∧ o.squareDistance2DFromStart < 128 * 128 then
      .returned a c.SetPendingRollback
    else .returned a c.SaveSuggestedActionForNextFrame
  else
    let r := CheckStepSpeedGainOrLoss a o
    if ¬ r.1 then .returned r.2 c.SetPendingRollback
    else .goesOn r.2 c

/-- The body of `if( HasTouchedNavEntityThisFrame( context ) )` (lines 437-445). -/
def touchNavTarget (a : Action) (o : Observations) : Action :=
  if a.mayStopAtAreaNum = 0 then
    { a with
      hasTouchedNavTarget := true,
      mayStopAtAreaNum := o.navTargetAasAreaNum,
      mayStopAtStackFrame := o.topOfStackIndex,
      mayStopAtTravelTime := 1 }
  else { a with hasTouchedNavTarget := true }

/-- The checks of the nav target area (lines 434-468); when the nav entity is touched in this
frame, `hasTouchedNavTarget` is true and the test of the direction to the target is skipped. -/
def navTargetAreaCheck (a : Action) (c : Context) (o : Observations) : Flow :=
  if o.isInNavTargetArea then
    if o.hasTouchedNavEntityThisFrame then
      .goesOn (touchNavTarget { a with hasEnteredNavTargetArea := true } o) c
    else if ¬ a.hasTouchedNavTarget ∧ o.velocityToTargetDot < 7 / 10 then
      .returned { a with hasEnteredNavTargetArea := true } c.SetPendingRollback
    else .goesOn { a with hasEnteredNavTargetArea := true } c
  else if a.hasEnteredNavTargetArea ∧ ¬ a.hasTouchedNavTarget then
    .returned a c.SetPendingRollback
  else .goesOn a c

/-- The check of an undefined travel time to the nav target (lines 470-485). -/
def undefinedTravelTimeCheck (a : Action) (c : Context) (o : Observations) : Flow :=
  if o.travelTimeToNavTarget = 0 then
    if a.currentUnreachableTargetSequentialMillis + o.predictionStepMillis >
        a.tolerableUnreachableTargetSequentialMillis then
      .returned
        { a with
          currentUnreachableTargetSequentialMillis :=
            a.currentUnreachableTargetSequentialMillis + o.predictionStepMillis }
        c.SetPendingRollback
    else
      .returned
        { a with
          currentUnreachableTargetSequentialMillis :=
            a.currentUnreachableTargetSequentialMillis + o.predictionStepMillis }
        c.SaveSuggestedActionForNextFrame
  else .goesOn { a with currentUnreachableTargetSequentialMillis := 0 } c

/-- A check followed by another one, when the first lets the call go on. -/
def Flow.andThen (f : Flow) (next : Action → Context → Flow) : Flow :=
  match f with
  | .returned a c => .returned a c
  | .goesOn a c => next a c

/-- The value of `trySet` (lines 499-528). -/
def trySet (a : Action) (o : Observations) : Bool :=
  if o.currGroundedAasAreaNum ≠ 0 ∧ a.travelTimeAtSequenceStart ≠ 0 then
    if a.travelTimeAtSequenceStart > 1 + o.travelTimeToNavTarget then
      decide (o.squareDistanceFromStart > 72 * 72)
    else if a.travelTimeAtSequenceStart = o.travelTimeToNavTarget then
      decide (o.squareDistanceFromStart > 96 * 96 ∧ o.startAreaSquareDiagonal > 108 * 108 ∧
        o.squareDistanceToReachStart > 48 * 48 ∧ o.velocityToReachDot > 9 / 10)
    else false
  else false

/-- The value of `walkable` at the end of lines 547-570: the area of the lowest travel time and
the grounded area are in the same floor cluster, or the area of the lowest travel time is a
short walk away from one of the routing start areas. -/
def walkable (a : Action) (o : Observations) : Bool :=
  (o.floorClusterNum a.minTravelTimeAreaNumSoFar ≠ 0 ∧
    o.floorClusterNum a.minTravelTimeAreaNumSoFar = o.floorClusterNum o.currGroundedAasAreaNum) ∨
  o.routingStartAreas.any fun areaNum =>
    decide (o.travelTimeToGoalArea areaNum a.minTravelTimeAreaNumSoFar ≠ 0 ∧
      o.travelTimeToGoalArea areaNum a.minTravelTimeAreaNumSoFar * 10 <
        a.tolerableWalkableIncreasedTravelTimeMillis)

/-- Whether the `else` branch of the comparison of the travel times (lines 539-580) sets a
pending rollback. -/
def increasedTravelTimeRollback (a : Action) (o : Observations) : Bool :=
  if o.travelTimeToNavTarget >
      toInt32 (a.minTravelTimeToNavTargetSoFar + a.tolerableWalkableIncreasedTravelTimeMillis) then
    true
  else if o.currGroundedAasAreaNum ≠ 0 ∧ a.minTravelTimeAreaNumSoFar ≠ 0 then !walkable a o
  else false

/-- The comparison of the travel time of the step with the lowest one so far (lines 493-580). -/
def travelTimeCheck (a : Action) (c : Context) (o : Observations) : Flow :=
  if o.travelTimeToNavTarget ≤ a.minTravelTimeToNavTargetSoFar then
    if a.mayStopAtAreaNum = 0 ∧ trySet a o ∧
        (o.verticalVelocityRatio < -(1 / 10) ∨ o.groundEntity ∨ o.hasJumped) then
      .goesOn
        (MarkForTruncation
          { a with
            minTravelTimeToNavTargetSoFar := o.travelTimeToNavTarget,
            minTravelTimeAreaNumSoFar := o.currAasAreaNum } o) c
    else
      .goesOn
        { a with
          minTravelTimeToNavTargetSoFar := o.travelTimeToNavTarget,
          minTravelTimeAreaNumSoFar := o.currAasAreaNum } c
  else if increasedTravelTimeRollback a o then .returned a c.SetPendingRollback
  else .goesOn a c

/-- The check of the distance covered since the start of the sequence (lines 582-592). -/
def stuckCheck (a : Action) (c : Context) (o : Observations) : Flow :=
  if o.squareDistanceFromStart < 64 * 64 then
    if o.sequenceDuration < 384 then .returned a c.SaveSuggestedActionForNextFrame
    else .returned a c.SetPendingRollback
  else .goesOn a c

/-- The checks made at a "pivot" area of the sequence (lines 594-630). -/
def pivotAreaCheck (a : Action) (c : Context) (o : Observations) : Flow :=
  if o.currGroundedAasAreaNum ≠ 0 ∧ o.currGroundedAasAreaNum ∈ a.checkStopAtAreaNums then
    if o.groundEntity ∨ o.hasJumped then .returned a { c with isCompleted := true }
    else if o.floorClusterNum o.currGroundedAasAreaNum ≠ 0 ∧
        o.checkForPrematureCompletionInFloorCluster then
      .returned a { c with isCompleted := true }
    else if o.floorClusterNum o.currGroundedAasAreaNum = 0 ∧ o.areaNoFall ∧
        o.genericCheckForPrematureCompletion then
      .returned a { c with isCompleted := true }
    else if a.mayStopAtAreaNum = 0 then
      .goesOn
        { a with
          mayStopAtAreaNum := o.currGroundedAasAreaNum,
          mayStopAtStackFrame := o.topOfStackIndex,
          mayStopAtTravelTime := o.travelTimeToNavTarget } c
    else .goesOn a c
  else .goesOn a c

/-- The end of `CheckPredictionStepResults` (lines 632-704). -/
def landingChecks (a : Action) (c : Context) (o : Observations) : Action × Context :=
  if ¬ o.groundEntity ∧ ¬ o.hasJumped then (a, c.SaveSuggestedActionForNextFrame)
  else if a.travelTimeAtSequenceStart ≠ 0 ∧
      a.travelTimeAtSequenceStart > o.travelTimeToNavTarget ∧
      o.travelTimeToNavTarget = a.minTravelTimeToNavTargetSoFar then
    if o.hasJumped ∧ o.topOfStackIndex ≠ 0 then (a, c.StopTruncatingStackAt (o.topOfStackIndex - 1))
    else (a, { c with isCompleted := true })
  else if a.mayStopAtAreaNum = 0 then
    if o.squareDistanceFromStart > 192 * 192 ∨
        o.topOfStackIndex > (7 * o.maxPredictedStates) / 8 then
      if a.minTravelTimeToNavTargetSoFar ≠ 0 ∧
          o.travelTimeToNavTarget < a.minTravelTimeToNavTargetSoFar + 25 ∧
          a.travelTimeAtSequenceStart ≠ 0 ∧
          o.travelTimeToNavTarget + 75 < a.travelTimeAtSequenceStart ∧
          o.floorClusterNum o.currGroundedAasAreaNum ≠ 0 then
        (a, { c with isCompleted := true })
      else (a, c.SetPendingRollback)
    else (a, c.SaveSuggestedActionForNextFrame)
  else if o.floorClusterNum a.mayStopAtAreaNum ≠ 0 ∧
      o.floorClusterNum a.mayStopAtAreaNum = o.floorClusterNum o.currGroundedAasAreaNum ∧
      o.isAreaWalkableInFloorCluster then
    (a, c.StopTruncatingStackAt a.mayStopAtStackFrame)
  else if o.traceFraction ≠ 1 then (a, c.SaveSuggestedActionForNextFrame)
  else (a, c.StopTruncatingStackAt a.mayStopAtStackFrame)

/-- The checks of `CheckPredictionStepResults` that come before the check of the distance
covered since the start of the sequence (lines 401-580). -/
def earlierChecks (a : Action) (c : Context) (o : Observations) : Flow :=
  (((speedChecks a c o).andThen fun a c => navTargetAreaCheck a c o).andThen
    fun a c => undefinedTravelTimeCheck a c o).andThen fun a c => travelTimeCheck a c o

/-- The `GenericRunBunnyingAction::CheckPredictionStepResults`: the action and the context after
the call. -/
def CheckPredictionStepResults (a : Action) (c : Context) (o : Observations) : Action × Context :=
  match ((earlierChecks a c o).andThen fun a c => stuckCheck a c o).andThen
      fun a c => pivotAreaCheck a c o with
  | .returned a c => (a, c)
  | .goesOn a c => landingChecks a c o

/-- What `OnApplicationSequenceStarted` reads outside the action. -/
structure StartObservations where
  topOfStackIndex : Int
  currGroundedAasAreaNum : Int
  navTargetAasAreaNum : Int
  travelTimeToNavTarget : Int
  nextReachNum : Int
  origin : ℚ × ℚ × ℚ

/-- The `GenericRunBunnyingAction::OnApplicationSequenceStarted` (the members of the base class
apart). -/
def OnApplicationSequenceStarted (a : Action) (c : Context) (o : StartObservations) :
    Action × Context :=
  let c := c.MarkSavepoint o.topOfStackIndex
  let a : Action :=
    { a with
      minTravelTimeToNavTargetSoFar := 2147483647, minTravelTimeAreaNumSoFar := 0,
      checkStopAtAreaNums := [], mayStopAtAreaNum := 0, mayStopAtStackFrame := -1,
      mayStopAtTravelTime := 0, travelTimeAtSequenceStart := 0, reachAtSequenceStart := 0,
      groundedAreaAtSequenceStart := o.currGroundedAasAreaNum }
  let a : Action :=
    if o.navTargetAasAreaNum ≠ 0 ∧ o.travelTimeToNavTarget ≠ 0 then
      { a with
        minTravelTimeToNavTargetSoFar := o.travelTimeToNavTarget,
        travelTimeAtSequenceStart := o.travelTimeToNavTarget,
        reachAtSequenceStart := o.nextReachNum }
    else a
  ({ a with
      originAtSequenceStart := o.origin, currentSpeedLossSequentialMillis := 0,
      currentUnreachableTargetSequentialMillis := 0, hasEnteredNavTargetArea := false,
      hasTouchedNavTarget := false }, c)

/-- The action after the checks of the steps of a sequence, each step with the context it is
checked in. -/
def checkedSteps (a : Action) : List (Context × Observations) → Action
  | [] => a
  | (c, o) :: rest => checkedSteps (CheckPredictionStepResults a c o).1 rest

/-- The action that a check leaves. -/
def Flow.action : Flow → Action
  | .returned a _ => a
  | .goesOn a _ => a

/-- A check keeps a stop candidate that is set; when it sets one, the travel time of the
candidate is `1` or `travelTime`. -/
def KeepsStop (travelTime : Int) (a a1 : Action) : Prop :=
  (a.mayStopAtAreaNum ≠ 0 →
    a1.mayStopAtAreaNum = a.mayStopAtAreaNum ∧ a1.mayStopAtStackFrame = a.mayStopAtStackFrame ∧
      a1.mayStopAtTravelTime = a.mayStopAtTravelTime) ∧
  ((a1.mayStopAtAreaNum = a.mayStopAtAreaNum ∧ a1.mayStopAtStackFrame = a.mayStopAtStackFrame ∧
      a1.mayStopAtTravelTime = a.mayStopAtTravelTime) ∨
    a1.mayStopAtTravelTime = 1 ∨ a1.mayStopAtTravelTime = travelTime)

/-- The two actions have the same stop candidate: the same `mayStopAtAreaNum`,
`mayStopAtStackFrame` and `mayStopAtTravelTime`. -/
def SameStop (a a1 : Action) : Prop :=
  a1.mayStopAtAreaNum = a.mayStopAtAreaNum ∧ a1.mayStopAtStackFrame = a.mayStopAtStackFrame ∧
    a1.mayStopAtTravelTime = a.mayStopAtTravelTime

/-! ## Steps of a sequence -/

/-- An action between two sequences: no stop candidate, a tolerable increase of the travel time
of `50`. -/
def idleAction : Action :=
  { shouldTryObstacleAvoidance := false, minDesiredSpeedGainPerSecond := 0,
    currentSpeedLossSequentialMillis := 0, tolerableSpeedLossSequentialMillis := 250,
    currentUnreachableTargetSequentialMillis := 0,
    tolerableUnreachableTargetSequentialMillis := 700,
    tolerableWalkableIncreasedTravelTimeMillis := 50,
    hasEnteredNavTargetArea := false, hasTouchedNavTarget := false,
    minTravelTimeToNavTargetSoFar := 0, minTravelTimeAreaNumSoFar := 0,
    travelTimeAtSequenceStart := 0, reachAtSequenceStart := 0, groundedAreaAtSequenceStart := 0,
    originAtSequenceStart := (0, 0, 0), checkStopAtAreaNums := [], mayStopAtAreaNum := 0,
    mayStopAtStackFrame := 0, mayStopAtTravelTime := 0, mayStopAtOrigin := (0, 0, 0) }

/-- A context in which nothing is set. -/
def freshContext : Context :=
  { cannotApplyAction := false, isCompleted := false, pendingRollback := false,
    suggestedForNextFrame := false, stopTruncatingStackAt := none, savepoint := none }

/-- The start of a sequence in the area `4`, at a travel time of `200` to the nav target. -/
def sequenceStart : StartObservations :=
  { topOfStackIndex := 0, currGroundedAasAreaNum := 4, navTargetAasAreaNum := 9,
    travelTimeToNavTarget := 200, nextReachNum := 3, origin := (0, 0, 0) }

/-- The action after `OnApplicationSequenceStarted` at `sequenceStart`. -/
def startedAction : Action :=
  (OnApplicationSequenceStarted idleAction freshContext sequenceStart).1

/-- A step in the air, falling, at full speed, `100` units away from the start of the sequence,
above the area `5`, at a travel time of `100` to the nav target; all areas are in the floor
cluster `3`. -/
def fallingStep : Observations :=
  { baseCheck := fun c => c, skimming := false, sequenceDuration := 100,
    squareDistance2DFromStart := 10000, oldSquare2DSpeed := 160000, newSquare2DSpeed := 160000,
    velocityDirsDot := 1, oldSpeed := 400, newSpeed := 400, newSpeed2D := 400,
    predictionStepMillis := 16, runSpeed := 320, dashSpeed := 450, isInNavTargetArea := false,
    hasTouchedNavEntityThisFrame := false, navTargetAasAreaNum := 9, topOfStackIndex := 1,
    velocityToTargetDot := 1, travelTimeToNavTarget := 100, origin := (100, 0, 0),
    squareDistanceFromStart := 10000, currGroundedAasAreaNum := 5, currAasAreaNum := 5,
    startAreaSquareDiagonal := 0, squareDistanceToReachStart := 0, velocityToReachDot := 0,
    verticalVelocityRatio := -(1 / 2), groundEntity := false, hasJumped := false,
    floorClusterNum := fun _ => 3, routingStartAreas := [5],
    travelTimeToGoalArea := fun _ _ => 0, checkForPrematureCompletionInFloorCluster := false,
    areaNoFall := false, genericCheckForPrematureCompletion := false,
    isAreaWalkableInFloorCluster := true, traceFraction := 1, maxPredictedStates := 48 }

/-- The step after `fallingStep`: above the area `6`, at a travel time of `50`. -/
def lowerStep : Observations :=
  { fallingStep with
    travelTimeToNavTarget := 50, topOfStackIndex := 2, currGroundedAasAreaNum := 6,
    currAasAreaNum := 6, origin := (200, 0, 0), squareDistanceFromStart := 40000 }

/-- A step that bounces back: the squared 2D speed falls from `160 * 160` to `4` and the velocity
turns round. -/
def bouncingStep : Observations :=
  { fallingStep with oldSquare2DSpeed := 25600, newSquare2DSpeed := 4, velocityDirsDot := -1 }

/-- A step that stops at a wall: the squared 2D speed falls from `160 * 160` to `1 / 4`. -/
def bumpingStep : Observations :=
  { fallingStep with oldSquare2DSpeed := 25600, newSquare2DSpeed := 1 / 4 }

/-- The step after `fallingStep` at a travel time of `151`, above the area `6` of the same floor
cluster as the area `5`. -/
def regressedStep : Observations :=
  { lowerStep with travelTimeToNavTarget := 151 }

/-- The step after `fallingStep` at a travel time of `120`, above the area `6`. -/
def slightlyRegressedStep : Observations :=
  { lowerStep with travelTimeToNavTarget := 120 }

/-- A step `32` units away from the start of the sequence, `100` milliseconds after it. -/
def shortStep : Observations :=
  { fallingStep with squareDistanceFromStart := 1024 }

end Bunnying

/-! # `BunnyStraighteningReachChainAction`

The choice of the areas of the next reach chain that the bot may look at. Scores are `float`
values, as rational numbers. -/

namespace Straightening

/-- The travel types that `SaveSuggestedLookDirs` tells apart. -/
inductive TravelType where
  | walk
  | walkOffLedge
  | teleport
  | jumppad
  | elevator
  | other
  deriving DecidableEq, Repr

/-- What the two functions read at one index of the next reach chain: the travel type and the
area of the reachability, the stairs cluster of the area (`0` for none), the flags of the area,
the squared distance from the bot to the point of the area, whether the hazard has an impact on
that point, and the result of `TraceArcInSolidWorld` to that point. -/
structure Reach where
  traveltype : TravelType
  areanum : Nat
  stairsClusterNum : Nat
  doNotEnter : Bool
  grounded : Bool
  disabled : Bool
  squareDistanceToArea : ℚ
  hasImpactOnPoint : Bool
  traceArcInSolidWorld : Bool
  deriving DecidableEq, Repr

instance : Inhabited Reach :=
  ⟨{ traveltype := .other, areanum := 0, stairsClusterNum := 0, doNotEnter := false,
     grounded := false, disabled := false, squareDistanceToArea := 0, hasImpactOnPoint := false,
     traceArcInSolidWorld := false }⟩

/-- Modelled from the spec: `AreaAndScore` (`MovementLocal.h`), an area number with its score. -/
structure AreaAndScore where
  areaNum : Nat
  score : ℚ
  deriving DecidableEq, Repr

/-- Modelled from the spec: `DirAndArea`, a look direction with the area it leads to. -/
structure DirAndArea where
  dir : ℚ × ℚ × ℚ
  area : Nat
  deriving DecidableEq, Repr

/-- What a call is given from outside the two functions embedded here: the context of the
prediction, the bot, the AAS world, and the members of the action. `less` is the `operator<` of
`AreaAndScore` that `std::push_heap` and `std::pop_heap` use, `MAX_TESTED_REACH` is
`Ai::ReachChainVector::capacity()`, `tryFindBestStairsExitArea` is `TryFindBestStairsExitArea`
for a stairs cluster, `areaFloorClusterNums` is `aasAreaFloorClusterNums`,
`isAreaWalkableInFloorCluster area` is `IsAreaWalkableInFloorCluster( currAreaNum, area )`,
`travelTimeWalkingOrFallingShort area` is
`TravelTimeWalkingOrFallingShort( routeCache, area, groundedAreaNum )`, `saveCandidateAreaDirs`
is `SaveCandidateAreaDirs` as a function of `suggestedLookDirs` and of the range of candidates,
and `toTriggerDir` is the normalized direction from the bot to the start of `reachStoppedAt`. -/
structure Setting where
  isInNavTargetArea : Bool
  nextReachChain : List Reach
  navTargetAasAreaNum : Nat
  currGroundedAasAreaNum : Nat
  shouldRushHeadless : Bool
  primaryHazard : Bool
  supportsImpactTests : Bool
  maxSuggestedLookDirs : Nat
  MAX_TESTED_REACH : Nat
  less : AreaAndScore → AreaAndScore → Bool
  tryFindBestStairsExitArea : Nat → Option Nat
  areaFloorClusterNums : Nat → Nat
  isAreaWalkableInFloorCluster : Nat → Bool
  travelTimeWalkingOrFallingShort : Nat → Bool
  saveCandidateAreaDirs : List DirAndArea → List AreaAndScore → List DirAndArea
  toTriggerDir : ℚ × ℚ × ℚ

/-- The score `0.1f + 0.9f * ( (float)( i + 1 ) / (float)( lastValidReachIndex + 1 ) )`: the
constants, the two conversions and the three operations are rounded to `float`. -/
def chainScore (lastValidReachIndex i : Nat) : ℚ :=
  Binary32.rounded (Binary32.rounded (1 / 10) +
    Binary32.rounded (Binary32.rounded (9 / 10) *
      Binary32.rounded (Binary32.rounded ((i : ℚ) + 1) /
        Binary32.rounded ((lastValidReachIndex : ℚ) + 1))))

/-- The score `0.1 + 0.9 * (i + 1) / (lastValidReachIndex + 1)` in exact arithmetic. -/
def exactScore (lastValidReachIndex i : Nat) : ℚ :=
  1 / 10 + 9 / 10 * (((i : ℚ) + 1) / ((lastValidReachIndex : ℚ) + 1))

/-- The element that `std::pop_heap` moves to the end of the range: one that is less than no
other element by `less`; of several such elements the first of the list is taken here. -/
def greatest (less : AreaAndScore → AreaAndScore → Bool) : List AreaAndScore → Option AreaAndScore
  | [] => none
  | c :: rest =>
    match greatest less rest with
    | none => some c
    | some b => if less c b then some b else some c

/-- The calls `std::pop_heap( candidatesBegin, candidatesPtr ); candidatesPtr--`: the range
without its greatest element. The order of the elements in the range is not modelled. -/
def popHeap (less : AreaAndScore → AreaAndScore → Bool) (cs : List AreaAndScore) :
    List AreaAndScore :=
  match greatest less cs with
  | none => cs
  | some b => cs.erase b

/-- The local variables of the loop of `SelectCandidateAreas`: the range of the candidates and
`metStairsClusterNum`. -/
structure Selection where
  candidates : List AreaAndScore
  metStairsClusterNum : Nat
  deriving DecidableEq, Repr

/-- The `hazardToEvade` of `SelectCandidateAreas` is set: the bot has a primary hazard that
supports impact tests, and should not rush headless. -/
def hazardToEvade (env : Setting) : Bool :=
  if env.shouldRushHeadless || (env.primaryHazard && !env.supportsImpactTests) then false
  else env.primaryHazard

/-- The `floorClusterNum` of `SelectCandidateAreas`. -/
def floorClusterNum (env : Setting) : Nat :=
  if env.currGroundedAasAreaNum ≠ 0 then env.areaFloorClusterNums env.currGroundedAasAreaNum
  else 0

/-- The test of the stairs cluster at the head of the body of the loop: `none` after its
`continue`, else the area to test further and `metStairsClusterNum`. -/
def stairsArea (env : Setting) (metStairsClusterNum : Nat) (reach : Reach) : Option (Nat × Nat) :=
  if reach.stairsClusterNum ≠ 0 then
    if metStairsClusterNum = 0 then
      match env.tryFindBestStairsExitArea reach.stairsClusterNum with
      | some exitAreaNum => some (exitAreaNum, reach.stairsClusterNum)
      | none => some (reach.areanum, reach.stairsClusterNum)
    else none
  else some (reach.areanum, metStairsClusterNum)

/-- The tests of the body of the loop that precede the score: whether one of them ends the
iteration by `continue`. -/
def skipsArea (env : Setting) (reach : Reach) : Bool :=
  if reach.doNotEnter then true
  else if !reach.grounded then true
  else if reach.disabled then true
  else if reach.squareDistanceToArea < 96 * 96 then true
  else if reach.squareDistanceToArea > (1024 + 512) * (1024 + 512) then true
  else if hazardToEvade env && reach.hasImpactOnPoint then true
  else false

/-- The tests of the body of the loop that follow the score: whether the bot can see the ground
of the area. -/
def seesArea (env : Setting) (reach : Reach) (areaNum : Nat) : Bool :=
  if floorClusterNum env ≠ 0 ∧ floorClusterNum env = env.areaFloorClusterNums areaNum then
    env.isAreaWalkableInFloorCluster areaNum
  else reach.traceArcInSolidWorld && env.travelTimeWalkingOrFallingShort areaNum

/-- The part of the body of the loop of `SelectCandidateAreas` before the candidate is stored,
for the index `i`: the candidate (`none` after a `continue`) and `metStairsClusterNum`. -/
def candidateAt (env : Setting) (lastValidReachIndex : Nat) (metStairsClusterNum i : Nat) :
    Option AreaAndScore × Nat :=
  let reach := env.nextReachChain.getD i default
  match stairsArea env metStairsClusterNum reach with
  | none => (none, metStairsClusterNum)
  | some (areaNum, met) =>
    if skipsArea env reach then (none, met)
    else
      let score : ℚ :=
        if areaNum ≠ env.navTargetAasAreaNum then chainScore lastValidReachIndex i else 999999
      if seesArea env reach areaNum then (some { areaNum := areaNum, score := score }, met)
      else (none, met)

/-- The body of the loop of `SelectCandidateAreas` for the index `i`. -/
def selectStep (env : Setting) (lastValidReachIndex : Nat) (s : Selection) (i : Nat) : Selection :=
  match candidateAt env lastValidReachIndex s.metStairsClusterNum i with
  | (none, met) => { s with metStairsClusterNum := met }
  | (some c, met) =>
    let kept :=
      if s.candidates.length = env.maxSuggestedLookDirs then popHeap env.less s.candidates
      else s.candidates
    { candidates := kept ++ [c], metStairsClusterNum := met }

/-- The loop `for( int i = lastValidReachIndex; i >= 0; --i )` with `count` indices to go, from
the index `count - 1` down. -/
def selectLoop (env : Setting) (lastValidReachIndex : Nat) : Nat → Selection → Selection
  | 0, s => s
  | i + 1, s => selectLoop env lastValidReachIndex i (selectStep env lastValidReachIndex s i)

/-- The `BunnyStraighteningReachChainAction::SelectCandidateAreas`: the range of the candidates
it leaves, for a `maxSuggestedLookDirs` that is not zero, as the list of its elements in the
order in which they were stored (the order that the heap gives them in the array is not
modelled). -/
def SelectCandidateAreas (env : Setting) (lastValidReachIndex : Nat) : List AreaAndScore :=
  (selectLoop env lastValidReachIndex (lastValidReachIndex + 1)
    { candidates := [], metStairsClusterNum := 0 }).candidates

/-- The first loop of `SaveSuggestedLookDirs` over the reachabilities to test: the value of
`lastValidReachIndex` and `reachStoppedAt` at its end. -/
def testedReach : List Reach → Int → Int × Option Reach
  | [], lastValidReachIndex => (lastValidReachIndex, none)
  | reach :: rest, lastValidReachIndex =>
    if reach.traveltype ≠ .walk ∧ reach.traveltype ≠ .walkOffLedge then
      (lastValidReachIndex, some reach)
    else testedReach rest (lastValidReachIndex + 1)

/-- The `BunnyStraighteningReachChainAction::SaveSuggestedLookDirs`: the `suggestedLookDirs`
after the call. -/
def SaveSuggestedLookDirs (env : Setting) (suggestedLookDirs : List DirAndArea) :
    List DirAndArea :=
  if env.isInNavTargetArea then suggestedLookDirs
  else if env.nextReachChain.isEmpty then suggestedLookDirs
  else
    let maxTestedReach := min env.MAX_TESTED_REACH env.nextReachChain.length
    let tested := testedReach (env.nextReachChain.take maxTestedReach) (-1)
    let lastValidReachIndex := tested.1
    if lastValidReachIndex < 0 ∨ lastValidReachIndex ≥ (maxTestedReach : Int) then
      suggestedLookDirs
    else
      let candidates := SelectCandidateAreas env lastValidReachIndex.toNat
      let candidates := candidates.take (min candidates.length env.maxSuggestedLookDirs)
      let saved := env.saveCandidateAreaDirs suggestedLookDirs candidates
      match tested.2 with
      | some reachStoppedAt =>
        if reachStoppedAt.traveltype = .teleport ∨ reachStoppedAt.traveltype = .jumppad ∨
            reachStoppedAt.traveltype = .elevator then
          let kept := if saved.length = env.maxSuggestedLookDirs then saved.dropLast else saved
          kept ++ [{ dir := env.toTriggerDir, area := 0 }]
        else saved
      | none => saved

/-! ## A chain of four reachabilities -/

/-- A reachability by walking to the area `areanum`, grounded, `100` units away, in sight. -/
def walkTo (areanum : Nat) : Reach :=
  { traveltype := .walk, areanum := areanum, stairsClusterNum := 0, doNotEnter := false,
    grounded := true, disabled := false, squareDistanceToArea := 10000,
    hasImpactOnPoint := false, traceArcInSolidWorld := true }

/-- A chain of four reachabilities by walking, to the areas `10`, `11`, `12` and `13`, all of
which pass the tests of `SelectCandidateAreas`; the nav target is the area `99`, there is no
hazard, `maxSuggestedLookDirs` is `2`, the order of `AreaAndScore` puts a greater score first,
and `SaveCandidateAreaDirs` saves a look direction for every candidate. -/
def fourAreas : Setting :=
  { isInNavTargetArea := false,
    nextReachChain := [walkTo 10, walkTo 11, walkTo 12, walkTo 13],
    navTargetAasAreaNum := 99, currGroundedAasAreaNum := 0, shouldRushHeadless := false,
    primaryHazard := false, supportsImpactTests := false, maxSuggestedLookDirs := 2,
    MAX_TESTED_REACH := 8, less := fun a b => a.score > b.score,
    tryFindBestStairsExitArea := fun _ => none, areaFloorClusterNums := fun _ => 0,
    isAreaWalkableInFloorCluster := fun _ => true,
    travelTimeWalkingOrFallingShort := fun _ => true,
    saveCandidateAreaDirs := fun dirs cs => dirs ++ cs.map fun c => { dir := (0, 0, 1), area := c.areaNum },
    toTriggerDir := (1, 0, 0) }

/-- The setting `fourAreas` with the order of `AreaAndScore` that puts a lower score first. -/
def fourAreasAscending : Setting :=
  { fourAreas with less := fun a b => a.score < b.score }

/-- The setting `fourAreas` with the nav target in the area `10`, the first of the chain. -/
def fourAreasToTarget : Setting :=
  { fourAreas with navTargetAasAreaNum := 10 }

end Straightening

/-! # Properties -/

/-! ## The rounding to `float` -/

namespace Binary32

theorem halvings_spec :
    ∀ (fuel n : Nat), n ≠ 0 → n ≤ fuel →
      2 ^ halvings fuel n ≤ n ∧ n < 2 ^ (halvings fuel n + 1) := by
  intro fuel
  induction fuel with
  | zero => intro n h0 h; omega
  | succ fuel ih =>
    intro n h0 h
    simp only [halvings]
    by_cases h2 : 2 ≤ n
    · rw [if_pos h2]
      obtain ⟨h3, h4⟩ := ih (n / 2) (by omega) (by omega)
      constructor
      · rw [pow_succ]
        omega
      · rw [pow_succ]
        omega
    · rw [if_neg h2]
      simp
      omega

theorem abs_eq_natAbs_div (x : ℚ) : |x| = (x.num.natAbs : ℚ) / (x.den : ℚ) := by
  have h := Rat.num_div_den x
  have hd : (0 : ℚ) < x.den := by exact_mod_cast x.den_pos
  conv_lhs => rw [← h]
  rw [abs_div, abs_of_pos hd, Nat.cast_natAbs, Int.cast_abs]

theorem exponent_spec {x : ℚ} (hx : x ≠ 0) :
    (2 : ℚ) ^ exponent x ≤ |x| ∧ |x| < (2 : ℚ) ^ (exponent x + 1) := by
  have hn : x.num.natAbs ≠ 0 := by
    rw [Ne, Int.natAbs_eq_zero, Rat.num_eq_zero]
    exact hx
  have hd : x.den ≠ 0 := x.den_nz
  have h1 : ((2 ^ halvings x.num.natAbs x.num.natAbs : ℕ) : ℚ) ≤ (x.num.natAbs : ℚ) := by
    exact_mod_cast (halvings_spec _ _ hn le_rfl).1
  have h2 : (x.num.natAbs : ℚ) < ((2 ^ (halvings x.num.natAbs x.num.natAbs + 1) : ℕ) : ℚ) := by
    exact_mod_cast (halvings_spec _ _ hn le_rfl).2
  have h3 : ((2 ^ halvings x.den x.den : ℕ) : ℚ) ≤ (x.den : ℚ) := by
    exact_mod_cast (halvings_spec _ _ hd le_rfl).1
  have h4 : (x.den : ℚ) < ((2 ^ (halvings x.den x.den + 1) : ℕ) : ℚ) := by
    exact_mod_cast (halvings_spec _ _ hd le_rfl).2
  have hdpos : (0 : ℚ) < x.den := by exact_mod_cast x.den_pos
  have hnpos : (0 : ℚ) < x.num.natAbs := by exact_mod_cast Nat.pos_of_ne_zero hn
  push_cast at h1 h2 h3 h4
  have e1 : (2 : ℚ) ^ ((halvings x.num.natAbs x.num.natAbs : ℤ) - (halvings x.den x.den : ℤ) + 1) =
      2 ^ (halvings x.num.natAbs x.num.natAbs + 1) / 2 ^ halvings x.den x.den := by
    rw [show ((halvings x.num.natAbs x.num.natAbs : ℤ) - (halvings x.den x.den : ℤ) + 1) =
      ((halvings x.num.natAbs x.num.natAbs + 1 : ℕ) : ℤ) - (halvings x.den x.den : ℤ) by push_cast; ring]
    rw [zpow_sub₀ (by norm_num), zpow_natCast, zpow_natCast]
  have e2 : (2 : ℚ) ^ ((halvings x.num.natAbs x.num.natAbs : ℤ) - (halvings x.den x.den : ℤ) - 1) =
      2 ^ halvings x.num.natAbs x.num.natAbs / 2 ^ (halvings x.den x.den + 1) := by
    rw [show ((halvings x.num.natAbs x.num.natAbs : ℤ) - (halvings x.den x.den : ℤ) - 1) =
      (halvings x.num.natAbs x.num.natAbs : ℤ) - ((halvings x.den x.den + 1 : ℕ) : ℤ) by push_cast; ring]
    rw [zpow_sub₀ (by norm_num), zpow_natCast, zpow_natCast]
  have hup : |x| < (2 : ℚ) ^ ((halvings x.num.natAbs x.num.natAbs : ℤ) - (halvings x.den x.den : ℤ) + 1) := by
    rw [e1, abs_eq_natAbs_div, div_lt_div_iff₀ hdpos (by positivity)]
    calc (x.num.natAbs : ℚ) * 2 ^ halvings x.den x.den
        ≤ (x.num.natAbs : ℚ) * x.den := by
          exact mul_le_mul_of_nonneg_left h3 hnpos.le
      _ < 2 ^ (halvings x.num.natAbs x.num.natAbs + 1) * x.den := by
          exact mul_lt_mul_of_pos_right h2 hdpos
  have hlow : (2 : ℚ) ^ ((halvings x.num.natAbs x.num.natAbs : ℤ) - (halvings x.den x.den : ℤ) - 1) ≤ |x| := by
    rw [e2, abs_eq_natAbs_div, div_le_div_iff₀ (by positivity) hdpos]
    calc (2 : ℚ) ^ halvings x.num.natAbs x.num.natAbs * x.den
        ≤ (x.num.natAbs : ℚ) * x.den := by
          exact mul_le_mul_of_nonneg_right h1 hdpos.le
      _ ≤ (x.num.natAbs : ℚ) * 2 ^ (halvings x.den x.den + 1) := by
          exact mul_le_mul_of_nonneg_left h4.le hnpos.le
  unfold exponent
  split_ifs with h
  · refine ⟨hlow, ?_⟩
    rw [sub_add_cancel]
    exact h
  · exact ⟨not_lt.1 h, hup⟩

theorem ulp_pos (x : ℚ) : 0 < ulp x := by
  unfold ulp
  positivity

theorem nearestEven_cases (q : ℚ) : nearestEven q = ⌊q⌋ ∨ nearestEven q = ⌊q⌋ + 1 := by
  unfold nearestEven
  split_ifs <;> simp

theorem abs_nearestEven_sub_le (q : ℚ) : |(nearestEven q : ℚ) - q| ≤ 1 / 2 := by
  have h1 : (⌊q⌋ : ℚ) ≤ q := Int.floor_le q
  have h2 : q < ⌊q⌋ + 1 := Int.lt_floor_add_one q
  unfold nearestEven
  rw [abs_le]
  split_ifs with h3 h4 h5
  · constructor <;> linarith
  · push_cast
    constructor <;> linarith
  · constructor <;> linarith
  · push_cast
    constructor <;> linarith

theorem nearestEven_intCast (m : ℤ) : nearestEven (m : ℚ) = m := by
  unfold nearestEven
  rw [Int.floor_intCast, sub_self, if_pos (by norm_num)]

theorem nearestEven_mono {a b : ℚ} (h : a ≤ b) : nearestEven a ≤ nearestEven b := by
  have hf : ⌊a⌋ ≤ ⌊b⌋ := Int.floor_mono h
  rcases lt_or_eq_of_le hf with hlt | heq
  · have h1 : nearestEven a ≤ ⌊a⌋ + 1 := by
      rcases nearestEven_cases a with e | e <;> omega
    have h2 : ⌊b⌋ ≤ nearestEven b := by
      rcases nearestEven_cases b with e | e <;> omega
    omega
  · unfold nearestEven
    rw [← heq]
    have hab : a - ⌊a⌋ ≤ b - ⌊a⌋ := by linarith
    split_ifs <;> first | omega | (exfalso; linarith)

theorem nearestEven_nonneg {q : ℚ} (h : 0 ≤ q) : 0 ≤ nearestEven q := by
  have := nearestEven_mono h
  rwa [show ((0 : ℚ)) = ((0 : ℤ) : ℚ) by norm_num, nearestEven_intCast] at this

/-- The `float` nearest to `x` is at most half a unit in the last place away from `x`. -/
theorem abs_rounded_sub_le (x : ℚ) : |rounded x - x| ≤ ulp x / 2 := by
  have hu := ulp_pos x
  have h := abs_nearestEven_sub_le (x / ulp x)
  unfold rounded
  have e : (nearestEven (x / ulp x) : ℚ) * ulp x - x =
      ((nearestEven (x / ulp x) : ℚ) - x / ulp x) * ulp x := by
    field_simp
  rw [e, abs_mul, abs_of_pos hu]
  calc |(nearestEven (x / ulp x) : ℚ) - x / ulp x| * ulp x ≤ 1 / 2 * ulp x :=
        mul_le_mul_of_nonneg_right h hu.le
    _ = ulp x / 2 := by ring

theorem rounded_zero : rounded 0 = 0 := by
  unfold rounded
  rw [zero_div, show ((0 : ℚ)) = ((0 : ℤ) : ℚ) by norm_num, nearestEven_intCast]
  simp

theorem rounded_nonneg {x : ℚ} (h : 0 ≤ x) : 0 ≤ rounded x := by
  unfold rounded
  have hu := ulp_pos x
  have : 0 ≤ nearestEven (x / ulp x) := nearestEven_nonneg (div_nonneg h hu.le)
  have h2 : (0 : ℚ) ≤ (nearestEven (x / ulp x) : ℚ) := by exact_mod_cast this
  positivity

theorem exponent_lt {x : ℚ} (hx : x ≠ 0) {k : ℤ} (h : |x| < (2 : ℚ) ^ k) : exponent x < k := by
  have h1 := (exponent_spec hx).1
  have h2 : (2 : ℚ) ^ exponent x < (2 : ℚ) ^ k := lt_of_le_of_lt h1 h
  exact (zpow_lt_zpow_iff_right₀ (by norm_num : (1 : ℚ) < 2)).1 h2

theorem le_exponent {x : ℚ} (hx : x ≠ 0) {k : ℤ} (h : (2 : ℚ) ^ k ≤ |x|) : k ≤ exponent x := by
  have h1 := (exponent_spec hx).2
  have h2 : (2 : ℚ) ^ k < (2 : ℚ) ^ (exponent x + 1) := lt_of_le_of_lt h h1
  have := (zpow_lt_zpow_iff_right₀ (by norm_num : (1 : ℚ) < 2)).1 h2
  omega

/-- In the range of the normalized values a unit in the last place is at most `2 ^ (-23)`
times the value. -/
theorem ulp_le_mul {x : ℚ} (h : (2 : ℚ) ^ (-126 : ℤ) ≤ |x|) : ulp x ≤ |x| * 2 ^ (-23 : ℤ) := by
  have hx : x ≠ 0 := by
    rintro rfl
    rw [abs_zero] at h
    have : (0 : ℚ) < 2 ^ (-126 : ℤ) := by positivity
    linarith
  have he := le_exponent hx h
  unfold ulp
  rw [max_eq_left he, sub_eq_add_neg, zpow_add₀ (by norm_num)]
  exact mul_le_mul_of_nonneg_right (exponent_spec hx).1 (by positivity)

/-- A unit in the last place of a value below `2 ^ k` is at most `2 ^ (k - 24)`. -/
theorem ulp_le_of_lt {x : ℚ} (hx : x ≠ 0) {k : ℤ} (hk : -125 ≤ k) (h : |x| < (2 : ℚ) ^ k) :
    ulp x ≤ (2 : ℚ) ^ (k - 24) := by
  have he := exponent_lt hx h
  unfold ulp
  apply zpow_le_zpow_right₀ (by norm_num)
  have : max (exponent x) (-126) ≤ k - 1 := max_le (by omega) (by omega)
  omega

/-- The error of the rounding of a value below `2 ^ k`. -/
theorem abs_rounded_sub_le_of_lt {x : ℚ} {k : ℤ} (hk : -125 ≤ k) (h : |x| < (2 : ℚ) ^ k) :
    |rounded x - x| ≤ (2 : ℚ) ^ (k - 25) := by
  by_cases hx : x = 0
  · subst hx
    rw [rounded_zero, sub_zero, abs_zero]
    positivity
  · have h1 := abs_rounded_sub_le x
    have h2 := ulp_le_of_lt hx hk h
    have e : (2 : ℚ) ^ (k - 25) = (2 : ℚ) ^ (k - 24) / 2 := by
      rw [show k - 25 = (k - 24) + (-1) by ring, zpow_add₀ (by norm_num)]
      norm_num
      ring
    rw [e]
    linarith

theorem exponent_mono {x y : ℚ} (hx : x ≠ 0) (hy : y ≠ 0) (h : |x| ≤ |y|) :
    exponent x ≤ exponent y :=
  le_exponent hy (le_trans (exponent_spec hx).1 h)

theorem rounded_le_pow {x : ℚ} (hx : 0 < x) :
    rounded x ≤ (2 : ℚ) ^ (max (exponent x) (-126) + 1) := by
  have hu := ulp_pos x
  have hlt : x < (2 : ℚ) ^ (max (exponent x) (-126) + 1) := by
    have h1 := (exponent_spec hx.ne').2
    rw [abs_of_pos hx] at h1
    refine lt_of_lt_of_le h1 (zpow_le_zpow_right₀ (by norm_num) ?_)
    have := le_max_left (exponent x) (-126)
    omega
  have hc : ((2 ^ 24 : ℤ) : ℚ) = (2 : ℚ) ^ (24 : ℤ) := by norm_num
  have e : (2 : ℚ) ^ (max (exponent x) (-126) + 1) = ((2 ^ 24 : ℤ) : ℚ) * ulp x := by
    unfold ulp
    rw [hc, ← zpow_add₀ (by norm_num)]
    congr 1
    ring
  have hq : x / ulp x ≤ ((2 ^ 24 : ℤ) : ℚ) := by
    rw [div_le_iff₀ hu, ← e]
    exact hlt.le
  have hn := nearestEven_mono hq
  rw [nearestEven_intCast] at hn
  have hn2 : (nearestEven (x / ulp x) : ℚ) ≤ ((2 ^ 24 : ℤ) : ℚ) := by exact_mod_cast hn
  rw [e]
  unfold rounded
  exact mul_le_mul_of_nonneg_right hn2 hu.le

theorem pow_le_rounded {x : ℚ} (hx : 0 < x) (he : -126 ≤ exponent x) :
    (2 : ℚ) ^ exponent x ≤ rounded x := by
  have hu := ulp_pos x
  have hle := (exponent_spec hx.ne').1
  rw [abs_of_pos hx] at hle
  have hc : ((2 ^ 23 : ℤ) : ℚ) = (2 : ℚ) ^ (23 : ℤ) := by norm_num
  have e : (2 : ℚ) ^ exponent x = ((2 ^ 23 : ℤ) : ℚ) * ulp x := by
    unfold ulp
    rw [max_eq_left he, hc, ← zpow_add₀ (by norm_num)]
    congr 1
    ring
  have hq : ((2 ^ 23 : ℤ) : ℚ) ≤ x / ulp x := by
    rw [le_div_iff₀ hu, ← e]
    exact hle
  have hn := nearestEven_mono hq
  rw [nearestEven_intCast] at hn
  have hn2 : ((2 ^ 23 : ℤ) : ℚ) ≤ (nearestEven (x / ulp x) : ℚ) := by exact_mod_cast hn
  rw [e]
  unfold rounded
  exact mul_le_mul_of_nonneg_right hn2 hu.le

/-- The rounding keeps the order of the values that are not negative. -/
theorem rounded_mono {x y : ℚ} (hx : 0 ≤ x) (h : x ≤ y) : rounded x ≤ rounded y := by
  rcases hx.eq_or_lt with h0 | hpos
  · rw [← h0, rounded_zero]
    exact rounded_nonneg (le_trans hx h)
  have hy : 0 < y := lt_of_lt_of_le hpos h
  have hexp : exponent x ≤ exponent y :=
    exponent_mono hpos.ne' hy.ne' (by rw [abs_of_pos hpos, abs_of_pos hy]; exact h)
  have hE : max (exponent x) (-126) ≤ max (exponent y) (-126) := max_le_max hexp le_rfl
  rcases hE.eq_or_lt with heq | hlt
  · have hu : ulp x = ulp y := by
      unfold ulp
      rw [heq]
    unfold rounded
    rw [hu]
    have hq : x / ulp y ≤ y / ulp y := div_le_div_of_nonneg_right h (ulp_pos y).le
    have hn := nearestEven_mono hq
    have hn2 : (nearestEven (x / ulp y) : ℚ) ≤ (nearestEven (y / ulp y) : ℚ) := by
      exact_mod_cast hn
    exact mul_le_mul_of_nonneg_right hn2 (ulp_pos y).le
  · have hey : -126 ≤ exponent y := by
      by_contra hc
      have h1 : max (exponent y) (-126) = -126 := max_eq_right (by omega)
      have h2 := le_max_right (exponent x) (-126)
      omega
    have h1 := rounded_le_pow hpos
    have h2 := pow_le_rounded hy hey
    have h3 : (2 : ℚ) ^ (max (exponent x) (-126) + 1) ≤ (2 : ℚ) ^ exponent y := by
      apply zpow_le_zpow_right₀ (by norm_num)
      rw [max_eq_left hey] at hlt
      omega
    linarith

/-- The conversion of a natural number below `2 ^ 24` to `float` is exact. -/
theorem rounded_natCast {n : ℕ} (h : n < 2 ^ 24) : rounded (n : ℚ) = n := by
  rcases Nat.eq_zero_or_pos n with h0 | hpos
  · subst h0
    simpa using rounded_zero
  have hx : (0 : ℚ) < n := by exact_mod_cast hpos
  have h1 : 0 ≤ exponent (n : ℚ) := by
    apply le_exponent hx.ne'
    rw [abs_of_pos hx, zpow_zero]
    exact_mod_cast hpos
  have h2 : exponent (n : ℚ) < 24 := by
    apply exponent_lt hx.ne'
    rw [abs_of_pos hx]
    exact_mod_cast h
  obtain ⟨k, hk⟩ : ∃ k : ℕ, (k : ℤ) = 23 - exponent (n : ℚ) := ⟨(23 - exponent (n : ℚ)).toNat, by
    rw [Int.toNat_of_nonneg]; omega⟩
  have hu : ulp (n : ℚ) = ((2 : ℚ) ^ k)⁻¹ := by
    unfold ulp
    rw [max_eq_left (by omega), ← zpow_natCast, ← zpow_neg, hk]
    congr 1
    ring
  unfold rounded
  rw [hu, div_inv_eq_mul]
  have e : (n : ℚ) * 2 ^ k = (((n * 2 ^ k : ℕ) : ℤ) : ℚ) := by push_cast; ring
  rw [e, nearestEven_intCast]
  push_cast
  field_simp

theorem rounded_tenth : rounded (1 / 10) = 13421773 / 134217728 := by decide!

theorem rounded_nine_tenths : rounded (9 / 10) = 7549747 / 8388608 := by decide!

theorem rounded_three_tenths : rounded (3 / 10) = 5033165 / 16777216 := by decide!

theorem rounded_one_sum : rounded (13421773 / 134217728 + 7549747 / 8388608) = 1 := by decide!

theorem rounded_nine_tenths_again : rounded (7549747 / 8388608) = 7549747 / 8388608 := by decide!

end Binary32

namespace Planner

/-! ## The bounds on the loops of the heap are never reached -/

theorem Swap_length (m : Mem) (a : List Nat) (i j : Nat) : (Swap m a i j).2.length = a.length := by
  simp [Swap]

/-- The loop of `BubbleDown` ends before its bound: more iterations allowed change nothing. -/
theorem BubbleDownLoop_more_fuel (k : Nat) :
    ∀ (fuel : Nat) (m : Mem) (a : List Nat) (hole : Nat), a.length ≤ fuel + hole →
      BubbleDownLoop (fuel + k) m a hole = BubbleDownLoop fuel m a hole := by
  intro fuel
  induction fuel with
  | zero =>
    intro m a hole h
    cases k with
    | zero => rfl
    | succ k =>
      have hc : ¬ 2 * hole + 1 < a.length := by omega
      rw [Nat.zero_add]
      simp only [BubbleDownLoop, if_neg hc]
  | succ fuel ih =>
    intro m a hole h
    have e : fuel + 1 + k = (fuel + k) + 1 := by omega
    rw [e]
    simp only [BubbleDownLoop]
    split_ifs
    all_goals first
      | rfl
      | (apply ih; rw [Swap_length]; omega)

/-- The loop of `Push` ends before its bound: more iterations allowed change nothing. -/
theorem BubbleUpLoop_more_fuel (k : Nat) :
    ∀ (fuel : Nat) (m : Mem) (a : List Nat) (child : Nat), child ≤ fuel →
      BubbleUpLoop (fuel + k) m a child = BubbleUpLoop fuel m a child := by
  intro fuel
  induction fuel with
  | zero =>
    intro m a child h
    cases k with
    | zero => rfl
    | succ k =>
      have hc : ¬ child > 0 := by omega
      rw [Nat.zero_add]
      simp only [BubbleUpLoop, if_neg hc]
  | succ fuel ih =>
    intro m a child h
    have e : fuel + 1 + k = (fuel + k) + 1 := by omega
    rw [e]
    simp only [BubbleUpLoop]
    split_ifs
    all_goals first
      | rfl
      | (apply ih; omega)

/-! ## The lists of the pool -/

theorem Chain.chain_frame {prev next prev1 next1 : Int → Int} :
    ∀ {l : List Int} {p : Int}, Chain prev next p l →
      (∀ x ∈ l, prev1 x = prev x ∧ next1 x = next x) → Chain prev1 next1 p l
  | [], _, _, _ => trivial
  | x :: r, _, h, hf => by
    obtain ⟨h0, hp, hn, hr⟩ := h
    have hx := hf x (List.mem_cons_self x r)
    exact ⟨h0, by rw [hx.1, hp], by rw [hx.2, hn],
      Chain.chain_frame hr fun y hy => hf y (List.mem_cons_of_mem x hy)⟩

theorem Chain.nonneg {prev next : Int → Int} :
    ∀ {l : List Int} {p : Int}, Chain prev next p l → ∀ x ∈ l, 0 ≤ x
  | [], _, _, _, hx => by cases hx
  | y :: r, _, h, x, hx => by
    obtain ⟨h0, _, _, hr⟩ := h
    rcases List.mem_cons.1 hx with rfl | hx
    · exact h0
    · exact Chain.nonneg hr x hx

theorem headD_mem_or {l : List Int} : l.headD (-1) = -1 ∨ l.headD (-1) ∈ l := by
  cases l with
  | nil => left; rfl
  | cons a r => right; simp

/-- The links of an item of a chain point into the chain. -/
theorem Chain.links_mem {prev next : Int → Int} :
    ∀ {l : List Int} {p : Int}, Chain prev next p l → ∀ x ∈ l,
      (prev x = p ∨ prev x ∈ l) ∧ (next x = -1 ∨ next x ∈ l)
  | [], _, _, _, hx => by cases hx
  | y :: r, _, h, x, hx => by
    obtain ⟨_, hp, hn, hr⟩ := h
    rcases List.mem_cons.1 hx with rfl | hx
    · refine ⟨Or.inl hp, ?_⟩
      rw [hn]
      rcases (headD_mem_or : r.headD (-1) = -1 ∨ _) with h1 | h1
      · exact Or.inl h1
      · exact Or.inr (List.mem_cons_of_mem _ h1)
    · have := Chain.links_mem hr x hx
      refine ⟨Or.inr ?_, ?_⟩
      · rcases this.1 with h1 | h1
        · rw [h1]; exact List.mem_cons_self _ _
        · exact List.mem_cons_of_mem _ h1
      · rcases this.2 with h1 | h1
        · exact Or.inl h1
        · exact Or.inr (List.mem_cons_of_mem _ h1)

theorem unlinkMid_prev_of_ne {prev next : Int → Int} {x w : Int} (h : next x < 0 ∨ w ≠ next x) :
    (unlinkMid prev next x).1 w = prev w := by
  unfold unlinkMid
  by_cases hn : next x ≥ 0
  · rw [if_pos hn]
    rcases h with h | h
    · omega
    · exact Function.update_noteq h _ _
  · rw [if_neg hn]

theorem unlinkMid_next_of_ne {prev next : Int → Int} {x w : Int} (h : w ≠ prev x) :
    (unlinkMid prev next x).2 w = next w := by
  unfold unlinkMid
  exact Function.update_noteq h _ _

/-- Unlinking the first item of a part of a chain. -/
theorem Chain.unlink_first {prev next : Int → Int} {p x : Int} {r : List Int}
    (h : Chain prev next p (x :: r)) (hnd : (x :: r).Nodup) (hp : p ∉ x :: r) :
    Chain (unlinkMid prev next x).1 (unlinkMid prev next x).2 p r ∧
      (unlinkMid prev next x).2 p = r.headD (-1) := by
  obtain ⟨_, hpx, hnx, hr⟩ := h
  have hnext : (unlinkMid prev next x).2 p = r.headD (-1) := by
    unfold unlinkMid
    simp only
    rw [hpx, Function.update_same, hnx]
  refine ⟨?_, hnext⟩
  cases r with
  | nil => trivial
  | cons z r2 =>
    obtain ⟨hz0, hpz, hnz, hr2⟩ := hr
    have hxz : next x = z := by simpa using hnx
    have hzp : z ≠ p := fun e => hp (by rw [← e]; simp)
    have hnd2 : (z :: r2).Nodup := (List.nodup_cons.1 hnd).2
    refine ⟨hz0, ?_, ?_, ?_⟩
    · unfold unlinkMid
      simp only
      rw [if_pos (by rw [hxz]; exact hz0), hxz, Function.update_same, hpx]
    · rw [unlinkMid_next_of_ne (by rw [hpx]; exact hzp), hnz]
    · refine Chain.chain_frame hr2 fun w hw => ⟨?_, ?_⟩
      · apply unlinkMid_prev_of_ne
        right
        rw [hxz]
        rintro rfl
        exact (List.nodup_cons.1 hnd2).1 hw
      · apply unlinkMid_next_of_ne
        rw [hpx]
        rintro rfl
        exact hp (List.mem_cons_of_mem _ (List.mem_cons_of_mem _ hw))

/-- Unlinking an item that is not the first one of a part of a chain. -/
theorem Chain.unlink_inner {prev next : Int → Int} {x : Int} :
    ∀ {r : List Int} {p y : Int}, Chain prev next p (y :: r) → (y :: r).Nodup → x ∈ r →
      Chain (unlinkMid prev next x).1 (unlinkMid prev next x).2 p (y :: r.erase x)
  | [], _, _, _, _, hx => by cases hx
  | z :: r2, p, y, h, hnd, hx => by
    obtain ⟨hy0, hpy, hny, hr⟩ := h
    have hyr : y ∉ z :: r2 := (List.nodup_cons.1 hnd).1
    have hndr : (z :: r2).Nodup := (List.nodup_cons.1 hnd).2
    have hlm := Chain.links_mem hr x hx
    have hnn := Chain.nonneg hr
    -- the links of `y` other than its `next` are not written
    have hprev_y : (unlinkMid prev next x).1 y = prev y := by
      apply unlinkMid_prev_of_ne
      rcases hlm.2 with h1 | h1
      · left; omega
      · right; rintro e; exact hyr (e ▸ h1)
    by_cases hxz : x = z
    · subst hxz
      have := Chain.unlink_first hr hndr hyr
      rw [List.erase_cons_head]
      exact ⟨hy0, by rw [hprev_y, hpy], this.2, this.1⟩
    · have hx2 : x ∈ r2 := by
        rcases List.mem_cons.1 hx with h1 | h1
        · exact absurd h1 hxz
        · exact h1
      have ih := Chain.unlink_inner hr hndr hx2
      have hzx : ¬(z == x) = true := by
        simpa using fun e : z = x => hxz e.symm
      rw [List.erase_cons_tail hzx]
      refine ⟨hy0, by rw [hprev_y, hpy], ?_, ih⟩
      rw [unlinkMid_next_of_ne, hny]
      · rfl
      · obtain ⟨_, _, _, hr2⟩ := hr
        rcases (Chain.links_mem hr2 x hx2).1 with h1 | h1
        · rw [h1]; rintro rfl; exact hyr (List.mem_cons_self _ _)
        · rintro e; exact hyr (List.mem_cons_of_mem _ (e ▸ h1))

theorem IsList.list_frame {p p1 : PoolBase} {k : Nat} {l : List Int} (h : IsList p k l)
    (hl : ∀ w ∈ l, p1.prev w = p.prev w ∧ p1.next w = p.next w)
    (hf : p1.listFirst k = p.listFirst k) : IsList p1 k l :=
  ⟨by rw [hf]; exact h.1, Chain.chain_frame h.2 hl⟩

theorem update_self_apply (f : Int → Int) (a x : Int) : Function.update f a (f x) x = f x := by
  by_cases h : x = a
  · subst h; exact Function.update_same _ _ _
  · exact Function.update_noteq h _ _

/-- The `Unlink` of an item of a well-formed list: it does not fail, the list is the former one
without the item, and nothing that belongs to another list is written. -/
theorem IsList.unlink {p : PoolBase} {k : Nat} {l : List Int} {x : Int}
    (h : IsList p k l) (hnd : l.Nodup) (hx : x ∈ l) :
    ∃ p1, p.Unlink x k = some p1 ∧ IsList p1 k (l.erase x) ∧
      (∀ w, w ∉ l → p1.prev w = p.prev w ∧ p1.next w = p.next w) ∧
      (∀ k1, k1 ≠ k → p1.listFirst k1 = p.listFirst k1) ∧
      p1.prev x = p.prev x ∧ p1.next x = p.next x := by
  obtain ⟨hfirst, hch⟩ := h
  cases l with
  | nil => cases hx
  | cons y r =>
    have hch0 := hch
    obtain ⟨hy0, hpy, hny, hr⟩ := hch
    by_cases hxy : x = y
    · subst hxy
      have hprev : ¬ p.prev x ≥ 0 := by rw [hpy]; decide
      have hlf : ¬ p.listFirst k ≠ x := by rw [hfirst]; simp
      rw [List.erase_cons_head]
      cases r with
      | nil =>
        have hnext : ¬ p.next x ≥ 0 := by rw [hny]; decide
        refine ⟨{ p with listFirst := Function.update p.listFirst k (-1) },
          by simp only [PoolBase.Unlink, if_neg hprev, if_neg hlf, if_neg hnext], ?_,
          fun w _ => ⟨rfl, rfl⟩, fun k1 hk => Function.update_noteq hk _ _, rfl, rfl⟩
        exact ⟨Function.update_same _ _ _, trivial⟩
      | cons z r2 =>
        obtain ⟨hz0, hpz, hnz, hr2⟩ := hr
        have hxz : p.next x = z := by simpa using hny
        have hnext : p.next x ≥ 0 := by rw [hxz]; exact hz0
        have hzx : x ≠ z := fun e => (List.nodup_cons.1 hnd).1 (by rw [e]; simp)
        refine ⟨{ p with
            prev := Function.update p.prev (p.next x) (-1)
            listFirst := Function.update p.listFirst k (p.next x) },
          by simp only [PoolBase.Unlink, if_neg hprev, if_neg hlf, if_pos hnext], ?_,
          ?_, fun k1 hk => Function.update_noteq hk _ _, ?_, rfl⟩
        · refine ⟨by dsimp only; rw [hxz, Function.update_same]; rfl, hz0,
            by dsimp only; rw [hxz, Function.update_same], hnz, ?_⟩
          refine Chain.chain_frame hr2 fun w hw => ⟨?_, rfl⟩
          apply Function.update_noteq
          rw [hxz]
          rintro rfl
          exact (List.nodup_cons.1 (List.nodup_cons.1 hnd).2).1 hw
        · intro w hw
          refine ⟨Function.update_noteq ?_ _ _, rfl⟩
          rw [hxz]
          rintro rfl
          exact hw (by simp)
        · exact Function.update_noteq (by rw [hxz]; exact hzx) _ _
    · have hxr : x ∈ r := by
        rcases List.mem_cons.1 hx with h1 | h1
        · exact absurd h1 hxy
        · exact h1
      have hlm := Chain.links_mem hr x hxr
      have hnn := Chain.nonneg hch0
      have hprev : p.prev x ≥ 0 := by
        rcases hlm.1 with h1 | h1
        · rw [h1]; exact hy0
        · exact hnn _ (List.mem_cons_of_mem _ h1)
      have hprevmem : p.prev x ∈ y :: r := by
        rcases hlm.1 with h1 | h1
        · rw [h1]; exact List.mem_cons_self _ _
        · exact List.mem_cons_of_mem _ h1
      have hyx : ¬(y == x) = true := by simpa using fun e : y = x => hxy e.symm
      have key := Chain.unlink_inner hch0 hnd hxr
      have hnd2 : x ≠ p.prev x ∨ True := Or.inr trivial
      rw [List.erase_cons_tail hyx]
      have hU : p.Unlink x k = some
          { p with prev := (unlinkMid p.prev p.next x).1, next := (unlinkMid p.prev p.next x).2 } := by
        simp only [PoolBase.Unlink, if_pos hprev, update_self_apply, unlinkMid]
        by_cases hn : p.next x ≥ 0
        · simp only [if_pos hn]
        · simp only [if_neg hn]
      refine ⟨_, hU, ⟨by simpa using hfirst, key⟩, ?_, fun k1 _ => rfl, ?_, ?_⟩
      · intro w hw
        refine ⟨unlinkMid_prev_of_ne ?_, unlinkMid_next_of_ne ?_⟩
        · rcases hlm.2 with h1 | h1
          · left; omega
          · right; rintro rfl; exact hw (List.mem_cons_of_mem _ h1)
        · rintro rfl; exact hw hprevmem
      · apply unlinkMid_prev_of_ne
        rcases hlm.2 with h1 | h1
        · left; omega
        · right
          intro e
          -- the item after `x` is not `x` itself
          have hsub : ∀ {l : List Int} {q : Int}, Chain p.prev p.next q l → l.Nodup →
              ∀ v ∈ l, p.next v ≠ v := by
            intro l
            induction l with
            | nil => intro _ _ _ v hv; cases hv
            | cons a t ih =>
              intro q hc hn v hv
              obtain ⟨_, _, hna, ht⟩ := hc
              rcases List.mem_cons.1 hv with rfl | hv
              · rw [hna]
                rcases (headD_mem_or : t.headD (-1) = -1 ∨ _) with h2 | h2
                · rw [h2]
                  have : 0 ≤ v := by assumption
                  omega
                · rintro e2
                  exact (List.nodup_cons.1 hn).1 (e2 ▸ h2)
              · exact ih ht (List.nodup_cons.1 hn).2 v hv
          exact hsub hch0 hnd x hx e.symm
      · apply unlinkMid_next_of_ne
        intro e
        -- the item before `x` is not `x` itself
        have hsub : ∀ {l : List Int} {q : Int}, Chain p.prev p.next q l → l.Nodup → q ∉ l →
            ∀ v ∈ l, p.prev v ≠ v := by
          intro l
          induction l with
          | nil => intro _ _ _ _ v hv; cases hv
          | cons a t ih =>
            intro q hc hn hq v hv
            obtain ⟨_, hpa, _, ht⟩ := hc
            rcases List.mem_cons.1 hv with rfl | hv
            · rw [hpa]; rintro rfl; exact hq (List.mem_cons_self _ _)
            · exact ih ht (List.nodup_cons.1 hn).2 (List.nodup_cons.1 hn).1 v hv
        refine hsub hch0 hnd ?_ x hx e.symm
        intro hm
        have := hnn _ hm
        omega

/-- The `Link` of an item to the head of a well-formed list that does not hold it. -/
theorem IsList.link {p : PoolBase} {k : Nat} {l : List Int} {x : Int}
    (h : IsList p k l) (hx : x ∉ l) (h0 : 0 ≤ x) :
    IsList (p.Link x k) k (x :: l) ∧
      (∀ w, w ∉ l → w ≠ x → (p.Link x k).prev w = p.prev w ∧ (p.Link x k).next w = p.next w) ∧
      (∀ k1, k1 ≠ k → (p.Link x k).listFirst k1 = p.listFirst k1) := by
  obtain ⟨hfirst, hch⟩ := h
  cases l with
  | nil =>
    have hlf : ¬ p.listFirst k ≥ 0 := by rw [hfirst]; decide
    have hL : p.Link x k =
        { prev := Function.update p.prev x (-1)
          next := Function.update p.next x (-1)
          listFirst := Function.update p.listFirst k x } := by
      simp only [PoolBase.Link, if_neg hlf]
    rw [hL]
    refine ⟨⟨Function.update_same _ _ _, h0, Function.update_same _ _ _,
      Function.update_same _ _ _, trivial⟩, fun w _ hw => ?_, fun k1 hk => ?_⟩
    · exact ⟨Function.update_noteq hw _ _, Function.update_noteq hw _ _⟩
    · exact Function.update_noteq hk _ _
  | cons y r =>
    obtain ⟨hy0, hpy, hny, hr⟩ := hch
    have hfy : p.listFirst k = y := by simpa using hfirst
    have hlf : p.listFirst k ≥ 0 := by rw [hfy]; exact hy0
    have hyx : y ≠ x := fun e => hx (by rw [e]; simp)
    have hL : p.Link x k =
        { prev := Function.update (Function.update p.prev y x) x (-1)
          next := Function.update p.next x y
          listFirst := Function.update p.listFirst k x } := by
      unfold PoolBase.Link
      rw [if_pos hlf, hfy]
    rw [hL]
    refine ⟨⟨Function.update_same _ _ _, h0, Function.update_same _ _ _,
      Function.update_same _ _ _, hy0, ?_, ?_, ?_⟩, fun w hw hwx => ?_, fun k1 hk => ?_⟩
    · dsimp only
      rw [Function.update_noteq hyx, Function.update_same]
    · dsimp only
      rw [Function.update_noteq hyx, hny]
    · refine Chain.chain_frame hr fun w hw => ?_
      have hwx : w ≠ x := fun e => hx (by rw [← e]; exact List.mem_cons_of_mem _ hw)
      have hwy : w ≠ y := by
        rintro rfl
        have := Chain.links_mem hr w hw
        -- `y` is not in `r`: the item before an item of `r` is `y` or in `r`, never `-1`
        have hsub : ∀ {l : List Int} {q : Int}, 0 ≤ q → Chain p.prev p.next q l →
            ∀ v ∈ l, 0 ≤ p.prev v := by
          intro l
          induction l with
          | nil => intro _ _ _ v hv; cases hv
          | cons a t ih =>
            intro q hq hc v hv
            obtain ⟨ha0, hpa, _, ht⟩ := hc
            rcases List.mem_cons.1 hv with rfl | hv
            · rw [hpa]; exact hq
            · exact ih ha0 ht v hv
        have := hsub hy0 hr w hw
        rw [hpy] at this
        omega
      exact ⟨by dsimp only; rw [Function.update_noteq hwx, Function.update_noteq hwy],
        Function.update_noteq hwx _ _⟩
    · have hwy : w ≠ y := fun e => hw (by rw [e]; simp)
      exact ⟨by dsimp only; rw [Function.update_noteq hwx, Function.update_noteq hwy],
        Function.update_noteq hwx _ _⟩
    · exact Function.update_noteq hk _ _

theorem PoolInv.nodup {n : Nat} {p : PoolBase} {fl ul : List Int} (h : PoolInv n p fl ul) :
    (fl ++ ul).Nodup := by
  refine h.2.2.nodup_iff.2 ?_
  exact (List.nodup_range n).map fun a b hab => Int.ofNat.inj hab

theorem PoolInv.alloc_nil {n : Nat} {p : PoolBase} {ul : List Int} (h : PoolInv n p [] ul) :
    p.Alloc = some (none, p) := by
  have h1 : p.listFirst FREE_LIST < 0 := by rw [h.1.1]; decide
  simp only [PoolBase.Alloc, if_pos h1]

/-- An `Alloc` from a non-empty free list moves its first item to the head of the used list. -/
theorem PoolInv.alloc_cons {n : Nat} {p : PoolBase} {x : Int} {r ul : List Int}
    (h : PoolInv n p (x :: r) ul) :
    ∃ p1, p.Alloc = some (some x, p1) ∧ PoolInv n p1 r (x :: ul) := by
  have hnd := h.nodup
  obtain ⟨hf, hu, hperm⟩ := h
  have hx0 : 0 ≤ x := Chain.nonneg hf.2 x (List.mem_cons_self _ _)
  have hfirst : p.listFirst FREE_LIST = x := by simpa using hf.1
  have hlt : ¬ p.listFirst FREE_LIST < 0 := by rw [hfirst]; omega
  have hdisj := List.disjoint_of_nodup_append hnd
  obtain ⟨p1, hU, hf1, hframe, hfirst1, _, _⟩ :=
    IsList.unlink hf (List.Nodup.of_append_left hnd) (List.mem_cons_self x r)
  rw [List.erase_cons_head] at hf1
  have hu1 : IsList p1 USED_LIST ul :=
    hu.list_frame (fun w hw => hframe w fun hm => hdisj hm hw) (hfirst1 _ (by decide))
  have hxul : x ∉ ul := fun hm => hdisj (List.mem_cons_self x r) hm
  have hxr : x ∉ r := (List.nodup_cons.1 (List.Nodup.of_append_left hnd)).1
  obtain ⟨hu2, hframe2, hfirst2⟩ := IsList.link hu1 hxul hx0
  refine ⟨p1.Link x USED_LIST, ?_, ?_, hu2, ?_⟩
  · unfold PoolBase.Alloc
    rw [if_neg hlt]
    simp only [hfirst, hU]
  · refine hf1.list_frame (fun w hw => hframe2 w (fun hm => hdisj (List.mem_cons_of_mem _ hw) hm) ?_)
      (hfirst2 _ (by decide))
    rintro rfl
    exact hxr hw
  · refine List.Perm.trans ?_ hperm
    exact @List.perm_middle _ x r ul

/-- A `Free` of a used item moves it to the head of the free list. -/
theorem PoolInv.free {n : Nat} {p : PoolBase} {fl ul : List Int} {x : Int}
    (h : PoolInv n p fl ul) (hx : x ∈ ul) :
    ∃ p1, p.Free x = some p1 ∧ PoolInv n p1 (x :: fl) (ul.erase x) := by
  have hnd := h.nodup
  obtain ⟨hf, hu, hperm⟩ := h
  have hx0 : 0 ≤ x := Chain.nonneg hu.2 x hx
  have hdisj := List.disjoint_of_nodup_append hnd
  have hndu : ul.Nodup := List.Nodup.of_append_right hnd
  obtain ⟨p1, hU, hu1, hframe, hfirst1, _, _⟩ := IsList.unlink hu hndu hx
  have hf1 : IsList p1 FREE_LIST fl :=
    hf.list_frame (fun w hw => hframe w fun hm => hdisj hw hm) (hfirst1 _ (by decide))
  have hxfl : x ∉ fl := fun hm => hdisj hm hx
  obtain ⟨hf2, hframe2, hfirst2⟩ := IsList.link hf1 hxfl hx0
  refine ⟨p1.Link x FREE_LIST, ?_, hf2, ?_, ?_⟩
  · simp only [PoolBase.Free, hU]
  · refine hu1.list_frame (fun w hw => hframe2 w (fun hm => hdisj hm (List.mem_of_mem_erase hw)) ?_)
      (hfirst2 _ (by decide))
    rintro rfl
    exact (List.Nodup.not_mem_erase hndu) hw
  · refine List.Perm.trans ?_ hperm
    have h1 : (x :: ul.erase x).Perm ul := (List.perm_cons_erase hx).symm
    calc (x :: fl) ++ ul.erase x = x :: (fl ++ ul.erase x) := rfl
      _ |>.Perm (fl ++ x :: ul.erase x) := List.perm_middle.symm
      _ |>.Perm (fl ++ ul) := List.Perm.append_left fl h1

theorem initLinks_fold (L : List Nat) :
    ∀ (s : (Int → Int) × (Int → Int)) (j : Int),
      ((L.foldl (fun (s : (Int → Int) × (Int → Int)) (i : Nat) =>
          (Function.update s.1 (i : Int) ((i : Int) - 1),
           Function.update s.2 (i : Int) ((i : Int) + 1))) s).1 j =
        if ∃ i ∈ L, (i : Int) = j then j - 1 else s.1 j) ∧
      ((L.foldl (fun (s : (Int → Int) × (Int → Int)) (i : Nat) =>
          (Function.update s.1 (i : Int) ((i : Int) - 1),
           Function.update s.2 (i : Int) ((i : Int) + 1))) s).2 j =
        if ∃ i ∈ L, (i : Int) = j then j + 1 else s.2 j) := by
  induction L with
  | nil => intro s j; simp
  | cons a L ih =>
    intro s j
    rw [List.foldl_cons]
    obtain ⟨h1, h2⟩ := ih (Function.update s.1 (a : Int) ((a : Int) - 1),
      Function.update s.2 (a : Int) ((a : Int) + 1)) j
    rw [h1, h2]
    by_cases hL : ∃ i ∈ L, (i : Int) = j
    · have : ∃ i ∈ a :: L, (i : Int) = j := by
        obtain ⟨i, hi, e⟩ := hL
        exact ⟨i, List.mem_cons_of_mem _ hi, e⟩
      simp only [if_pos hL, if_pos this, and_self]
    · by_cases ha : (a : Int) = j
      · have : ∃ i ∈ a :: L, (i : Int) = j := ⟨a, List.mem_cons_self _ _, ha⟩
        simp only [if_neg hL, if_pos this]
        subst ha
        simp
      · have : ¬ ∃ i ∈ a :: L, (i : Int) = j := by
          rintro ⟨i, hi, e⟩
          rcases List.mem_cons.1 hi with rfl | hi
          · exact ha e
          · exact hL ⟨i, hi, e⟩
        simp only [if_neg hL, if_neg this]
        exact ⟨Function.update_noteq (Ne.symm ha) _ _, Function.update_noteq (Ne.symm ha) _ _⟩

/-- The links written by the constructor. -/
theorem PoolBase.init_links (prev0 next0 : Int → Int) (n : Nat) (hn : 1 ≤ n) (j : Int)
    (h0 : 0 ≤ j) (hj : j < n) :
    (PoolBase.init prev0 next0 n).prev j = j - 1 ∧
      (PoolBase.init prev0 next0 n).next j = if j = (n : Int) - 1 then -1 else j + 1 := by
  unfold PoolBase.init
  dsimp only
  obtain ⟨h1, h2⟩ := initLinks_fold (List.range' 1 (n - 2))
    (Function.update (Function.update prev0 0 (-1)) ((n : Int) - 1) ((n : Int) - 1 - 1),
     Function.update (Function.update next0 0 1) ((n : Int) - 1) (-1)) j
  rw [h1, h2]
  by_cases hm : ∃ i ∈ List.range' 1 (n - 2), (i : Int) = j
  · rw [if_pos hm, if_pos hm]
    obtain ⟨i, hi, e⟩ := hm
    rw [List.mem_range'_1] at hi
    have : ¬ j = (n : Int) - 1 := by omega
    rw [if_neg this]
    exact ⟨rfl, rfl⟩
  · rw [if_neg hm, if_neg hm]
    have hcases : j = 0 ∨ j = (n : Int) - 1 := by
      by_contra hc
      push_neg at hc
      apply hm
      refine ⟨j.toNat, ?_, by omega⟩
      rw [List.mem_range'_1]
      omega
    by_cases hl : j = (n : Int) - 1
    · rw [if_pos hl]
      dsimp only
      rw [hl, Function.update_same, Function.update_same]
      exact ⟨rfl, rfl⟩
    · rw [if_neg hl]
      have hj0 : j = 0 := by
        rcases hcases with h | h
        · exact h
        · exact absurd h hl
      dsimp only
      rw [Function.update_noteq hl, Function.update_noteq hl, hj0, Function.update_same,
        Function.update_same]
      exact ⟨rfl, rfl⟩

theorem chain_range' (prev next : Int → Int) (n : Nat)
    (hp : ∀ j : Int, 0 ≤ j → j < n →
      prev j = j - 1 ∧ next j = if j = (n : Int) - 1 then -1 else j + 1) :
    ∀ (len a : Nat), a + len = n →
      Chain prev next ((a : Int) - 1) ((List.range' a len).map Int.ofNat) := by
  intro len
  induction len with
  | zero => intro a _; exact trivial
  | succ len ih =>
    intro a ha
    rw [List.range'_succ, List.map_cons]
    have hpa := hp (a : Int) (by omega) (by omega)
    refine ⟨Int.ofNat_nonneg a, hpa.1, ?_, ?_⟩
    · show next (a : Int) = _
      rw [hpa.2]
      cases len with
      | zero =>
        have : (a : Int) = (n : Int) - 1 := by omega
        rw [if_pos this]
        rfl
      | succ l =>
        have : ¬ (a : Int) = (n : Int) - 1 := by omega
        rw [if_neg this, List.range'_succ, List.map_cons]
        show (a : Int) + 1 = Int.ofNat (a + 1)
        simp
    · have := ih (a + 1) (by omega)
      have e : (((a + 1 : Nat) : Int)) - 1 = Int.ofNat a := by simp
      rw [e] at this
      exact this

/-- The pool the constructor builds has every item on the free list, in index order. -/
theorem PoolBase.init_inv (prev0 next0 : Int → Int) (n : Nat) (hn : 1 ≤ n) :
    PoolInv n (PoolBase.init prev0 next0 n) ((List.range n).map Int.ofNat) [] := by
  refine ⟨⟨?_, ?_⟩, ⟨rfl, trivial⟩, by rw [List.append_nil]⟩
  · obtain ⟨m, rfl⟩ : ∃ m, n = m + 1 := ⟨n - 1, by omega⟩
    rw [List.range_eq_range', List.range'_succ]
    rfl
  · have := chain_range' _ _ n (PoolBase.init_links prev0 next0 n hn) n 0 (by omega)
    rw [List.range_eq_range']
    simpa using this

theorem runPool_good (n : Nat) :
    ∀ (ops : List PoolOp) (p : PoolBase) (fl ul : List Int), PoolInv n p fl ul →
      GoodPoolRun n (runPool ops p ul) := by
  intro ops
  induction ops with
  | nil =>
    intro p fl ul h
    exact ⟨⟨fl, h⟩, List.Nodup.of_append_right h.nodup⟩
  | cons op ops ih =>
    intro p fl ul h
    cases op with
    | alloc =>
      cases fl with
      | nil =>
        simp only [runPool, h.alloc_nil]
        exact ih p [] ul h
      | cons x r =>
        obtain ⟨p1, hA, h1⟩ := h.alloc_cons
        simp only [runPool, hA]
        exact ih p1 r (x :: ul) h1
    | free i =>
      by_cases hi : i ∈ ul
      · obtain ⟨p1, hF, h1⟩ := h.free hi
        simp only [runPool, if_pos hi, hF]
        exact ih p1 (i :: fl) (ul.erase i) h1
      · simp only [runPool, if_neg hi]
        rfl

/-! ## Claims on the pool -/

/-- C3: for every sequence of `Alloc` and `Free` calls, `Free` being applied only to items that
are allocated at that moment, on a pool of `n` items built by the constructor (`1 ≤ n`, and
`n ≤ 32768` so that the `int16_t` indices do not wrap): no call fails, the free list and the used
list stay well-formed doubly linked lists that together hold each of the `n` item indices exactly
once, the used list holds exactly the items returned by `Alloc` and not yet freed, and these are
pairwise distinct. -/
theorem pool_lists_wellformed (n : Nat) (hn : 1 ≤ n) (_hmax : n ≤ 32768)
    (prev0 next0 : Int → Int) (ops : List PoolOp) :
    GoodPoolRun n (runPool ops (PoolBase.init prev0 next0 n) []) :=
  runPool_good n ops _ _ _ (PoolBase.init_inv prev0 next0 n hn)

theorem pool_lists_wellformed_witness :
    1 ≤ 3 ∧ 3 ≤ 32768 ∧
      GoodPoolRun 3 (runPool [PoolOp.alloc, PoolOp.alloc, PoolOp.free 0, PoolOp.alloc]
        (PoolBase.init (fun _ => 7) (fun _ => 7) 3) []) :=
  ⟨by decide, by decide,
    pool_lists_wellformed 3 (by decide) (by decide) (fun _ => 7) (fun _ => 7)
      [PoolOp.alloc, PoolOp.alloc, PoolOp.free 0, PoolOp.alloc]⟩

/-- C4: in a pool whose lists are well formed, for every allocated item `x`, `Free( x )` puts `x`
at the head of the free list, the `Alloc` that follows immediately returns `x` itself, and after
the two calls the free list is as before and the used list holds the same items as before
(with `x` at its head). -/
theorem free_then_alloc_returns_same (n : Nat) (p : PoolBase) (fl ul : List Int) (x : Int)
    (h : PoolInv n p fl ul) (hx : x ∈ ul) :
    ∃ p1 p2, p.Free x = some p1 ∧ p1.listFirst FREE_LIST = x ∧
      p1.Alloc = some (some x, p2) ∧ PoolInv n p2 fl (x :: ul.erase x) ∧
      (x :: ul.erase x).Perm ul := by
  obtain ⟨p1, hF, h1⟩ := h.free hx
  obtain ⟨p2, hA, h2⟩ := h1.alloc_cons
  exact ⟨p1, p2, hF, by simpa using h1.1.1, hA, h2, (List.perm_cons_erase hx).symm⟩

theorem free_then_alloc_returns_same_witness :
    PoolInv 1 onePool [] [0] ∧ (0 : Int) ∈ [(0 : Int)] ∧
      ∃ p1 p2, onePool.Free 0 = some p1 ∧ p1.listFirst FREE_LIST = 0 ∧
        p1.Alloc = some (some 0, p2) ∧ PoolInv 1 p2 [] (0 :: [(0 : Int)].erase 0) ∧
        (0 :: [(0 : Int)].erase 0).Perm [0] :=
  have h : PoolInv 1 onePool [] [0] :=
    ⟨⟨rfl, trivial⟩, ⟨rfl, by decide, rfl, rfl, trivial⟩, List.Perm.refl _⟩
  ⟨h, by decide, free_then_alloc_returns_same 1 onePool [] [0] 0 h (by decide)⟩

/-! ## `ReconstructPlan` -/

theorem IsChain.clear_head {m : Mem} {start c : Nat} {v : PlannerNode}
    (hv : v.parent = (m c).parent) :
    ∀ {l : List Nat}, IsChain m start l → IsChain (Function.update m c v) start l
  | [], _ => trivial
  | x :: r, h => by
    refine ⟨?_, IsChain.clear_head hv h.2⟩
    by_cases hx : x = c
    · subst hx
      rw [Function.update_same, hv]
      exact h.1
    · rw [Function.update_noteq hx]
      exact h.1

theorem clearRecords_cons (m : Mem) (c : Nat) (rest : List Nat) :
    clearRecords (Function.update m c { m c with actionRecord := none }) rest =
      clearRecords m (c :: rest) := by
  funext n
  unfold clearRecords
  by_cases hn : n = c
  · subst hn
    by_cases hr : n ∈ rest
    · simp [hr]
    · simp [hr]
  · by_cases hr : n ∈ rest
    · simp [hr, hn, Function.update_noteq hn]
    · simp [hr, hn, Function.update_noteq hn]

theorem ReconstructLoop_step (room : Nat) (m : Mem) (node parent : Nat)
    (stack : List (Option Nat)) (h : (m node).parent = some parent) :
    ReconstructLoop (room + 1) m (some node) stack =
      ReconstructLoop room (Function.update m node { m node with actionRecord := none })
        (some parent) ((m node).actionRecord :: stack) := by
  rw [ReconstructLoop]
  split
  · rename_i h1
    rw [h] at h1
    cases h1
  · dsimp only
    rw [Function.update_same]
    exact congrArg (fun x => ReconstructLoop room _ x _) h

/-- The first loop of `ReconstructPlan` on a chain of distinct nodes that fits `recordsStack`. -/
theorem ReconstructLoop_chain (start : Nat) :
    ∀ (l : List Nat) (room : Nat) (m : Mem) (stack : List (Option Nat)),
      IsChain m start l → (m start).parent = none → l.length ≤ room → l.Nodup →
      ReconstructLoop room m (some (l.headD start)) stack =
        .ok ((l.map fun c => (m c).actionRecord).reverse ++ stack, clearRecords m l) := by
  intro l
  induction l with
  | nil =>
    intro room m stack _ hs _ _
    have hm : clearRecords m [] = m := by
      funext n
      simp [clearRecords]
    cases room with
    | zero => simp [ReconstructLoop, hs, hm]
    | succ r => simp [ReconstructLoop, hs, hm]
  | cons c rest ih =>
    intro room m stack hc hs hlen hnd
    obtain ⟨hpar, hrest⟩ := hc
    cases room with
    | zero => simp at hlen
    | succ r =>
      have hcs : c ≠ start := by
        rintro rfl
        rw [hs] at hpar
        cases hpar
      have hcr : c ∉ rest := (List.nodup_cons.1 hnd).1
      have h1 := ih r (Function.update m c { m c with actionRecord := none })
        ((m c).actionRecord :: stack)
        (IsChain.clear_head (v := { m c with actionRecord := none }) rfl hrest)
        (by rw [Function.update_noteq (Ne.symm hcs)]; exact hs)
        (by simpa using hlen) (List.nodup_cons.1 hnd).2
      have hmap : (rest.map fun x =>
          (Function.update m c { m c with actionRecord := none } x).actionRecord) =
          rest.map fun x => (m x).actionRecord := by
        apply List.map_congr_left
        intro x hx
        have : x ≠ c := fun e => hcr (e ▸ hx)
        rw [Function.update_noteq this]
      rw [hmap, clearRecords_cons] at h1
      show ReconstructLoop (r + 1) m (some c) stack = _
      rw [ReconstructLoop_step r m c _ stack hpar, h1]
      simp

theorem planRecords_none (links : Nat → Option Nat) (fuel : Nat) :
    planRecords links fuel none = [] := by
  cases fuel <;> rfl

/-- The second loop of `ReconstructPlan` on distinct records. -/
theorem linkPlan_distinct :
    ∀ (rs : List Nat) (links : Nat → Option Nat) (last : Nat), (last :: rs).Nodup →
      ∃ links1, linkPlan links last (rs.map some) = .ok links1 ∧
        (∀ fuel, rs.length < fuel → planRecords links1 fuel (some last) = last :: rs) ∧
        (∀ r, r ∉ last :: rs → links1 r = links r) ∧
        links1 ((last :: rs).getLast (List.cons_ne_nil _ _)) = none := by
  intro rs
  induction rs with
  | nil =>
    intro links last _
    refine ⟨Function.update links last none, rfl, ?_, ?_, ?_⟩
    · intro fuel hf
      obtain ⟨f, rfl⟩ : ∃ f, fuel = f + 1 := ⟨fuel - 1, by omega⟩
      simp [planRecords, planRecords_none]
    · intro r hr
      exact Function.update_noteq (fun e => hr (by simp [e])) _ _
    · simp
  | cons r rs ih =>
    intro links last hnd
    obtain ⟨links1, h1, h2, h3, h4⟩ := ih (Function.update links last (some r)) r
      (List.nodup_cons.1 hnd).2
    have hlast : last ∉ r :: rs := (List.nodup_cons.1 hnd).1
    refine ⟨links1, by simpa [linkPlan] using h1, ?_, ?_, ?_⟩
    · intro fuel hf
      obtain ⟨f, rfl⟩ : ∃ f, fuel = f + 1 := ⟨fuel - 1, by simp at hf; omega⟩
      have hl : links1 last = some r := by
        rw [h3 last hlast, Function.update_same]
      rw [planRecords, hl, h2 f (by simp at hf; omega)]
    · intro x hx
      have hx1 : x ∉ r :: rs := fun hm => hx (List.mem_cons_of_mem _ hm)
      have hx2 : x ≠ last := fun e => hx (by simp [e])
      rw [h3 x hx1, Function.update_noteq hx2]
    · rw [List.getLast_cons (List.cons_ne_nil _ _)]
      exact h4

theorem DeleteSelf_ok {st st1 : PlannerState} {node : Nat} (h : DeleteSelf st node = .ok st1) :
    st1.nodes = st.nodes ∧ st1.nextInPlan = st.nextInPlan ∧
      ∀ r ∈ st1.deletedRecords,
        r ∈ st.deletedRecords ∨ (st.nodes node).actionRecord = some r := by
  unfold DeleteSelf at h
  cases hF : st.pool.Free (node : Int) with
  | none => rw [hF] at h; cases h
  | some pool1 =>
    rw [hF] at h
    simp only [Except.ok.injEq] at h
    subst h
    refine ⟨rfl, rfl, ?_⟩
    intro r hr
    dsimp only at hr
    cases hrec : (st.nodes node).actionRecord with
    | none => rw [hrec] at hr; exact Or.inl hr
    | some r0 =>
      rw [hrec] at hr
      rcases List.mem_cons.1 hr with rfl | hr
      · exact Or.inr rfl
      · exact Or.inl hr

/-- The records that `Clear` deletes are records that nodes hold. -/
theorem ClearLoop_deleted :
    ∀ (fuel : Nat) (st : PlannerState) (i : Int) (st2 : PlannerState),
      ClearLoop fuel st i = .ok st2 →
      st2.nodes = st.nodes ∧ st2.nextInPlan = st.nextInPlan ∧
        ∀ r ∈ st2.deletedRecords,
          r ∈ st.deletedRecords ∨ ∃ n, (st.nodes n).actionRecord = some r := by
  intro fuel
  induction fuel with
  | zero => intro st i st2 h; cases h
  | succ fuel ih =>
    intro st i st2 h
    rw [ClearLoop] at h
    by_cases hi : i ≥ 0
    · rw [if_pos hi] at h
      dsimp only at h
      cases hD : DeleteSelf st i.toNat with
      | error e => rw [hD] at h; cases h
      | ok st1 =>
        rw [hD] at h
        obtain ⟨hn, hl, hd⟩ := DeleteSelf_ok hD
        obtain ⟨hn2, hl2, hd2⟩ := ih st1 _ st2 h
        refine ⟨hn2.trans hn, hl2.trans hl, ?_⟩
        intro r hr
        rcases hd2 r hr with h1 | ⟨n, h1⟩
        · rcases hd r h1 with h2 | h2
          · exact Or.inl h2
          · exact Or.inr ⟨_, h2⟩
        · exact Or.inr ⟨n, by rw [← hn]; exact h1⟩
    · rw [if_neg hi] at h
      simp only [Except.ok.injEq] at h
      subst h
      exact ⟨rfl, rfl, fun r hr => Or.inl hr⟩

/-- In a pool whose lists are well formed, the loop of `Clear` started at the head of the used
list frees every used item. -/
theorem ClearLoop_frees_all (n : Nat) :
    ∀ (ul fl : List Int) (fuel : Nat) (st : PlannerState), PoolInv n st.pool fl ul →
      ul.length < fuel →
      ∃ st2, ClearLoop fuel st (ul.headD (-1)) = .ok st2 ∧
        PoolInv n st2.pool (ul.reverse ++ fl) [] ∧ st2.nodes = st.nodes := by
  intro ul
  induction ul with
  | nil =>
    intro fl fuel st h hf
    obtain ⟨f, rfl⟩ : ∃ f, fuel = f + 1 := ⟨fuel - 1, by simp at hf; omega⟩
    refine ⟨st, ?_, by simpa using h, rfl⟩
    have : ¬ ((-1 : Int) ≥ 0) := by decide
    simp only [List.headD_nil, ClearLoop, if_neg this]
  | cons x r ih =>
    intro fl fuel st h hf
    obtain ⟨f, rfl⟩ : ∃ f, fuel = f + 1 := ⟨fuel - 1, by simp at hf; omega⟩
    have hx0 : 0 ≤ x := Chain.nonneg h.2.1.2 x (List.mem_cons_self _ _)
    have hnext : st.pool.next x = r.headD (-1) := h.2.1.2.2.2.1
    obtain ⟨p1, hF, h1⟩ := h.free (List.mem_cons_self x r)
    rw [List.erase_cons_head] at h1
    have hcast : ((x.toNat : Nat) : Int) = x := Int.toNat_of_nonneg hx0
    have hD : DeleteSelf st x.toNat = .ok
        { st with
          pool := p1
          deletedRecords :=
            match (st.nodes x.toNat).actionRecord with
            | some rec => rec :: st.deletedRecords
            | none => st.deletedRecords } := by
      unfold DeleteSelf
      rw [hcast, hF]
    obtain ⟨st2, h2, h3, h4⟩ := ih (x :: fl) f
      { st with
        pool := p1
        deletedRecords :=
          match (st.nodes x.toNat).actionRecord with
          | some rec => rec :: st.deletedRecords
          | none => st.deletedRecords } h1 (by simp at hf; omega)
    refine ⟨st2, ?_, ?_, h4⟩
    · rw [List.headD_cons, ClearLoop, if_pos (show x ≥ 0 from hx0)]
      dsimp only
      rw [hD, hnext]
      exact h2
    · simpa using h3

/-- In a pool of at most `itemsCount` items whose lists are well formed, `Clear` returns every
used item to the free list: the used list is empty afterwards. -/
theorem Clear_frees_all (cfg : Planning) (n : Nat) (st : PlannerState) (fl ul : List Int)
    (h : PoolInv n st.pool fl ul) (hn : n ≤ cfg.itemsCount) :
    ∃ st2, Clear cfg st = .ok st2 ∧ PoolInv n st2.pool (ul.reverse ++ fl) [] ∧
      st2.pool.listFirst USED_LIST = -1 := by
  have hlen : ul.length ≤ n := by
    have := h.2.2.length_eq
    simp at this
    omega
  obtain ⟨st2, h1, h2, _⟩ := ClearLoop_frees_all n ul fl (cfg.itemsCount + 1) st h (by omega)
  refine ⟨st2, ?_, h2, h2.2.1.1⟩
  unfold Clear
  rw [h.2.1.1]
  exact h1

/-- `Pop` returns null exactly when the heap is empty. -/
theorem Pop_none_iff (m : Mem) (a : List Nat) : (Pop m a).1 = none ↔ a = [] := by
  unfold Pop
  cases a with
  | nil => simp
  | cons x r => simp

/-- C10: for every node `g` that is `d ≥ 1` parent links away from the start node (the nodes
`g :: rest` of the chain, `d` of them, fit `recordsStack`, and each holds an action record of its
own, `recs` in the order of the chain), `ReconstructPlan( g )` returns the record of the start
node's child as the head of a list of exactly `d` records chained by `nextInPlan` in forward order
(`recs` reversed: the record of the start node's child first, that of `g` last), the `nextInPlan`
of the last record is null, and the action record of every node of the chain is null afterwards,
nothing else of the nodes being changed; so, no other node holding a record of the plan, a
`Clear` of the pool that follows deletes no record of the plan. -/
theorem ReconstructPlan_forward_plan (cfg : Planning) (st : PlannerState) (start g : Nat)
    (rest recs : List Nat)
    (hchain : IsChain st.nodes start (g :: rest))
    (hstart : (st.nodes start).parent = none)
    (hroom : (g :: rest).length ≤ cfg.maxPlannerNodes)
    (hrecs : (g :: rest).map (fun c => (st.nodes c).actionRecord) = recs.map some)
    (hnodup : recs.Nodup)
    (hown : ∀ n, n ∉ g :: rest → ∀ r ∈ recs, (st.nodes n).actionRecord ≠ some r) :
    ∃ st1, ReconstructPlan cfg.maxPlannerNodes st (some g) = .ok (recs.getLast?, st1) ∧
      recs.length = (g :: rest).length ∧
      (∀ fuel, recs.length < fuel →
        planRecords st1.nextInPlan fuel recs.getLast? = recs.reverse) ∧
      (∀ r, recs.head? = some r → st1.nextInPlan r = none) ∧
      st1.nodes = clearRecords st.nodes (g :: rest) ∧
      (∀ c ∈ g :: rest, (st1.nodes c).actionRecord = none) ∧
      (∀ st2, Clear cfg st1 = .ok st2 →
        ∀ r ∈ recs, r ∈ st2.deletedRecords → r ∈ st.deletedRecords) := by
  have hlen : recs.length = (g :: rest).length := by
    have := congrArg List.length hrecs
    simpa using this.symm
  have hndl : (g :: rest).Nodup := by
    have h1 : (recs.map some).Nodup := hnodup.map (Option.some_injective _)
    rw [← hrecs] at h1
    exact List.Nodup.of_map _ h1
  have hne : recs.reverse ≠ [] := by
    intro h
    have : recs.length = 0 := by simpa using congrArg List.length h
    simp at hlen
    omega
  obtain ⟨first, tail, hrev⟩ := List.exists_cons_of_ne_nil hne
  have hloop := ReconstructLoop_chain start (g :: rest) cfg.maxPlannerNodes st.nodes []
    hchain hstart hroom hndl
  rw [hrecs, ← List.map_reverse, hrev] at hloop
  simp only [List.headD_cons, List.map_cons, List.append_nil] at hloop
  have hndr : (first :: tail).Nodup := by
    rw [← hrev]
    exact List.nodup_reverse.2 hnodup
  obtain ⟨links1, hlink, hplan, _, hlast⟩ := linkPlan_distinct tail st.nextInPlan first hndr
  have hgl : recs.getLast? = some first := by
    have : recs = (first :: tail).reverse := by rw [← hrev, List.reverse_reverse]
    rw [this]
    simp
  have hcl : ∀ c ∈ g :: rest, (clearRecords st.nodes (g :: rest) c).actionRecord = none := by
    intro c hc
    simp only [clearRecords, if_pos hc]
  refine ⟨{ st with nodes := clearRecords st.nodes (g :: rest), nextInPlan := links1 },
    ?_, hlen, ?_, ?_, rfl, hcl, ?_⟩
  · unfold ReconstructPlan
    rw [hloop]
    dsimp only
    rw [hlink, hgl]
  · intro fuel hf
    rw [hgl, hrev]
    apply hplan
    have : tail.length + 1 = recs.length := by
      have := congrArg List.length hrev
      simpa using this.symm
    omega
  · intro r hr
    have : (first :: tail).getLast (List.cons_ne_nil _ _) = r := by
      have h1 : (recs.reverse).getLast? = some r := by
        rw [List.getLast?_reverse]
        exact hr
      rw [hrev, List.getLast?_eq_getLast _ (List.cons_ne_nil _ _)] at h1
      exact Option.some.inj h1
    rw [← this]
    exact hlast
  · intro st2 hclear r hr hdel
    obtain ⟨_, _, hd⟩ := ClearLoop_deleted _ _ _ _ hclear
    rcases hd r hdel with h1 | ⟨n, h1⟩
    · exact h1
    · exfalso
      dsimp only at h1
      by_cases hn : n ∈ g :: rest
      · rw [hcl n hn] at h1
        cases h1
      · have h2 : clearRecords st.nodes (g :: rest) n = st.nodes n := by
          simp only [clearRecords, if_neg hn]
        rw [h2] at h1
        exact hown n hn r hr h1

theorem ReconstructPlan_forward_plan_witness :
    IsChain threeNodesPlanner.nodes 0 (2 :: [1]) ∧
    (threeNodesPlanner.nodes 0).parent = none ∧
    (2 :: [1]).length ≤ (problem lineTransitions 2 1000).maxPlannerNodes ∧
    (2 :: [1]).map (fun c => (threeNodesPlanner.nodes c).actionRecord) = [11, 10].map some ∧
    [11, 10].Nodup ∧
    (∀ n, n ∉ 2 :: [1] → ∀ r ∈ [11, 10], (threeNodesPlanner.nodes n).actionRecord ≠ some r) ∧
    ∃ st1, ReconstructPlan (problem lineTransitions 2 1000).maxPlannerNodes threeNodesPlanner
        (some 2) = .ok ([11, 10].getLast?, st1) ∧
      [11, 10].length = (2 :: [1]).length ∧
      (∀ fuel, [11, 10].length < fuel →
        planRecords st1.nextInPlan fuel [11, 10].getLast? = [11, 10].reverse) ∧
      (∀ r, [11, 10].head? = some r → st1.nextInPlan r = none) ∧
      st1.nodes = clearRecords threeNodesPlanner.nodes (2 :: [1]) ∧
      (∀ c ∈ 2 :: [1], (st1.nodes c).actionRecord = none) ∧
      (∀ st2, Clear (problem lineTransitions 2 1000) st1 = .ok st2 →
        ∀ r ∈ [11, 10], r ∈ st2.deletedRecords → r ∈ threeNodesPlanner.deletedRecords) :=
  have hchain : IsChain threeNodesPlanner.nodes 0 (2 :: [1]) := ⟨rfl, rfl, trivial⟩
  have hown : ∀ n, n ∉ 2 :: [1] → ∀ r ∈ [11, 10],
      (threeNodesPlanner.nodes n).actionRecord ≠ some r := by
    intro n hn r _
    have h1 : n ≠ 1 := fun e => hn (by simp [e])
    have h2 : n ≠ 2 := fun e => hn (by simp [e])
    simp [threeNodesPlanner, threeNodes, h1, h2]
  ⟨hchain, rfl, by decide, rfl, by decide, hown,
    ReconstructPlan_forward_plan (problem lineTransitions 2 1000) threeNodesPlanner 0 2 [1]
      [11, 10] hchain rfl (by decide) rfl (by decide) hown⟩

/-! ## The number of iterations followed -/

/-- Once the search loop has ended within `fuel` iterations, following it further changes
nothing. -/
theorem searchLoop_more_fuel (cfg : Planning) (k : Nat) :
    ∀ (fuel : Nat) (s : Search), searchLoop cfg fuel s ≠ .error .outOfFuel →
      searchLoop cfg (fuel + k) s = searchLoop cfg fuel s := by
  intro fuel
  induction fuel with
  | zero => intro s h; exact absurd rfl h
  | succ fuel ih =>
    intro s h
    have e : fuel + 1 + k = (fuel + k) + 1 := by omega
    rw [e]
    rw [searchLoop] at h ⊢
    rw [searchLoop]
    cases hstep : searchStep cfg s with
    | error err => rfl
    | ok step =>
      rw [hstep] at h
      cases step with
      | found c s1 => rfl
      | exhausted s1 => rfl
      | next s1 => exact ih s1 h

theorem findGoalNode_more_fuel (cfg : Planning) (fuel k : Nat) (st : PlannerState) (w : Nat)
    (h : findGoalNode cfg fuel st w ≠ .error .outOfFuel) :
    findGoalNode cfg (fuel + k) st w = findGoalNode cfg fuel st w := by
  unfold findGoalNode at h ⊢
  cases hs : startSearch cfg st w with
  | error e => rfl
  | ok s0 =>
    rw [hs] at h
    exact searchLoop_more_fuel cfg k fuel s0 h

theorem BuildPlan_more_fuel (cfg : Planning) (fuel k : Nat) (st : PlannerState) (w : Nat)
    (h : findGoalNode cfg fuel st w ≠ .error .outOfFuel) :
    BuildPlan cfg (fuel + k) st w = BuildPlan cfg fuel st w := by
  unfold BuildPlan
  rw [findGoalNode_more_fuel cfg fuel k st w h]

theorem ne_outOfFuel_of_fatalOf {α : Type} {r : Except Fatal α} {e : Option Fatal}
    (h : fatalOf r = e) (he : e ≠ some .outOfFuel) : r ≠ .error .outOfFuel := by
  rintro rfl
  exact he h.symm

theorem BuildPlan_fatal (cfg : Planning) (fuel : Nat) (st : PlannerState) (w : Nat) (e : Fatal)
    (h : fatalOf (findGoalNode cfg fuel st w) = some e) (he : e ≠ .outOfFuel) (k : Nat) :
    BuildPlan cfg (fuel + k) st w = .error e := by
  have hne : findGoalNode cfg fuel st w ≠ .error .outOfFuel :=
    ne_outOfFuel_of_fatalOf h (fun e1 => he (Option.some.inj e1))
  rw [BuildPlan_more_fuel cfg fuel k st w hne]
  unfold BuildPlan
  cases hf : findGoalNode cfg fuel st w with
  | error e1 =>
    rw [hf] at h
    exact congrArg Except.error (Option.some.inj h)
  | ok r =>
    rw [hf] at h
    cases h

/-! ## The code at the inputs where it departs from the claims -/

/-- C1 (the code at the failing input): the nodes `1, …, 7`, of heap costs `1, 4, 2, 5, 6, 7, 3`,
are pushed in this order on an empty heap, then `Remove( 3 )` is called, then `Pop` three times.
The third `Pop` returns the node of cost `4` while the node of cost `3` is still stored: after
every `Pop` the list gives the cost of the returned node and the costs left in the array. -/
theorem Pop_after_Remove_not_minimal :
    (runHeap ([1, 2, 3, 4, 5, 6, 7].map HeapOp.push ++
        [HeapOp.remove 3, HeapOp.pop, HeapOp.pop, HeapOp.pop])
      (memOfCosts [0, 1, 4, 2, 5, 6, 7, 3]) [] []).2.2.map
        (fun r => (r.1.map fun n => (memOfCosts [0, 1, 4, 2, 5, 6, 7, 3] n).heapCost,
          costs (memOfCosts [0, 1, 4, 2, 5, 6, 7, 3]) r.2)) =
      [(some 1, [2, 4, 7, 3, 6]), (some 2, [4, 3, 7, 6]), (some 4, [3, 6, 7])] := by
  decide!

/-- C2 (the code at the failing input): the array of the nodes `1, …, 6`, of heap costs
`1, 4, 2, 5, 6, 3`, is a min-heap; `Remove( 3 )` leaves the nodes `1, 2, 3, 6, 5`, of costs
`1, 4, 2, 3, 6` (one element fewer, the former nodes without the one of slot `3`), and this
array is not a min-heap: the cost `3` at slot `3` is below the cost `4` at its parent slot `1`. -/
theorem Remove_breaks_heap_property :
    IsMinHeap (memOfCosts [0, 1, 4, 2, 5, 6, 3]) [1, 2, 3, 4, 5, 6] ∧
    (Remove (memOfCosts [0, 1, 4, 2, 5, 6, 3]) [1, 2, 3, 4, 5, 6] 3).2 = [1, 2, 3, 6, 5] ∧
    costs (Remove (memOfCosts [0, 1, 4, 2, 5, 6, 3]) [1, 2, 3, 4, 5, 6] 3).1
      (Remove (memOfCosts [0, 1, 4, 2, 5, 6, 3]) [1, 2, 3, 4, 5, 6] 3).2 = [1, 4, 2, 3, 6] ∧
    ¬ IsMinHeap (Remove (memOfCosts [0, 1, 4, 2, 5, 6, 3]) [1, 2, 3, 4, 5, 6] 3).1
      (Remove (memOfCosts [0, 1, 4, 2, 5, 6, 3]) [1, 2, 3, 4, 5, 6] 3).2 := by
  decide!

/-- C5 (the code at the failing input): on the line `0 → 1 → 2`, after the first iteration of the
search loop the node `1` (world state `1`) is in the heap and is found in the open set only;
after the second iteration, which popped it and added it to the closed set, it is found in the
open set and in the closed set. So, when an action leaves the world state `1` as it is
(`loopTransitions`) or when the world state `1` is come back to (`cycleTransitions`), the test of
that transition ends `BuildPlan` in the fatal "A bug has been detected", however many iterations
are followed. -/
theorem popped_node_stays_in_open_set :
    ((okOf (startSearch (problem lineTransitions 9 1000)
        (freshPlanner (problem lineTransitions 9 1000)) 0)).bind
      (searchSteps (problem lineTransitions 9 1000) 1)).map
        (fun s => (s.heap, (s.st.nodes 1).worldState)) = some ([1], 1) ∧
    inOpenAndInClosed (problem lineTransitions 9 1000) 1
      ((okOf (startSearch (problem lineTransitions 9 1000)
        (freshPlanner (problem lineTransitions 9 1000)) 0)).bind
      (searchSteps (problem lineTransitions 9 1000) 1)) = some (true, false) ∧
    ((okOf (startSearch (problem lineTransitions 9 1000)
        (freshPlanner (problem lineTransitions 9 1000)) 0)).bind
      (searchSteps (problem lineTransitions 9 1000) 2)).map
        (fun s => (s.heap, (s.st.nodes 1).worldState)) = some ([2], 1) ∧
    inOpenAndInClosed (problem lineTransitions 9 1000) 1
      ((okOf (startSearch (problem lineTransitions 9 1000)
        (freshPlanner (problem lineTransitions 9 1000)) 0)).bind
      (searchSteps (problem lineTransitions 9 1000) 2)) = some (true, true) ∧
    ∀ k, BuildPlan (problem loopTransitions 9 1000) (2 + k)
        (freshPlanner (problem loopTransitions 9 1000)) 0 = .error .openAndClosed ∧
      BuildPlan (problem cycleTransitions 9 1000) (3 + k)
        (freshPlanner (problem cycleTransitions 9 1000)) 0 = .error .openAndClosed := by
  refine ⟨by decide!, by decide!, by decide!, by decide!, fun k => ⟨?_, ?_⟩⟩
  · exact BuildPlan_fatal _ 2 _ 0 .openAndClosed (by decide!) (by decide) k
  · exact BuildPlan_fatal _ 3 _ 0 .openAndClosed (by decide!) (by decide) k

/-- C6 (the code at the failing input): on `reuseTransitions` with the goal `4`, the search loop
ends at its sixth iteration with the node `g = 4`, whose `costSoFar` is `5` (the path
`0 → 34 → 4` of costs `2` and `3`). Its parent chain is made of the nodes `4, 1, 6, 3`, of world
states `4, 3, 2, 1`, whose transition costs `3, 5, 1, 3` add up to `12`: the pool item `1`, the
parent of `g`, was freed when the node of world state `34` was removed from the closed set, and
was given to the node of world state `3`. `BuildPlan` returns the plan of the records
`2, 5, 6, 3`, and the record `0` of the action `0 → 34` is deleted. -/
theorem plan_runs_through_reused_node :
    ∀ k, goalNodeOf (findGoalNode (problem reuseTransitions 4 1000) (6 + k)
        (freshPlanner (problem reuseTransitions 4 1000)) 0) =
        some { g := 4, costSoFar := 5, chain := [4, 1, 6, 3], worldStates := [4, 3, 2, 1],
               transitionCosts := [3, 5, 1, 3], records := [some 3, some 6, some 5, some 2] } ∧
      planOf (BuildPlan (problem reuseTransitions 4 1000) (6 + k)
        (freshPlanner (problem reuseTransitions 4 1000)) 0) = some ([2, 5, 6, 3], [1, 4, 0]) := by
  intro k
  have hne : findGoalNode (problem reuseTransitions 4 1000) 6
      (freshPlanner (problem reuseTransitions 4 1000)) 0 ≠ .error .outOfFuel :=
    ne_outOfFuel_of_fatalOf (e := none) (by decide!) (by decide)
  rw [findGoalNode_more_fuel _ 6 k _ 0 hne, BuildPlan_more_fuel _ 6 k _ 0 hne]
  exact ⟨by decide!, by decide!⟩

/-- C7 (the code at the failing inputs): transition costs are positive in both problems.
On `diamondTransitions`, a new node having `costSoFar = 1000`, the world state `3` is first
reached by `0 → 1 → 3` at cost `2`, then by `0 → 2 → 3` at cost `6`, and the node of cost `6`
replaces the one of cost `2`: the plan is made of the records `1, 3` (`0 → 2`, `2 → 3`), the goal
node has `costSoFar = 6`, and the record `2` of `1 → 3` is deleted. On `shortcutTransitions`, a
new node having `costSoFar = 0`, the world state `3` is first reached by `0 → 3` at cost `10`,
then by `0 → 1 → 3` at cost `2`, and the node of cost `2` is thrown away: the plan is the record
`0`, the goal node has `costSoFar = 10`, and the records `1, 2` of `0 → 1 → 3` are deleted. -/
theorem costlier_plan_returned :
    ∀ k, (goalNodeOf (findGoalNode (problem diamondTransitions 3 1000) (4 + k)
        (freshPlanner (problem diamondTransitions 3 1000)) 0) =
        some { g := 4, costSoFar := 6, chain := [4, 2], worldStates := [3, 2],
               transitionCosts := [5, 1], records := [some 3, some 1] } ∧
      planOf (BuildPlan (problem diamondTransitions 3 1000) (4 + k)
        (freshPlanner (problem diamondTransitions 3 1000)) 0) = some ([1, 3], [0, 2])) ∧
      (goalNodeOf (findGoalNode (problem shortcutTransitions 3 0) (3 + k)
        (freshPlanner (problem shortcutTransitions 3 0)) 0) =
        some { g := 1, costSoFar := 10, chain := [1], worldStates := [3],
               transitionCosts := [10], records := [some 0] } ∧
      planOf (BuildPlan (problem shortcutTransitions 3 0) (3 + k)
        (freshPlanner (problem shortcutTransitions 3 0)) 0) = some ([0], [1, 2])) := by
  intro k
  have h1 : findGoalNode (problem diamondTransitions 3 1000) 4
      (freshPlanner (problem diamondTransitions 3 1000)) 0 ≠ .error .outOfFuel :=
    ne_outOfFuel_of_fatalOf (e := none) (by decide!) (by decide)
  have h2 : findGoalNode (problem shortcutTransitions 3 0) 3
      (freshPlanner (problem shortcutTransitions 3 0)) 0 ≠ .error .outOfFuel :=
    ne_outOfFuel_of_fatalOf (e := none) (by decide!) (by decide)
  rw [findGoalNode_more_fuel _ 4 k _ 0 h1, BuildPlan_more_fuel _ 4 k _ 0 h1,
    findGoalNode_more_fuel _ 3 k _ 0 h2, BuildPlan_more_fuel _ 3 k _ 0 h2]
  exact ⟨⟨by decide!, by decide!⟩, by decide!, by decide!⟩

/-- C8 (the code at the failing inputs): on `loopAndGoalTransitions` the goal `2` is reached from
`0` by the two actions `0 → 1 → 2`, on `cycleTransitions` the goal `3` by the three actions
`0 → 1 → 2 → 3`; the costs are positive and there are three and four world states. Yet
`BuildPlan` returns no plan: it ends in the fatal "A bug has been detected" when it tests the
transition that leads to the world state `1` again, however many iterations are followed and
whatever `costSoFar` a new node has (`1000` or `0`). On the line `0 → 1 → 2`, where no world
state is reached twice, it returns the plan of the two records. -/
theorem reachable_goal_ends_in_fatal :
    ∀ k, BuildPlan (problem loopAndGoalTransitions 2 1000) (2 + k)
        (freshPlanner (problem loopAndGoalTransitions 2 1000)) 0 = .error .openAndClosed ∧
      BuildPlan (problem loopAndGoalTransitions 2 0) (2 + k)
        (freshPlanner (problem loopAndGoalTransitions 2 0)) 0 = .error .openAndClosed ∧
      BuildPlan (problem cycleTransitions 3 1000) (3 + k)
        (freshPlanner (problem cycleTransitions 3 1000)) 0 = .error .openAndClosed ∧
      BuildPlan (problem cycleTransitions 3 0) (3 + k)
        (freshPlanner (problem cycleTransitions 3 0)) 0 = .error .openAndClosed ∧
      planOf (BuildPlan (problem lineTransitions 2 1000) (3 + k)
        (freshPlanner (problem lineTransitions 2 1000)) 0) = some ([0, 1], []) := by
  intro k
  have h1 : findGoalNode (problem lineTransitions 2 1000) 3
      (freshPlanner (problem lineTransitions 2 1000)) 0 ≠ .error .outOfFuel :=
    ne_outOfFuel_of_fatalOf (e := none) (by decide!) (by decide)
  rw [BuildPlan_more_fuel _ 3 k _ 0 h1]
  exact ⟨BuildPlan_fatal _ 2 _ 0 .openAndClosed (by decide!) (by decide) k,
    BuildPlan_fatal _ 2 _ 0 .openAndClosed (by decide!) (by decide) k,
    BuildPlan_fatal _ 3 _ 0 .openAndClosed (by decide!) (by decide) k,
    BuildPlan_fatal _ 3 _ 0 .openAndClosed (by decide!) (by decide) k, by decide!⟩

/-- C9 (the code at the failing inputs): on `loopTransitions` and on `cycleTransitions` no world
state reached from `0` satisfies the goal `9`, yet `BuildPlan` does not return null: it ends in
the fatal "A bug has been detected" when it tests the transition that leads to the world state
`1` again, however many iterations are followed and whatever `costSoFar` a new node has (`1000`
or `0`). On the line `0 → 1 → 2`, where no world state is reached twice, it returns null, every
record is deleted and the used list of the pool is empty. -/
theorem unreachable_goal_ends_in_fatal :
    ∀ k, BuildPlan (problem loopTransitions 9 1000) (2 + k)
        (freshPlanner (problem loopTransitions 9 1000)) 0 = .error .openAndClosed ∧
      BuildPlan (problem loopTransitions 9 0) (2 + k)
        (freshPlanner (problem loopTransitions 9 0)) 0 = .error .openAndClosed ∧
      BuildPlan (problem cycleTransitions 9 1000) (3 + k)
        (freshPlanner (problem cycleTransitions 9 1000)) 0 = .error .openAndClosed ∧
      BuildPlan (problem cycleTransitions 9 0) (3 + k)
        (freshPlanner (problem cycleTransitions 9 0)) 0 = .error .openAndClosed ∧
      (okOf (BuildPlan (problem lineTransitions 9 1000) (4 + k)
        (freshPlanner (problem lineTransitions 9 1000)) 0)).map
          (fun r => (r.1, r.2.deletedRecords, r.2.pool.listFirst USED_LIST)) =
        some (none, [0, 1], -1) := by
  intro k
  have h1 : findGoalNode (problem lineTransitions 9 1000) 4
      (freshPlanner (problem lineTransitions 9 1000)) 0 ≠ .error .outOfFuel :=
    ne_outOfFuel_of_fatalOf (e := none) (by decide!) (by decide)
  rw [BuildPlan_more_fuel _ 4 k _ 0 h1]
  exact ⟨BuildPlan_fatal _ 2 _ 0 .openAndClosed (by decide!) (by decide) k,
    BuildPlan_fatal _ 2 _ 0 .openAndClosed (by decide!) (by decide) k,
    BuildPlan_fatal _ 3 _ 0 .openAndClosed (by decide!) (by decide) k,
    BuildPlan_fatal _ 3 _ 0 .openAndClosed (by decide!) (by decide) k, by decide!⟩

/-! ## The slot indices stored in the nodes of the heap -/

theorem slot_set (a : List Nat) (i k v : Nat) :
    slot (a.set i v) k = if i = k ∧ i < a.length then v else slot a k := by
  unfold slot
  rw [List.getD_eq_getElem?_getD, List.getD_eq_getElem?_getD, List.getElem?_set]
  by_cases h1 : i = k
  · by_cases h2 : i < a.length
    · subst h1
      simp [h2]
    · subst h1
      simp [h2]
      rw [List.getElem?_eq_none (by omega)]
      rfl
  · simp [h1]

theorem slot_dropLast (a : List Nat) (k : Nat) (h : k < a.length - 1) :
    slot a.dropLast k = slot a k := by
  unfold slot
  rw [List.getD_eq_getElem?_getD, List.getD_eq_getElem?_getD, List.getElem?_dropLast, if_pos h]

theorem setHeapArrayIndex_index (m : Mem) (n i x : Nat) :
    (setHeapArrayIndex m n i x).heapArrayIndex = if x = n then i else (m x).heapArrayIndex := by
  unfold setHeapArrayIndex
  by_cases h : x = n
  · subst h; simp
  · simp [h, Function.update_noteq h]

theorem IndexInv.slot_inj {m : Mem} {a : List Nat} (h : IndexInv m a) {k l : Nat}
    (hk : k < a.length) (hl : l < a.length) (e : slot a k = slot a l) : k = l := by
  rw [← h k hk, ← h l hl, e]

theorem Swap_indexInv {m : Mem} {a : List Nat} {i j : Nat} (h : IndexInv m a)
    (hi : i < a.length) (hj : j < a.length) : IndexInv (Swap m a i j).1 (Swap m a i j).2 := by
  intro k hk
  rw [Swap_length] at hk
  have h1 : slot (a.set i (slot a j)) i = slot a j := by
    rw [slot_set, if_pos ⟨rfl, hi⟩]
  have h2 : slot ((a.set i (slot a j)).set j (slot a i)) j = slot a i := by
    rw [slot_set, if_pos ⟨rfl, by rw [List.length_set]; exact hj⟩]
  show (setHeapArrayIndex (setHeapArrayIndex m (slot (a.set i (slot a j)) i) i)
      (slot ((a.set i (slot a j)).set j (slot a i)) j) j
      (slot ((a.set i (slot a j)).set j (slot a i)) k)).heapArrayIndex = k
  rw [h1, h2, setHeapArrayIndex_index, setHeapArrayIndex_index, slot_set, slot_set]
  by_cases hjk : j = k
  · subst hjk
    simp [hj]
  · by_cases hik : i = k
    · subst hik
      have : ¬ slot a j = slot a i := fun e => hjk (h.slot_inj hj hi e)
      simp [hjk, hi, this]
    · have e1 : ¬ slot a k = slot a i := fun e => hik (h.slot_inj hk hi e).symm
      have e2 : ¬ slot a k = slot a j := fun e => hjk (h.slot_inj hk hj e).symm
      simp [hjk, hik, e1, e2, h k hk]

theorem slot_mem {a : List Nat} {k : Nat} (h : k < a.length) : slot a k ∈ a := by
  unfold slot
  rw [List.getD_eq_getElem _ _ h]
  exact List.getElem_mem h

theorem BubbleDownLoop_indexInv :
    ∀ (fuel : Nat) (m : Mem) (a : List Nat) (hole : Nat), IndexInv m a →
      IndexInv (BubbleDownLoop fuel m a hole).1 (BubbleDownLoop fuel m a hole).2 := by
  intro fuel
  induction fuel with
  | zero => intro m a hole h; exact h
  | succ fuel ih =>
    intro m a hole h
    simp only [BubbleDownLoop]
    split_ifs
    all_goals first
      | exact h
      | (apply ih; apply Swap_indexInv h <;> omega)

theorem BubbleUpLoop_indexInv :
    ∀ (fuel : Nat) (m : Mem) (a : List Nat) (child : Nat), IndexInv m a → child < a.length →
      IndexInv (BubbleUpLoop fuel m a child).1 (BubbleUpLoop fuel m a child).2 := by
  intro fuel
  induction fuel with
  | zero => intro m a child h _; exact h
  | succ fuel ih =>
    intro m a child h hc
    simp only [BubbleUpLoop]
    split_ifs
    all_goals first
      | exact h
      | (apply ih
         · apply Swap_indexInv h <;> omega
         · rw [Swap_length]; omega)

/-- `Push` of a node that is not stored keeps every stored node's `heapArrayIndex` equal to its
slot. -/
theorem Push_indexInv {m : Mem} {a : List Nat} {node : Nat} (h : IndexInv m a)
    (hn : node ∉ a) : IndexInv (Push m a node).1 (Push m a node).2 := by
  unfold Push
  have hlen : (a ++ [node]).length - 1 = a.length := by simp
  have hslot : slot (a ++ [node]) a.length = node := by
    unfold slot
    rw [List.getD_eq_getElem?_getD, List.getElem?_concat_length]
    rfl
  apply BubbleUpLoop_indexInv
  · intro k hk
    show (setHeapArrayIndex m (slot (a ++ [node]) ((a ++ [node]).length - 1))
      ((a ++ [node]).length - 1) (slot (a ++ [node]) k)).heapArrayIndex = k
    rw [hlen, hslot, setHeapArrayIndex_index]
    by_cases hka : k = a.length
    · subst hka
      rw [hslot, if_pos rfl]
    · have hk2 : k < a.length := by
        simp at hk
        omega
      have e : slot (a ++ [node]) k = slot a k := List.getD_append _ _ _ _ hk2
      rw [e]
      have : slot a k ≠ node := fun e1 => hn (e1 ▸ slot_mem hk2)
      rw [if_neg this, h k hk2]
  · simp

theorem removeSlot_indexInv {m : Mem} {a : List Nat} {i : Nat} (h : IndexInv m a)
    (hi : i < a.length) :
    IndexInv (setHeapArrayIndex m (slot (a.set i (slot a (a.length - 1))) i) i)
      (a.set i (slot a (a.length - 1))).dropLast := by
  intro k hk
  rw [List.length_dropLast, List.length_set] at hk
  have e1 : slot (a.set i (slot a (a.length - 1))) i = slot a (a.length - 1) := by
    rw [slot_set, if_pos ⟨rfl, hi⟩]
  have e2 : slot (a.set i (slot a (a.length - 1))).dropLast k =
      slot (a.set i (slot a (a.length - 1))) k :=
    slot_dropLast _ _ (by rw [List.length_set]; exact hk)
  rw [e1, e2, slot_set, setHeapArrayIndex_index]
  by_cases hik : i = k
  · subst hik
    simp [hi]
  · have hkl : k < a.length := by omega
    have : ¬ slot a k = slot a (a.length - 1) := fun e => by
      have := h.slot_inj hkl (by omega) e
      omega
    simp [hik, this, h k hkl]

/-- `Pop` keeps every stored node's `heapArrayIndex` equal to its slot. -/
theorem Pop_indexInv {m : Mem} {a : List Nat} (h : IndexInv m a) :
    IndexInv (Pop m a).2.1 (Pop m a).2.2 := by
  unfold Pop
  cases ha : a with
  | nil => simpa [ha] using h
  | cons x r =>
    rw [← ha]
    have hne : a.isEmpty = false := by simp [ha]
    simp only [hne]
    exact BubbleDownLoop_indexInv _ _ _ _ (removeSlot_indexInv h (by simp [ha]))

/-- `Remove` of a slot of the array keeps every stored node's `heapArrayIndex` equal to its
slot. -/
theorem Remove_indexInv {m : Mem} {a : List Nat} {i : Nat} (h : IndexInv m a)
    (hi : i < a.length) : IndexInv (Remove m a i).1 (Remove m a i).2 :=
  BubbleDownLoop_indexInv _ _ _ _ (removeSlot_indexInv h hi)

theorem CheckIndices_of_indexInv (cfg : Planning) {m : Mem} {a : List Nat} (h : IndexInv m a) :
    CheckIndices cfg m a = .ok () := by
  unfold CheckIndices
  have : (List.range a.length).all (fun i => (m (slot a i)).heapArrayIndex == i) = true := by
    rw [List.all_eq_true]
    intro k hk
    simpa using h k (List.mem_range.1 hk)
  simp [this]

theorem runHeap_indexInv :
    ∀ (ops : List HeapOp) (m : Mem) (a : List Nat) (out : List (Option Nat × List Nat)),
      IndexInv m a → validHeapOps ops m a = true →
      IndexInv (runHeap ops m a out).1 (runHeap ops m a out).2.1
  | [], _, _, _, h, _ => h
  | HeapOp.push n :: ops, m, a, out, h, hv => by
    simp only [validHeapOps, Bool.and_eq_true, Bool.not_eq_true', List.contains_eq_any_beq,
      List.any_eq_false, beq_iff_eq] at hv
    exact runHeap_indexInv ops _ _ _ (Push_indexInv h (fun hn => hv.1 n hn rfl)) hv.2
  | HeapOp.pop :: ops, m, a, out, h, hv => by
    simp only [validHeapOps] at hv
    exact runHeap_indexInv ops _ _ _ (Pop_indexInv h) hv
  | HeapOp.remove i :: ops, m, a, out, h, hv => by
    simp only [validHeapOps, Bool.and_eq_true, decide_eq_true_eq] at hv
    exact runHeap_indexInv ops _ _ _ (Remove_indexInv h hv.1) hv.2

/-! ## Claim on the indices of the heap -/

/-- C13: after every sequence of `Push`, `Pop` and `Remove( i )` calls on an empty
`PlannerNodesHeap`, every `Push` being given a node that the array does not hold and every
`Remove` a slot index of the array, every node stored at a slot `k` of the array has
`heapArrayIndex` equal to `k`, and `CheckIndices` does not fail, in the debug build either. -/
theorem heap_slots_match_indices (cfg : Planning) (ops : List HeapOp) (m : Mem)
    (h : validHeapOps ops m [] = true) :
    (∀ k, k < (runHeap ops m [] []).2.1.length →
      ((runHeap ops m [] []).1 (slot (runHeap ops m [] []).2.1 k)).heapArrayIndex = k) ∧
    CheckIndices cfg (runHeap ops m [] []).1 (runHeap ops m [] []).2.1 = .ok () := by
  have hi : IndexInv (runHeap ops m [] []).1 (runHeap ops m [] []).2.1 :=
    runHeap_indexInv ops m [] [] (fun k hk => absurd hk (Nat.not_lt_zero k)) h
  exact ⟨hi, CheckIndices_of_indexInv cfg hi⟩

theorem heap_slots_match_indices_witness :
    validHeapOps [.push 0, .push 1, .push 2, .push 3, .push 4, .push 5, .push 6, .remove 3, .pop,
        .push 3, .pop] (memOfCosts [1, 4, 2, 5, 6, 7, 3]) [] = true ∧
      (runHeap [.push 0, .push 1, .push 2, .push 3, .push 4, .push 5, .push 6, .remove 3, .pop,
        .push 3, .pop] (memOfCosts [1, 4, 2, 5, 6, 7, 3]) [] []).2.1 = [1, 6, 3, 5, 4] ∧
      CheckIndices { problem lineTransitions 2 0 with debugBuild := true }
        (runHeap [.push 0, .push 1, .push 2, .push 3, .push 4, .push 5, .push 6, .remove 3, .pop,
          .push 3, .pop] (memOfCosts [1, 4, 2, 5, 6, 7, 3]) [] []).1
        (runHeap [.push 0, .push 1, .push 2, .push 3, .push 4, .push 5, .push 6, .remove 3, .pop,
          .push 3, .pop] (memOfCosts [1, 4, 2, 5, 6, 7, 3]) [] []).2.1 = .ok () :=
  ⟨by decide!, by decide!,
   (heap_slots_match_indices { problem lineTransitions 2 0 with debugBuild := true } _ _
      (by decide!)).2⟩

/-! ## The bins of a hash set -/

theorem setNextInHashBin_next (m : Mem) (a : Nat) (v : Option Nat) (x : Nat) :
    (setNextInHashBin m a v x).nextInHashBin = if x = a then v else (m x).nextInHashBin := by
  unfold setNextInHashBin
  by_cases h : x = a
  · subst h; simp
  · simp [h, Function.update_noteq h]

theorem setNextInHashBin_prev (m : Mem) (a : Nat) (v : Option Nat) (x : Nat) :
    (setNextInHashBin m a v x).prevInHashBin = (m x).prevInHashBin := by
  unfold setNextInHashBin
  by_cases h : x = a
  · subst h; simp
  · simp [h, Function.update_noteq h]

theorem setPrevInHashBin_prev (m : Mem) (a : Nat) (v : Option Nat) (x : Nat) :
    (setPrevInHashBin m a v x).prevInHashBin = if x = a then v else (m x).prevInHashBin := by
  unfold setPrevInHashBin
  by_cases h : x = a
  · subst h; simp
  · simp [h, Function.update_noteq h]

theorem setPrevInHashBin_next (m : Mem) (a : Nat) (v : Option Nat) (x : Nat) :
    (setPrevInHashBin m a v x).nextInHashBin = (m x).nextInHashBin := by
  unfold setPrevInHashBin
  by_cases h : x = a
  · subst h; simp
  · simp [h, Function.update_noteq h]

theorem LinksOnly.links_refl (m : Mem) : LinksOnly m m := fun _ => rfl

theorem LinksOnly.links_trans {m m1 m2 : Mem} (h1 : LinksOnly m m1) (h2 : LinksOnly m1 m2) :
    LinksOnly m m2 := by
  intro x
  rw [h2 x]
  conv_lhs => rw [h1 x]

theorem LinksOnly.setNext (m : Mem) (a : Nat) (v : Option Nat) :
    LinksOnly m (setNextInHashBin m a v) := by
  intro x
  unfold setNextInHashBin
  by_cases h : x = a
  · subst h; simp
  · simp [Function.update_noteq h]

theorem LinksOnly.setPrev (m : Mem) (a : Nat) (v : Option Nat) :
    LinksOnly m (setPrevInHashBin m a v) := by
  intro x
  unfold setPrevInHashBin
  by_cases h : x = a
  · subst h; simp
  · simp [Function.update_noteq h]

theorem unlinkNode_linksOnly (m : Mem) (x : Nat) : LinksOnly m (unlinkNode m x) := by
  unfold unlinkNode
  cases (m x).prevInHashBin <;> cases (m x).nextInHashBin
  · exact LinksOnly.links_refl m
  · exact LinksOnly.setPrev m _ _
  · exact LinksOnly.setNext m _ _
  · exact (LinksOnly.setNext m _ _).links_trans (LinksOnly.setPrev _ _ _)

theorem unlinkNode_next (m : Mem) (x y : Nat) :
    (unlinkNode m x y).nextInHashBin =
      if (m x).prevInHashBin = some y then (m x).nextInHashBin else (m y).nextInHashBin := by
  unfold unlinkNode
  cases hp : (m x).prevInHashBin with
  | none =>
    cases hn : (m x).nextInHashBin with
    | none => simp
    | some nx => simp [setPrevInHashBin_next]
  | some px =>
    have e : (some px = some y) ↔ y = px := by
      constructor
      · intro h; exact (Option.some.inj h).symm
      · intro h; rw [h]
    cases hn : (m x).nextInHashBin with
    | none => simp only [setNextInHashBin_next, e]
    | some nx => simp only [setPrevInHashBin_next, setNextInHashBin_next, e]

theorem unlinkNode_prev (m : Mem) (x y : Nat) :
    (unlinkNode m x y).prevInHashBin =
      if (m x).nextInHashBin = some y then (m x).prevInHashBin else (m y).prevInHashBin := by
  unfold unlinkNode
  cases hn : (m x).nextInHashBin with
  | none =>
    cases hp : (m x).prevInHashBin with
    | none => simp
    | some px => simp [setNextInHashBin_prev]
  | some nx =>
    have e : (some nx = some y) ↔ y = nx := by
      constructor
      · intro h; exact (Option.some.inj h).symm
      · intro h; rw [h]
    cases hp : (m x).prevInHashBin with
    | none => simp only [setPrevInHashBin_prev, e]
    | some px => simp only [setPrevInHashBin_prev, setNextInHashBin_prev, e]

theorem BinChain.frame_links {m m1 : Mem} :
    ∀ {l : List Nat} {p : Option Nat}, BinChain m p l →
      (∀ x ∈ l, (m1 x).prevInHashBin = (m x).prevInHashBin ∧
        (m1 x).nextInHashBin = (m x).nextInHashBin) → BinChain m1 p l
  | [], _, _, _ => trivial
  | x :: r, _, h, hf => by
    obtain ⟨hp, hn, hr⟩ := h
    have hx := hf x (List.mem_cons_self x r)
    exact ⟨by rw [hx.1, hp], by rw [hx.2, hn],
      BinChain.frame_links hr fun y hy => hf y (List.mem_cons_of_mem x hy)⟩

/-- The links of a node of a bin chain point into the chain. -/
theorem BinChain.bin_links_mem {m : Mem} :
    ∀ {l : List Nat} {p : Option Nat}, BinChain m p l → ∀ x ∈ l,
      ((m x).prevInHashBin = p ∨ ∃ w ∈ l, (m x).prevInHashBin = some w) ∧
      ((m x).nextInHashBin = none ∨ ∃ w ∈ l, (m x).nextInHashBin = some w)
  | [], _, _, _, hx => by cases hx
  | y :: r, _, h, x, hx => by
    obtain ⟨hp, hn, hr⟩ := h
    rcases List.mem_cons.1 hx with rfl | hx
    · refine ⟨Or.inl hp, ?_⟩
      rw [hn]
      cases r with
      | nil => exact Or.inl rfl
      | cons z r2 => exact Or.inr ⟨z, by simp, rfl⟩
    · have := BinChain.bin_links_mem hr x hx
      refine ⟨Or.inr ?_, ?_⟩
      · rcases this.1 with h1 | ⟨w, hw, h1⟩
        · exact ⟨y, List.mem_cons_self _ _, h1⟩
        · exact ⟨w, List.mem_cons_of_mem _ hw, h1⟩
      · rcases this.2 with h1 | ⟨w, hw, h1⟩
        · exact Or.inl h1
        · exact Or.inr ⟨w, List.mem_cons_of_mem _ hw, h1⟩

/-- Unlinking the first node of a part of a bin chain. -/
theorem BinChain.unlink_first_node {m : Mem} {q : Option Nat} {x : Nat} {r : List Nat}
    (h : BinChain m q (x :: r)) (hnd : (x :: r).Nodup) (hq : ∀ p, q = some p → p ∉ x :: r) :
    BinChain (unlinkNode m x) q r ∧
      ∀ p, q = some p → (unlinkNode m x p).nextInHashBin = r.head? := by
  obtain ⟨hpx, hnx, hr⟩ := h
  refine ⟨?_, ?_⟩
  · cases r with
    | nil => trivial
    | cons z r2 =>
      obtain ⟨hpz, hnz, hr2⟩ := hr
      have hxz : (m x).nextInHashBin = some z := hnx
      have hnd2 : (z :: r2).Nodup := (List.nodup_cons.1 hnd).2
      refine ⟨?_, ?_, ?_⟩
      · rw [unlinkNode_prev, if_pos hxz, hpx]
      · rw [unlinkNode_next, hpx, if_neg, hnz]
        intro e
        exact hq z e (by simp)
      · refine BinChain.frame_links hr2 fun w hw => ⟨?_, ?_⟩
        · rw [unlinkNode_prev, hxz, if_neg]
          intro e
          have : z = w := Option.some.inj e
          subst this
          exact (List.nodup_cons.1 hnd2).1 hw
        · rw [unlinkNode_next, hpx, if_neg]
          intro e
          exact hq w e (List.mem_cons_of_mem _ (List.mem_cons_of_mem _ hw))
  · intro p hp
    rw [unlinkNode_next, hpx, if_pos hp, hnx]

/-- Unlinking a node that is not the first one of a part of a bin chain. -/
theorem BinChain.unlink_inner_node {m : Mem} {x : Nat} :
    ∀ {r : List Nat} {q : Option Nat} {y : Nat}, BinChain m q (y :: r) → (y :: r).Nodup →
      x ∈ r → BinChain (unlinkNode m x) q (y :: r.erase x)
  | [], _, _, _, _, hx => by cases hx
  | z :: r2, q, y, h, hnd, hx => by
    obtain ⟨hpy, hny, hr⟩ := h
    have hyr : y ∉ z :: r2 := (List.nodup_cons.1 hnd).1
    have hndr : (z :: r2).Nodup := (List.nodup_cons.1 hnd).2
    have hlm := BinChain.bin_links_mem hr x hx
    have hprev_y : (unlinkNode m x y).prevInHashBin = (m y).prevInHashBin := by
      rw [unlinkNode_prev, if_neg]
      intro e
      rcases hlm.2 with h1 | ⟨w, hw, h1⟩
      · rw [h1] at e; cases e
      · rw [h1] at e
        have : w = y := Option.some.inj e
        subst this
        exact hyr hw
    by_cases hxz : x = z
    · subst hxz
      have := BinChain.unlink_first_node hr hndr (by
        intro p hp
        have : y = p := Option.some.inj hp
        subst this
        exact hyr)
      rw [List.erase_cons_head]
      exact ⟨by rw [hprev_y, hpy], this.2 y rfl, this.1⟩
    · have hx2 : x ∈ r2 := by
        rcases List.mem_cons.1 hx with h1 | h1
        · exact absurd h1 hxz
        · exact h1
      have ih := BinChain.unlink_inner_node hr hndr hx2
      have hzx : ¬(z == x) = true := by
        simpa using fun e : z = x => hxz e.symm
      rw [List.erase_cons_tail hzx]
      refine ⟨by rw [hprev_y, hpy], ?_, ih⟩
      rw [unlinkNode_next, if_neg, hny]
      · rfl
      · intro e
        obtain ⟨_, _, hr2⟩ := hr
        rcases (BinChain.bin_links_mem hr2 x hx2).1 with h1 | ⟨w, hw, h1⟩
        · rw [h1] at e
          have : z = y := Option.some.inj e
          exact hyr (this ▸ List.mem_cons_self _ _)
        · rw [h1] at e
          have : w = y := Option.some.inj e
          exact hyr (this ▸ List.mem_cons_of_mem _ hw)

/-- A node of a chain that starts a bin (no node before the first) and has no previous node
is the first node. -/
theorem BinChain.head_of_prev_none {m : Mem} {l : List Nat} {x : Nat}
    (h : BinChain m none l) (hx : x ∈ l) (hp : (m x).prevInHashBin = none) :
    ∃ r, l = x :: r := by
  cases l with
  | nil => cases hx
  | cons y r =>
    rcases List.mem_cons.1 hx with rfl | hx
    · exact ⟨r, rfl⟩
    · exfalso
      rcases (BinChain.bin_links_mem h.2.2 x hx).1 with h1 | ⟨w, _, h1⟩
      · rw [hp] at h1; cases h1
      · rw [hp] at h1; cases h1

theorem BinChain.not_head_of_prev_some {m : Mem} {l : List Nat} {x p : Nat}
    (h : BinChain m none l) (hx : x ∈ l) (hp : (m x).prevInHashBin = some p) :
    ∃ y r, l = y :: r ∧ x ∈ r ∧ p ∈ l := by
  cases l with
  | nil => cases hx
  | cons y r =>
    rcases List.mem_cons.1 hx with rfl | hx
    · rw [h.1] at hp; cases hp
    · refine ⟨y, r, rfl, hx, ?_⟩
      rcases (BinChain.bin_links_mem h.2.2 x hx).1 with h1 | ⟨w, hw, h1⟩
      · rw [hp] at h1
        rw [Option.some.inj h1]
        exact List.mem_cons_self _ _
      · rw [hp] at h1
        rw [Option.some.inj h1]
        exact List.mem_cons_of_mem _ hw

theorem LinksOnly.hash_eq {m m1 : Mem} (h : LinksOnly m m1) (x : Nat) :
    (m1 x).worldStateHash = (m x).worldStateHash ∧ (m1 x).worldState = (m x).worldState ∧
      (m1 x).heapArrayIndex = (m x).heapArrayIndex := by
  rw [h x]
  exact ⟨rfl, rfl, rfl⟩

theorem sameWorldState_linksOnly {m m1 : Mem} (h : LinksOnly m m1) (qHash qState x : Nat) :
    sameWorldState m1 qHash qState x = sameWorldState m qHash qState x := by
  unfold sameWorldState
  rw [(h.hash_eq x).1, (h.hash_eq x).2.1]

/-- The walk of `SameWorldStateNode` along a bin chain finds the first node of the chain that has
the hash and the world state asked for. -/
theorem SameWorldStateNodeLoop_chain (m : Mem) (qHash qState : Nat) :
    ∀ (l : List Nat) (p : Option Nat) (fuel : Nat), BinChain m p l → l.length < fuel →
      SameWorldStateNodeLoop m qHash qState fuel l.head? =
        some (l.find? (sameWorldState m qHash qState))
  | [], _, fuel, _, hf => by
    obtain ⟨k, rfl⟩ : ∃ k, fuel = k + 1 := ⟨fuel - 1, by simp at hf; omega⟩
    rfl
  | x :: r, _, fuel, h, hf => by
    obtain ⟨k, rfl⟩ : ∃ k, fuel = k + 1 := ⟨fuel - 1, by simp at hf; omega⟩
    have hk : r.length < k := by simp at hf; omega
    have ih := SameWorldStateNodeLoop_chain m qHash qState r (some x) k h.2.2 hk
    by_cases h1 : (m x).worldStateHash = qHash
    · by_cases h2 : (m x).worldState = qState
      · have hs : sameWorldState m qHash qState x = true := by simp [sameWorldState, h1, h2]
        simp [SameWorldStateNodeLoop, List.find?_cons, hs, h1, h2]
      · have hs : sameWorldState m qHash qState x = false := by simp [sameWorldState, h1, h2]
        simp [SameWorldStateNodeLoop, List.find?_cons, hs, h1, h2, h.2.1, ih]
    · have hs : sameWorldState m qHash qState x = false := by simp [sameWorldState, h1]
      simp [SameWorldStateNodeLoop, List.find?_cons, hs, h1, h.2.1, ih]

/-- The walk of `RemoveBySameWorldState` along a bin chain calls `RemoveNode` on the first node
of the chain that has the hash and the world state asked for, and fails when there is none. -/
theorem RemoveBySameWorldStateLoop_chain (cfg : Planning) (bins : Bins) (st : PlannerState)
    (qHash qState binIndex : Nat) :
    ∀ (l : List Nat) (p : Option Nat) (fuel : Nat), BinChain st.nodes p l → l.length < fuel →
      RemoveBySameWorldStateLoop cfg bins st qHash qState binIndex fuel l.head? =
        match l.find? (sameWorldState st.nodes qHash qState) with
        | some x => RemoveNode cfg bins st x binIndex
        | none => .error .removeNotFound
  | [], _, fuel, _, hf => by
    obtain ⟨k, rfl⟩ : ∃ k, fuel = k + 1 := ⟨fuel - 1, by simp at hf; omega⟩
    rfl
  | x :: r, _, fuel, h, hf => by
    obtain ⟨k, rfl⟩ : ∃ k, fuel = k + 1 := ⟨fuel - 1, by simp at hf; omega⟩
    have hk : r.length < k := by simp at hf; omega
    have ih := RemoveBySameWorldStateLoop_chain cfg bins st qHash qState binIndex r (some x) k
      h.2.2 hk
    by_cases h1 : (st.nodes x).worldStateHash = qHash
    · by_cases h2 : (st.nodes x).worldState = qState
      · have hs : sameWorldState st.nodes qHash qState x = true := by
          simp [sameWorldState, h1, h2]
        simp [RemoveBySameWorldStateLoop, List.find?_cons, hs, h1, h2]
      · have hs : sameWorldState st.nodes qHash qState x = false := by
          simp [sameWorldState, h1, h2]
        simp [RemoveBySameWorldStateLoop, List.find?_cons, hs, h1, h2, h.2.1, ih]
    · have hs : sameWorldState st.nodes qHash qState x = false := by simp [sameWorldState, h1]
      simp [RemoveBySameWorldStateLoop, List.find?_cons, hs, h1, h.2.1, ih]

/-- A list of distinct pool items has at most as many nodes as the pool has items. -/
theorem length_le_of_nodup_of_lt {l : List Nat} {n : Nat} (hnd : l.Nodup)
    (hlt : ∀ x ∈ l, x < n) : l.length ≤ n := by
  have hsub : l.Subperm (List.range n) :=
    List.subperm_of_subset hnd fun x hx => List.mem_range.2 (hlt x hx)
  simpa using hsub.length_le

theorem IsHashSet.length_lt {cfg : Planning} {N : Nat} {bins : Bins} {m : Mem}
    {chains : Nat → List Nat} (h : IsHashSet cfg N bins m chains) (b : Nat) :
    (chains b).length < cfg.itemsCount + 1 :=
  Nat.lt_succ_of_le (length_le_of_nodup_of_lt (h b).2.2.1 fun x hx => ((h b).2.2.2 x hx).2)

/-- The lookup in a well-formed hash set: the first node of the bin of the query that has its
hash and its world state. -/
theorem IsHashSet.sameWorldStateNode {cfg : Planning} {N : Nat} {bins : Bins} {m : Mem}
    {chains : Nat → List Nat} (h : IsHashSet cfg N bins m chains) (q : Nat) :
    SameWorldStateNode cfg N bins m q =
      some ((chains ((m q).worldStateHash % N)).find?
        (sameWorldState m (m q).worldStateHash (m q).worldState)) := by
  unfold SameWorldStateNode
  rw [(h _).1]
  exact SameWorldStateNodeLoop_chain m _ _ _ none _ (h _).2.1 (h.length_lt _)

/-- A node of a well-formed hash set that has the hash and the world state of the query is in
the bin of the query. -/
theorem IsHashSet.find_isSome_iff {cfg : Planning} {N : Nat} {bins : Bins} {m : Mem}
    {chains : Nat → List Nat} (h : IsHashSet cfg N bins m chains) (qHash qState : Nat) :
    ((chains (qHash % N)).find? (sameWorldState m qHash qState)).isSome = true ↔
      ∃ x, (∃ b, x ∈ chains b) ∧ (m x).worldStateHash = qHash ∧ (m x).worldState = qState := by
  rw [List.find?_isSome]
  constructor
  · rintro ⟨x, hx, hs⟩
    simp only [sameWorldState, Bool.and_eq_true, beq_iff_eq] at hs
    exact ⟨x, ⟨_, hx⟩, hs⟩
  · rintro ⟨x, ⟨b, hx⟩, h1, h2⟩
    have hb : b = qHash % N := by rw [← ((h b).2.2.2 x hx).1, h1]
    subst hb
    exact ⟨x, hx, by simp [sameWorldState, h1, h2]⟩

/-- The writes of `RemoveNode` on a node of a well-formed hash set, before its `DeleteSelf`. -/
theorem IsHashSet.removeNode_eq {cfg : Planning} {N : Nat} {bins : Bins} {st : PlannerState}
    {chains : Nat → List Nat} (h : IsHashSet cfg N bins st.nodes chains) {b x : Nat}
    (hx : x ∈ chains b) :
    RemoveNode cfg bins st x b =
      match DeleteSelf { st with nodes := unlinkNode st.nodes x } x with
      | .error e => .error e
      | .ok st1 =>
        .ok ((st.nodes x).heapArrayIndex, Function.update bins b ((chains b).erase x).head?,
          st1) := by
  have hidx : (unlinkNode st.nodes x x).heapArrayIndex = (st.nodes x).heapArrayIndex :=
    ((unlinkNode_linksOnly st.nodes x).hash_eq x).2.2
  unfold RemoveNode
  cases hp : (st.nodes x).prevInHashBin with
  | none =>
    obtain ⟨r, hr⟩ := BinChain.head_of_prev_none (h b).2.1 hx hp
    have hb : bins b = some x := by rw [(h b).1, hr]; rfl
    have hn : (st.nodes x).nextInHashBin = r.head? := by
      have := (h b).2.1
      rw [hr] at this
      exact this.2.1
    have he : (chains b).erase x = r := by rw [hr, List.erase_cons_head]
    have hu : unlinkNode st.nodes x =
        match r.head? with
        | some nextNode => setPrevInHashBin st.nodes nextNode none
        | none => st.nodes := by
      unfold unlinkNode
      rw [hp, hn]
    rw [he, hu]
    cases hh : r.head? with
    | none =>
      rw [hh] at hn
      simp [hp, hb, hn]
    | some nx =>
      rw [hh] at hn
      have hidx2 : (setPrevInHashBin st.nodes nx none x).heapArrayIndex =
          (st.nodes x).heapArrayIndex := by
        have := hidx
        rw [hu, hh] at this
        exact this
      simp [hp, hb, hn, hidx2]
  | some px =>
    obtain ⟨y, r, hr, hxr, _⟩ := BinChain.not_head_of_prev_some (h b).2.1 hx hp
    have hyx : ¬(y == x) = true := by
      have hnd := (h b).2.2.1
      rw [hr] at hnd
      simpa using fun e : y = x => (List.nodup_cons.1 hnd).1 (e ▸ hxr)
    have he : ((chains b).erase x).head? = bins b := by
      rw [(h b).1, hr, List.erase_cons_tail hyx]
      rfl
    have hnext : (setNextInHashBin st.nodes px (st.nodes x).nextInHashBin x).nextInHashBin =
        (st.nodes x).nextInHashBin := by
      rw [setNextInHashBin_next]
      split_ifs <;> rfl
    have hprev : (setNextInHashBin st.nodes px (st.nodes x).nextInHashBin x).prevInHashBin =
        some px := by
      rw [setNextInHashBin_prev, hp]
    have hu : unlinkNode st.nodes x =
        match (st.nodes x).nextInHashBin with
        | some nextNode =>
          setPrevInHashBin (setNextInHashBin st.nodes px (st.nodes x).nextInHashBin) nextNode
            (some px)
        | none => setNextInHashBin st.nodes px (st.nodes x).nextInHashBin := by
      unfold unlinkNode
      rw [hp]
    rw [he, Function.update_eq_self]
    rw [hu] at hidx ⊢
    cases hn : (st.nodes x).nextInHashBin with
    | none =>
      rw [hn] at hidx hnext hprev
      simp only [hp, hn, hnext, hprev]
      have hidx2 : (setNextInHashBin st.nodes px none x).heapArrayIndex =
          (st.nodes x).heapArrayIndex := hidx
      rw [hidx2]
    | some nx =>
      rw [hn] at hidx hnext hprev
      simp only [hp, hn, hnext, hprev]
      have hidx2 : (setPrevInHashBin (setNextInHashBin st.nodes px (some nx)) nx (some px)
          x).heapArrayIndex = (st.nodes x).heapArrayIndex := hidx
      rw [hidx2]

/-- The nodes of two bins of a well-formed hash set are different. -/
theorem IsHashSet.bins_disjoint {cfg : Planning} {N : Nat} {bins : Bins} {m : Mem}
    {chains : Nat → List Nat} (h : IsHashSet cfg N bins m chains) {b c x : Nat}
    (hb : x ∈ chains b) (hc : x ∈ chains c) : b = c := by
  rw [← ((h b).2.2.2 x hb).1, ← ((h c).2.2.2 x hc).1]

/-- Taking a node out of its bin leaves a well-formed hash set of the other nodes. -/
theorem IsHashSet.unlink_node {cfg : Planning} {N : Nat} {bins : Bins} {m : Mem}
    {chains : Nat → List Nat} (h : IsHashSet cfg N bins m chains) {b x : Nat}
    (hx : x ∈ chains b) :
    IsHashSet cfg N (Function.update bins b ((chains b).erase x).head?) (unlinkNode m x)
      (Function.update chains b ((chains b).erase x)) := by
  have hlo := unlinkNode_linksOnly m x
  intro c
  by_cases hcb : c = b
  · subst hcb
    simp only [Function.update_same]
    refine ⟨trivial, ?_, (h c).2.2.1.erase x, ?_⟩
    · obtain ⟨_, hch, hnd, _⟩ := h c
      cases hl : chains c with
      | nil => rw [hl] at hx; cases hx
      | cons y r =>
        rw [hl] at hx hch hnd
        by_cases hxy : x = y
        · subst hxy
          rw [List.erase_cons_head]
          exact (BinChain.unlink_first_node hch hnd (fun p hp => by cases hp)).1
        · have hxr : x ∈ r := by
            rcases List.mem_cons.1 hx with h1 | h1
            · exact absurd h1 hxy
            · exact h1
          have hyx : ¬(y == x) = true := by
            simpa using fun e : y = x => hxy e.symm
          rw [List.erase_cons_tail hyx]
          exact BinChain.unlink_inner_node hch hnd hxr
    · intro w hw
      have hw2 := List.mem_of_mem_erase hw
      rw [(hlo.hash_eq w).1]
      exact (h c).2.2.2 w hw2
  · simp only [Function.update_noteq hcb]
    refine ⟨(h c).1, ?_, (h c).2.2.1, ?_⟩
    · refine BinChain.frame_links (h c).2.1 fun w hw => ⟨?_, ?_⟩
      · rw [unlinkNode_prev, if_neg]
        intro e
        rcases (BinChain.bin_links_mem (h b).2.1 x hx).2 with h1 | ⟨v, hv, h1⟩
        · rw [h1] at e; cases e
        · rw [h1] at e
          have : v = w := Option.some.inj e
          subst this
          exact hcb (h.bins_disjoint hw hv)
      · rw [unlinkNode_next, if_neg]
        intro e
        rcases (BinChain.bin_links_mem (h b).2.1 x hx).1 with h1 | ⟨v, hv, h1⟩
        · rw [h1] at e; cases e
        · rw [h1] at e
          have : v = w := Option.some.inj e
          subst this
          exact hcb (h.bins_disjoint hw hv)
    · intro w hw
      rw [(hlo.hash_eq w).1]
      exact (h c).2.2.2 w hw

/-- The bins and the memory that `Add` leaves when it returns. -/
theorem Add_eq_ok {cfg : Planning} {N : Nat} {bins : Bins} {m : Mem} {node : Nat}
    {r : Bins × Mem} (hadd : Add cfg N bins m node = .ok r) :
    r = (Function.update bins ((m node).worldStateHash % N) (some node),
      match bins ((m node).worldStateHash % N) with
      | some headBinNode =>
        setNextInHashBin (setPrevInHashBin m headBinNode (some node)) node (some headBinNode)
      | none => m) := by
  have key : ∀ check : Except Fatal Unit,
      (match check with
        | .error e => (.error e : Except Fatal (Bins × Mem))
        | .ok _ =>
          match bins ((m node).worldStateHash % N) with
          | some headBinNode =>
            .ok (Function.update bins ((m node).worldStateHash % N) (some node),
              setNextInHashBin (setPrevInHashBin m headBinNode (some node)) node
                (some headBinNode))
          | none => .ok (Function.update bins ((m node).worldStateHash % N) (some node), m)) =
        .ok r →
      r = (Function.update bins ((m node).worldStateHash % N) (some node),
        match bins ((m node).worldStateHash % N) with
        | some headBinNode =>
          setNextInHashBin (setPrevInHashBin m headBinNode (some node)) node (some headBinNode)
        | none => m) := by
    intro check hc
    cases check with
    | error e => cases hc
    | ok u =>
      cases hb : bins ((m node).worldStateHash % N) with
      | none =>
        rw [hb] at hc
        simp only [Except.ok.injEq] at hc
        exact hc.symm
      | some hd =>
        rw [hb] at hc
        simp only [Except.ok.injEq] at hc
        exact hc.symm
  exact key _ hadd

/-- The `Add` of a node that is not in the set and whose links are null puts the node at the
head of its bin, when its check lets it through. -/
theorem IsHashSet.add_node {cfg : Planning} {N : Nat} {bins bins1 : Bins} {m m1 : Mem}
    {chains : Nat → List Nat} (h : IsHashSet cfg N bins m chains) {node : Nat}
    (hnew : ∀ b, node ∉ chains b) (hprev : (m node).prevInHashBin = none)
    (hnext : (m node).nextInHashBin = none) (hlt : node < cfg.itemsCount)
    (hadd : Add cfg N bins m node = .ok (bins1, m1)) :
    IsHashSet cfg N bins1 m1
        (Function.update chains ((m node).worldStateHash % N)
          (node :: chains ((m node).worldStateHash % N))) ∧
      LinksOnly m m1 := by
  have hres := Add_eq_ok hadd
  simp only [Prod.mk.injEq] at hres
  obtain ⟨hb1, hm1⟩ := hres
  have hlo : LinksOnly m m1 := by
    rw [hm1]
    cases bins ((m node).worldStateHash % N) with
    | none => exact LinksOnly.links_refl m
    | some hd => exact (LinksOnly.setPrev m _ _).links_trans (LinksOnly.setNext _ _ _)
  refine ⟨?_, hlo⟩
  have hlinks : ∀ w, w ≠ node → (∀ r, chains ((m node).worldStateHash % N) = w :: r → False) →
      (m1 w).prevInHashBin = (m w).prevInHashBin ∧ (m1 w).nextInHashBin = (m w).nextInHashBin := by
    intro w hwn hwh
    rw [hm1]
    cases hb : bins ((m node).worldStateHash % N) with
    | none => exact ⟨rfl, rfl⟩
    | some hd =>
      have hhd : w ≠ hd := by
        rintro rfl
        have := (h ((m node).worldStateHash % N)).1
        rw [hb] at this
        cases hl : chains ((m node).worldStateHash % N) with
        | nil => rw [hl] at this; cases this
        | cons y r =>
          rw [hl] at this
          have : w = y := Option.some.inj this
          exact hwh r (this ▸ hl)
      simp only [setNextInHashBin_prev, setNextInHashBin_next, setPrevInHashBin_prev,
        setPrevInHashBin_next, if_neg hwn, if_neg hhd, and_self]
  intro c
  by_cases hcb : c = (m node).worldStateHash % N
  · subst hcb
    simp only [Function.update_same]
    refine ⟨by rw [hb1]; simp, ?_, List.nodup_cons.2 ⟨hnew _, (h _).2.2.1⟩, ?_⟩
    · obtain ⟨hbin, hch, hnd, _⟩ := h ((m node).worldStateHash % N)
      cases hl : chains ((m node).worldStateHash % N) with
      | nil =>
        rw [hl] at hbin
        have hbn : bins ((m node).worldStateHash % N) = none := hbin
        rw [hbn] at hm1
        subst hm1
        exact ⟨hprev, hnext, trivial⟩
      | cons y r =>
        rw [hl] at hbin hch hnd
        have hbn : bins ((m node).worldStateHash % N) = some y := hbin
        rw [hbn] at hm1
        have hyn : y ≠ node := by
          rintro rfl
          exact hnew _ (hl ▸ List.mem_cons_self _ _)
        refine ⟨?_, ?_, ?_, ?_, ?_⟩
        · rw [hm1, setNextInHashBin_prev, setPrevInHashBin_prev, if_neg hyn.symm, hprev]
        · rw [hm1, setNextInHashBin_next, if_pos rfl]
          rfl
        · rw [hm1, setNextInHashBin_prev, setPrevInHashBin_prev, if_pos rfl]
        · rw [hm1, setNextInHashBin_next, if_neg hyn, setPrevInHashBin_next]
          exact hch.2.1
        · refine BinChain.frame_links hch.2.2 fun w hw => ?_
          refine hlinks w ?_ ?_
          · rintro rfl
            exact hnew _ (hl ▸ List.mem_cons_of_mem _ hw)
          · intro r2 hr2
            rw [hl] at hr2
            have : y = w := (List.cons.inj hr2).1
            subst this
            exact (List.nodup_cons.1 hnd).1 hw
    · intro w hw
      rw [(hlo.hash_eq w).1]
      rcases List.mem_cons.1 hw with rfl | hw
      · exact ⟨rfl, hlt⟩
      · exact (h _).2.2.2 w hw
  · simp only [Function.update_noteq hcb]
    refine ⟨by rw [hb1, Function.update_noteq hcb]; exact (h c).1, ?_, (h c).2.2.1, ?_⟩
    · refine BinChain.frame_links (h c).2.1 fun w hw => hlinks w ?_ ?_
      · rintro rfl
        exact hnew _ hw
      · intro r hr
        exact hcb (h.bins_disjoint hw (hr ▸ List.mem_cons_self _ _))
    · intro w hw
      rw [(hlo.hash_eq w).1]
      exact (h c).2.2.2 w hw

/-- The call `RemoveBySameWorldState( q )` on a well-formed hash set: `RemoveNode` on the first
node of the bin of `q` that has its hash and its world state, a fatal condition when there is
none. -/
theorem IsHashSet.removeBySameWorldState {cfg : Planning} {N : Nat} {bins : Bins}
    {st : PlannerState} {chains : Nat → List Nat} (h : IsHashSet cfg N bins st.nodes chains)
    (q : Nat) :
    RemoveBySameWorldState cfg N bins st q =
      match (chains ((st.nodes q).worldStateHash % N)).find?
          (sameWorldState st.nodes (st.nodes q).worldStateHash (st.nodes q).worldState) with
      | some x =>
        match DeleteSelf { st with nodes := unlinkNode st.nodes x } x with
        | .error e => .error e
        | .ok st1 =>
          .ok ((st.nodes x).heapArrayIndex,
            Function.update bins ((st.nodes q).worldStateHash % N)
              ((chains ((st.nodes q).worldStateHash % N)).erase x).head?, st1)
      | none => .error .removeNotFound := by
  unfold RemoveBySameWorldState
  simp only []
  rw [(h _).1, RemoveBySameWorldStateLoop_chain cfg bins st _ _ _ _ none _ (h _).2.1
    (h.length_lt _)]
  cases hf : (chains ((st.nodes q).worldStateHash % N)).find?
      (sameWorldState st.nodes (st.nodes q).worldStateHash (st.nodes q).worldState) with
  | none => rfl
  | some x => exact h.removeNode_eq (List.mem_of_find?_eq_some hf)

/-- The memory of the nodes after a `DeleteSelf` that returned. -/
theorem DeleteSelf_nodes {st st1 : PlannerState} {node : Nat}
    (h : DeleteSelf st node = .ok st1) : st1.nodes = st.nodes :=
  (DeleteSelf_ok h).1

/-- The hash set stays well formed along a run, and holds the nodes that the run lists. -/
theorem runSet_wellformed (cfg : Planning) (N : Nat) :
    ∀ (ops : List SetOp) (bins : Bins) (st : PlannerState) (held : List Nat) (bins1 : Bins)
      (st1 : PlannerState) (held1 : List Nat),
      held.Nodup →
      (∃ chains, IsHashSet cfg N bins st.nodes chains ∧ ∀ x, x ∈ held ↔ ∃ b, x ∈ chains b) →
      runSet cfg N ops bins st held = some (bins1, st1, held1) →
      held1.Nodup ∧
        ∃ chains1, IsHashSet cfg N bins1 st1.nodes chains1 ∧
          ∀ x, x ∈ held1 ↔ ∃ b, x ∈ chains1 b
  | [], bins, st, held, bins1, st1, held1, hnd, hinv, hrun => by
    simp only [runSet, Option.some.injEq, Prod.mk.injEq] at hrun
    obtain ⟨rfl, rfl, rfl⟩ := hrun
    exact ⟨hnd, hinv⟩
  | SetOp.add node :: ops, bins, st, held, bins1, st1, held1, hnd, hinv, hrun => by
    obtain ⟨chains, hset, hheld⟩ := hinv
    unfold runSet at hrun
    split_ifs at hrun with hg
    simp only [not_or, not_not] at hg
    obtain ⟨hnh, hprev, hnext, hlt⟩ := hg
    cases hadd : Add cfg N bins st.nodes node with
    | error e => rw [hadd] at hrun; cases hrun
    | ok r =>
      obtain ⟨b2, m2⟩ := r
      rw [hadd] at hrun
      have hnew : ∀ b, node ∉ chains b := fun b hb => hnh ((hheld node).2 ⟨b, hb⟩)
      have hset2 := (hset.add_node hnew hprev hnext hlt hadd).1
      refine runSet_wellformed cfg N ops b2 { st with nodes := m2 } (node :: held) bins1 st1 held1
        (List.nodup_cons.2 ⟨hnh, hnd⟩) ⟨_, hset2, ?_⟩ hrun
      intro x
      constructor
      · intro hx
        rcases List.mem_cons.1 hx with rfl | hx
        · exact ⟨_, by rw [Function.update_same]; exact List.mem_cons_self _ _⟩
        · obtain ⟨b, hb⟩ := (hheld x).1 hx
          by_cases hbb : b = (st.nodes node).worldStateHash % N
          · subst hbb
            exact ⟨_, by rw [Function.update_same]; exact List.mem_cons_of_mem _ hb⟩
          · exact ⟨b, by rw [Function.update_noteq hbb]; exact hb⟩
      · rintro ⟨b, hb⟩
        by_cases hbb : b = (st.nodes node).worldStateHash % N
        · subst hbb
          rw [Function.update_same] at hb
          rcases List.mem_cons.1 hb with rfl | hb
          · exact List.mem_cons_self _ _
          · exact List.mem_cons_of_mem _ ((hheld x).2 ⟨_, hb⟩)
        · rw [Function.update_noteq hbb] at hb
          exact List.mem_cons_of_mem _ ((hheld x).2 ⟨b, hb⟩)
  | SetOp.remove q :: ops, bins, st, held, bins1, st1, held1, hnd, hinv, hrun => by
    obtain ⟨chains, hset, hheld⟩ := hinv
    unfold runSet at hrun
    rw [hset.removeBySameWorldState q, hset.sameWorldStateNode q] at hrun
    cases hf : (chains ((st.nodes q).worldStateHash % N)).find?
        (sameWorldState st.nodes (st.nodes q).worldStateHash (st.nodes q).worldState) with
    | none => rw [hf] at hrun; cases hrun
    | some x =>
      rw [hf] at hrun
      dsimp only at hrun
      have hx := List.mem_of_find?_eq_some hf
      cases hd : DeleteSelf { st with nodes := unlinkNode st.nodes x } x with
      | error e => rw [hd] at hrun; cases hrun
      | ok st2 =>
        rw [hd] at hrun
        dsimp only at hrun
        have hn2 : st2.nodes = unlinkNode st.nodes x := DeleteSelf_nodes hd
        have hset2 := hset.unlink_node hx
        rw [← hn2] at hset2
        refine runSet_wellformed cfg N ops _ st2 (held.erase x) bins1 st1 held1 (hnd.erase x)
          ⟨_, hset2, ?_⟩ hrun
        intro y
        rw [hnd.mem_erase_iff]
        constructor
        · rintro ⟨hyx, hy⟩
          obtain ⟨b, hb⟩ := (hheld y).1 hy
          by_cases hbb : b = (st.nodes q).worldStateHash % N
          · subst hbb
            exact ⟨_, by
              rw [Function.update_same]
              exact (List.mem_erase_of_ne hyx).2 hb⟩
          · exact ⟨b, by rw [Function.update_noteq hbb]; exact hb⟩
        · rintro ⟨b, hb⟩
          by_cases hbb : b = (st.nodes q).worldStateHash % N
          · subst hbb
            rw [Function.update_same] at hb
            refine ⟨?_, (hheld y).2 ⟨_, List.mem_of_mem_erase hb⟩⟩
            rintro rfl
            exact ((hset _).2.2.1.not_mem_erase) hb
          · rw [Function.update_noteq hbb] at hb
            refine ⟨?_, (hheld y).2 ⟨b, hb⟩⟩
            rintro rfl
            exact hbb (hset.bins_disjoint hb hx)

/-- The lookup `ContainsSameWorldState` in a well-formed hash set returns, and tells whether a
node of the set has the hash and the world state of the query. -/
theorem IsHashSet.contains_iff {cfg : Planning} {N : Nat} {bins : Bins} {m : Mem}
    {chains : Nat → List Nat} (h : IsHashSet cfg N bins m chains) (q : Nat) :
    ∃ found, ContainsSameWorldState cfg N bins m q = .ok found ∧
      (found = true ↔ ∃ x, (∃ b, x ∈ chains b) ∧
        (m x).worldStateHash = (m q).worldStateHash ∧ (m x).worldState = (m q).worldState) := by
  refine ⟨_, ?_, h.find_isSome_iff (m q).worldStateHash (m q).worldState⟩
  unfold ContainsSameWorldState
  rw [h.sameWorldStateNode q]

/-! ## Claims on the hash sets -/

/-- C11, as stated: the closed set of `BuildPlan` is given the node `1` only (by one `Add`), a
node that has neither the hash nor the world state of node `3`; node `1` is still linked to
node `2` in its bin of the open set, `Add` leaves that link in place, and
`ContainsSameWorldState( 3 )` on the closed set walks on to node `2` and returns true. -/
theorem closed_set_lookup_finds_open_node :
    okOf (closedLookupAfterOpen (problem lineTransitions 2 0)) = some true ∧
      (collidingNodes 1).worldStateHash ≠ (collidingNodes 3).worldStateHash ∧
      (collidingNodes 1).worldState ≠ (collidingNodes 3).worldState := by
  decide!

/-- C11 (amended): for every hash set built from the empty set by `Add` and
`RemoveBySameWorldState` calls that returned, every `Add` being given a pool item that the set
does not hold and whose `prevInHashBin` and `nextInHashBin` are null, and for every query node
`q`: `ContainsSameWorldState( q )` returns, and it returns true if and only if the set holds a
node whose `worldStateHash` equals that of `q` and whose world state equals that of `q`. Hence,
if equal world states always have equal hashes, it returns true exactly when the set holds a
node of an equal world state. -/
theorem ContainsSameWorldState_iff_held (cfg : Planning) (N : Nat) (ops : List SetOp)
    (st : PlannerState) (bins1 : Bins) (st1 : PlannerState) (held1 : List Nat)
    (hrun : runSet cfg N ops (fun _ => none) st [] = some (bins1, st1, held1)) (q : Nat) :
    ∃ found, ContainsSameWorldState cfg N bins1 st1.nodes q = .ok found ∧
      (found = true ↔ ∃ x ∈ held1,
        (st1.nodes x).worldStateHash = (st1.nodes q).worldStateHash ∧
          (st1.nodes x).worldState = (st1.nodes q).worldState) ∧
      ((∀ x y, (st1.nodes x).worldState = (st1.nodes y).worldState →
          (st1.nodes x).worldStateHash = (st1.nodes y).worldStateHash) →
        (found = true ↔ ∃ x ∈ held1, (st1.nodes x).worldState = (st1.nodes q).worldState)) := by
  have hempty : IsHashSet cfg N (fun _ => none) st.nodes (fun _ => []) :=
    fun _ => ⟨rfl, trivial, List.nodup_nil, fun x hx => by cases hx⟩
  obtain ⟨_, chains1, hset, hheld⟩ := runSet_wellformed cfg N ops _ st [] bins1 st1 held1
    List.nodup_nil ⟨_, hempty, fun x => by simp⟩ hrun
  obtain ⟨found, hfound, hiff⟩ := hset.contains_iff q
  have hiff2 : found = true ↔ ∃ x ∈ held1,
      (st1.nodes x).worldStateHash = (st1.nodes q).worldStateHash ∧
        (st1.nodes x).worldState = (st1.nodes q).worldState := by
    rw [hiff]
    constructor
    · rintro ⟨x, hx, h1⟩
      exact ⟨x, (hheld x).2 hx, h1⟩
    · rintro ⟨x, hx, h1⟩
      exact ⟨x, (hheld x).1 hx, h1⟩
  refine ⟨found, hfound, hiff2, fun hhash => ?_⟩
  rw [hiff2]
  constructor
  · rintro ⟨x, hx, _, h2⟩
    exact ⟨x, hx, h2⟩
  · rintro ⟨x, hx, h2⟩
    exact ⟨x, hx, hhash x q h2, h2⟩

theorem ContainsSameWorldState_iff_held_witness :
    ∃ bins1 st1 held1,
      runSet (problem lineTransitions 2 0) 71 [.add 0, .add 1, .remove 2, .add 2]
        (fun _ => none) setPlanner [] = some (bins1, st1, held1) ∧
      held1 = [2, 1] ∧
      ∃ found,
        ContainsSameWorldState (problem lineTransitions 2 0) 71 bins1 st1.nodes 0 = .ok found ∧
        (found = true ↔ ∃ x ∈ held1,
          (st1.nodes x).worldStateHash = (st1.nodes 0).worldStateHash ∧
            (st1.nodes x).worldState = (st1.nodes 0).worldState) ∧
        ((∀ x y, (st1.nodes x).worldState = (st1.nodes y).worldState →
            (st1.nodes x).worldStateHash = (st1.nodes y).worldStateHash) →
          (found = true ↔ ∃ x ∈ held1, (st1.nodes x).worldState = (st1.nodes 0).worldState)) := by
  have hm : (runSet (problem lineTransitions 2 0) 71 [.add 0, .add 1, .remove 2, .add 2]
      (fun _ => none) setPlanner []).map (fun r => r.2.2) = some [2, 1] := by decide!
  cases h : runSet (problem lineTransitions 2 0) 71 [.add 0, .add 1, .remove 2, .add 2]
      (fun _ => none) setPlanner [] with
  | none => rw [h] at hm; cases hm
  | some r =>
    obtain ⟨b, s, hl⟩ := r
    rw [h] at hm
    exact ⟨b, s, hl, rfl, Option.some.inj hm,
      ContainsSameWorldState_iff_held (problem lineTransitions 2 0) 71 _ setPlanner b s hl h 0⟩

/-- C12: for every well-formed hash set whose nodes are allocated items of the planner nodes
pool and every argument `q`: if the set holds a node with the hash and an equal world state as
`q`, `RemoveBySameWorldState( q )` returns the `heapArrayIndex` of the first such node `x` of the
bin of `q` (no node before `x` in the bin is such a node), unlinks `x` and no other node (the
bin of `q` is the chain of its other nodes in the same order, every other bin is as before, and
all bins are well-formed doubly linked lists), changes nothing of the nodes but their bin links,
and returns `x` to the free list of the pool; if the set holds no such node, the call ends in
the fatal condition of its last line. -/
theorem RemoveBySameWorldState_unlinks_first (cfg : Planning) (N n : Nat) (bins : Bins)
    (st : PlannerState) (chains : Nat → List Nat) (fl ul : List Int) (q : Nat)
    (hset : IsHashSet cfg N bins st.nodes chains)
    (hpool : PoolInv n st.pool fl ul)
    (hused : ∀ b, ∀ x ∈ chains b, (x : Int) ∈ ul) :
    ((∃ b, ∃ y ∈ chains b, (st.nodes y).worldStateHash = (st.nodes q).worldStateHash ∧
        (st.nodes y).worldState = (st.nodes q).worldState) →
      ∃ x l1 l2 bins1 st1,
        chains ((st.nodes q).worldStateHash % N) = l1 ++ x :: l2 ∧
        ((st.nodes x).worldStateHash = (st.nodes q).worldStateHash ∧
          (st.nodes x).worldState = (st.nodes q).worldState) ∧
        (∀ y ∈ l1, ¬ ((st.nodes y).worldStateHash = (st.nodes q).worldStateHash ∧
          (st.nodes y).worldState = (st.nodes q).worldState)) ∧
        x ∉ l1 ++ l2 ∧
        RemoveBySameWorldState cfg N bins st q =
          .ok ((st.nodes x).heapArrayIndex, bins1, st1) ∧
        IsHashSet cfg N bins1 st1.nodes
          (Function.update chains ((st.nodes q).worldStateHash % N) (l1 ++ l2)) ∧
        LinksOnly st.nodes st1.nodes ∧
        PoolInv n st1.pool ((x : Int) :: fl) (ul.erase (x : Int))) ∧
    ((∀ b, ∀ y ∈ chains b, ¬ ((st.nodes y).worldStateHash = (st.nodes q).worldStateHash ∧
        (st.nodes y).worldState = (st.nodes q).worldState)) →
      RemoveBySameWorldState cfg N bins st q = .error .removeNotFound) := by
  have hR := hset.removeBySameWorldState q
  have hsome := hset.find_isSome_iff (st.nodes q).worldStateHash (st.nodes q).worldState
  constructor
  · rintro ⟨b, y, hy, hmatch⟩
    have hs := hsome.2 ⟨y, ⟨b, hy⟩, hmatch⟩
    obtain ⟨x, hf⟩ := Option.isSome_iff_exists.1 hs
    rw [hf] at hR
    dsimp only at hR
    obtain ⟨hpx, l1, l2, hl, hl1⟩ := List.find?_eq_some.1 hf
    have hx : x ∈ chains ((st.nodes q).worldStateHash % N) := List.mem_of_find?_eq_some hf
    have hnd := (hset ((st.nodes q).worldStateHash % N)).2.2.1
    rw [hl] at hnd
    have hxl1 : x ∉ l1 := fun hm =>
      (List.nodup_append.1 hnd).2.2 hm (List.mem_cons_self _ _)
    have hxl2 : x ∉ l2 := (List.nodup_cons.1 (List.nodup_append.1 hnd).2.1).1
    have herase : (chains ((st.nodes q).worldStateHash % N)).erase x = l1 ++ l2 := by
      rw [hl, List.erase_append_right _ hxl1, List.erase_cons_head]
    obtain ⟨p1, hF, hpool1⟩ := hpool.free (hused _ x hx)
    have hD : DeleteSelf { st with nodes := unlinkNode st.nodes x } x =
        .ok { st with
          nodes := unlinkNode st.nodes x, pool := p1,
          deletedRecords :=
            match (unlinkNode st.nodes x x).actionRecord with
            | some r => r :: st.deletedRecords
            | none => st.deletedRecords } := by
      unfold DeleteSelf
      dsimp only
      rw [hF]
    rw [hD] at hR
    dsimp only at hR
    have hset1 := hset.unlink_node hx
    rw [herase] at hset1 hR
    simp only [sameWorldState, Bool.and_eq_true, beq_iff_eq] at hpx
    refine ⟨x, l1, l2, _, _, hl, hpx, ?_, ?_, hR, hset1, unlinkNode_linksOnly _ _, hpool1⟩
    · intro y hy hm
      have := hl1 y hy
      simp [sameWorldState, hm.1, hm.2] at this
    · intro hm
      rcases List.mem_append.1 hm with h1 | h1
      · exact hxl1 h1
      · exact hxl2 h1
  · intro hno
    have hnone : (chains ((st.nodes q).worldStateHash % N)).find?
        (sameWorldState st.nodes (st.nodes q).worldStateHash (st.nodes q).worldState) = none := by
      rw [List.find?_eq_none]
      intro y hy hp
      simp only [sameWorldState, Bool.and_eq_true, beq_iff_eq] at hp
      exact hno _ y hy hp
    rw [hnone] at hR
    exact hR

theorem RemoveBySameWorldState_unlinks_first_witness :
    IsHashSet (problem lineTransitions 2 0) 71 chainedBins chainedPlanner.nodes chainedChains ∧
    PoolInv 3 chainedPlanner.pool [] [0, 1, 2] ∧
    (∀ b, ∀ x ∈ chainedChains b, (x : Int) ∈ [(0 : Int), 1, 2]) ∧
    (∃ b, ∃ y ∈ chainedChains b,
        (chainedPlanner.nodes y).worldStateHash = (chainedPlanner.nodes 2).worldStateHash ∧
        (chainedPlanner.nodes y).worldState = (chainedPlanner.nodes 2).worldState) ∧
    (okOf (RemoveBySameWorldState (problem lineTransitions 2 0) 71 chainedBins chainedPlanner
        2)).map (fun r => r.1) = some 4 ∧
    ((∃ b, ∃ y ∈ chainedChains b,
        (chainedPlanner.nodes y).worldStateHash = (chainedPlanner.nodes 2).worldStateHash ∧
        (chainedPlanner.nodes y).worldState = (chainedPlanner.nodes 2).worldState) →
      ∃ x l1 l2 bins1 st1,
        chainedChains ((chainedPlanner.nodes 2).worldStateHash % 71) = l1 ++ x :: l2 ∧
        ((chainedPlanner.nodes x).worldStateHash = (chainedPlanner.nodes 2).worldStateHash ∧
          (chainedPlanner.nodes x).worldState = (chainedPlanner.nodes 2).worldState) ∧
        (∀ y ∈ l1,
          ¬ ((chainedPlanner.nodes y).worldStateHash = (chainedPlanner.nodes 2).worldStateHash ∧
            (chainedPlanner.nodes y).worldState = (chainedPlanner.nodes 2).worldState)) ∧
        x ∉ l1 ++ l2 ∧
        RemoveBySameWorldState (problem lineTransitions 2 0) 71 chainedBins chainedPlanner 2 =
          .ok ((chainedPlanner.nodes x).heapArrayIndex, bins1, st1) ∧
        IsHashSet (problem lineTransitions 2 0) 71 bins1 st1.nodes
          (Function.update chainedChains ((chainedPlanner.nodes 2).worldStateHash % 71)
            (l1 ++ l2)) ∧
        LinksOnly chainedPlanner.nodes st1.nodes ∧
        PoolInv 3 st1.pool ((x : Int) :: []) ([(0 : Int), 1, 2].erase (x : Int))) ∧
    ((∀ b, ∀ y ∈ chainedChains b,
        ¬ ((chainedPlanner.nodes y).worldStateHash = (chainedPlanner.nodes 2).worldStateHash ∧
          (chainedPlanner.nodes y).worldState = (chainedPlanner.nodes 2).worldState)) →
      RemoveBySameWorldState (problem lineTransitions 2 0) 71 chainedBins chainedPlanner 2 =
        .error .removeNotFound) :=
  have hset : IsHashSet (problem lineTransitions 2 0) 71 chainedBins chainedPlanner.nodes
      chainedChains := by
    intro b
    by_cases hb : b = 5
    · subst hb
      refine ⟨rfl, ⟨rfl, rfl, rfl, rfl, trivial⟩, by decide, ?_⟩
      intro x hx
      have : x = 1 ∨ x = 0 := by simpa [chainedChains] using hx
      rcases this with rfl | rfl
      · exact ⟨rfl, by decide⟩
      · exact ⟨rfl, by decide⟩
    · simp only [chainedBins, chainedChains, if_neg hb]
      exact ⟨rfl, trivial, List.nodup_nil, fun x hx => by cases hx⟩
  have hpool : PoolInv 3 chainedPlanner.pool [] [0, 1, 2] :=
    ⟨⟨rfl, trivial⟩,
     ⟨rfl, by decide, rfl, rfl, by decide, rfl, rfl, by decide, rfl, rfl, trivial⟩,
     List.Perm.refl _⟩
  have hused : ∀ b, ∀ x ∈ chainedChains b, (x : Int) ∈ [(0 : Int), 1, 2] := by
    intro b x hx
    by_cases hb : b = 5
    · subst hb
      have : x = 1 ∨ x = 0 := by simpa [chainedChains] using hx
      rcases this with rfl | rfl <;> decide
    · simp only [chainedChains, if_neg hb] at hx
      cases hx
  ⟨hset, hpool, hused, ⟨5, 0, by decide, rfl, rfl⟩, by decide!,
    RemoveBySameWorldState_unlinks_first (problem lineTransitions 2 0) 71 3 chainedBins
      chainedPlanner chainedChains [] [0, 1, 2] 2 hset hpool hused⟩

/-! ## The choice of the goal and of the plan -/

theorem firstPlannedGoal_none_iff (env : Thinking) :
    ∀ (gs : List Nat) (st st1 : PlannerState),
      firstPlannedGoal env none gs st = .ok (none, st1) ↔ AllFail env gs st st1
  | [], st, st1 => by
    simp only [firstPlannedGoal, AllFail, Except.ok.injEq, Prod.mk.injEq, true_and]
    exact eq_comm
  | g :: gs, st, st1 => by
    have ih := firstPlannedGoal_none_iff env gs
    have hne : ¬ (some g = (none : Option Nat)) := by simp
    simp only [firstPlannedGoal, AllFail, if_neg hne]
    cases hb : env.buildPlan g st with
    | error e => simp
    | ok r =>
      obtain ⟨plan, st0⟩ := r
      cases plan with
      | none => simp [ih]
      | some h => simp

theorem firstPlannedGoal_some_iff (env : Thinking) (goal head : Nat) :
    ∀ (gs : List Nat) (st st1 : PlannerState),
      firstPlannedGoal env none gs st = .ok (some (goal, head), st1) ↔
        ∃ pre post sm, gs = pre ++ goal :: post ∧ AllFail env pre st sm ∧
          env.buildPlan goal sm = .ok (some head, st1)
  | [], st, st1 => by
    simp [firstPlannedGoal]
  | g :: gs, st, st1 => by
    have ih := firstPlannedGoal_some_iff env goal head gs
    have hne : ¬ (some g = (none : Option Nat)) := by simp
    simp only [firstPlannedGoal, if_neg hne]
    cases hb : env.buildPlan g st with
    | error e =>
      constructor
      · intro h
        cases h
      rintro ⟨pre, post, sm, hl, hfail, hbp⟩
      exfalso
      cases pre with
      | nil =>
        simp only [List.nil_append, List.cons.injEq] at hl
        obtain ⟨rfl, rfl⟩ := hl
        simp only [AllFail] at hfail
        subst hfail
        rw [hb] at hbp
        cases hbp
      | cons x pre2 =>
        simp only [List.cons_append, List.cons.injEq] at hl
        obtain ⟨rfl, rfl⟩ := hl
        obtain ⟨st0, h1, _⟩ := hfail
        rw [hb] at h1
        cases h1
    | ok r =>
      obtain ⟨plan, st0⟩ := r
      cases plan with
      | none =>
        simp only []
        rw [ih]
        constructor
        · rintro ⟨pre, post, sm, rfl, hf, hbp⟩
          exact ⟨g :: pre, post, sm, rfl, ⟨st0, hb, hf⟩, hbp⟩
        · rintro ⟨pre, post, sm, hl, hf, hbp⟩
          cases pre with
          | nil =>
            simp only [List.nil_append, List.cons.injEq] at hl
            obtain ⟨rfl, rfl⟩ := hl
            simp only [AllFail] at hf
            subst hf
            rw [hb] at hbp
            cases hbp
          | cons x pre2 =>
            simp only [List.cons_append, List.cons.injEq] at hl
            obtain ⟨rfl, rfl⟩ := hl
            obtain ⟨st2, h1, hf2⟩ := hf
            rw [hb] at h1
            simp only [Except.ok.injEq, Prod.mk.injEq, true_and] at h1
            subst h1
            exact ⟨pre2, post, sm, rfl, hf2, hbp⟩
      | some h =>
        simp only [Except.ok.injEq, Prod.mk.injEq, Option.some.injEq]
        constructor
        · rintro ⟨⟨rfl, rfl⟩, rfl⟩
          exact ⟨[], gs, st, rfl, rfl, hb⟩
        · rintro ⟨pre, post, sm, hl, hf, hbp⟩
          cases pre with
          | nil =>
            simp only [List.nil_append, List.cons.injEq] at hl
            obtain ⟨rfl, rfl⟩ := hl
            simp only [AllFail] at hf
            subst hf
            rw [hb] at hbp
            simp only [Except.ok.injEq, Prod.mk.injEq, Option.some.injEq] at hbp
            exact ⟨⟨rfl, hbp.1⟩, hbp.2⟩
          | cons x pre2 =>
            simp only [List.cons_append, List.cons.injEq] at hl
            obtain ⟨rfl, rfl⟩ := hl
            obtain ⟨st2, h1, _⟩ := hf
            rw [hb] at h1
            cases h1

/-- The loop of `DeletePlan` on a plan that ends calls `DeleteSelf` on its records, in the order
of the plan. -/
theorem DeletePlanLoop_ends (nextInPlan : Nat → Option Nat) :
    ∀ (fuel : Nat) (calls : List PlanCall) (head : Option Nat),
      PlanEnds nextInPlan fuel head →
      DeletePlanLoop nextInPlan fuel calls head =
        .ok (calls ++ (planRecords nextInPlan fuel head).map PlanCall.deleteSelf)
  | 0, calls, none, _ => by simp [DeletePlanLoop, planRecords]
  | 0, _, some _, h => by cases h
  | fuel + 1, calls, none, _ => by simp [DeletePlanLoop, planRecords]
  | fuel + 1, calls, some r, h => by
    have ih := DeletePlanLoop_ends nextInPlan fuel (calls ++ [.deleteSelf r]) (nextInPlan r) h
    simp only [DeletePlanLoop, planRecords, ih, List.map_cons, List.append_assoc,
      List.singleton_append]

theorem DeletePlan_ends (p : AiPlanner) (head : Option Nat)
    (h : PlanEnds p.st.nextInPlan p.st.recordsCount head) :
    DeletePlan p head = .ok { p with calls := p.calls ++ deleteCalls p.st head } := by
  unfold DeletePlan
  rw [DeletePlanLoop_ends _ _ _ _ h]
  rfl

/-- The `ClearGoalAndPlan` of a planner whose plan ends: the head is deactivated, and then
`DeleteSelf` is called on every record of the plan. -/
theorem ClearGoalAndPlan_ends (p : AiPlanner) (planHead : Nat)
    (hplan : p.planHead = some planHead)
    (h : PlanEnds p.st.nextInPlan p.st.recordsCount (some planHead)) :
    ClearGoalAndPlan p =
      .ok { p with
        planHead := none, activeGoal := none,
        calls := p.calls ++ [.deactivate planHead] ++ deleteCalls p.st (some planHead) } := by
  unfold ClearGoalAndPlan
  simp only [hplan]
  rw [DeletePlan_ends
    { st := p.st, planHead := some planHead, activeGoal := p.activeGoal, weight := p.weight,
      calls := p.calls ++ [PlanCall.deactivate planHead] } (some planHead) h]

/-- The first loop of the goals returns when `BuildPlan` does. -/
theorem firstPlannedGoal_returns (env : Thinking)
    (hret : ∀ g st, ∃ r st1, env.buildPlan g st = .ok (r, st1)) :
    ∀ (gs : List Nat) (st : PlannerState),
      ∃ r st1, firstPlannedGoal env none gs st = .ok (r, st1)
  | [], st => ⟨none, st, rfl⟩
  | g :: gs, st => by
    have hne : ¬ (some g = (none : Option Nat)) := by simp
    obtain ⟨r, st0, hb⟩ := hret g st
    simp only [firstPlannedGoal, if_neg hne, hb]
    cases r with
    | none => exact firstPlannedGoal_returns env hret gs st0
    | some h => exact ⟨_, _, rfl⟩

/-- The last loop of `UpdateGoalAndPlan` returns when `BuildPlan` does, and the goal it takes,
if any, is a goal of the list that is not lighter than the rounded sum of the weight of the
active goal and the threshold, and for which `BuildPlan` returned a plan. -/
theorem firstHeavierPlannedGoal_returns (env : Thinking) (weight : Nat → ℚ) (activeGoal : Nat)
    (hret : ∀ g st, ∃ r st1, env.buildPlan g st = .ok (r, st1))
    (hpres : ∀ g st r st1, env.buildPlan g st = .ok (r, st1) → PlansEnd st → PlansEnd st1) :
    ∀ (gs : List Nat) (st : PlannerState), PlansEnd st →
      ∃ r st1, firstHeavierPlannedGoal env weight activeGoal gs st = .ok (r, st1) ∧
        PlansEnd st1 ∧
        ∀ goal head, r = some (goal, head) →
          goal ∈ gs ∧
            Binary32.rounded (weight activeGoal + KEEP_CURR_GOAL_WEIGHT_THRESHOLD) ≤ weight goal ∧
            ∃ sm, env.buildPlan goal sm = .ok (some head, st1)
  | [], st, hst => ⟨none, st, rfl, hst, fun _ _ h => by cases h⟩
  | g :: gs, st, hst => by
    simp only [firstHeavierPlannedGoal]
    by_cases hw : weight g <
        Binary32.rounded (weight activeGoal + KEEP_CURR_GOAL_WEIGHT_THRESHOLD)
    · rw [if_pos hw]
      exact ⟨none, st, rfl, hst, fun _ _ h => by cases h⟩
    · rw [if_neg hw]
      obtain ⟨r, st0, hb⟩ := hret g st
      have hst0 := hpres g st r st0 hb hst
      rw [hb]
      cases r with
      | none =>
        obtain ⟨r2, st1, h1, h2, h3⟩ :=
          firstHeavierPlannedGoal_returns env weight activeGoal hret hpres gs st0 hst0
        refine ⟨r2, st1, h1, h2, fun goal head hr => ?_⟩
        obtain ⟨h4, h5⟩ := h3 goal head hr
        exact ⟨List.mem_cons_of_mem _ h4, h5⟩
      | some h =>
        refine ⟨some (g, h), st0, rfl, hst0, fun goal head hr => ?_⟩
        simp only [Option.some.injEq, Prod.mk.injEq] at hr
        obtain ⟨rfl, rfl⟩ := hr
        exact ⟨List.mem_cons_self _ _, not_lt.1 hw, st, hb⟩

/-- The call `FindNewGoalAndPlan` that goes as far as its loop. -/
theorem FindNewGoalAndPlan_loop (env : Thinking) (p : AiPlanner)
    (hplan : p.planHead = none) (hgoal : p.activeGoal = none)
    (hskip : env.shouldSkipPlanning = false)
    (hcap : (env.goals.filter env.isRelevant).length ≤ env.maxPlannerGoals)
    (hne : env.goals.filter env.isRelevant ≠ []) :
    FindNewGoalAndPlan env p =
      match firstPlannedGoal env none
          (env.sort (updateWeights env p.weight) (env.goals.filter env.isRelevant)) p.st with
      | .error e => .error (.planner e)
      | .ok (some (goal, newPlanHead), st1) =>
        .ok (true,
          { st := st1, planHead := some newPlanHead, activeGoal := some goal,
            weight := updateWeights env p.weight,
            calls := p.calls ++ [.beforePlanning] ++ [.activate newPlanHead] ++
              [.afterPlanning] })
      | .ok (none, st1) =>
        .ok (false,
          { st := st1, planHead := none, activeGoal := none,
            weight := updateWeights env p.weight,
            calls := p.calls ++ [.beforePlanning] ++ [.afterPlanning] }) := by
  have hcap2 : ¬ (env.goals.filter env.isRelevant).length > env.maxPlannerGoals := by omega
  have hne2 : (env.goals.filter env.isRelevant).isEmpty = false := by
    cases h : env.goals.filter env.isRelevant with
    | nil => exact absurd h hne
    | cons x r => rfl
  unfold FindNewGoalAndPlan
  simp only [hplan, hgoal, hskip, Option.isSome_none, Bool.false_eq_true, if_false, if_neg hcap2,
    hne2]
  cases firstPlannedGoal env none
      (env.sort (updateWeights env p.weight) (env.goals.filter env.isRelevant)) p.st with
  | error e => rfl
  | ok r =>
    obtain ⟨found, st1⟩ := r
    cases found with
    | none => rfl
    | some gh =>
      obtain ⟨goal, head⟩ := gh
      simp only [SetGoalAndPlan, hplan, hgoal, Option.isSome_none, Bool.false_eq_true, if_false]

/-! ## Claims on the choice of the goal -/

/-- C14: for every call of `FindNewGoalAndPlan` with no active plan and no active goal (and no
more relevant goals than `MAX_PLANNER_GOALS`), the relevant goals being sorted by descending
weight: when it returns true, the new active goal is a relevant goal for which `BuildPlan`
returned a plan, that plan is the active plan and was activated, and `BuildPlan` returned null
for every goal tried before it, each of them a relevant goal of at least the same weight; when it
returns false there is no active goal and no active plan; it returns false exactly when planning
is skipped, no goal is relevant, or `BuildPlan` returns null for every relevant goal, and true
exactly when planning is not skipped and `BuildPlan` returns a plan for a relevant goal after
returning null for the goals tried before. -/
theorem FindNewGoalAndPlan_takes_first_planned (env : Thinking) (p : AiPlanner)
    (hplan : p.planHead = none) (hgoal : p.activeGoal = none)
    (hcap : (env.goals.filter env.isRelevant).length ≤ env.maxPlannerGoals)
    (hperm : (env.sort (updateWeights env p.weight) (env.goals.filter env.isRelevant)).Perm
      (env.goals.filter env.isRelevant))
    (hsorted : (env.sort (updateWeights env p.weight) (env.goals.filter env.isRelevant)).Pairwise
      (fun g h => updateWeights env p.weight g ≥ updateWeights env p.weight h)) :
    (∀ p1, FindNewGoalAndPlan env p = .ok (true, p1) →
      ∃ goal head pre post sm,
        env.sort (updateWeights env p.weight) (env.goals.filter env.isRelevant) =
          pre ++ goal :: post ∧
        goal ∈ env.goals ∧ env.isRelevant goal = true ∧
        AllFail env pre p.st sm ∧
        (∀ g ∈ pre, g ∈ env.goals ∧ env.isRelevant g = true ∧ p1.weight g ≥ p1.weight goal) ∧
        env.buildPlan goal sm = .ok (some head, p1.st) ∧
        p1.activeGoal = some goal ∧ p1.planHead = some head ∧
        p1.calls = p.calls ++ [.beforePlanning, .activate head, .afterPlanning]) ∧
    (∀ p1, FindNewGoalAndPlan env p = .ok (false, p1) →
      p1.activeGoal = none ∧ p1.planHead = none) ∧
    ((∃ p1, FindNewGoalAndPlan env p = .ok (false, p1)) ↔
      (env.shouldSkipPlanning = true ∨ env.goals.filter env.isRelevant = [] ∨
        ∃ st1, AllFail env
          (env.sort (updateWeights env p.weight) (env.goals.filter env.isRelevant)) p.st st1)) ∧
    ((∃ p1, FindNewGoalAndPlan env p = .ok (true, p1)) ↔
      (env.shouldSkipPlanning = false ∧
        ∃ goal head pre post sm st1,
          env.sort (updateWeights env p.weight) (env.goals.filter env.isRelevant) =
            pre ++ goal :: post ∧
          AllFail env pre p.st sm ∧ env.buildPlan goal sm = .ok (some head, st1))) := by
  have hmem : ∀ g, g ∈ env.sort (updateWeights env p.weight) (env.goals.filter env.isRelevant) →
      g ∈ env.goals ∧ env.isRelevant g = true := by
    intro g hg
    exact List.mem_filter.1 (hperm.mem_iff.1 hg)
  by_cases hskip : env.shouldSkipPlanning = true
  · have hF : FindNewGoalAndPlan env p = .ok (false, p) := by
      unfold FindNewGoalAndPlan
      simp only [hplan, hgoal, hskip, Option.isSome_none, Bool.false_eq_true, if_false, if_true]
    rw [hF]
    refine ⟨?_, ?_, ?_, ?_⟩
    · intro p1 h
      simp only [Except.ok.injEq, Prod.mk.injEq, Bool.false_eq_true, false_and] at h
    · intro p1 h
      simp only [Except.ok.injEq, Prod.mk.injEq, true_and] at h
      subst h
      exact ⟨hgoal, hplan⟩
    · exact ⟨fun _ => Or.inl hskip, fun _ => ⟨p, rfl⟩⟩
    · constructor
      · rintro ⟨p1, h⟩
        simp only [Except.ok.injEq, Prod.mk.injEq, Bool.false_eq_true, false_and] at h
      · rintro ⟨h, _⟩
        rw [hskip] at h
        cases h
  · have hskip2 : env.shouldSkipPlanning = false := by simpa using hskip
    by_cases hne : env.goals.filter env.isRelevant = []
    · have hF : FindNewGoalAndPlan env p =
          .ok (false,
            { p with
              calls := p.calls ++ [.beforePlanning] ++ [.afterPlanning],
              weight := updateWeights env p.weight }) := by
        unfold FindNewGoalAndPlan
        simp only [hplan, hgoal, hskip2, hne, Option.isSome_none, Bool.false_eq_true, if_false,
          List.length_nil, gt_iff_lt, Nat.not_lt_zero, List.isEmpty_nil, if_true]
      have hs : env.sort (updateWeights env p.weight) (env.goals.filter env.isRelevant) = [] := by
        exact List.Perm.eq_nil (hperm.trans (List.Perm.of_eq hne))
      rw [hF]
      refine ⟨?_, ?_, ?_, ?_⟩
      · intro p1 h
        simp only [Except.ok.injEq, Prod.mk.injEq, Bool.false_eq_true, false_and] at h
      · intro p1 h
        simp only [Except.ok.injEq, Prod.mk.injEq, true_and] at h
        subst h
        exact ⟨hgoal, hplan⟩
      · exact ⟨fun _ => Or.inr (Or.inl hne), fun _ => ⟨_, rfl⟩⟩
      · constructor
        · rintro ⟨p1, h⟩
          simp only [Except.ok.injEq, Prod.mk.injEq, Bool.false_eq_true, false_and] at h
        · rintro ⟨_, goal, head, pre, post, sm, st1, hl, _⟩
          rw [hs] at hl
          cases pre <;> cases hl
    · rw [FindNewGoalAndPlan_loop env p hplan hgoal hskip2 hcap hne]
      cases hf : firstPlannedGoal env none
          (env.sort (updateWeights env p.weight) (env.goals.filter env.isRelevant)) p.st with
      | error e =>
        refine ⟨?_, ?_, ?_, ?_⟩
        · intro p1 h
          cases h
        · intro p1 h
          cases h
        · constructor
          · rintro ⟨p1, h⟩
            cases h
          · rintro (h | h | ⟨st1, h⟩)
            · exact absurd h hskip
            · exact absurd h hne
            · rw [← firstPlannedGoal_none_iff, hf] at h
              cases h
        · constructor
          · rintro ⟨p1, h⟩
            cases h
          · rintro ⟨_, goal, head, pre, post, sm, st1, hl, hfail, hb⟩
            have := (firstPlannedGoal_some_iff env goal head _ p.st st1).2
              ⟨pre, post, sm, hl, hfail, hb⟩
            rw [hf] at this
            cases this
      | ok r =>
        obtain ⟨found, st1⟩ := r
        cases found with
        | none =>
          have hall := (firstPlannedGoal_none_iff env _ p.st st1).1 hf
          refine ⟨?_, ?_, ?_, ?_⟩
          · intro p1 h
            simp only [Except.ok.injEq, Prod.mk.injEq, Bool.false_eq_true, false_and] at h
          · intro p1 h
            simp only [Except.ok.injEq, Prod.mk.injEq, true_and] at h
            subst h
            exact ⟨rfl, rfl⟩
          · exact ⟨fun _ => Or.inr (Or.inr ⟨st1, hall⟩), fun _ => ⟨_, rfl⟩⟩
          · constructor
            · rintro ⟨p1, h⟩
              simp only [Except.ok.injEq, Prod.mk.injEq, Bool.false_eq_true, false_and] at h
            · rintro ⟨_, goal, head, pre, post, sm, st2, hl, hfail, hb⟩
              have := (firstPlannedGoal_some_iff env goal head _ p.st st2).2
                ⟨pre, post, sm, hl, hfail, hb⟩
              rw [hf] at this
              cases this
        | some gh =>
          obtain ⟨goal, head⟩ := gh
          obtain ⟨pre, post, sm, hl, hfail, hb⟩ :=
            (firstPlannedGoal_some_iff env goal head _ p.st st1).1 hf
          refine ⟨?_, ?_, ?_, ?_⟩
          · intro p1 h
            simp only [Except.ok.injEq, Prod.mk.injEq, true_and] at h
            subst h
            have hg := hmem goal (by rw [hl]; simp)
            refine ⟨goal, head, pre, post, sm, hl, hg.1, hg.2, hfail, ?_, hb, rfl, rfl, ?_⟩
            · intro g hgp
              have hg2 := hmem g (by rw [hl]; simp [hgp])
              refine ⟨hg2.1, hg2.2, ?_⟩
              rw [hl] at hsorted
              exact (List.pairwise_append.1 hsorted).2.2 g hgp goal (List.mem_cons_self _ _)
            · simp
          · intro p1 h
            simp only [Except.ok.injEq, Prod.mk.injEq, Bool.true_eq_false, false_and] at h
          · constructor
            · rintro ⟨p1, h⟩
              simp only [Except.ok.injEq, Prod.mk.injEq, Bool.true_eq_false, false_and] at h
            · rintro (h | h | ⟨st2, h⟩)
              · exact absurd h hskip
              · exact absurd h hne
              · rw [← firstPlannedGoal_none_iff, hf] at h
                cases h
          · exact ⟨fun _ => ⟨hskip2, goal, head, pre, post, sm, st1, hl, hfail, hb⟩,
              fun _ => ⟨_, rfl⟩⟩

theorem lt_rounded_add_threshold {w : ℚ} (h : |w| ≤ 1048576) :
    w < Binary32.rounded (w + KEEP_CURR_GOAL_WEIGHT_THRESHOLD) := by
  unfold KEEP_CURR_GOAL_WEIGHT_THRESHOLD
  rw [Binary32.rounded_three_tenths]
  have hw := abs_le.1 h
  have he := Binary32.abs_rounded_sub_le_of_lt (x := w + 5033165 / 16777216) (k := 21)
    (by norm_num) (by rw [abs_lt]; norm_num; constructor <;> linarith)
  norm_num at he
  have := (abs_le.1 he).1
  linarith

theorem le_rounded_add_threshold {w : ℚ} (h : |w| ≤ 1) :
    w + 3 / 10 - 1 / 16777216 ≤ Binary32.rounded (w + KEEP_CURR_GOAL_WEIGHT_THRESHOLD) := by
  unfold KEEP_CURR_GOAL_WEIGHT_THRESHOLD
  rw [Binary32.rounded_three_tenths]
  have hw := abs_le.1 h
  have he := Binary32.abs_rounded_sub_le_of_lt (x := w + 5033165 / 16777216) (k := 1)
    (by norm_num) (by rw [abs_lt]; norm_num; constructor <;> linarith)
  norm_num at he
  have := (abs_le.1 he).1
  linarith

/-- C15, the switch of the goal as it is: the active goal `1` has the weight `0.2f`, is relevant
and has a plan, and the goal `2` has the weight `0.5f` and a plan. The sum `0.2f + 0.3f` is
rounded to `0.5f`, the weight of the goal `2` is not below it, and the goal `2` becomes the
active goal, although its weight is less than the weight of the goal `1` plus `0.3`. -/
theorem goal_taken_below_threshold :
    outcomeOf (UpdateGoalAndPlan closeWeights activePlanner) =
      some { result := true, activeGoal := some 2, planHead := some 20,
             calls := [.deleteSelf 10, .deactivate 7, .deleteSelf 7, .activate 20] } ∧
    closeWeights.updateWeight 1 = 13421773 / 67108864 ∧
    closeWeights.updateWeight 2 = 1 / 2 ∧
    Binary32.rounded (closeWeights.updateWeight 1 + KEEP_CURR_GOAL_WEIGHT_THRESHOLD) = 1 / 2 ∧
    closeWeights.updateWeight 2 < closeWeights.updateWeight 1 + 3 / 10 := by
  refine ⟨?_, ?_, ?_, ?_, ?_⟩ <;> decide!

/-- C15, amended: for every call of `UpdateGoalAndPlan` in which planning is not skipped, the
active goal `a` is still relevant and `BuildPlan` returns a plan for it (every call of
`BuildPlan` returning, and every plan ending): the call returns true, and either `a` stays the
active goal, with the newly built plan as the active plan in place of the old one (deactivated
and deleted), or the active goal is a goal `G` that is relevant, whose weight is not below the
sum of the weight of `a` and `0.3f` as `float` arithmetic rounds it, and for which `BuildPlan`
returned the plan that is now active, the plan built for `a` and the old plan being deleted.
The rounded sum is above the weight of `a` when that weight is at most `2 ^ 20` in absolute
value (so that `G` is not `a`), and at least the weight of `a` plus `0.3 - 2 ^ (-24)` when it is
at most `1` in absolute value. -/
theorem UpdateGoalAndPlan_keeps_goal_within_threshold (env : Thinking) (p : AiPlanner)
    (old a newPlan : Nat) (st1 : PlannerState)
    (hplan : p.planHead = some old) (hgoal : p.activeGoal = some a)
    (hskip : env.shouldSkipPlanning = false)
    (hcap : (env.goals.filter env.isRelevant).length ≤ env.maxPlannerGoals)
    (ha : a ∈ env.goals) (hrel : env.isRelevant a = true)
    (hperm : (env.sort (updateWeights env p.weight) (env.goals.filter env.isRelevant)).Perm
      (env.goals.filter env.isRelevant))
    (hbuilt : env.buildPlan a p.st = .ok (some newPlan, st1))
    (hret : ∀ g st, ∃ r st0, env.buildPlan g st = .ok (r, st0))
    (hends : PlansEnd p.st)
    (hpres : ∀ g st r st0, env.buildPlan g st = .ok (r, st0) → PlansEnd st → PlansEnd st0) :
    ∃ p1, UpdateGoalAndPlan env p = .ok (true, p1) ∧
      ((p1.activeGoal = some a ∧ p1.planHead = some newPlan ∧
          p1.calls = p.calls ++ [.deactivate old] ++ deleteCalls p1.st (some old) ++
            [.activate newPlan]) ∨
        ∃ goal head sm,
          goal ∈ env.goals ∧ env.isRelevant goal = true ∧
          Binary32.rounded (p1.weight a + KEEP_CURR_GOAL_WEIGHT_THRESHOLD) ≤ p1.weight goal ∧
          (|p1.weight a| ≤ 1048576 → p1.weight a < p1.weight goal ∧ goal ≠ a) ∧
          (|p1.weight a| ≤ 1 → p1.weight a + 3 / 10 - 1 / 16777216 ≤ p1.weight goal) ∧
          env.buildPlan goal sm = .ok (some head, p1.st) ∧
          p1.activeGoal = some goal ∧ p1.planHead = some head ∧
          p1.calls = p.calls ++ deleteCalls p1.st (some newPlan) ++ [.deactivate old] ++
            deleteCalls p1.st (some old) ++ [.activate head]) := by
  have harel : a ∈ env.goals.filter env.isRelevant := List.mem_filter.2 ⟨ha, hrel⟩
  have hcap2 : ¬ (env.goals.filter env.isRelevant).length > env.maxPlannerGoals := by omega
  have hne2 : (env.goals.filter env.isRelevant).isEmpty = false := by
    cases h : env.goals.filter env.isRelevant with
    | nil => rw [h] at harel; cases harel
    | cons x r => rfl
  obtain ⟨r, st2, hloop, hst2, hr⟩ :=
    firstHeavierPlannedGoal_returns env (updateWeights env p.weight) a hret hpres
      (env.sort (updateWeights env p.weight) (env.goals.filter env.isRelevant)) st1
      (hpres a p.st _ st1 hbuilt hends)
  unfold UpdateGoalAndPlan
  simp only [hplan, hgoal, hskip, Bool.false_eq_true, if_false, if_neg hcap2, hne2, if_pos harel,
    hbuilt, hloop]
  cases r with
  | none =>
    simp only []
    rw [ClearGoalAndPlan_ends _ old rfl (hst2 _)]
    simp only [SetGoalAndPlan, Option.isSome_none, Bool.false_eq_true, if_false]
    exact ⟨_, rfl, Or.inl ⟨rfl, rfl, rfl⟩⟩
  | some gh =>
    obtain ⟨goal, head⟩ := gh
    obtain ⟨hmem, hw, sm, hb⟩ := hr goal head rfl
    have hg := List.mem_filter.1 (hperm.mem_iff.1 hmem)
    simp only []
    rw [DeletePlan_ends _ _ (hst2 _)]
    simp only []
    rw [ClearGoalAndPlan_ends _ old rfl (hst2 _)]
    simp only [SetGoalAndPlan, Option.isSome_none, Bool.false_eq_true, if_false]
    refine ⟨_, rfl, Or.inr ⟨goal, head, sm, hg.1, hg.2, hw, ?_, ?_, hb, rfl, rfl, ?_⟩⟩
    · intro hb1
      have h1 := lt_of_lt_of_le (lt_rounded_add_threshold hb1) hw
      refine ⟨h1, ?_⟩
      rintro rfl
      exact lt_irrefl _ h1
    · intro hb1
      exact le_trans (le_rounded_add_threshold hb1) hw
    · simp only [List.append_assoc]

/-- C16, as stated: planning is not skipped and the active goal `1` is not relevant, no goal is;
`UpdateGoalAndPlan` returns false at `relevantGoals.empty()`, before `ClearGoalAndPlan`: the
goal `1` is still active, the plan of head `7` is still the active plan, and neither
`Deactivate` nor `DeleteSelf` was called. -/
theorem irrelevant_goal_keeps_its_plan :
    noRelevantGoal.shouldSkipPlanning = false ∧
      noRelevantGoal.isRelevant 1 = false ∧
      outcomeOf (UpdateGoalAndPlan noRelevantGoal activePlanner) =
        some { result := false, activeGoal := some 1, planHead := some 7, calls := [] } := by
  decide!

/-- C16 (amended): for every call of `UpdateGoalAndPlan` in which planning is not skipped, at
least one goal is relevant and the active goal is not relevant (every call of `BuildPlan`
returning, and the active plan ending): the call returns, the head of the previously active plan
is deactivated and `DeleteSelf` is called on every record of that plan, and on return either the
result is true and the active goal is another goal, relevant, with the plan that `BuildPlan`
returned for it as the active plan, or the result is false and there is no active goal and no
active plan. -/
theorem UpdateGoalAndPlan_drops_plan_of_irrelevant_goal (env : Thinking) (p : AiPlanner)
    (old a : Nat)
    (hplan : p.planHead = some old) (hgoal : p.activeGoal = some a)
    (hskip : env.shouldSkipPlanning = false)
    (hcap : (env.goals.filter env.isRelevant).length ≤ env.maxPlannerGoals)
    (hne : env.goals.filter env.isRelevant ≠ [])
    (hnr : a ∉ env.goals.filter env.isRelevant)
    (hperm : (env.sort (updateWeights env p.weight) (env.goals.filter env.isRelevant)).Perm
      (env.goals.filter env.isRelevant))
    (hret : ∀ g st, ∃ r st0, env.buildPlan g st = .ok (r, st0))
    (hends : PlanEnds p.st.nextInPlan p.st.recordsCount (some old)) :
    ∃ result p1, UpdateGoalAndPlan env p = .ok (result, p1) ∧
      ((result = true ∧
          ∃ goal head sm,
            goal ∈ env.goals ∧ env.isRelevant goal = true ∧ goal ≠ a ∧
            env.buildPlan goal sm = .ok (some head, p1.st) ∧
            p1.activeGoal = some goal ∧ p1.planHead = some head ∧
            p1.calls = p.calls ++ [.deactivate old] ++ deleteCalls p.st (some old) ++
              [.activate head]) ∨
        (result = false ∧ p1.activeGoal = none ∧ p1.planHead = none ∧
          p1.calls = p.calls ++ [.deactivate old] ++ deleteCalls p.st (some old))) := by
  have hcap2 : ¬ (env.goals.filter env.isRelevant).length > env.maxPlannerGoals := by omega
  have hne2 : (env.goals.filter env.isRelevant).isEmpty = false := by
    cases h : env.goals.filter env.isRelevant with
    | nil => exact absurd h hne
    | cons x r => rfl
  obtain ⟨r, st1, hloop⟩ := firstPlannedGoal_returns env hret
    (env.sort (updateWeights env p.weight) (env.goals.filter env.isRelevant)) p.st
  unfold UpdateGoalAndPlan
  simp only [hplan, hgoal, hskip, Bool.false_eq_true, if_false, if_neg hcap2, hne2, if_neg hnr]
  rw [ClearGoalAndPlan_ends
    { st := p.st, planHead := some old, activeGoal := some a,
      weight := updateWeights env p.weight, calls := p.calls } old rfl hends]
  simp only [hloop]
  cases r with
  | none => exact ⟨false, _, rfl, Or.inr ⟨rfl, rfl, rfl, rfl⟩⟩
  | some gh =>
    obtain ⟨goal, head⟩ := gh
    obtain ⟨pre, post, sm, hl, _, hb⟩ := (firstPlannedGoal_some_iff env goal head _ _ _).1 hloop
    have hmem : goal ∈ env.goals.filter env.isRelevant :=
      hperm.mem_iff.1 (by rw [hl]; simp)
    have hg := List.mem_filter.1 hmem
    simp only [SetGoalAndPlan, Option.isSome_none, Bool.false_eq_true, if_false]
    refine ⟨true, _, rfl, Or.inl ⟨rfl, goal, head, sm, hg.1, hg.2, ?_, hb, rfl, rfl, rfl⟩⟩
    rintro rfl
    exact hnr hmem

theorem FindNewGoalAndPlan_takes_first_planned_witness :
    restingPlanner.planHead = none ∧ restingPlanner.activeGoal = none ∧
    (threeGoals.goals.filter threeGoals.isRelevant).length ≤ threeGoals.maxPlannerGoals ∧
    (threeGoals.sort (updateWeights threeGoals restingPlanner.weight)
      (threeGoals.goals.filter threeGoals.isRelevant)).Perm
      (threeGoals.goals.filter threeGoals.isRelevant) ∧
    (threeGoals.sort (updateWeights threeGoals restingPlanner.weight)
      (threeGoals.goals.filter threeGoals.isRelevant)).Pairwise
      (fun g h => updateWeights threeGoals restingPlanner.weight g ≥
        updateWeights threeGoals restingPlanner.weight h) ∧
    threeGoals.sort (updateWeights threeGoals restingPlanner.weight)
      (threeGoals.goals.filter threeGoals.isRelevant) = [2, 1] ∧
    outcomeOf (FindNewGoalAndPlan threeGoals restingPlanner) =
      some { result := true, activeGoal := some 1, planHead := some 10,
             calls := [.beforePlanning, .activate 10, .afterPlanning] } ∧
    (∀ p1, FindNewGoalAndPlan threeGoals restingPlanner = .ok (true, p1) →
      ∃ goal head pre post sm,
        threeGoals.sort (updateWeights threeGoals restingPlanner.weight)
          (threeGoals.goals.filter threeGoals.isRelevant) = pre ++ goal :: post ∧
        goal ∈ threeGoals.goals ∧ threeGoals.isRelevant goal = true ∧
        AllFail threeGoals pre restingPlanner.st sm ∧
        (∀ g ∈ pre, g ∈ threeGoals.goals ∧ threeGoals.isRelevant g = true ∧
          p1.weight g ≥ p1.weight goal) ∧
        threeGoals.buildPlan goal sm = .ok (some head, p1.st) ∧
        p1.activeGoal = some goal ∧ p1.planHead = some head ∧
        p1.calls = restingPlanner.calls ++ [.beforePlanning, .activate head, .afterPlanning]) :=
  have hs : threeGoals.sort (updateWeights threeGoals restingPlanner.weight)
      (threeGoals.goals.filter threeGoals.isRelevant) = [2, 1] := by decide!
  have hperm : (threeGoals.sort (updateWeights threeGoals restingPlanner.weight)
      (threeGoals.goals.filter threeGoals.isRelevant)).Perm
      (threeGoals.goals.filter threeGoals.isRelevant) := List.perm_insertionSort _ _
  have hsorted : (threeGoals.sort (updateWeights threeGoals restingPlanner.weight)
      (threeGoals.goals.filter threeGoals.isRelevant)).Pairwise
      (fun g h => updateWeights threeGoals restingPlanner.weight g ≥
        updateWeights threeGoals restingPlanner.weight h) := by
    rw [hs]
    decide!
  ⟨rfl, rfl, by decide, hperm, hsorted, hs, by decide!,
    (FindNewGoalAndPlan_takes_first_planned threeGoals restingPlanner rfl rfl (by decide) hperm
      hsorted).1⟩

theorem UpdateGoalAndPlan_keeps_goal_within_threshold_witness :
    activePlanner.planHead = some 7 ∧ activePlanner.activeGoal = some 1 ∧
    heavierGoal.shouldSkipPlanning = false ∧
    (heavierGoal.goals.filter heavierGoal.isRelevant).length ≤ heavierGoal.maxPlannerGoals ∧
    1 ∈ heavierGoal.goals ∧ heavierGoal.isRelevant 1 = true ∧
    (heavierGoal.sort (updateWeights heavierGoal activePlanner.weight)
      (heavierGoal.goals.filter heavierGoal.isRelevant)).Perm
      (heavierGoal.goals.filter heavierGoal.isRelevant) ∧
    heavierGoal.buildPlan 1 activePlanner.st = .ok (some 10, activePlanner.st) ∧
    (∀ g st, ∃ r st0, heavierGoal.buildPlan g st = .ok (r, st0)) ∧
    PlansEnd activePlanner.st ∧
    (∀ g st r st0, heavierGoal.buildPlan g st = .ok (r, st0) → PlansEnd st → PlansEnd st0) ∧
    outcomeOf (UpdateGoalAndPlan heavierGoal activePlanner) =
      some { result := true, activeGoal := some 2, planHead := some 20,
             calls := [.deleteSelf 10, .deactivate 7, .deleteSelf 7, .activate 20] } ∧
    outcomeOf (UpdateGoalAndPlan threeGoals activePlanner) =
      some { result := true, activeGoal := some 1, planHead := some 10,
             calls := [.deactivate 7, .deleteSelf 7, .activate 10] } ∧
    ∃ p1, UpdateGoalAndPlan heavierGoal activePlanner = .ok (true, p1) ∧
      ((p1.activeGoal = some 1 ∧ p1.planHead = some 10 ∧
          p1.calls = activePlanner.calls ++ [.deactivate 7] ++ deleteCalls p1.st (some 7) ++
            [.activate 10]) ∨
        ∃ goal head sm,
          goal ∈ heavierGoal.goals ∧ heavierGoal.isRelevant goal = true ∧
          Binary32.rounded (p1.weight 1 + KEEP_CURR_GOAL_WEIGHT_THRESHOLD) ≤ p1.weight goal ∧
          (|p1.weight 1| ≤ 1048576 → p1.weight 1 < p1.weight goal ∧ goal ≠ 1) ∧
          (|p1.weight 1| ≤ 1 → p1.weight 1 + 3 / 10 - 1 / 16777216 ≤ p1.weight goal) ∧
          heavierGoal.buildPlan goal sm = .ok (some head, p1.st) ∧
          p1.activeGoal = some goal ∧ p1.planHead = some head ∧
          p1.calls = activePlanner.calls ++ deleteCalls p1.st (some 10) ++ [.deactivate 7] ++
            deleteCalls p1.st (some 7) ++ [.activate head]) :=
  have hperm : (heavierGoal.sort (updateWeights heavierGoal activePlanner.weight)
      (heavierGoal.goals.filter heavierGoal.isRelevant)).Perm
      (heavierGoal.goals.filter heavierGoal.isRelevant) := List.perm_insertionSort _ _
  have hret : ∀ g st, ∃ r st0, heavierGoal.buildPlan g st = .ok (r, st0) :=
    fun g st => ⟨_, st, rfl⟩
  have hends : PlansEnd activePlanner.st := by
    intro head
    cases head with
    | none => trivial
    | some r => exact (trivial : PlanEnds (fun _ => none) 29 none)
  have hpres : ∀ g st r st0, heavierGoal.buildPlan g st = .ok (r, st0) → PlansEnd st →
      PlansEnd st0 := by
    intro g st r st0 h hst
    have : st0 = st := by
      simp only [heavierGoal, Except.ok.injEq, Prod.mk.injEq] at h
      exact h.2.symm
    rw [this]
    exact hst
  ⟨rfl, rfl, rfl, by decide, by decide, rfl, hperm, rfl, hret, hends, hpres, by decide!,
    by decide!,
    UpdateGoalAndPlan_keeps_goal_within_threshold heavierGoal activePlanner 7 1 10
      activePlanner.st rfl rfl rfl (by decide) (by decide) rfl hperm rfl hret hends hpres⟩

theorem UpdateGoalAndPlan_drops_plan_of_irrelevant_goal_witness :
    staleGoalPlanner.planHead = some 7 ∧ staleGoalPlanner.activeGoal = some 3 ∧
    threeGoals.shouldSkipPlanning = false ∧
    (threeGoals.goals.filter threeGoals.isRelevant).length ≤ threeGoals.maxPlannerGoals ∧
    threeGoals.goals.filter threeGoals.isRelevant ≠ [] ∧
    3 ∉ threeGoals.goals.filter threeGoals.isRelevant ∧
    (threeGoals.sort (updateWeights threeGoals staleGoalPlanner.weight)
      (threeGoals.goals.filter threeGoals.isRelevant)).Perm
      (threeGoals.goals.filter threeGoals.isRelevant) ∧
    (∀ g st, ∃ r st0, threeGoals.buildPlan g st = .ok (r, st0)) ∧
    PlanEnds staleGoalPlanner.st.nextInPlan staleGoalPlanner.st.recordsCount (some 7) ∧
    outcomeOf (UpdateGoalAndPlan threeGoals staleGoalPlanner) =
      some { result := true, activeGoal := some 1, planHead := some 10,
             calls := [.deactivate 7, .deleteSelf 7, .activate 10] } ∧
    ∃ result p1, UpdateGoalAndPlan threeGoals staleGoalPlanner = .ok (result, p1) ∧
      ((result = true ∧
          ∃ goal head sm,
            goal ∈ threeGoals.goals ∧ threeGoals.isRelevant goal = true ∧ goal ≠ 3 ∧
            threeGoals.buildPlan goal sm = .ok (some head, p1.st) ∧
            p1.activeGoal = some goal ∧ p1.planHead = some head ∧
            p1.calls = staleGoalPlanner.calls ++ [.deactivate 7] ++
              deleteCalls staleGoalPlanner.st (some 7) ++ [.activate head]) ∨
        (result = false ∧ p1.activeGoal = none ∧ p1.planHead = none ∧
          p1.calls = staleGoalPlanner.calls ++ [.deactivate 7] ++
            deleteCalls staleGoalPlanner.st (some 7))) :=
  have hperm : (threeGoals.sort (updateWeights threeGoals staleGoalPlanner.weight)
      (threeGoals.goals.filter threeGoals.isRelevant)).Perm
      (threeGoals.goals.filter threeGoals.isRelevant) := List.perm_insertionSort _ _
  have hret : ∀ g st, ∃ r st0, threeGoals.buildPlan g st = .ok (r, st0) :=
    fun g st => ⟨_, st, rfl⟩
  have hends : PlanEnds staleGoalPlanner.st.nextInPlan staleGoalPlanner.st.recordsCount
      (some 7) := (trivial : PlanEnds (fun _ => none) 29 none)
  ⟨rfl, rfl, rfl, by decide, by decide, by decide, hperm, hret, hends, by decide!,
    UpdateGoalAndPlan_drops_plan_of_irrelevant_goal threeGoals staleGoalPlanner 7 3 rfl rfl rfl
      (by decide) (by decide) (by decide) hperm hret hends⟩

/-! ## The order of the heap -/

theorem setHeapArrayIndex_cost (m : Mem) (n i x : Nat) :
    (setHeapArrayIndex m n i x).heapCost = (m x).heapCost := by
  unfold setHeapArrayIndex
  by_cases h : x = n
  · subst h; simp
  · simp [Function.update_noteq h]

theorem Swap_cost (m : Mem) (a : List Nat) (i j x : Nat) :
    ((Swap m a i j).1 x).heapCost = (m x).heapCost := by
  simp only [Swap, setHeapArrayIndex_cost]

theorem slot_eq_getElem {a : List Nat} {k : Nat} (h : k < a.length) : slot a k = a[k] := by
  unfold slot
  exact List.getD_eq_getElem _ _ h

theorem slot_Swap (m : Mem) {a : List Nat} {i j : Nat} (hi : i < a.length) (hj : j < a.length)
    (k : Nat) :
    slot (Swap m a i j).2 k = if k = j then slot a i else if k = i then slot a j else slot a k := by
  show slot ((a.set i (slot a j)).set j (slot a i)) k = _
  rw [slot_set, slot_set]
  by_cases h1 : k = j
  · subst h1
    simp [hj]
  · by_cases h2 : k = i
    · subst h2
      have : ¬ j = k := fun e => h1 e.symm
      simp [this, hi, h1]
    · have e1 : ¬ j = k := fun e => h1 e.symm
      have e2 : ¬ i = k := fun e => h2 e.symm
      simp [e1, e2, h1, h2]

theorem count_getElem_pos (a : List Nat) (i : Nat) (h : i < a.length) (b : Nat) :
    (if a[i] == b then 1 else 0) ≤ a.count b := by
  by_cases e : a[i] = b
  · subst e
    have : 0 < a.count a[i] := List.count_pos_iff.2 (List.getElem_mem h)
    simp only [beq_self_eq_true, if_true]
    omega
  · simp [e]

theorem Swap_perm (m : Mem) {a : List Nat} {i j : Nat} (hi : i < a.length) (hj : j < a.length) :
    (Swap m a i j).2.Perm a := by
  show ((a.set i (slot a j)).set j (slot a i)).Perm a
  rw [List.perm_iff_count]
  intro b
  have hj1 : j < (a.set i (slot a j)).length := by rw [List.length_set]; exact hj
  have e : (a.set i (slot a j))[j] = slot a j := by
    rw [List.getElem_set]
    split_ifs
    · rfl
    · exact (slot_eq_getElem hj).symm
  rw [List.count_set _ _ _ _ hj1, List.count_set _ _ _ _ hi, e, slot_eq_getElem hi,
    slot_eq_getElem hj]
  have h1 := count_getElem_pos a i hi b
  have h2 := count_getElem_pos a j hj b
  omega

theorem OrderButAbove.swap_up {f : Nat → Nat} {n c : Nat} (h : OrderButAbove f n c)
    (hc : 0 < c) (hlt : f c < f ((c - 1) / 2)) :
    OrderButAbove (swapAt f c ((c - 1) / 2)) n ((c - 1) / 2) := by
  obtain ⟨h1, h2⟩ := h
  have hpc : (c - 1) / 2 ≠ c := by omega
  refine ⟨?_, ?_⟩
  · intro k hk hkn hkp
    by_cases hkc : k = c
    · subst hkc
      simp only [swapAt, if_true, if_neg hpc.symm]
      omega
    · have e1 : swapAt f c ((c - 1) / 2) k = f k := by simp [swapAt, hkp, hkc]
      rw [e1]
      by_cases hq1 : (k - 1) / 2 = (c - 1) / 2
      · have e2 : swapAt f c ((c - 1) / 2) ((k - 1) / 2) = f c := by simp [swapAt, hq1]
        rw [e2]
        have := h1 k hk hkn hkc
        rw [hq1] at this
        omega
      · by_cases hq2 : (k - 1) / 2 = c
        · have e2 : swapAt f c ((c - 1) / 2) ((k - 1) / 2) = f ((c - 1) / 2) := by
            rw [hq2]
            simp only [swapAt, if_neg hpc.symm, eq_self_iff_true, if_true]
          rw [e2]
          exact h2 k hk hkn hq2 hc
        · have e2 : swapAt f c ((c - 1) / 2) ((k - 1) / 2) = f ((k - 1) / 2) := by
            simp [swapAt, hq1, hq2]
          rw [e2]
          exact h1 k hk hkn hkc
  · intro k hk hkn hkp hp
    have hg1 : ((c - 1) / 2 - 1) / 2 ≠ (c - 1) / 2 := by omega
    have hg2 : ((c - 1) / 2 - 1) / 2 ≠ c := by omega
    have e0 : swapAt f c ((c - 1) / 2) (((c - 1) / 2 - 1) / 2) = f (((c - 1) / 2 - 1) / 2) := by
      simp [swapAt, hg1, hg2]
    rw [e0]
    have hpar := h1 ((c - 1) / 2) hp (by omega) hpc
    have hkp2 : k ≠ (c - 1) / 2 := by omega
    by_cases hkc : k = c
    · subst hkc
      have e1 : swapAt f k ((k - 1) / 2) k = f ((k - 1) / 2) := by simp [swapAt, hkp2]
      rw [e1]
      exact hpar
    · have e1 : swapAt f c ((c - 1) / 2) k = f k := by simp [swapAt, hkp2, hkc]
      rw [e1]
      have := h1 k hk hkn hkc
      rw [hkp] at this
      omega

theorem OrderButAbove.stop_up {f : Nat → Nat} {n c : Nat} (h : OrderButAbove f n c)
    (hstop : c = 0 ∨ ¬ f c < f ((c - 1) / 2)) : HeapOrder f n := by
  intro k hk hkn
  by_cases hkc : k = c
  · subst hkc
    rcases hstop with h0 | h0
    · omega
    · omega
  · exact h.1 k hk hkn hkc

theorem OrderButBelow.swap_down {f : Nat → Nat} {n h c : Nat} (hb : OrderButBelow f n h)
    (hchild : 2 * h + 1 < n)
    (hc : c = if 2 * h + 1 < n - 1 then
        if f (2 * h + 1 + 1) < f (2 * h + 1) then 2 * h + 1 + 1 else 2 * h + 1
      else 2 * h + 1)
    (hgt : f h > f c) : OrderButBelow (swapAt f h c) n c := by
  obtain ⟨h1, h2⟩ := hb
  have hc2 : c = 2 * h + 1 ∨ c = 2 * h + 2 := by
    rw [hc]
    split_ifs <;> omega
  have hch : c ≠ h := by omega
  have hcn : c < n := by
    rw [hc]
    split_ifs <;> omega
  have hmin : ∀ k, k < n → (k - 1) / 2 = h → 0 < k → f c ≤ f k := by
    intro k hkn hkp hk
    have hk2 : k = 2 * h + 1 ∨ k = 2 * h + 1 + 1 := by omega
    rw [hc]
    split_ifs with ha hb2
    · rcases hk2 with e | e <;> subst e <;> omega
    · rcases hk2 with e | e <;> subst e <;> omega
    · rcases hk2 with e | e
      · subst e; omega
      · omega
  refine ⟨?_, ?_⟩
  · intro k hk hkn hq
    by_cases hqh : (k - 1) / 2 = h
    · have e0 : swapAt f h c ((k - 1) / 2) = f c := by simp [swapAt, hqh, hch.symm]
      rw [e0]
      by_cases hkc : k = c
      · subst hkc
        have e1 : swapAt f h k k = f h := by simp [swapAt]
        rw [e1]
        omega
      · have hkh : k ≠ h := by omega
        have e1 : swapAt f h c k = f k := by simp [swapAt, hkc, hkh]
        rw [e1]
        exact hmin k hkn hqh hk
    · have e0 : swapAt f h c ((k - 1) / 2) = f ((k - 1) / 2) := by simp [swapAt, hq, hqh]
      rw [e0]
      have hkc : k ≠ c := by
        rintro rfl
        omega
      by_cases hkh : k = h
      · subst hkh
        have e1 : swapAt f k c k = f c := by simp [swapAt, hkc]
        rw [e1]
        exact h2 c (by omega) hcn (by omega) hk
      · have e1 : swapAt f h c k = f k := by simp [swapAt, hkc, hkh]
        rw [e1]
        exact h1 k hk hkn hqh
  · intro k hk hkn hq _
    have hp : (c - 1) / 2 = h := by omega
    have e0 : swapAt f h c ((c - 1) / 2) = f c := by simp [swapAt, hp, hch.symm]
    have hkc : k ≠ c := by omega
    have hkh : k ≠ h := by omega
    have e1 : swapAt f h c k = f k := by simp [swapAt, hkc, hkh]
    rw [e0, e1]
    have := h1 k hk hkn (by omega)
    rw [hq] at this
    exact this

theorem OrderButBelow.stop_down {f : Nat → Nat} {n h c : Nat} (hb : OrderButBelow f n h)
    (hc : c = if 2 * h + 1 < n - 1 then
        if f (2 * h + 1 + 1) < f (2 * h + 1) then 2 * h + 1 + 1 else 2 * h + 1
      else 2 * h + 1)
    (hstop : ¬ 2 * h + 1 < n ∨ ¬ f h > f c) : HeapOrder f n := by
  intro k hk hkn
  by_cases hq : (k - 1) / 2 = h
  · have hk2 : k = 2 * h + 1 ∨ k = 2 * h + 1 + 1 := by omega
    rcases hstop with h0 | h0
    · omega
    · rw [hq]
      have : f c ≤ f k := by
        rw [hc]
        split_ifs with ha hb2
        · rcases hk2 with e | e <;> subst e <;> omega
        · rcases hk2 with e | e <;> subst e <;> omega
        · rcases hk2 with e | e
          · subst e; omega
          · omega
      omega
  · exact hb.1 k hk hkn hq

/-- The root of a heap has the lowest cost. -/
theorem HeapOrder.root_le {f : Nat → Nat} {n : Nat} (h : HeapOrder f n) :
    ∀ k, k < n → f 0 ≤ f k := by
  intro k
  induction k using Nat.strong_induction_on with
  | _ k ih =>
    intro hk
    by_cases h0 : k = 0
    · subst h0; exact le_refl _
    · have h1 := h k (by omega) hk
      have h2 := ih ((k - 1) / 2) (by omega) (by omega)
      omega

theorem costAt_Swap (m : Mem) {a : List Nat} {i j : Nat} (hi : i < a.length)
    (hj : j < a.length) :
    costAt (Swap m a i j).1 (Swap m a i j).2 = swapAt (costAt m a) i j := by
  funext k
  simp only [costAt, swapAt, Swap_cost]
  rw [slot_Swap m hi hj k]
  split_ifs <;> rfl

/-- The loop of `Push` restores the order of the heap, and keeps the nodes and their costs. -/
theorem BubbleUpLoop_heap :
    ∀ (fuel : Nat) (m : Mem) (a : List Nat) (child : Nat), child < a.length → child ≤ fuel →
      OrderButAbove (costAt m a) a.length child →
      IsMinHeap (BubbleUpLoop fuel m a child).1 (BubbleUpLoop fuel m a child).2 ∧
        (BubbleUpLoop fuel m a child).2.Perm a ∧
        ∀ x, ((BubbleUpLoop fuel m a child).1 x).heapCost = (m x).heapCost := by
  intro fuel
  induction fuel with
  | zero =>
    intro m a child _ hf h
    exact ⟨h.stop_up (Or.inl (by omega)), List.Perm.refl _, fun _ => rfl⟩
  | succ fuel ih =>
    intro m a child hc hf h
    simp only [BubbleUpLoop]
    by_cases h0 : child > 0
    · rw [if_pos h0]
      by_cases hlt : (m (slot a child)).heapCost < (m (slot a ((child - 1) / 2))).heapCost
      · rw [if_pos hlt]
        have hp : (child - 1) / 2 < a.length := by omega
        have hstep := h.swap_up h0 hlt
        rw [← costAt_Swap m hc hp] at hstep
        have hlen := Swap_length m a child ((child - 1) / 2)
        rw [← hlen] at hstep
        obtain ⟨r1, r2, r3⟩ := ih (Swap m a child ((child - 1) / 2)).1
          (Swap m a child ((child - 1) / 2)).2 ((child - 1) / 2) (by rw [hlen]; exact hp)
          (by omega) hstep
        refine ⟨r1, r2.trans (Swap_perm m hc hp), fun x => ?_⟩
        rw [r3 x, Swap_cost]
      · rw [if_neg hlt]
        exact ⟨h.stop_up (Or.inr hlt), List.Perm.refl _, fun _ => rfl⟩
    · rw [if_neg h0]
      exact ⟨h.stop_up (Or.inl (by omega)), List.Perm.refl _, fun _ => rfl⟩

/-- The loop of `BubbleDown` restores the order of the heap, and keeps the nodes and their
costs. -/
theorem BubbleDownLoop_heap :
    ∀ (fuel : Nat) (m : Mem) (a : List Nat) (hole : Nat), a.length ≤ fuel + hole →
      OrderButBelow (costAt m a) a.length hole →
      IsMinHeap (BubbleDownLoop fuel m a hole).1 (BubbleDownLoop fuel m a hole).2 ∧
        (BubbleDownLoop fuel m a hole).2.Perm a ∧
        ∀ x, ((BubbleDownLoop fuel m a hole).1 x).heapCost = (m x).heapCost := by
  intro fuel
  induction fuel with
  | zero =>
    intro m a hole hf h
    exact ⟨h.stop_down rfl (Or.inl (by omega)), List.Perm.refl _, fun _ => rfl⟩
  | succ fuel ih =>
    intro m a hole hf h
    simp only [BubbleDownLoop]
    by_cases h0 : 2 * hole + 1 < a.length
    · rw [if_pos h0]
      obtain ⟨c, hc⟩ : ∃ c, c = (if 2 * hole + 1 < a.length - 1 then
          if (m (slot a (2 * hole + 1 + 1))).heapCost < (m (slot a (2 * hole + 1))).heapCost
          then 2 * hole + 1 + 1 else 2 * hole + 1
        else 2 * hole + 1) := ⟨_, rfl⟩
      rw [← hc]
      have hcn : c < a.length := by
        rw [hc]
        split_ifs <;> omega
      have hch : hole < c := by
        rw [hc]
        split_ifs <;> omega
      by_cases hgt : (m (slot a hole)).heapCost > (m (slot a c)).heapCost
      · rw [if_pos hgt]
        have hh : hole < a.length := by omega
        have hstep : OrderButBelow (swapAt (costAt m a) hole c) a.length c :=
          h.swap_down h0 hc hgt
        rw [← costAt_Swap m hh hcn] at hstep
        have hlen := Swap_length m a hole c
        rw [← hlen] at hstep
        obtain ⟨r1, r2, r3⟩ := ih _ _ _ (by rw [hlen]; omega) hstep
        refine ⟨r1, r2.trans (Swap_perm m hh hcn), fun x => ?_⟩
        rw [r3 x, Swap_cost]
      · rw [if_neg hgt]
        exact ⟨h.stop_down hc (Or.inr hgt), List.Perm.refl _, fun _ => rfl⟩
    · rw [if_neg h0]
      exact ⟨h.stop_down rfl (Or.inl h0), List.Perm.refl _, fun _ => rfl⟩

theorem slot_append_left {a : List Nat} {k : Nat} (n : Nat) (h : k < a.length) :
    slot (a ++ [n]) k = slot a k := by
  unfold slot
  rw [List.getD_eq_getElem?_getD, List.getD_eq_getElem?_getD, List.getElem?_append_left h]

/-- The `Push` keeps the order of the heap and the costs, and adds the pushed node. -/
theorem Push_heap (m : Mem) (a : List Nat) (n : Nat) (h : IsMinHeap m a) :
    IsMinHeap (Push m a n).1 (Push m a n).2 ∧ (Push m a n).2.Perm (a ++ [n]) ∧
      ∀ x, ((Push m a n).1 x).heapCost = (m x).heapCost := by
  have hlen : (a ++ [n]).length = a.length + 1 := by simp
  have key := BubbleUpLoop_heap (a ++ [n]).length
    (setHeapArrayIndex m (slot (a ++ [n]) ((a ++ [n]).length - 1)) ((a ++ [n]).length - 1))
    (a ++ [n]) ((a ++ [n]).length - 1) (by omega) (by omega) (by
      refine ⟨fun k hk hkn hne => ?_, fun k hk hkn hq _ => ?_⟩
      · have hka : k < a.length := by omega
        have hpa : (k - 1) / 2 < a.length := by omega
        simp only [costAt, setHeapArrayIndex_cost]
        rw [slot_append_left n hka, slot_append_left n hpa]
        exact h k hk hka
      · omega)
  obtain ⟨r1, r2, r3⟩ := key
  refine ⟨r1, r2, fun x => ?_⟩
  exact (r3 x).trans (setHeapArrayIndex_cost _ _ _ _)

theorem popped_array (x : Nat) (r : List Nat) :
    ((x :: r).set 0 (slot (x :: r) ((x :: r).length - 1))).dropLast =
      r.getLast?.toList ++ r.dropLast := by
  rcases List.eq_nil_or_concat r with hr | ⟨r', l, hr⟩
  · subst hr
    rfl
  · subst hr
    rw [List.concat_eq_append]
    have e : slot (x :: (r' ++ [l])) ((x :: (r' ++ [l])).length - 1) = l := by
      unfold slot
      rw [List.getD_eq_getElem?_getD]
      simp
    rw [e]
    simp [List.dropLast_cons_of_ne_nil]

theorem popped_array_perm (x : Nat) (r : List Nat) :
    (x :: r).Perm (x :: (r.getLast?.toList ++ r.dropLast)) := by
  refine List.Perm.cons x ?_
  rcases List.eq_nil_or_concat r with hr | ⟨r', l, hr⟩
  · subst hr
    exact List.Perm.refl _
  · subst hr
    rw [List.concat_eq_append]
    have e : (r' ++ [l]).getLast?.toList ++ (r' ++ [l]).dropLast = l :: r' := by
      simp
    rw [e]
    exact List.perm_append_singleton l r'

/-- The `Pop` of a heap that holds a node returns the node of its first slot, of the least
cost, and keeps the order of the heap, the other nodes and the costs. -/
theorem Pop_heap (m : Mem) (x : Nat) (r : List Nat) (h : IsMinHeap m (x :: r)) :
    (Pop m (x :: r)).1 = some x ∧
      IsMinHeap (Pop m (x :: r)).2.1 (Pop m (x :: r)).2.2 ∧
      (x :: r).Perm (x :: (Pop m (x :: r)).2.2) ∧
      (∀ y, ((Pop m (x :: r)).2.1 y).heapCost = (m y).heapCost) ∧
      ∀ y ∈ x :: r, (m x).heapCost ≤ (m y).heapCost := by
  have hmin : ∀ y ∈ x :: r, (m x).heapCost ≤ (m y).heapCost := by
    intro y hy
    obtain ⟨k, hk, e⟩ := List.getElem_of_mem hy
    have h1 := HeapOrder.root_le (f := costAt m (x :: r)) h k hk
    simp only [costAt] at h1
    rw [slot_eq_getElem hk, e] at h1
    exact h1
  set a2 := ((x :: r).set 0 (slot (x :: r) ((x :: r).length - 1))).dropLast with ha2
  set m1 := setHeapArrayIndex m
    (slot ((x :: r).set 0 (slot (x :: r) ((x :: r).length - 1))) 0) 0 with hm1
  have hpop : Pop m (x :: r) = (some x, (BubbleDownLoop a2.length m1 a2 0).1,
      (BubbleDownLoop a2.length m1 a2 0).2) := rfl
  have hl2 : a2.length = r.length := by
    rw [ha2]
    simp
  have key := BubbleDownLoop_heap a2.length m1 a2 0 (by omega) (by
    refine ⟨fun k hk hkn hq => ?_, fun k hk hkn _ h0 => absurd h0 (lt_irrefl 0)⟩
    have hk1 : k < (x :: r).length - 1 := by
      simp only [List.length_cons]
      omega
    have hp1 : (k - 1) / 2 < (x :: r).length - 1 := by omega
    simp only [costAt, hm1, setHeapArrayIndex_cost, ha2]
    rw [slot_dropLast _ _ (by simpa using hp1), slot_dropLast _ _ (by simpa using hk1),
      slot_set, slot_set, if_neg (by omega), if_neg (by omega)]
    exact h k hk (by simp only [List.length_cons]; omega))
  obtain ⟨r1, r2, r3⟩ := key
  rw [hpop]
  refine ⟨rfl, r1, ?_, fun y => ?_, hmin⟩
  · refine (popped_array_perm x r).trans (List.Perm.cons x ?_)
    rw [← popped_array x r]
    exact r2.symm
  · exact (r3 y).trans (setHeapArrayIndex_cost _ _ _ _)

theorem Pop_nil (m : Mem) : Pop m [] = (none, m, []) := rfl

/-- A sequence of `Push` and `Pop` calls keeps the order of the heap and the costs. -/
theorem runHeap_heap :
    ∀ (ops : List HeapOp) (m : Mem) (a : List Nat) (out : List (Option Nat × List Nat)),
      pushPopOnly ops = true → IsMinHeap m a →
      IsMinHeap (runHeap ops m a out).1 (runHeap ops m a out).2.1 ∧
        ∀ x, ((runHeap ops m a out).1 x).heapCost = (m x).heapCost := by
  intro ops
  induction ops with
  | nil =>
    intro m a out _ h
    exact ⟨h, fun _ => rfl⟩
  | cons op ops ih =>
    intro m a out hops h
    cases op with
    | push n =>
      obtain ⟨p1, _, p3⟩ := Push_heap m a n h
      obtain ⟨r1, r2⟩ := ih (Push m a n).1 (Push m a n).2 out hops p1
      exact ⟨r1, fun x => (r2 x).trans (p3 x)⟩
    | pop =>
      cases a with
      | nil => exact ih m [] (out ++ [(none, [])]) hops h
      | cons x r =>
        obtain ⟨_, p1, _, p3, _⟩ := Pop_heap m x r h
        obtain ⟨r1, r2⟩ := ih (Pop m (x :: r)).2.1 (Pop m (x :: r)).2.2
          (out ++ [((Pop m (x :: r)).1, (Pop m (x :: r)).2.2)]) hops p1
        exact ⟨r1, fun y => (r2 y).trans (p3 y)⟩
    | remove i => exact absurd hops (by simp [pushPopOnly])

/-! ## Claim on the order of the heap -/

/-- C29: on a `PlannerNodesHeap` that has the min-heap property, `Push` keeps the property and
adds the pushed node to the stored nodes, and `Pop` returns null for an empty heap only, keeps
the property and takes the returned node, and nothing else, from the stored nodes; after every
sequence of `Push` and `Pop` calls the heap has the property, the heap costs are unchanged, a
`Pop` returns a node of the least heap cost of the stored nodes, and of two `Pop` calls in
succession the second returns a node of no less a cost. -/
theorem Push_and_Pop_keep_the_heap_order (m : Mem) (a : List Nat) (ops : List HeapOp)
    (h : IsMinHeap m a) (hops : pushPopOnly ops = true) :
    (∀ n, IsMinHeap (Push m a n).1 (Push m a n).2 ∧ (Push m a n).2.Perm (n :: a)) ∧
    ((Pop m a).1 = none ↔ a = []) ∧
    (∀ x, (Pop m a).1 = some x →
      IsMinHeap (Pop m a).2.1 (Pop m a).2.2 ∧ a.Perm (x :: (Pop m a).2.2)) ∧
    IsMinHeap (runHeap ops m a []).1 (runHeap ops m a []).2.1 ∧
    (∀ x, ((runHeap ops m a []).1 x).heapCost = (m x).heapCost) ∧
    (∀ x, (Pop (runHeap ops m a []).1 (runHeap ops m a []).2.1).1 = some x →
      ∀ y ∈ (runHeap ops m a []).2.1, (m x).heapCost ≤ (m y).heapCost) ∧
    ∀ x y, (Pop (runHeap ops m a []).1 (runHeap ops m a []).2.1).1 = some x →
      (Pop (Pop (runHeap ops m a []).1 (runHeap ops m a []).2.1).2.1
        (Pop (runHeap ops m a []).1 (runHeap ops m a []).2.1).2.2).1 = some y →
      (m x).heapCost ≤ (m y).heapCost := by
  have hpop : ∀ (m : Mem) (a : List Nat), IsMinHeap m a → ∀ x, (Pop m a).1 = some x →
      IsMinHeap (Pop m a).2.1 (Pop m a).2.2 ∧ a.Perm (x :: (Pop m a).2.2) ∧
      (∀ y, ((Pop m a).2.1 y).heapCost = (m y).heapCost) ∧
      ∀ y ∈ a, (m x).heapCost ≤ (m y).heapCost := by
    intro m a h x hx
    cases a with
    | nil => exact absurd hx (by simp [Pop_nil])
    | cons z r =>
      obtain ⟨p0, p1, p2, p3, p4⟩ := Pop_heap m z r h
      rw [p0] at hx
      cases hx
      exact ⟨p1, p2, p3, p4⟩
  obtain ⟨s1, s2⟩ := runHeap_heap ops m a [] hops h
  refine ⟨fun n => ?_, ?_, fun x hx => ?_, s1, s2, fun x hx y hy => ?_, fun x y hx hy => ?_⟩
  · obtain ⟨p1, p2, _⟩ := Push_heap m a n h
    exact ⟨p1, p2.trans (List.perm_append_singleton n a)⟩
  · cases a with
    | nil => simp [Pop_nil]
    | cons z r => simp [(Pop_heap m z r h).1]
  · exact ⟨(hpop m a h x hx).1, (hpop m a h x hx).2.1⟩
  · have := (hpop _ _ s1 x hx).2.2.2 y hy
    rwa [s2, s2] at this
  · obtain ⟨q1, q2, q3, q4⟩ := hpop _ _ s1 x hx
    obtain ⟨_, t2, _, _⟩ := hpop _ _ q1 y hy
    have hy2 : y ∈ (runHeap ops m a []).2.1 :=
      q2.symm.subset (List.mem_cons_of_mem _ (t2.symm.subset (List.mem_cons_self _ _)))
    have := q4 y hy2
    rwa [s2, s2] at this

theorem Push_and_Pop_keep_the_heap_order_witness :
    IsMinHeap (memOfCosts [4, 2, 7, 1, 5]) [1, 0, 2] ∧
      pushPopOnly [.push 3, .pop, .push 4, .pop] = true ∧
      (runHeap [.push 3, .pop, .push 4, .pop] (memOfCosts [4, 2, 7, 1, 5]) [1, 0, 2] []).2.2 =
        [(some 3, [1, 0, 2]), (some 1, [0, 4, 2])] ∧
      IsMinHeap (runHeap [.push 3, .pop, .push 4, .pop] (memOfCosts [4, 2, 7, 1, 5]) [1, 0, 2] []).1
        (runHeap [.push 3, .pop, .push 4, .pop] (memOfCosts [4, 2, 7, 1, 5]) [1, 0, 2] []).2.1 :=
  ⟨by decide!, by decide!, by decide!,
   (Push_and_Pop_keep_the_heap_order (memOfCosts [4, 2, 7, 1, 5]) [1, 0, 2]
      [.push 3, .pop, .push 4, .pop] (by decide!) (by decide!)).2.2.2.1⟩

/-! ## Claim on nodes of equal cost -/

theorem BubbleUpLoop_of_equal_costs (fuel : Nat) (m : Mem) (a : List Nat) (child c : Nat)
    (hc : child < a.length) (hall : ∀ x ∈ a, (m x).heapCost = c) :
    (BubbleUpLoop fuel m a child).2 = a := by
  cases fuel with
  | zero => rfl
  | succ fuel =>
    simp only [BubbleUpLoop]
    have h1 := hall _ (slot_mem hc)
    have h2 := hall _ (slot_mem (show (child - 1) / 2 < a.length by omega))
    rw [h1, h2, if_neg (lt_irrefl c)]
    split_ifs <;> rfl

theorem BubbleDownLoop_of_equal_costs (fuel : Nat) (m : Mem) (a : List Nat) (hole c : Nat)
    (hall : ∀ x ∈ a, (m x).heapCost = c) :
    (BubbleDownLoop fuel m a hole).2 = a := by
  cases fuel with
  | zero => rfl
  | succ fuel =>
    simp only [BubbleDownLoop]
    by_cases h0 : 2 * hole + 1 < a.length
    · rw [if_pos h0]
      obtain ⟨k, hk⟩ : ∃ k, k = (if 2 * hole + 1 < a.length - 1 then
          if (m (slot a (2 * hole + 1 + 1))).heapCost < (m (slot a (2 * hole + 1))).heapCost
          then 2 * hole + 1 + 1 else 2 * hole + 1
        else 2 * hole + 1) := ⟨_, rfl⟩
      rw [← hk]
      have hkn : k < a.length := by
        rw [hk]
        split_ifs <;> omega
      have h1 := hall _ (slot_mem (show hole < a.length by omega))
      have h2 := hall _ (slot_mem hkn)
      rw [h1, h2, if_neg (lt_irrefl c)]
    · rw [if_neg h0]

/-- C25, the order of the pops as it is: nodes 0, 1 and 2 of one heap cost, pushed in this
order, are popped in the order 0, 2, 1, the node pushed last before the node pushed second. -/
theorem equal_cost_nodes_pop_out_of_push_order :
    (runHeap [.push 0, .push 1, .push 2, .pop, .pop, .pop] (memOfCosts [1, 1, 1]) [] []).2.2 =
      [(some 0, [2, 1]), (some 2, [1]), (some 1, [])] := by
  decide!

/-- C25, amended: among stored nodes of one heap cost the tie is broken by the slot of the array
and not by the order of the pushes: `Push` of a node of this cost leaves the node in the last
slot, and `Pop` returns the node of the first slot and moves the node of the last slot, the
one pushed last, to the first slot, ahead of the nodes pushed before it. -/
theorem equal_cost_nodes_pop_by_slot (m : Mem) (a : List Nat) (c : Nat)
    (hall : ∀ x ∈ a, (m x).heapCost = c) :
    (∀ n, (m n).heapCost = c → (Push m a n).2 = a ++ [n]) ∧
      ∀ x r, a = x :: r →
        (Pop m a).1 = some x ∧ (Pop m a).2.2 = r.getLast?.toList ++ r.dropLast := by
  refine ⟨fun n hn => ?_, fun x r ha => ?_⟩
  · refine BubbleUpLoop_of_equal_costs _ _ _ _ c (by simp) (fun y hy => ?_)
    rw [setHeapArrayIndex_cost]
    rcases List.mem_append.1 hy with h1 | h1
    · exact hall y h1
    · rw [List.mem_singleton.1 h1]
      exact hn
  · subst ha
    refine ⟨rfl, ?_⟩
    rw [← popped_array x r]
    refine BubbleDownLoop_of_equal_costs _ _ _ 0 c (fun y hy => ?_)
    rw [setHeapArrayIndex_cost]
    rw [popped_array x r] at hy
    exact hall y ((popped_array_perm x r).symm.subset (List.mem_cons_of_mem _ hy))

theorem equal_cost_nodes_pop_by_slot_witness :
    (∀ x ∈ [0, 1, 2], (memOfCosts [1, 1, 1] x).heapCost = 1) ∧
      (Pop (memOfCosts [1, 1, 1]) [0, 1, 2]).1 = some 0 ∧
      (Pop (memOfCosts [1, 1, 1]) [0, 1, 2]).2.2 = [2, 1] :=
  ⟨by decide!,
   ((equal_cost_nodes_pop_by_slot (memOfCosts [1, 1, 1]) [0, 1, 2] 1 (by decide!)).2 0 [1, 2]
      rfl)⟩

/-! ## `BuildPlan` for a goal that the current world state satisfies -/

theorem heapPush_nil (cfg : Planning) (m : Mem) (node : Nat) :
    heapPush cfg m [] node = .ok (setHeapArrayIndex m node 0, [node]) := by
  have hP : Push m [] node = (setHeapArrayIndex m node 0, [node]) := rfl
  have hC : CheckIndices cfg (setHeapArrayIndex m node 0) [node] = .ok () := by
    simp [CheckIndices, slot, setHeapArrayIndex, List.range_succ]
  simp only [heapPush, hP, hC, List.length_nil]
  rfl

theorem heapPop_single (cfg : Planning) (m : Mem) (node : Nat) :
    heapPop cfg m [node] = .ok (some node, setHeapArrayIndex m node 0, []) := by
  have hP : Pop m [node] = (some node, setHeapArrayIndex m node 0, []) := rfl
  have hC : CheckIndices cfg (setHeapArrayIndex m node 0) [] = .ok () := by
    simp [CheckIndices]
  simp only [heapPop, hP, hC]

theorem setHeapArrayIndex_worldState (m : Mem) (n i x : Nat) :
    (setHeapArrayIndex m n i x).worldState = (m x).worldState := by
  unfold setHeapArrayIndex
  by_cases h : x = n
  · subst h; simp
  · simp [Function.update_noteq h]

theorem setHeapArrayIndex_parent (m : Mem) (n i x : Nat) :
    (setHeapArrayIndex m n i x).parent = (m x).parent := by
  unfold setHeapArrayIndex
  by_cases h : x = n
  · subst h; simp
  · simp [Function.update_noteq h]

/-- The first iteration of the search loop ends the search when the only node of the heap
satisfies the goal. -/
theorem searchLoop_found_first (cfg : Planning) (fuel : Nat) (s : Search) (node : Nat)
    (hheap : s.heap = [node]) (hsat : cfg.satisfied (s.st.nodes node).worldState = true) :
    searchLoop cfg (fuel + 1) s =
      .ok (some node,
        { s with st := { s.st with nodes := setHeapArrayIndex s.st.nodes node 0 }, heap := [] }) := by
  have hstep : searchStep cfg s = .ok (.found node
      { s with st := { s.st with nodes := setHeapArrayIndex s.st.nodes node 0 }, heap := [] }) := by
    unfold searchStep
    rw [hheap, heapPop_single]
    dsimp only
    rw [setHeapArrayIndex_worldState, if_pos hsat]
  rw [searchLoop, hstep]

theorem ReconstructPlan_of_no_parent (k : Nat) (st : PlannerState) (node : Nat)
    (h : (st.nodes node).parent = none) :
    ReconstructPlan k st (some node) = .ok (none, st) := by
  have hloop : ReconstructLoop k st.nodes (some node) [] = .ok ([], st.nodes) := by
    cases k with
    | zero => simp only [ReconstructLoop, h]
    | succ k => simp only [ReconstructLoop, h]
  unfold ReconstructPlan
  rw [hloop]

theorem ClearLoop_recordsCount :
    ∀ (fuel : Nat) (st : PlannerState) (i : Int) (st2 : PlannerState),
      ClearLoop fuel st i = .ok st2 → st2.recordsCount = st.recordsCount := by
  intro fuel
  induction fuel with
  | zero => intro st i st2 h; cases h
  | succ fuel ih =>
    intro st i st2 h
    rw [ClearLoop] at h
    by_cases hi : i ≥ 0
    · rw [if_pos hi] at h
      dsimp only at h
      cases hD : DeleteSelf st i.toNat with
      | error e => rw [hD] at h; cases h
      | ok st1 =>
        rw [hD] at h
        have h1 : st1.recordsCount = st.recordsCount := by
          unfold DeleteSelf at hD
          cases hF : st.pool.Free (i.toNat : Int) with
          | none => rw [hF] at hD; cases hD
          | some pool1 =>
            rw [hF] at hD
            simp only [Except.ok.injEq] at hD
            subst hD
            rfl
        exact (ih st1 _ st2 h).trans h1
    · rw [if_neg hi] at h
      simp only [Except.ok.injEq] at h
      subst h
      rfl

/-- The `BuildPlan` for a world state that satisfies the goal, from a pool that has a free
item: the plan is null, the used list of the pool is empty on return, and no record was made. -/
theorem BuildPlan_of_satisfied (cfg : Planning) (fuel n : Nat) (st : PlannerState) (w : Nat)
    (x : Int) (r ul : List Int) (hsat : cfg.satisfied w = true)
    (hpool : PoolInv n st.pool (x :: r) ul) (hn : n ≤ cfg.itemsCount) :
    ∃ st2, BuildPlan cfg (fuel + 1) st w = .ok (none, st2) ∧
      PoolInv n st2.pool ((x :: ul).reverse ++ r) [] ∧ st2.pool.listFirst USED_LIST = -1 ∧
      st2.recordsCount = st.recordsCount ∧ st2.nextInPlan = st.nextInPlan := by
  obtain ⟨p1, hAlloc, hinv1⟩ := hpool.alloc_cons
  have hNew : New cfg st = .ok (some x.toNat,
      { st with pool := p1, nodes := Function.update st.nodes x.toNat cfg.newNode }) := by
    simp only [New, hAlloc]
  obtain ⟨m0, hm0⟩ : ∃ m0 : Mem, m0 = Function.update
      (Function.update st.nodes x.toNat cfg.newNode) x.toNat
      { (Function.update st.nodes x.toNat cfg.newNode) x.toNat with
        worldState := w, worldStateHash := cfg.hash w % 4294967296,
        transitionCost := 0, costSoFar := 0, heapCost := 0, parent := none,
        nextTransition := none, actionRecord := none } := ⟨_, rfl⟩
  have hw : (m0 x.toNat).worldState = w := by rw [hm0]; simp
  have hp : (m0 x.toNat).parent = none := by rw [hm0]; simp
  have hstart : startSearch cfg st w = .ok
      { st := { st with pool := p1, nodes := setHeapArrayIndex m0 x.toNat 0 },
        closedBins := fun _ => none, openBins := fun _ => none, heap := [x.toNat] } := by
    unfold startSearch
    rw [hNew]
    dsimp only
    rw [← hm0, heapPush_nil]
  have hfind : findGoalNode cfg (fuel + 1) st w = .ok (some x.toNat,
      { st := { st with pool := p1,
                        nodes := setHeapArrayIndex (setHeapArrayIndex m0 x.toNat 0) x.toNat 0 },
        closedBins := fun _ => none, openBins := fun _ => none, heap := [] }) := by
    unfold findGoalNode
    rw [hstart]
    dsimp only
    rw [searchLoop_found_first cfg fuel _ x.toNat rfl
      (by dsimp only; rw [setHeapArrayIndex_worldState, hw]; exact hsat)]
  obtain ⟨st2, hC, hinv2, hused⟩ := Clear_frees_all cfg n
    { st with pool := p1,
              nodes := setHeapArrayIndex (setHeapArrayIndex m0 x.toNat 0) x.toNat 0 }
    r (x :: ul) hinv1 hn
  have hC2 : ClearLoop (cfg.itemsCount + 1)
      { st with pool := p1,
                nodes := setHeapArrayIndex (setHeapArrayIndex m0 x.toNat 0) x.toNat 0 }
      (p1.listFirst USED_LIST) = .ok st2 := hC
  refine ⟨st2, ?_, hinv2, hused, ?_, ?_⟩
  · unfold BuildPlan
    rw [hfind]
    dsimp only
    rw [ReconstructPlan_of_no_parent _ _ _
      (by dsimp only; rw [setHeapArrayIndex_parent, setHeapArrayIndex_parent, hp])]
    dsimp only
    rw [hC]
  · have h1 := ClearLoop_recordsCount _ _ _ _ hC2
    exact h1
  · have h1 := (ClearLoop_deleted _ _ _ _ hC2).2.1
    exact h1

/-! ## Claim on a goal that is satisfied already -/

/-- C30: when the current world state satisfies the goal, `BuildPlan`, called with a free item
in a well-formed pool, returns null after the first iteration of its loop, no action record
having been made (no transition was generated), and the used list of the pool is empty on
return; the loop of `FindNewGoalAndPlan` then goes on to the next goal, and when the goal is the
only relevant one `FindNewGoalAndPlan` returns false and there is no active goal and no active
plan. -/
theorem satisfied_goal_has_no_plan (cfg : Planning) (fuel n : Nat) (st : PlannerState) (w : Nat)
    (x : Int) (r ul : List Int) (hsat : cfg.satisfied w = true)
    (hpool : PoolInv n st.pool (x :: r) ul) (hn : n ≤ cfg.itemsCount) :
    ∃ st2, BuildPlan cfg (fuel + 1) st w = .ok (none, st2) ∧
      st2.pool.listFirst USED_LIST = -1 ∧ PoolInv n st2.pool ((x :: ul).reverse ++ r) [] ∧
      st2.recordsCount = st.recordsCount ∧
      (∀ (env : Thinking) (goal : Nat) (rest : List Nat),
        env.buildPlan goal st = BuildPlan cfg (fuel + 1) st w →
        firstPlannedGoal env none (goal :: rest) st = firstPlannedGoal env none rest st2) ∧
      ∀ (env : Thinking) (p : AiPlanner) (goal : Nat),
        p.st = st → p.planHead = none → p.activeGoal = none → env.shouldSkipPlanning = false →
        env.goals.filter env.isRelevant ≠ [] →
        (env.goals.filter env.isRelevant).length ≤ env.maxPlannerGoals →
        env.sort (updateWeights env p.weight) (env.goals.filter env.isRelevant) = [goal] →
        env.buildPlan goal st = BuildPlan cfg (fuel + 1) st w →
        ∃ p1, FindNewGoalAndPlan env p = .ok (false, p1) ∧ p1.activeGoal = none ∧
          p1.planHead = none := by
  obtain ⟨st2, hB, hinv, hused, hrec, _⟩ :=
    BuildPlan_of_satisfied cfg fuel n st w x r ul hsat hpool hn
  refine ⟨st2, hB, hused, hinv, hrec, ?_, ?_⟩
  · intro env goal rest hb
    rw [hB] at hb
    simp only [firstPlannedGoal, hb]
    simp
  · intro env p goal hst hplan hgoal hskip hne hcap hsort hb
    rw [hB] at hb
    have hloop : firstPlannedGoal env none [goal] st = .ok (none, st2) := by
      simp only [firstPlannedGoal, hb]
      simp
    have hempty : (env.goals.filter env.isRelevant).isEmpty = false := by
      cases hl : env.goals.filter env.isRelevant with
      | nil => exact absurd hl hne
      | cons a l => rfl
    have hF : FindNewGoalAndPlan env p = .ok (false,
        { p with
          st := st2, weight := updateWeights env p.weight,
          calls := p.calls ++ [.beforePlanning] ++ [.afterPlanning] }) := by
      unfold FindNewGoalAndPlan
      simp only [hplan, hgoal, hskip, Option.isSome_none, Bool.false_eq_true, if_false,
        not_lt.2 hcap, hempty, hsort, hst, hloop]
    exact ⟨_, hF, hgoal, hplan⟩

theorem satisfied_goal_has_no_plan_witness :
    (problem lineTransitions 0 0).satisfied 0 = true ∧
      (∃ st2, BuildPlan (problem lineTransitions 0 0) 1 restingPlanner.st 0 = .ok (none, st2) ∧
        st2.pool.listFirst USED_LIST = -1) ∧
      outcomeOf (FindNewGoalAndPlan satisfiedGoal restingPlanner) =
        some { result := false, activeGoal := none, planHead := none,
               calls := [.beforePlanning, .afterPlanning] } :=
  have hpool : PoolInv 16 restingPlanner.st.pool
      (0 :: (List.range' 1 15).map Int.ofNat) [] :=
    PoolBase.init_inv (fun _ => 0) (fun _ => 0) 16 (by decide)
  have h := satisfied_goal_has_no_plan (problem lineTransitions 0 0) 0 16 restingPlanner.st 0
    0 ((List.range' 1 15).map Int.ofNat) [] rfl hpool (le_refl 16)
  ⟨rfl, ⟨h.choose, h.choose_spec.1, h.choose_spec.2.1⟩, by decide!⟩

/-! ## The code at the inputs where it departs from the claims on the relaxation -/

/-- C26 (the code at the failing inputs): on `shortcutTransitions`, a new node having
`costSoFar = 0`, the open set holds the node `1` of world state `3` with `costSoFar = 10` after
the first iteration; the second iteration reaches the world state `3` at the lower cost `2`, and
the stored node is kept and the record `2` of the new transition is deleted. On
`diamondTransitions`, a new node having `costSoFar = 1000`, the open set holds the node `3` of
world state `3` with `costSoFar = 2` after the second iteration; the third iteration reaches the
world state `3` at the higher cost `6`, and the stored node is removed, its record `2` deleted,
and the node `4` of cost `6` and parent `2` is stored in its place. After every iteration: the
nodes of the heap, each with its world state, `costSoFar` and parent, and the deleted records. -/
theorem relaxation_compares_with_new_node :
    (((okOf (startSearch (problem shortcutTransitions 3 0)
          (freshPlanner (problem shortcutTransitions 3 0)) 0)).bind
        (searchSteps (problem shortcutTransitions 3 0) 1)).map storedNodes =
        some { heap := [{ node := 2, worldState := 1, costSoFar := 1, parent := some 0 },
              { node := 1, worldState := 3, costSoFar := 10, parent := some 0 }],
               deletedRecords := [] } ∧
      ((okOf (startSearch (problem shortcutTransitions 3 0)
          (freshPlanner (problem shortcutTransitions 3 0)) 0)).bind
        (searchSteps (problem shortcutTransitions 3 0) 2)).map storedNodes =
        some { heap := [{ node := 1, worldState := 3, costSoFar := 10, parent := some 0 }],
               deletedRecords := [2] }) ∧
    (((okOf (startSearch (problem diamondTransitions 3 1000)
          (freshPlanner (problem diamondTransitions 3 1000)) 0)).bind
        (searchSteps (problem diamondTransitions 3 1000) 2)).map storedNodes =
        some { heap := [{ node := 2, worldState := 2, costSoFar := 1, parent := some 0 },
              { node := 3, worldState := 3, costSoFar := 2, parent := some 1 }],
               deletedRecords := [] } ∧
      ((okOf (startSearch (problem diamondTransitions 3 1000)
          (freshPlanner (problem diamondTransitions 3 1000)) 0)).bind
        (searchSteps (problem diamondTransitions 3 1000) 3)).map storedNodes =
        some { heap := [{ node := 4, worldState := 3, costSoFar := 6, parent := some 2 }],
               deletedRecords := [2] }) := by
  refine ⟨⟨?_, ?_⟩, ⟨?_, ?_⟩⟩ <;> decide!

/-- C28 (the code at the failing input): on `returnTransitions`, a new node having
`costSoFar = 1000`, after the second iteration the heap holds the node `1` only, while the node
`2` of world state `28008`, popped by that iteration, is found in the open set (and in the closed
set). In the fourth iteration the second transition, to the world state `28008` at cost `4`,
finds the node `2` in the open set, `RemoveBySameWorldState` returns its index `0`, and the slot
`0` of the heap holds the node `0`, of world state `27690`: `Remove( 0 )` takes this node from
the heap. -/
theorem Remove_takes_another_node :
    ((okOf (startSearch (problem returnTransitions 9 1000)
        (freshPlanner (problem returnTransitions 9 1000)) 0)).bind
      (searchSteps (problem returnTransitions 9 1000) 2)).map storedNodes =
      some { heap := [{ node := 1, worldState := 27690, costSoFar := 2, parent := some 0 }],
               deletedRecords := [] } ∧
    inOpenAndInClosed (problem returnTransitions 9 1000) 2
      ((okOf (startSearch (problem returnTransitions 9 1000)
        (freshPlanner (problem returnTransitions 9 1000)) 0)).bind
      (searchSteps (problem returnTransitions 9 1000) 2)) = some (true, true) ∧
    removalOf (problem returnTransitions 9 1000)
      (((okOf (startSearch (problem returnTransitions 9 1000)
        (freshPlanner (problem returnTransitions 9 1000)) 0)).bind
      (searchSteps (problem returnTransitions 9 1000) 3)).bind
        fun s => insideIteration (problem returnTransitions 9 1000) s 1) =
      some { worldState := 28008, cost := 4, found := some 2, index := some 0, heap := [0],
             slotNode := 0, slotWorldState := 27690 } := by
  refine ⟨?_, ?_, ?_⟩ <;> decide!

end Planner

/-! # Claims on `BotFleeToSpotAction::TryApply` -/

namespace FleeToSpot

open Planner

/-- The node that `New` returns is the first item of the free list of the pool, which is not an
item in use. -/
theorem New_not_used {cfg : Planning} {st st1 : PlannerState} {node : Nat}
    (h : New cfg st = .ok (some node, st1)) {n : Nat} {fl ul : List Int}
    (hpool : PoolInv n st.pool fl ul) (n0 : Nat) (hn0 : (n0 : Int) ∈ ul) : n0 ≠ node := by
  unfold New at h
  cases fl with
  | nil =>
    rw [hpool.alloc_nil] at h
    simp only [Except.ok.injEq, Prod.mk.injEq] at h
    cases h.1
  | cons x r =>
    obtain ⟨p1, hA, _⟩ := hpool.alloc_cons
    rw [hA] at h
    simp only [Except.ok.injEq, Prod.mk.injEq, Option.some.injEq] at h
    have hx0 : 0 ≤ x := Chain.nonneg hpool.1.2 x (List.mem_cons_self _ _)
    have hdisj := List.disjoint_of_nodup_append hpool.nodup
    rintro rfl
    apply hdisj (List.mem_cons_self x r)
    rw [← h.1, Int.toNat_of_nonneg hx0] at hn0
    exact hn0

/-- The node of `NewNodeForRecord` comes from `New`, and only its action record is written. -/
theorem NewNodeForRecord_some {cfg : Planning} {st st1 : PlannerState} {record node : Nat}
    (h : NewNodeForRecord cfg st record = .ok (some node, st1)) :
    (∃ st0, New cfg st = .ok (some node, st0)) ∧
      (st1.nodes node).actionRecord = some record ∧ st1.recordsCount = st.recordsCount := by
  unfold NewNodeForRecord at h
  cases hN : New cfg st with
  | error e => rw [hN] at h; cases h
  | ok r =>
    obtain ⟨made, st0⟩ := r
    rw [hN] at h
    cases made with
    | none =>
      simp only [Except.ok.injEq, Prod.mk.injEq] at h
      cases h.1
    | some nd =>
      simp only [Except.ok.injEq, Prod.mk.injEq, Option.some.injEq] at h
      obtain ⟨rfl, rfl⟩ := h
      refine ⟨⟨st0, rfl⟩, by simp, ?_⟩
      unfold New at hN
      cases hA : st.pool.Alloc with
      | none => rw [hA] at hN; cases hN
      | some a =>
        obtain ⟨i, p1⟩ := a
        rw [hA] at hN
        cases i with
        | none =>
          simp only [Except.ok.injEq, Prod.mk.injEq] at hN
          cases hN.1
        | some i =>
          simp only [Except.ok.injEq, Prod.mk.injEq] at hN
          rw [← hN.2]

/-- C18: when `BotFleeToSpotAction::TryApply` returns a node, the world state of the node is the
input world state with the value of its bot-origin variable set to the nav-target origin and its
tactical spots reset; the world state and the cost of every other node are as before, so the
input world state is unchanged when a node in use holds it; the transition cost of the node is
the travel time in milliseconds from the bot origin to the nav target, or `327670` when that
travel time is `0`, so it is positive when the travel time is not negative; and the node owns a
new record for the nav-target origin. -/
theorem TryApply_moves_bot_origin (cfg : Planning) (bot : Bot) (s s1 : ActionState)
    (worldState : WorldState) (node : Nat)
    (h : TryApply cfg bot s worldState = .ok (some node, s1)) :
    s1.worldStates node =
        { worldState with
          botOrigin :=
            { value := worldState.navTargetOrigin.value, ignore := worldState.botOrigin.ignore },
          tacticalSpots := none } ∧
      (∀ n, n ≠ node →
        s1.worldStates n = s.worldStates n ∧ s1.transitionCosts n = s.transitionCosts n) ∧
      (∀ n fl ul, PoolInv n s.planner.pool fl ul → ∀ n0 : Nat, (n0 : Int) ∈ ul →
        s1.worldStates n0 = s.worldStates n0) ∧
      s1.transitionCosts node =
        (if bot.checkTravelTimeMillis worldState.botOrigin.value
            worldState.navTargetOrigin.value = 0 then 327670
          else bot.checkTravelTimeMillis worldState.botOrigin.value
            worldState.navTargetOrigin.value) ∧
      (0 ≤ bot.checkTravelTimeMillis worldState.botOrigin.value
          worldState.navTargetOrigin.value → 0 < s1.transitionCosts node) ∧
      (s1.planner.nodes node).actionRecord = some s.planner.recordsCount ∧
      s1.navSpots s.planner.recordsCount = worldState.navTargetOrigin.value ∧
      s1.freeRecords + 1 = s.freeRecords := by
  unfold TryApply at h
  by_cases h1 : worldState.navTargetOrigin.ignore = true
  · rw [if_pos h1] at h
    simp at h
  rw [if_neg h1] at h
  by_cases h2 : bot.distanceToNavTarget worldState ≤ bot.goalPickupActionRadius
  · rw [if_pos h2] at h
    simp at h
  rw [if_neg h2] at h
  dsimp only at h
  by_cases h3 : bot.selectedNavEntityIsValid = true ∧ ¬ bot.selectedNavEntityIsEmpty = true ∧
      (bot.navEntityOrigin.sub worldState.navTargetOrigin.value).SquaredLength <
        bot.maxRoundingSquareDistanceError
  · rw [if_pos h3] at h
    simp at h
  rw [if_neg h3] at h
  cases hr : newRecord s worldState.navTargetOrigin.value with
  | none => rw [hr] at h; cases h
  | some rs =>
    obtain ⟨record, s0⟩ := rs
    rw [hr] at h
    simp only [] at h
    have hrec : record = s.planner.recordsCount ∧
        s0 = { s with
          freeRecords := s.freeRecords - 1,
          navSpots := Function.update s.navSpots s.planner.recordsCount
            worldState.navTargetOrigin.value,
          planner := { s.planner with recordsCount := s.planner.recordsCount + 1 } } ∧
        s.freeRecords ≠ 0 := by
      unfold newRecord at hr
      split_ifs at hr with h0
      simp only [Option.some.injEq, Prod.mk.injEq] at hr
      exact ⟨hr.1.symm, hr.2.symm, h0⟩
    obtain ⟨hrec1, hs0, hfree⟩ := hrec
    cases hN : NewNodeForRecord cfg s0.planner record with
    | error e => rw [hN] at h; cases h
    | ok r =>
      obtain ⟨made, st1⟩ := r
      rw [hN] at h
      cases made with
      | none =>
        simp only [Except.ok.injEq, Prod.mk.injEq] at h
        cases h.1
      | some nd =>
        simp only [Except.ok.injEq, Prod.mk.injEq, Option.some.injEq] at h
        obtain ⟨rfl, rfl⟩ := h
        obtain ⟨⟨st2, hNew⟩, hrecord, _⟩ := NewNodeForRecord_some hN
        have hcost : Function.update s0.transitionCosts nd
            (if bot.checkTravelTimeMillis worldState.botOrigin.value
                worldState.navTargetOrigin.value = 0 then 10 * 32767
              else bot.checkTravelTimeMillis worldState.botOrigin.value
                worldState.navTargetOrigin.value) nd =
            (if bot.checkTravelTimeMillis worldState.botOrigin.value
                worldState.navTargetOrigin.value = 0 then 327670
              else bot.checkTravelTimeMillis worldState.botOrigin.value
                worldState.navTargetOrigin.value) := by
          rw [Function.update_same]
          norm_num
        refine ⟨?_, ?_, ?_, hcost, ?_, ?_, ?_, ?_⟩
        · simp [OriginVar.SetValue, WorldState.ResetTacticalSpots]
        · intro n hn
          subst hs0
          exact ⟨by simp [Function.update_noteq hn], by simp [Function.update_noteq hn]⟩
        · intro n fl ul hpool n0 hn0
          have hpool0 : PoolInv n s0.planner.pool fl ul := by
            subst hs0
            exact hpool
          have hne := New_not_used hNew hpool0 n0 hn0
          subst hs0
          simp [Function.update_noteq hne]
        · intro ht
          show 0 < Function.update s0.transitionCosts nd _ nd
          rw [hcost]
          split_ifs with h0
          · norm_num
          · omega
        · rw [← hrec1]
          exact hrecord
        · subst hs0
          simp
        · subst hs0
          show s.freeRecords - 1 + 1 = s.freeRecords
          omega

theorem TryApply_moves_bot_origin_witness :
    appliedOf (TryApply (problem lineTransitions 2 0) fleeingBot freshAction fleeing) =
        some { node := some 0,
               worldState := some
                 { botOrigin := { value := ⟨300, 0, 0⟩, ignore := false },
                   navTargetOrigin := { value := ⟨300, 0, 0⟩, ignore := false },
                   tacticalSpots := none, others := 9 },
               cost := some 1200, freeRecords := 3, recordsCount := 1 } ∧
      ∃ s1, TryApply (problem lineTransitions 2 0) fleeingBot freshAction fleeing =
          .ok (some 0, s1) ∧
        s1.worldStates 0 =
          { fleeing with
            botOrigin :=
              { value := fleeing.navTargetOrigin.value, ignore := fleeing.botOrigin.ignore },
            tacticalSpots := none } ∧
        (0 ≤ fleeingBot.checkTravelTimeMillis fleeing.botOrigin.value
            fleeing.navTargetOrigin.value → 0 < s1.transitionCosts 0) := by
  have hm : appliedOf (TryApply (problem lineTransitions 2 0) fleeingBot freshAction fleeing) =
      some { node := some 0,
             worldState := some
               { botOrigin := { value := ⟨300, 0, 0⟩, ignore := false },
                 navTargetOrigin := { value := ⟨300, 0, 0⟩, ignore := false },
                 tacticalSpots := none, others := 9 },
             cost := some 1200, freeRecords := 3, recordsCount := 1 } := by decide!
  refine ⟨hm, ?_⟩
  cases h : TryApply (problem lineTransitions 2 0) fleeingBot freshAction fleeing with
  | error e => rw [h] at hm; cases hm
  | ok r =>
    obtain ⟨node, s1⟩ := r
    rw [h] at hm
    simp only [appliedOf, Option.some.injEq, Applied.mk.injEq] at hm
    have hnode : node = some 0 := hm.1
    subst hnode
    have := TryApply_moves_bot_origin (problem lineTransitions 2 0) fleeingBot freshAction s1
      fleeing 0 h
    exact ⟨s1, rfl, this.1, this.2.2.2.2.1⟩

end FleeToSpot

/-! # Claims on `GenericRunBunnyingAction` -/

namespace Bunnying

/-- C19, as stated: a step that is not skimming, whose squared 2D speed falls from `160 * 160`
(above `150 * 150`) to `4` (below `50 * 50`) while the velocity turns round:
`CheckStepSpeedGainOrLoss` returns false at the bouncing-back check, which comes first, and
`shouldTryObstacleAvoidance` is still false; `CheckPredictionStepResults` sets the pending
rollback. -/
theorem bouncing_back_leaves_obstacle_avoidance_unset :
    bouncingStep.skimming = false ∧ bouncingStep.oldSquare2DSpeed > 150 * 150 ∧
      bouncingStep.newSquare2DSpeed < 50 * 50 ∧
      (CheckStepSpeedGainOrLoss startedAction bouncingStep).1 = false ∧
      (CheckStepSpeedGainOrLoss startedAction bouncingStep).2.shouldTryObstacleAvoidance = false ∧
      (CheckPredictionStepResults startedAction freshContext
        bouncingStep).1.shouldTryObstacleAvoidance = false ∧
      (CheckPredictionStepResults startedAction freshContext bouncingStep).2.pendingRollback =
        true := by
  decide!

/-- C19 (amended): for every step that is not skimming (and that the check of the base class
lets through), whose squared 2D speed before the step exceeds `150 * 150` and whose squared 2D
speed after the step is below `50 * 50`: `CheckStepSpeedGainOrLoss` returns false, and
`CheckPredictionStepResults` sets a pending rollback and returns; `shouldTryObstacleAvoidance` is
set to true unless the new squared 2D speed exceeds `1` and the dot product of the 2D directions
of the old and of the new velocity is below `0.3`, in which case it is left as it was. -/
theorem speed_loss_sets_rollback (a : Action) (c : Context) (o : Observations)
    (hskim : o.skimming = false) (hold : o.oldSquare2DSpeed > 150 * 150)
    (hnew : o.newSquare2DSpeed < 50 * 50)
    (hbase : (o.baseCheck c).cannotApplyAction = false ∧ (o.baseCheck c).isCompleted = false) :
    (CheckStepSpeedGainOrLoss a o).1 = false ∧
      (CheckStepSpeedGainOrLoss a o).2 =
        (if o.newSquare2DSpeed > 1 * 1 ∧ o.velocityDirsDot < 3 / 10 then a
          else { a with shouldTryObstacleAvoidance := true }) ∧
      CheckPredictionStepResults a c o =
        ((CheckStepSpeedGainOrLoss a o).2, (o.baseCheck c).SetPendingRollback) ∧
      (CheckPredictionStepResults a c o).2.pendingRollback = true := by
  have hold2 : o.oldSquare2DSpeed > 100 * 100 := by linarith
  have hS : CheckStepSpeedGainOrLoss a o =
      (false, if o.newSquare2DSpeed > 1 * 1 ∧ o.velocityDirsDot < 3 / 10 then a
        else { a with shouldTryObstacleAvoidance := true }) := by
    unfold CheckStepSpeedGainOrLoss
    by_cases h1 : o.newSquare2DSpeed > 1 * 1 ∧ o.velocityDirsDot < 3 / 10
    · rw [if_pos ⟨hold2, h1⟩, if_pos h1]
    · have h2 : ¬ (o.oldSquare2DSpeed > 100 * 100 ∧ o.newSquare2DSpeed > 1 * 1 ∧
          o.velocityDirsDot < 3 / 10) := fun h => h1 h.2
      rw [if_neg h2, if_pos ⟨hnew, hold2⟩, if_neg h1]
  have hC : CheckPredictionStepResults a c o =
      ((CheckStepSpeedGainOrLoss a o).2, (o.baseCheck c).SetPendingRollback) := by
    have hb : ¬ ((o.baseCheck c).cannotApplyAction = true ∨ (o.baseCheck c).isCompleted = true) := by
      simp [hbase.1, hbase.2]
    simp only [CheckPredictionStepResults, earlierChecks, speedChecks, if_neg hb, hskim, hS,
      Bool.false_eq_true, if_false, not_false_eq_true, if_true, Flow.andThen]
  refine ⟨by rw [hS], by rw [hS], hC, ?_⟩
  rw [hC]
  rfl

theorem speed_loss_sets_rollback_witness :
    bumpingStep.skimming = false ∧ bumpingStep.oldSquare2DSpeed > 150 * 150 ∧
      bumpingStep.newSquare2DSpeed < 50 * 50 ∧
      ((bumpingStep.baseCheck freshContext).cannotApplyAction = false ∧
        (bumpingStep.baseCheck freshContext).isCompleted = false) ∧
      (CheckStepSpeedGainOrLoss startedAction bumpingStep).2.shouldTryObstacleAvoidance = true ∧
      (CheckStepSpeedGainOrLoss startedAction bumpingStep).1 = false ∧
      (CheckStepSpeedGainOrLoss startedAction bumpingStep).2 =
        (if bumpingStep.newSquare2DSpeed > 1 * 1 ∧ bumpingStep.velocityDirsDot < 3 / 10 then
            startedAction
          else { startedAction with shouldTryObstacleAvoidance := true }) ∧
      CheckPredictionStepResults startedAction freshContext bumpingStep =
        ((CheckStepSpeedGainOrLoss startedAction bumpingStep).2,
          (bumpingStep.baseCheck freshContext).SetPendingRollback) ∧
      (CheckPredictionStepResults startedAction freshContext bumpingStep).2.pendingRollback =
        true :=
  ⟨rfl, by decide!, by decide!, ⟨rfl, rfl⟩, by decide!,
    speed_loss_sets_rollback startedAction freshContext bumpingStep rfl (by decide!) (by decide!)
      ⟨rfl, rfl⟩⟩

end Bunnying

namespace Bunnying

/-- C20, as stated: after a step of travel time `100` (the lowest so far, in the area `5`), a
step of travel time `151` exceeds it by more than the tolerance of `50`; its grounded area `6`
is in the floor cluster of the area `5`, so it is walkable-connected to it; the step is rolled
back all the same. -/
theorem regression_beyond_tolerance_rolls_back_walkable_area :
    (checkedSteps startedAction [(freshContext, fallingStep)]).minTravelTimeToNavTargetSoFar =
        100 ∧
      (checkedSteps startedAction
        [(freshContext, fallingStep)]).tolerableWalkableIncreasedTravelTimeMillis = 50 ∧
      regressedStep.travelTimeToNavTarget = 151 ∧
      walkable (checkedSteps startedAction [(freshContext, fallingStep)]) regressedStep = true ∧
      increasedTravelTimeRollback (checkedSteps startedAction [(freshContext, fallingStep)])
        regressedStep = true ∧
      (CheckPredictionStepResults (checkedSteps startedAction [(freshContext, fallingStep)])
        freshContext regressedStep).2.pendingRollback = true := by
  decide!

/-- C20 (amended): in `CheckPredictionStepResults`, for a step whose travel time to the nav
target is above the lowest one so far: if it exceeds it by more than
`tolerableWalkableIncreasedTravelTimeMillis`, the pending rollback is set; if it exceeds it by at
most that tolerance, the pending rollback is set exactly when the step has a grounded area, an
area of the lowest travel time is recorded, and the grounded area is not walkable-connected to
it (the two areas are not in the same floor cluster, and no routing start area has a walking
travel time to it, in hundredths of a second, that is not zero and, times ten, below the
tolerance); when no rollback is set the call goes on with the checks that follow. -/
theorem increased_travel_time_rule (a : Action) (o : Observations)
    (hrange : -2147483648 ≤ a.minTravelTimeToNavTargetSoFar +
        a.tolerableWalkableIncreasedTravelTimeMillis ∧
      a.minTravelTimeToNavTargetSoFar + a.tolerableWalkableIncreasedTravelTimeMillis <
        2147483648)
    (hgt : a.minTravelTimeToNavTargetSoFar < o.travelTimeToNavTarget) :
    (o.travelTimeToNavTarget >
        a.minTravelTimeToNavTargetSoFar + a.tolerableWalkableIncreasedTravelTimeMillis →
      increasedTravelTimeRollback a o = true) ∧
    (o.travelTimeToNavTarget ≤
        a.minTravelTimeToNavTargetSoFar + a.tolerableWalkableIncreasedTravelTimeMillis →
      (increasedTravelTimeRollback a o = true ↔
        o.currGroundedAasAreaNum ≠ 0 ∧ a.minTravelTimeAreaNumSoFar ≠ 0 ∧
          ¬ ((o.floorClusterNum a.minTravelTimeAreaNumSoFar ≠ 0 ∧
              o.floorClusterNum a.minTravelTimeAreaNumSoFar =
                o.floorClusterNum o.currGroundedAasAreaNum) ∨
            ∃ areaNum ∈ o.routingStartAreas,
              o.travelTimeToGoalArea areaNum a.minTravelTimeAreaNumSoFar ≠ 0 ∧
              o.travelTimeToGoalArea areaNum a.minTravelTimeAreaNumSoFar * 10 <
                a.tolerableWalkableIncreasedTravelTimeMillis))) ∧
    (∀ c, travelTimeCheck a c o =
      if increasedTravelTimeRollback a o then .returned a c.SetPendingRollback
      else .goesOn a c) := by
  have hwrap : toInt32 (a.minTravelTimeToNavTargetSoFar +
      a.tolerableWalkableIncreasedTravelTimeMillis) =
      a.minTravelTimeToNavTargetSoFar + a.tolerableWalkableIncreasedTravelTimeMillis := by
    unfold toInt32
    omega
  have hwalk : walkable a o = true ↔
      ((o.floorClusterNum a.minTravelTimeAreaNumSoFar ≠ 0 ∧
          o.floorClusterNum a.minTravelTimeAreaNumSoFar =
            o.floorClusterNum o.currGroundedAasAreaNum) ∨
        ∃ areaNum ∈ o.routingStartAreas,
          o.travelTimeToGoalArea areaNum a.minTravelTimeAreaNumSoFar ≠ 0 ∧
          o.travelTimeToGoalArea areaNum a.minTravelTimeAreaNumSoFar * 10 <
            a.tolerableWalkableIncreasedTravelTimeMillis) := by
    simp [walkable]
  refine ⟨?_, ?_, ?_⟩
  · intro h
    unfold increasedTravelTimeRollback
    rw [hwrap, if_pos h]
  · intro h
    unfold increasedTravelTimeRollback
    rw [hwrap, if_neg (not_lt.2 h)]
    by_cases hg : o.currGroundedAasAreaNum ≠ 0 ∧ a.minTravelTimeAreaNumSoFar ≠ 0
    · rw [if_pos hg, ← hwalk]
      simp [hg.1, hg.2]
    · rw [if_neg hg]
      constructor
      · intro h0
        cases h0
      · rintro ⟨h1, h2, _⟩
        exact absurd ⟨h1, h2⟩ hg
  · intro c
    unfold travelTimeCheck
    rw [if_neg (not_le.2 hgt)]

theorem increased_travel_time_rule_witness :
    (-2147483648 ≤
        (checkedSteps startedAction [(freshContext, fallingStep)]).minTravelTimeToNavTargetSoFar +
        (checkedSteps startedAction
          [(freshContext, fallingStep)]).tolerableWalkableIncreasedTravelTimeMillis ∧
      (checkedSteps startedAction [(freshContext, fallingStep)]).minTravelTimeToNavTargetSoFar +
        (checkedSteps startedAction
          [(freshContext, fallingStep)]).tolerableWalkableIncreasedTravelTimeMillis <
        2147483648) ∧
      (checkedSteps startedAction [(freshContext, fallingStep)]).minTravelTimeToNavTargetSoFar <
        slightlyRegressedStep.travelTimeToNavTarget ∧
      increasedTravelTimeRollback (checkedSteps startedAction [(freshContext, fallingStep)])
        slightlyRegressedStep = false ∧
      (∀ c, travelTimeCheck (checkedSteps startedAction [(freshContext, fallingStep)]) c
          slightlyRegressedStep =
        if increasedTravelTimeRollback (checkedSteps startedAction [(freshContext, fallingStep)])
            slightlyRegressedStep then
          .returned (checkedSteps startedAction [(freshContext, fallingStep)])
            c.SetPendingRollback
        else .goesOn (checkedSteps startedAction [(freshContext, fallingStep)]) c) :=
  ⟨by decide!, by decide!, by decide!,
    (increased_travel_time_rule (checkedSteps startedAction [(freshContext, fallingStep)])
      slightlyRegressedStep (by decide!) (by decide!)).2.2⟩

/-- The checks that let the call go on leave the context as the check of the base class left
it. -/
theorem speedChecks_context {a a1 : Action} {c c1 : Context} {o : Observations}
    (h : speedChecks a c o = .goesOn a1 c1) : c1 = o.baseCheck c := by
  unfold speedChecks at h
  repeat' (first | split_ifs at h | dsimp only at h)
  all_goals (cases h; rfl)

theorem navTargetAreaCheck_context {a a1 : Action} {c c1 : Context} {o : Observations}
    (h : navTargetAreaCheck a c o = .goesOn a1 c1) : c1 = c := by
  unfold navTargetAreaCheck at h
  repeat' (first | split_ifs at h | dsimp only at h)
  all_goals (cases h; rfl)

theorem undefinedTravelTimeCheck_context {a a1 : Action} {c c1 : Context} {o : Observations}
    (h : undefinedTravelTimeCheck a c o = .goesOn a1 c1) : c1 = c := by
  unfold undefinedTravelTimeCheck at h
  repeat' (first | split_ifs at h | dsimp only at h)
  all_goals (cases h; rfl)

/-- A check that goes on after another one: both went on. -/
theorem Flow.andThen_goesOn {f : Flow} {next : Action → Context → Flow} {a1 : Action}
    {c1 : Context} (h : f.andThen next = .goesOn a1 c1) :
    ∃ a0 c0, f = .goesOn a0 c0 ∧ next a0 c0 = .goesOn a1 c1 := by
  cases f with
  | returned a c => cases h
  | goesOn a c => exact ⟨a, c, rfl, h⟩

theorem travelTimeCheck_context {a a1 : Action} {c c1 : Context} {o : Observations}
    (h : travelTimeCheck a c o = .goesOn a1 c1) : c1 = c := by
  unfold travelTimeCheck at h
  repeat' (first | split_ifs at h | dsimp only at h)
  all_goals (cases h; rfl)

/-- C27: in `CheckPredictionStepResults`, for every step that the checks before it let through
and whose squared distance from the origin at sequence start is below `64 * 64`: if the sequence
has lasted less than 384 milliseconds, the action is saved for the next frame and the call
returns without setting a pending rollback (the context is otherwise as the check of the base
class left it); if it has lasted 384 milliseconds or more, the pending rollback is set. -/
theorem short_distance_rule (a a1 : Action) (c c1 : Context) (o : Observations)
    (hearlier : earlierChecks a c o = .goesOn a1 c1)
    (hclose : o.squareDistanceFromStart < 64 * 64) :
    c1 = o.baseCheck c ∧
    (o.sequenceDuration < 384 →
      CheckPredictionStepResults a c o = (a1, c1.SaveSuggestedActionForNextFrame) ∧
      (CheckPredictionStepResults a c o).2.suggestedForNextFrame = true ∧
      (CheckPredictionStepResults a c o).2.pendingRollback = (o.baseCheck c).pendingRollback) ∧
    (384 ≤ o.sequenceDuration →
      CheckPredictionStepResults a c o = (a1, c1.SetPendingRollback) ∧
      (CheckPredictionStepResults a c o).2.pendingRollback = true) := by
  have hc1 : c1 = o.baseCheck c := by
    unfold earlierChecks at hearlier
    obtain ⟨a4, c4, h3, h4⟩ := Flow.andThen_goesOn hearlier
    obtain ⟨a3, c3, h2, h3⟩ := Flow.andThen_goesOn h3
    obtain ⟨a2, c2, h1, h2⟩ := Flow.andThen_goesOn h2
    rw [travelTimeCheck_context h4, undefinedTravelTimeCheck_context h3,
      navTargetAreaCheck_context h2, speedChecks_context h1]
  refine ⟨hc1, ?_, ?_⟩
  · intro hd
    have hC : CheckPredictionStepResults a c o = (a1, c1.SaveSuggestedActionForNextFrame) := by
      simp only [CheckPredictionStepResults, hearlier, stuckCheck, if_pos hclose, if_pos hd,
        Flow.andThen]
    rw [hC, hc1]
    exact ⟨rfl, rfl, rfl⟩
  · intro hd
    have hC : CheckPredictionStepResults a c o = (a1, c1.SetPendingRollback) := by
      simp only [CheckPredictionStepResults, hearlier, stuckCheck, if_pos hclose,
        if_neg (not_lt.2 hd), Flow.andThen]
    rw [hC]
    exact ⟨rfl, rfl⟩

theorem short_distance_rule_witness :
    earlierChecks startedAction freshContext shortStep =
        .goesOn (checkedSteps startedAction [(freshContext, shortStep)]) freshContext ∧
      shortStep.squareDistanceFromStart < 64 * 64 ∧ shortStep.sequenceDuration < 384 ∧
      (CheckPredictionStepResults startedAction freshContext shortStep).2 =
        freshContext.SaveSuggestedActionForNextFrame ∧
      (384 ≤ shortStep.sequenceDuration →
        CheckPredictionStepResults startedAction freshContext shortStep =
          (checkedSteps startedAction [(freshContext, shortStep)],
            freshContext.SetPendingRollback) ∧
        (CheckPredictionStepResults startedAction freshContext shortStep).2.pendingRollback =
          true) :=
  ⟨by decide!, by decide!, by decide!, by decide!,
    (short_distance_rule startedAction (checkedSteps startedAction [(freshContext, shortStep)])
      freshContext freshContext shortStep (by decide!) (by decide!)).2.2⟩

end Bunnying

namespace Bunnying

/-- C21, as stated: in the sequence started at a travel time of `200`, the step `fallingStep`
(travel time `100`) sets the stop candidate and the sequence goes on; the step `lowerStep`
reaches the strictly lower travel time `50`, and the sequence goes on again; the stop candidate
is still the area `5` of the first step, with `mayStopAtTravelTime` equal to `100`, while the
lowest travel time observed is `50`. -/
theorem lower_travel_time_keeps_stop_candidate :
    (CheckPredictionStepResults startedAction freshContext fallingStep).2 =
        freshContext.SaveSuggestedActionForNextFrame ∧
      (CheckPredictionStepResults (checkedSteps startedAction [(freshContext, fallingStep)])
        freshContext lowerStep).2 = freshContext.SaveSuggestedActionForNextFrame ∧
      (checkedSteps startedAction
        [(freshContext, fallingStep), (freshContext, lowerStep)]).mayStopAtAreaNum = 5 ∧
      (checkedSteps startedAction
        [(freshContext, fallingStep), (freshContext, lowerStep)]).mayStopAtTravelTime = 100 ∧
      (checkedSteps startedAction
        [(freshContext, fallingStep), (freshContext, lowerStep)]).minTravelTimeToNavTargetSoFar =
          50 ∧
      lowerStep.travelTimeToNavTarget = 50 := by
  decide!

theorem KeepsStop.keeps_same {t : Int} {a a1 : Action}
    (h : a1.mayStopAtAreaNum = a.mayStopAtAreaNum ∧
      a1.mayStopAtStackFrame = a.mayStopAtStackFrame ∧
      a1.mayStopAtTravelTime = a.mayStopAtTravelTime) : KeepsStop t a a1 :=
  ⟨fun _ => h, Or.inl h⟩

theorem KeepsStop.keeps_trans {t : Int} {a a1 a2 : Action} (h1 : KeepsStop t a a1)
    (h2 : KeepsStop t a1 a2) : KeepsStop t a a2 := by
  refine ⟨fun h => ?_, ?_⟩
  · have e1 := h1.1 h
    have e2 := h2.1 (by rw [e1.1]; exact h)
    exact ⟨e2.1.trans e1.1, e2.2.1.trans e1.2.1, e2.2.2.trans e1.2.2⟩
  · rcases h2.2 with e2 | e2
    · rcases h1.2 with e1 | e1
      · exact Or.inl ⟨e2.1.trans e1.1, e2.2.1.trans e1.2.1, e2.2.2.trans e1.2.2⟩
      · right
        rw [e2.2.2]
        exact e1
    · exact Or.inr e2

theorem Flow.andThen_keeps {t : Int} {a : Action} {f : Flow}
    {next : Action → Context → Flow} (h1 : KeepsStop t a f.action)
    (h2 : ∀ a0 c0, KeepsStop t a0 (next a0 c0).action) :
    KeepsStop t a (f.andThen next).action := by
  cases f with
  | returned a0 c0 => exact h1
  | goesOn a0 c0 => exact h1.keeps_trans (h2 a0 c0)

theorem speedChecks_keeps (a : Action) (c : Context) (o : Observations) :
    KeepsStop o.travelTimeToNavTarget a (speedChecks a c o).action := by
  unfold speedChecks CheckStepSpeedGainOrLoss
  dsimp only
  split_ifs <;> exact KeepsStop.keeps_same ⟨rfl, rfl, rfl⟩

theorem navTargetAreaCheck_keeps (a : Action) (c : Context) (o : Observations) :
    KeepsStop o.travelTimeToNavTarget a (navTargetAreaCheck a c o).action := by
  unfold navTargetAreaCheck touchNavTarget
  dsimp only
  split_ifs with h1 h2 h3
  all_goals first
    | exact KeepsStop.keeps_same ⟨rfl, rfl, rfl⟩
    | exact ⟨fun h => absurd h3 h, Or.inr (Or.inl rfl)⟩

theorem undefinedTravelTimeCheck_keeps (a : Action) (c : Context) (o : Observations) :
    KeepsStop o.travelTimeToNavTarget a (undefinedTravelTimeCheck a c o).action := by
  unfold undefinedTravelTimeCheck
  split_ifs <;> exact KeepsStop.keeps_same ⟨rfl, rfl, rfl⟩

theorem travelTimeCheck_keeps (a : Action) (c : Context) (o : Observations) :
    KeepsStop o.travelTimeToNavTarget a (travelTimeCheck a c o).action := by
  unfold travelTimeCheck MarkForTruncation
  dsimp only
  split_ifs with h1 h2
  all_goals first
    | exact KeepsStop.keeps_same ⟨rfl, rfl, rfl⟩
    | exact ⟨fun h => absurd h2.1 h, Or.inr (Or.inr rfl)⟩

theorem stuckCheck_keeps (a : Action) (c : Context) (o : Observations) :
    KeepsStop o.travelTimeToNavTarget a (stuckCheck a c o).action := by
  unfold stuckCheck
  split_ifs <;> exact KeepsStop.keeps_same ⟨rfl, rfl, rfl⟩

theorem pivotAreaCheck_keeps (a : Action) (c : Context) (o : Observations) :
    KeepsStop o.travelTimeToNavTarget a (pivotAreaCheck a c o).action := by
  unfold pivotAreaCheck
  split_ifs with h1 h2 h3 h4 h5
  all_goals first
    | exact KeepsStop.keeps_same ⟨rfl, rfl, rfl⟩
    | exact ⟨fun h => absurd h5 h, Or.inr (Or.inr rfl)⟩

theorem landingChecks_keeps (a : Action) (c : Context) (o : Observations) :
    KeepsStop o.travelTimeToNavTarget a (landingChecks a c o).1 := by
  unfold landingChecks
  split_ifs <;> exact KeepsStop.keeps_same ⟨rfl, rfl, rfl⟩

/-- A call of `CheckPredictionStepResults` keeps a stop candidate that is set. -/
theorem CheckPredictionStepResults_keeps (a : Action) (c : Context) (o : Observations) :
    KeepsStop o.travelTimeToNavTarget a (CheckPredictionStepResults a c o).1 := by
  have h : KeepsStop o.travelTimeToNavTarget a
      (((earlierChecks a c o).andThen fun a c => stuckCheck a c o).andThen
        fun a c => pivotAreaCheck a c o).action := by
    unfold earlierChecks
    refine Flow.andThen_keeps (Flow.andThen_keeps (Flow.andThen_keeps (Flow.andThen_keeps
      (Flow.andThen_keeps (speedChecks_keeps a c o) ?_) ?_) ?_) ?_) ?_
    · exact fun a0 c0 => navTargetAreaCheck_keeps a0 c0 o
    · exact fun a0 c0 => undefinedTravelTimeCheck_keeps a0 c0 o
    · exact fun a0 c0 => travelTimeCheck_keeps a0 c0 o
    · exact fun a0 c0 => stuckCheck_keeps a0 c0 o
    · exact fun a0 c0 => pivotAreaCheck_keeps a0 c0 o
  unfold CheckPredictionStepResults
  cases hf : ((earlierChecks a c o).andThen fun a c => stuckCheck a c o).andThen
      fun a c => pivotAreaCheck a c o with
  | returned a0 c0 =>
    rw [hf] at h
    exact h
  | goesOn a0 c0 =>
    rw [hf] at h
    exact h.keeps_trans (landingChecks_keeps a0 c0 o)

theorem checkedSteps_sameStop :
    ∀ (steps : List (Context × Observations)) (a : Action), a.mayStopAtAreaNum ≠ 0 →
      SameStop a (checkedSteps a steps)
  | [], a, _ => ⟨rfl, rfl, rfl⟩
  | (c, o) :: rest, a, h => by
    have h1 := (CheckPredictionStepResults_keeps a c o).1 h
    have h2 := checkedSteps_sameStop rest (CheckPredictionStepResults a c o).1
      (by rw [h1.1]; exact h)
    exact ⟨h2.1.trans h1.1, h2.2.1.trans h1.2.1, h2.2.2.trans h1.2.2⟩

theorem checkedSteps_append (a : Action) :
    ∀ (pre post : List (Context × Observations)),
      checkedSteps a (pre ++ post) = checkedSteps (checkedSteps a pre) post
  | [], _ => rfl
  | (c, o) :: rest, post => by
    simp only [List.cons_append, checkedSteps]
    exact checkedSteps_append _ rest post

/-- C21 (amended): in an application sequence (`OnApplicationSequenceStarted`, which clears the
stop candidate, followed by the checks of its steps), once a stop candidate is set
(`mayStopAtAreaNum != 0`) after some steps, every later step keeps it: `mayStopAtAreaNum`,
`mayStopAtStackFrame` and `mayStopAtTravelTime` are not changed, whatever travel time the later
steps reach (only `minTravelTimeToNavTargetSoFar` follows the lowest travel time); and a step
that sets the stop candidate gives it the travel time of that step, or `1` when it is set on
touching the nav entity. -/
theorem stop_candidate_is_kept (a0 : Action) (c0 : Context) (start : StartObservations)
    (pre post : List (Context × Observations))
    (hset : (checkedSteps (OnApplicationSequenceStarted a0 c0 start).1 pre).mayStopAtAreaNum ≠
      0) :
    (OnApplicationSequenceStarted a0 c0 start).1.mayStopAtAreaNum = 0 ∧
      (checkedSteps (OnApplicationSequenceStarted a0 c0 start).1 (pre ++ post)).mayStopAtAreaNum =
        (checkedSteps (OnApplicationSequenceStarted a0 c0 start).1 pre).mayStopAtAreaNum ∧
      (checkedSteps (OnApplicationSequenceStarted a0 c0 start).1
          (pre ++ post)).mayStopAtStackFrame =
        (checkedSteps (OnApplicationSequenceStarted a0 c0 start).1 pre).mayStopAtStackFrame ∧
      (checkedSteps (OnApplicationSequenceStarted a0 c0 start).1
          (pre ++ post)).mayStopAtTravelTime =
        (checkedSteps (OnApplicationSequenceStarted a0 c0 start).1 pre).mayStopAtTravelTime ∧
      (∀ (a : Action) (c : Context) (o : Observations), a.mayStopAtAreaNum = 0 →
        (CheckPredictionStepResults a c o).1.mayStopAtAreaNum ≠ 0 →
        (CheckPredictionStepResults a c o).1.mayStopAtTravelTime = o.travelTimeToNavTarget ∨
          (CheckPredictionStepResults a c o).1.mayStopAtTravelTime = 1) := by
  have hs := checkedSteps_sameStop post _ hset
  rw [checkedSteps_append]
  refine ⟨?_, hs.1, hs.2.1, hs.2.2, ?_⟩
  · unfold OnApplicationSequenceStarted
    dsimp only
    split_ifs <;> rfl
  · intro a c o h0 h1
    rcases (CheckPredictionStepResults_keeps a c o).2 with h | h | h
    · rw [h.1] at h1
      exact absurd h0 h1
    · exact Or.inr h
    · exact Or.inl h

theorem stop_candidate_is_kept_witness :
    (checkedSteps (OnApplicationSequenceStarted idleAction freshContext sequenceStart).1
        [(freshContext, fallingStep)]).mayStopAtAreaNum ≠ 0 ∧
      (checkedSteps (OnApplicationSequenceStarted idleAction freshContext sequenceStart).1
        ([(freshContext, fallingStep)] ++ [(freshContext, lowerStep)])).mayStopAtTravelTime =
        100 ∧
      (checkedSteps (OnApplicationSequenceStarted idleAction freshContext sequenceStart).1
          ([(freshContext, fallingStep)] ++ [(freshContext, lowerStep)])).mayStopAtTravelTime =
        (checkedSteps (OnApplicationSequenceStarted idleAction freshContext sequenceStart).1
          [(freshContext, fallingStep)]).mayStopAtTravelTime :=
  ⟨by decide!, by decide!,
    (stop_candidate_is_kept idleAction freshContext sequenceStart [(freshContext, fallingStep)]
      [(freshContext, lowerStep)] (by decide!)).2.2.2.1⟩

end Bunnying

namespace Straightening

/-! ## The range of the candidates -/

theorem greatest_mem (less : AreaAndScore → AreaAndScore → Bool) :
    ∀ (cs : List AreaAndScore) (b : AreaAndScore), greatest less cs = some b → b ∈ cs := by
  intro cs
  induction cs with
  | nil => intro b h; cases h
  | cons c rest ih =>
    intro b h
    simp only [greatest] at h
    cases hg : greatest less rest with
    | none =>
      rw [hg] at h
      cases h
      exact List.mem_cons_self _ _
    | some b0 =>
      rw [hg] at h
      dsimp only at h
      split_ifs at h
      · cases h
        exact List.mem_cons_of_mem _ (ih b hg)
      · cases h
        exact List.mem_cons_self _ _

theorem greatest_of_ne_nil (less : AreaAndScore → AreaAndScore → Bool) (cs : List AreaAndScore)
    (h : cs ≠ []) : ∃ b, greatest less cs = some b := by
  cases cs with
  | nil => exact absurd rfl h
  | cons c rest =>
    simp only [greatest]
    cases greatest less rest with
    | none => exact ⟨c, rfl⟩
    | some b0 =>
      dsimp only
      split_ifs
      · exact ⟨b0, rfl⟩
      · exact ⟨c, rfl⟩

theorem popHeap_subset (less : AreaAndScore → AreaAndScore → Bool) (cs : List AreaAndScore) :
    ∀ c ∈ popHeap less cs, c ∈ cs := by
  intro c hc
  unfold popHeap at hc
  cases hg : greatest less cs with
  | none => rw [hg] at hc; exact hc
  | some b => rw [hg] at hc; exact List.mem_of_mem_erase hc

theorem popHeap_length (less : AreaAndScore → AreaAndScore → Bool) (cs : List AreaAndScore)
    (h : cs ≠ []) : (popHeap less cs).length + 1 = cs.length := by
  obtain ⟨b, hb⟩ := greatest_of_ne_nil less cs h
  have hm := greatest_mem less cs b hb
  unfold popHeap
  rw [hb]
  dsimp only
  rw [List.length_erase_of_mem hm]
  have : 0 < cs.length := List.length_pos.2 h
  omega

theorem selectStep_length (env : Setting) (L : Nat) (s : Selection) (i : Nat)
    (hK : 1 ≤ env.maxSuggestedLookDirs) (hs : s.candidates.length ≤ env.maxSuggestedLookDirs) :
    (selectStep env L s i).candidates.length ≤ env.maxSuggestedLookDirs ∧
      (selectStep env L s i).candidates.length ≤ s.candidates.length + 1 := by
  unfold selectStep
  rcases hc : candidateAt env L s.metStairsClusterNum i with ⟨c, met⟩
  cases c with
  | none => exact ⟨hs, Nat.le_succ _⟩
  | some c =>
    dsimp only
    by_cases hfull : s.candidates.length = env.maxSuggestedLookDirs
    · rw [if_pos hfull]
      have hne : s.candidates ≠ [] := by
        intro h0
        rw [h0] at hfull
        simp at hfull
        omega
      have := popHeap_length env.less s.candidates hne
      simp only [List.length_append, List.length_singleton]
      omega
    · rw [if_neg hfull]
      simp only [List.length_append, List.length_singleton]
      omega

theorem selectLoop_length (env : Setting) (L : Nat) (hK : 1 ≤ env.maxSuggestedLookDirs) :
    ∀ (count : Nat) (s : Selection), s.candidates.length ≤ env.maxSuggestedLookDirs →
      (selectLoop env L count s).candidates.length ≤ env.maxSuggestedLookDirs ∧
        (selectLoop env L count s).candidates.length ≤ s.candidates.length + count := by
  intro count
  induction count with
  | zero => intro s hs; exact ⟨hs, Nat.le_refl _⟩
  | succ i ih =>
    intro s hs
    obtain ⟨h1, h2⟩ := selectStep_length env L s i hK hs
    obtain ⟨h3, h4⟩ := ih (selectStep env L s i) h1
    simp only [selectLoop]
    exact ⟨h3, by omega⟩

theorem SelectCandidateAreas_length (env : Setting) (L : Nat)
    (hK : 1 ≤ env.maxSuggestedLookDirs) :
    (SelectCandidateAreas env L).length ≤ min (L + 1) env.maxSuggestedLookDirs := by
  obtain ⟨h1, h2⟩ := selectLoop_length env L hK (L + 1)
    { candidates := [], metStairsClusterNum := 0 } (Nat.zero_le _)
  unfold SelectCandidateAreas
  simp only [List.length_nil, Nat.zero_add] at h2
  exact Nat.le_min.2 ⟨h2, h1⟩

theorem testedReach_le :
    ∀ (l : List Reach) (last : Int), (testedReach l last).1 ≤ last + l.length := by
  intro l
  induction l with
  | nil => intro last; simp [testedReach]
  | cons r rest ih =>
    intro last
    simp only [testedReach]
    split_ifs
    · simp only [List.length_cons]
      push_cast
      omega
    · have := ih (last + 1)
      simp only [List.length_cons]
      push_cast
      omega

theorem testedReach_of_walk :
    ∀ (l : List Reach) (last : Int),
      (∀ r ∈ l, r.traveltype = .walk ∨ r.traveltype = .walkOffLedge) →
      (testedReach l last).2 = none := by
  intro l
  induction l with
  | nil => intro last _; rfl
  | cons r rest ih =>
    intro last h
    simp only [testedReach]
    have hr := h r (List.mem_cons_self _ _)
    have hn : ¬ (r.traveltype ≠ .walk ∧ r.traveltype ≠ .walkOffLedge) := by
      rintro ⟨h1, h2⟩
      rcases hr with h3 | h3
      · exact h1 h3
      · exact h2 h3
    rw [if_neg hn]
    exact ih (last + 1) fun x hx => h x (List.mem_cons_of_mem _ hx)

/-! ## Claim on the number of candidates and of look directions -/

/-- C22: for every next reach chain made of walk and walk-off-ledge reachabilities only, of
length `L`, and every `maxSuggestedLookDirs ≥ 1`, the number of candidates that
`SelectCandidateAreas` returns (for every `lastValidReachIndex` that is an index of the chain)
and the number of look directions in `suggestedLookDirs` after `SaveSuggestedLookDirs`, which
finds it empty, are at most `min( L, maxSuggestedLookDirs )`; `SaveCandidateAreaDirs` is taken to
save at most one look direction for every candidate of its range. -/
theorem candidates_and_look_dirs_bounded (env : Setting)
    (hK : 1 ≤ env.maxSuggestedLookDirs)
    (hwalk : ∀ r ∈ env.nextReachChain, r.traveltype = .walk ∨ r.traveltype = .walkOffLedge)
    (hsave : ∀ dirs cs, (env.saveCandidateAreaDirs dirs cs).length ≤ dirs.length + cs.length) :
    (∀ lastValidReachIndex, lastValidReachIndex < env.nextReachChain.length →
      (SelectCandidateAreas env lastValidReachIndex).length ≤
        min env.nextReachChain.length env.maxSuggestedLookDirs) ∧
    (SaveSuggestedLookDirs env []).length ≤
      min env.nextReachChain.length env.maxSuggestedLookDirs := by
  have hsel : ∀ L, L < env.nextReachChain.length →
      (SelectCandidateAreas env L).length ≤
        min env.nextReachChain.length env.maxSuggestedLookDirs := by
    intro L hL
    have h := SelectCandidateAreas_length env L hK
    have h1 := Nat.le_min.1 h
    exact Nat.le_min.2 ⟨by omega, h1.2⟩
  refine ⟨hsel, ?_⟩
  unfold SaveSuggestedLookDirs
  by_cases h1 : env.isInNavTargetArea = true
  · rw [if_pos h1]
    exact Nat.zero_le _
  rw [if_neg h1]
  by_cases h2 : env.nextReachChain.isEmpty = true
  · rw [if_pos h2]
    exact Nat.zero_le _
  rw [if_neg h2]
  dsimp only
  have hnone : (testedReach
      (env.nextReachChain.take (min env.MAX_TESTED_REACH env.nextReachChain.length)) (-1)).2 =
      none :=
    testedReach_of_walk _ _ fun r hr => hwalk r (List.mem_of_mem_take hr)
  have hle := testedReach_le
    (env.nextReachChain.take (min env.MAX_TESTED_REACH env.nextReachChain.length)) (-1)
  have hlen : (env.nextReachChain.take
      (min env.MAX_TESTED_REACH env.nextReachChain.length)).length ≤ env.nextReachChain.length := by
    rw [List.length_take]
    omega
  by_cases h3 : (testedReach
      (env.nextReachChain.take (min env.MAX_TESTED_REACH env.nextReachChain.length)) (-1)).1 < 0 ∨
      (testedReach
        (env.nextReachChain.take (min env.MAX_TESTED_REACH env.nextReachChain.length)) (-1)).1 ≥
        ((min env.MAX_TESTED_REACH env.nextReachChain.length : Nat) : Int)
  · rw [if_pos h3]
    exact Nat.zero_le _
  · rw [if_neg h3, hnone]
    dsimp only
    push_neg at h3
    have hL : (testedReach
        (env.nextReachChain.take (min env.MAX_TESTED_REACH env.nextReachChain.length))
        (-1)).1.toNat < env.nextReachChain.length := by
      omega
    have hb := hsel _ hL
    refine le_trans (hsave _ _) ?_
    simp only [List.length_nil, Nat.zero_add, List.length_take]
    omega

theorem candidates_and_look_dirs_bounded_witness :
    1 ≤ fourAreas.maxSuggestedLookDirs ∧
      (SelectCandidateAreas fourAreas 3).length = 2 ∧
      (SaveSuggestedLookDirs fourAreas []).length ≤
        min fourAreas.nextReachChain.length fourAreas.maxSuggestedLookDirs :=
  ⟨by decide, by decide!,
   (candidates_and_look_dirs_bounded fourAreas (by decide) (by decide!)
      (fun dirs cs => by simp [fourAreas])).2⟩

end Straightening

namespace Straightening

/-! ## The scores of the candidates -/

theorem candidateAt_score (env : Setting) (L met i : Nat) (c : AreaAndScore)
    (h : (candidateAt env L met i).1 = some c) :
    c.score = if c.areaNum ≠ env.navTargetAasAreaNum then chainScore L i else 999999 := by
  unfold candidateAt at h
  dsimp only at h
  split at h
  · cases h
  · split_ifs at h with h1 h2 h3
    · cases h
      exact (if_pos h3).symm
    · cases h
      exact (if_neg h3).symm

theorem selectStep_mem (env : Setting) (L : Nat) (s : Selection) (i : Nat) :
    ∀ c ∈ (selectStep env L s i).candidates,
      c ∈ s.candidates ∨ ∃ met, (candidateAt env L met i).1 = some c := by
  intro c hc
  unfold selectStep at hc
  rcases hcand : candidateAt env L s.metStairsClusterNum i with ⟨c0, met⟩
  rw [hcand] at hc
  cases c0 with
  | none => exact Or.inl hc
  | some c0 =>
    dsimp only at hc
    rcases List.mem_append.1 hc with h1 | h1
    · left
      split_ifs at h1
      · exact popHeap_subset _ _ c h1
      · exact h1
    · right
      rw [List.mem_singleton.1 h1]
      exact ⟨s.metStairsClusterNum, by rw [hcand]⟩

theorem selectLoop_mem (env : Setting) (L : Nat) :
    ∀ (count : Nat) (s : Selection), ∀ c ∈ (selectLoop env L count s).candidates,
      c ∈ s.candidates ∨ ∃ i met, i < count ∧ (candidateAt env L met i).1 = some c := by
  intro count
  induction count with
  | zero => intro s c hc; exact Or.inl hc
  | succ i ih =>
    intro s c hc
    simp only [selectLoop] at hc
    rcases ih _ c hc with h1 | ⟨j, met, hj, h1⟩
    · rcases selectStep_mem env L s i c h1 with h2 | ⟨met, h2⟩
      · exact Or.inl h2
      · exact Or.inr ⟨i, met, Nat.lt_succ_self i, h2⟩
    · exact Or.inr ⟨j, met, Nat.lt_succ_of_lt hj, h1⟩

theorem rounded_succ {n : ℕ} (h : n + 1 < 2 ^ 24) : Binary32.rounded ((n : ℚ) + 1) = (n : ℚ) + 1 := by
  have := Binary32.rounded_natCast h
  push_cast at this
  exact this

theorem chainScore_eq {L i : ℕ} (hi : i ≤ L) (hL : L + 1 ≤ 2 ^ 20) :
    chainScore L i = Binary32.rounded (13421773 / 134217728 +
      Binary32.rounded (7549747 / 8388608 * Binary32.rounded (((i : ℚ) + 1) / ((L : ℚ) + 1)))) := by
  unfold chainScore
  rw [rounded_succ (show i + 1 < 2 ^ 24 by omega), rounded_succ (show L + 1 < 2 ^ 24 by omega),
    Binary32.rounded_tenth, Binary32.rounded_nine_tenths]

/-- The steps of the evaluation of the score: the Binary32.rounded quotient `x`, the Binary32.rounded product
`y`, and their distances from the exact values. -/
theorem chainScore_steps {L i : ℕ} (hi : i ≤ L) (hL : L + 1 ≤ 2 ^ 20) :
    ∃ x y : ℚ,
      chainScore L i = Binary32.rounded (13421773 / 134217728 + y) ∧
      |x - ((i : ℚ) + 1) / ((L : ℚ) + 1)| ≤ 1 / 16777216 ∧ 0 ≤ x ∧ x ≤ 1 ∧
      |y - 7549747 / 8388608 * x| ≤ 1 / 33554432 ∧ 0 ≤ y ∧ y ≤ 7549747 / 8388608 ∧
      |chainScore L i - (13421773 / 134217728 + y)| ≤ 1 / 33554432 ∧ chainScore L i ≤ 1 := by
  have hLpos : (0 : ℚ) < (L : ℚ) + 1 := by positivity
  have ha0 : (0 : ℚ) < ((i : ℚ) + 1) / ((L : ℚ) + 1) := by positivity
  have ha1 : ((i : ℚ) + 1) / ((L : ℚ) + 1) ≤ 1 := by
    rw [div_le_one hLpos]
    have : (i : ℚ) ≤ (L : ℚ) := by exact_mod_cast hi
    linarith
  have hx0 := Binary32.rounded_nonneg ha0.le
  have hx1 : Binary32.rounded (((i : ℚ) + 1) / ((L : ℚ) + 1)) ≤ 1 := by
    have := Binary32.rounded_mono ha0.le ha1
    rwa [show Binary32.rounded (1 : ℚ) = 1 by simpa using Binary32.rounded_natCast (n := 1) (by norm_num)] at this
  have hxe : |Binary32.rounded (((i : ℚ) + 1) / ((L : ℚ) + 1)) - ((i : ℚ) + 1) / ((L : ℚ) + 1)| ≤
      1 / 16777216 := by
    have := Binary32.abs_rounded_sub_le_of_lt (x := ((i : ℚ) + 1) / ((L : ℚ) + 1)) (k := 1) (by norm_num)
      (by rw [abs_of_pos ha0]; norm_num; linarith)
    norm_num at this
    linarith
  have hz0 : (0 : ℚ) ≤ 7549747 / 8388608 * Binary32.rounded (((i : ℚ) + 1) / ((L : ℚ) + 1)) := by
    positivity
  have hz1 : 7549747 / 8388608 * Binary32.rounded (((i : ℚ) + 1) / ((L : ℚ) + 1)) ≤ 7549747 / 8388608 := by
    linarith
  have hy0 := Binary32.rounded_nonneg hz0
  have hy1 : Binary32.rounded (7549747 / 8388608 * Binary32.rounded (((i : ℚ) + 1) / ((L : ℚ) + 1))) ≤
      7549747 / 8388608 := by
    have := Binary32.rounded_mono hz0 hz1
    rwa [Binary32.rounded_nine_tenths_again] at this
  have hye : |Binary32.rounded (7549747 / 8388608 * Binary32.rounded (((i : ℚ) + 1) / ((L : ℚ) + 1))) -
      7549747 / 8388608 * Binary32.rounded (((i : ℚ) + 1) / ((L : ℚ) + 1))| ≤ 1 / 33554432 := by
    have := Binary32.abs_rounded_sub_le_of_lt
      (x := 7549747 / 8388608 * Binary32.rounded (((i : ℚ) + 1) / ((L : ℚ) + 1))) (k := 0) (by norm_num)
      (by rw [abs_of_nonneg hz0]; norm_num; linarith)
    norm_num at this
    linarith
  have hs0 : (0 : ℚ) ≤ 13421773 / 134217728 +
      Binary32.rounded (7549747 / 8388608 * Binary32.rounded (((i : ℚ) + 1) / ((L : ℚ) + 1))) := by positivity
  have hs1 : 13421773 / 134217728 +
      Binary32.rounded (7549747 / 8388608 * Binary32.rounded (((i : ℚ) + 1) / ((L : ℚ) + 1))) ≤
      13421773 / 134217728 + 7549747 / 8388608 := by linarith
  have hse := Binary32.abs_rounded_sub_le_of_lt
      (x := 13421773 / 134217728 +
        Binary32.rounded (7549747 / 8388608 * Binary32.rounded (((i : ℚ) + 1) / ((L : ℚ) + 1)))) (k := 0)
      (by norm_num) (by rw [abs_of_nonneg hs0]; norm_num; linarith)
  have hs2 := Binary32.rounded_mono hs0 hs1
  rw [Binary32.rounded_one_sum] at hs2
  refine ⟨_, _, chainScore_eq hi hL, hxe, hx0, hx1, hye, hy0, hy1, ?_, ?_⟩
  · rw [chainScore_eq hi hL]
    norm_num at hse
    linarith
  · rw [chainScore_eq hi hL]
    exact hs2

/-- The score is within `2 ^ (-22)` of the score of the exact formula. -/
theorem chainScore_near {L i : ℕ} (hi : i ≤ L) (hL : L + 1 ≤ 2 ^ 20) :
    |chainScore L i - exactScore L i| ≤ 1 / 4194304 := by
  obtain ⟨x, y, _, hx, hx0, hx1, hy, hy0, hy1, hs, _⟩ := chainScore_steps hi hL
  have hLpos : (0 : ℚ) < (L : ℚ) + 1 := by positivity
  have ha0 : (0 : ℚ) < ((i : ℚ) + 1) / ((L : ℚ) + 1) := by positivity
  have ha1 : ((i : ℚ) + 1) / ((L : ℚ) + 1) ≤ 1 := by
    rw [div_le_one hLpos]
    have : (i : ℚ) ≤ (L : ℚ) := by exact_mod_cast hi
    linarith
  unfold exactScore
  rw [abs_le] at hx hy hs ⊢
  constructor <;> linarith

theorem chainScore_lt {L i j : ℕ} (hij : i < j) (hj : j ≤ L) (hL : L + 1 ≤ 2 ^ 20) :
    chainScore L i < chainScore L j := by
  obtain ⟨x, y, _, hx, _, _, hy, _, _, hs, _⟩ := chainScore_steps (le_trans hij.le hj) hL
  obtain ⟨x', y', _, hx', _, _, hy', _, _, hs', _⟩ := chainScore_steps hj hL
  have hLpos : (0 : ℚ) < (L : ℚ) + 1 := by positivity
  have hLle : (L : ℚ) + 1 ≤ 1048576 := by exact_mod_cast hL
  have hgap : ((i : ℚ) + 1) / ((L : ℚ) + 1) + 1 / 1048576 ≤ ((j : ℚ) + 1) / ((L : ℚ) + 1) := by
    have h1 : (i : ℚ) + 1 ≤ (j : ℚ) := by exact_mod_cast hij
    have h2 : 1 / 1048576 ≤ 1 / ((L : ℚ) + 1) := by
      apply one_div_le_one_div_of_le hLpos hLle
    have h3 : ((j : ℚ) + 1) / ((L : ℚ) + 1) =
        ((i : ℚ) + 1) / ((L : ℚ) + 1) + ((j : ℚ) - i) / ((L : ℚ) + 1) := by
      field_simp
      ring
    have h4 : 1 / ((L : ℚ) + 1) ≤ ((j : ℚ) - i) / ((L : ℚ) + 1) :=
      div_le_div_of_nonneg_right (by linarith) hLpos.le
    linarith
  rw [abs_le] at hx hy hs hx' hy' hs'
  linarith

theorem chainScore_bounds {L i : ℕ} (hi : i ≤ L) (hL : L + 1 ≤ 2 ^ 20) :
    1 / 10 < chainScore L i ∧ chainScore L i ≤ 1 := by
  obtain ⟨x, y, _, hx, _, _, hy, _, _, hs, h1⟩ := chainScore_steps hi hL
  refine ⟨?_, h1⟩
  have hLpos : (0 : ℚ) < (L : ℚ) + 1 := by positivity
  have hLle : (L : ℚ) + 1 ≤ 1048576 := by exact_mod_cast hL
  have ha : 1 / 1048576 ≤ ((i : ℚ) + 1) / ((L : ℚ) + 1) := by
    have h2 : 1 / 1048576 ≤ 1 / ((L : ℚ) + 1) := one_div_le_one_div_of_le hLpos hLle
    have h4 : 1 / ((L : ℚ) + 1) ≤ ((i : ℚ) + 1) / ((L : ℚ) + 1) :=
      div_le_div_of_nonneg_right (by linarith [Nat.cast_nonneg (α := ℚ) i]) hLpos.le
    linarith
  rw [abs_le] at hx hy hs
  linarith

/-! ## Claim on the scores -/

/-- C24, the score as it is: in the chain `fourAreas` the candidate accepted at the index `0`,
with `lastValidReachIndex = 3`, has the score `5452595 / 16777216`, the `float` that the
expression evaluates to, which is below `0.1 + 0.9 * 1 / 4 = 13 / 40`. -/
theorem score_differs_from_exact_formula :
    (candidateAt fourAreas 3 0 0).1 = some { areaNum := 10, score := 5452595 / 16777216 } ∧
    exactScore 3 0 = 13 / 40 ∧ chainScore 3 0 < exactScore 3 0 := by
  refine ⟨?_, ?_, ?_⟩ <;> decide!

/-- C24, amended: every candidate that the loop of `SelectCandidateAreas` accepts at the chain
index `i`, and so every candidate that `SelectCandidateAreas` returns (accepted at an index
`i ≤ lastValidReachIndex`), has as its score, when its area is not the nav target area, the
`float` value of `0.1f + 0.9f * ( (float)( i + 1 ) / (float)( lastValidReachIndex + 1 ) )`, and
the score `999999`, which `float` represents exactly, when it is. For a `lastValidReachIndex`
below `2 ^ 20` and `i ≤ lastValidReachIndex` the first score is within `2 ^ (-22)` of
`0.1 + 0.9 * (i + 1) / (lastValidReachIndex + 1)`, is strictly increasing in `i`, lies in
`(0.1, 1]`, and is below `999999`. -/
theorem candidate_score_by_chain_index (env : Setting) (lastValidReachIndex : Nat)
    (hL : lastValidReachIndex + 1 ≤ 2 ^ 20) :
    (∀ met i c, (candidateAt env lastValidReachIndex met i).1 = some c →
      c.score = if c.areaNum ≠ env.navTargetAasAreaNum then chainScore lastValidReachIndex i
        else 999999) ∧
    (∀ c ∈ SelectCandidateAreas env lastValidReachIndex,
      ∃ i met, i ≤ lastValidReachIndex ∧
        (candidateAt env lastValidReachIndex met i).1 = some c ∧
        c.score = if c.areaNum ≠ env.navTargetAasAreaNum then chainScore lastValidReachIndex i
          else 999999) ∧
    Binary32.rounded 999999 = 999999 ∧
    (∀ i, exactScore lastValidReachIndex i =
      1 / 10 + 9 / 10 * (((i : ℚ) + 1) / ((lastValidReachIndex : ℚ) + 1))) ∧
    (∀ i, i ≤ lastValidReachIndex →
      |chainScore lastValidReachIndex i - exactScore lastValidReachIndex i| ≤ 1 / 4194304) ∧
    (∀ i j, i < j → j ≤ lastValidReachIndex →
      chainScore lastValidReachIndex i < chainScore lastValidReachIndex j) ∧
    (∀ i, i ≤ lastValidReachIndex →
      1 / 10 < chainScore lastValidReachIndex i ∧ chainScore lastValidReachIndex i ≤ 1 ∧
        chainScore lastValidReachIndex i < 999999) := by
  refine ⟨fun met i c h => candidateAt_score env _ met i c h, fun c hc => ?_,
    Binary32.rounded_natCast (n := 999999) (by norm_num), fun _ => rfl,
    fun i hi => chainScore_near hi hL, fun i j hij hj => chainScore_lt hij hj hL, fun i h => ?_⟩
  · unfold SelectCandidateAreas at hc
    rcases selectLoop_mem env lastValidReachIndex _ _ c hc with h1 | ⟨i, met, hi, h1⟩
    · cases h1
    · exact ⟨i, met, Nat.lt_succ_iff.1 hi, h1, candidateAt_score env _ met i c h1⟩
  · obtain ⟨h1, h2⟩ := chainScore_bounds h hL
    exact ⟨h1, h2, by linarith⟩

theorem candidate_score_by_chain_index_witness :
    3 + 1 ≤ 2 ^ 20 ∧
      ((List.range 4).map fun i => chainScore 3 i) =
        [5452595 / 16777216, 9227469 / 16777216, 6501171 / 8388608, 1] ∧
      chainScore 3 0 < chainScore 3 1 ∧
      |chainScore 3 0 - exactScore 3 0| ≤ 1 / 4194304 :=
  ⟨by norm_num, by decide!,
   (candidate_score_by_chain_index fourAreas 3 (by norm_num)).2.2.2.2.2.1 0 1 (by decide)
     (by decide),
   (candidate_score_by_chain_index fourAreas 3 (by norm_num)).2.2.2.2.1 0 (by decide)⟩

/-! ## The code at the input where it departs from the claim on the best candidates -/

/-- C23 (the code at the failing input): in the chain `fourAreas` every area passes the tests,
at the scores that `float` arithmetic gives for `0.325`, `0.55`, `0.775` and `1` for the indices
`0` to `3` (`5452595 / 2 ^ 24 < 9227469 / 2 ^ 24 < 6501171 / 2 ^ 23 < 1`), and
`maxSuggestedLookDirs` is `2`. `SelectCandidateAreas` returns the areas `13` (score `1`) and `10`
(the lowest score): the areas `12` and `11`, of higher scores, were evicted. With the order of
`AreaAndScore` turned round it returns the areas `11` and `10`, of the two lowest scores. With
the nav target in the area `10` it returns the areas `13` and `10`. -/
theorem evicted_area_outscores_returned :
    ((List.range 4).map fun i => (candidateAt fourAreas 3 0 i).1) =
      [some { areaNum := 10, score := 5452595 / 16777216 },
       some { areaNum := 11, score := 9227469 / 16777216 },
       some { areaNum := 12, score := 6501171 / 8388608 }, some { areaNum := 13, score := 1 }] ∧
    SelectCandidateAreas fourAreas 3 =
      [{ areaNum := 13, score := 1 }, { areaNum := 10, score := 5452595 / 16777216 }] ∧
    SelectCandidateAreas fourAreasAscending 3 =
      [{ areaNum := 11, score := 9227469 / 16777216 },
       { areaNum := 10, score := 5452595 / 16777216 }] ∧
    SelectCandidateAreas fourAreasToTarget 3 =
      [{ areaNum := 13, score := 1 }, { areaNum := 10, score := 999999 }] := by
  refine ⟨?_, ?_, ?_, ?_⟩ <;> decide!

end Straightening
